import Mathlib

/-!
# FLAC-Mobile: a verification development

Shallow embedding of parts of the Go sources under `referensi/backend`:

* `tidal.go`   : the candidate selection at the end of
  `SearchTrackByMetadataWithISRC`, `parseManifest`, `getDownloadURLParallel`,
  and the download entry points;
* `amazon.go`, `qobuz.go`: the download entry points;
* `progress.go`: the download queue;
* `songlink.go`: the rate limiting and the retry loop of the lookup client;
* `metadata.go`, `filemanager.go`: `EmbedMetadata`, `EmbedLyricsOnly`, the
  readers of the comment block, and the existing-file scan;
* `analysis.go`: the decoding of the STREAMINFO block;
* `spectrum.go`: the fast Fourier transform;
* `filename.go`: `sanitizeFilename`;

and of `go_backend/filename.go`: `buildFilenameFromTemplate`.

Conventions.

* Go `int` is the 64-bit two's complement integer of the amd64 and arm64
  targets: a value is an `Int`, and every arithmetic result goes through
  `wrapInt64`.
* A pointer `&allTracks[i]` is the pair of the index `i` and the element.
* Standard-library decoders (base64, JSON, XML) and the package `time` are
  parameters; the regular expressions and the string functions are written out.
* `float64` is a type parameter `F`; no property of its arithmetic is used. The
  arithmetic of `complex128` is taken exact.
* The order in which a `range` visits a map, the order in which the answers of
  concurrent requests arrive, and the outcome of each `os.Remove` of the
  existing-file scan are explicit arguments.
* `time.Now().Unix()` is an explicit clock reading passed to each operation; for
  the lookup client the clock is part of the state.
* A directory is the list of its entries in listing order, a FLAC file the list
  of its metadata blocks in parsed form.
-/

namespace FlacMobile

/-! ## Machine integers -/

/-- Two's complement wrap-around of a Go `int` (64 bits). -/
def wrapInt64 (x : Int) : Int := (x + 2 ^ 63) % 2 ^ 64 - 2 ^ 63

/-- Largest Go `int`. -/
def maxInt64 : Int := 2 ^ 63 - 1

/-- Smallest Go `int`. -/
def minInt64 : Int := -(2 ^ 63)

/-! ## tidal.go : candidate selection -/

/-- Go `TidalTrack`; the nested structs `Album`, `Artists`, `Artist` and
`MediaMetadata` are flattened into fields. -/
structure TidalTrack where
  ID : Int
  Title : String
  ISRC : String
  AudioQuality : String
  TrackNumber : Int
  VolumeNumber : Int
  Duration : Int
  Copyright : String
  Explicit : Bool
  AlbumTitle : String
  AlbumCover : String
  AlbumReleaseDate : String
  Artists : List String
  ArtistName : String
  Tags : List String
  deriving DecidableEq, Repr

/-- The inner loop `for _, tag := range track.MediaMetadata.Tags` with its test
`tag == "HIRES_LOSSLESS"`: true when the loop body fires. -/
def hasHiResTag : List String → Bool
  | [] => false
  | tag :: tags => if tag = "HIRES_LOSSLESS" then true else hasHiResTag tags

/-- Priority 1 loop (lines 328-335): the first `&allTracks[i]` whose ISRC is the
requested one. The counter `i` is the index of the head of the list. -/
def isrcLoop (spotifyISRC : String) : Nat → List TidalTrack → Option (Nat × TidalTrack)
  | _, [] => none
  | i, track :: rest =>
    if track.ISRC = spotifyISRC then some (i, track) else isrcLoop spotifyISRC (i + 1) rest

/-- Lines 363-367: `durationDiff := track.Duration - expectedDuration`, negated
when negative, compared with `tolerance := 3`; all in Go `int`. -/
def durationWithinTolerance (duration expectedDuration : Int) : Bool :=
  let durationDiff := wrapInt64 (duration - expectedDuration)
  let durationDiff := if durationDiff < 0 then wrapInt64 (-durationDiff) else durationDiff
  decide (durationDiff ≤ 3)

/-- Priority 2, first loop (lines 361-370): the pointers appended to
`durationMatches`, in order. -/
def durationLoop (expectedDuration : Int) : Nat → List TidalTrack → List (Nat × TidalTrack)
  | _, [] => []
  | i, track :: rest =>
    if durationWithinTolerance track.Duration expectedDuration then
      (i, track) :: durationLoop expectedDuration (i + 1) rest
    else durationLoop expectedDuration (i + 1) rest

/-- Priority 2, second loop (lines 375-382): `bestMatch` is overwritten by every
duration match that carries the tag. -/
def bestQualityLoop : Nat × TidalTrack → List (Nat × TidalTrack) → Nat × TidalTrack
  | bestMatch, [] => bestMatch
  | bestMatch, track :: rest =>
    bestQualityLoop (if hasHiResTag track.2.Tags then track else bestMatch) rest

/-- Priority 3 loop (lines 391-402). `bestMatch != &allTracks[0]` compares
pointers, that is, indices. -/
def firstResultsLoop : Nat × TidalTrack → Nat → List TidalTrack → Nat × TidalTrack
  | bestMatch, _, [] => bestMatch
  | bestMatch, i, track :: rest =>
    let bestMatch := if hasHiResTag track.Tags then (i, track) else bestMatch
    if bestMatch.1 ≠ 0 then bestMatch else firstResultsLoop bestMatch (i + 1) rest

/-- The selection step of `TidalDownloader.SearchTrackByMetadataWithISRC`
(lines 321-407), as a function of the merged result list `allTracks`. -/
def SearchTrackByMetadataWithISRC (allTracks : List TidalTrack) (spotifyISRC : String)
    (expectedDuration : Int) : Except String (Nat × TidalTrack) :=
  match allTracks with
  | [] => .error "no tracks found for any search query"
  | first :: _ =>
    if spotifyISRC ≠ "" then
      match isrcLoop spotifyISRC 0 allTracks with
      | some track => .ok track
      | none => .error ("ISRC mismatch: no track found with ISRC " ++ spotifyISRC ++ " on Tidal")
    else
      match (if expectedDuration > 0 then durationLoop expectedDuration 0 allTracks else []) with
      | firstMatch :: durationMatches =>
        .ok (bestQualityLoop firstMatch (firstMatch :: durationMatches))
      | [] => .ok (firstResultsLoop (0, first) 0 allTracks)

/-! ## tidal.go : parseManifest -/

/-- The double quote character. -/
def dq : Char := Char.ofNat 34

/-- Go `strings.ReplaceAll` for a non-empty `old` (the call sites pass `&amp;`,
`$Number$`, `/` and the placeholders of a template): occurrences are replaced
left to right without overlap. The
counter is the number of characters of a replaced occurrence still to skip. -/
def replaceAllChars (old new : List Char) : Nat → List Char → List Char
  | _, [] => []
  | k + 1, _ :: cs => replaceAllChars old new k cs
  | 0, c :: cs =>
    if old.isPrefixOf (c :: cs) then new ++ replaceAllChars old new (old.length - 1) cs
    else c :: replaceAllChars old new 0 cs

/-- Go `strings.ReplaceAll(s, old, new)`, `old` non-empty. -/
def ReplaceAll (s old new : String) : String :=
  String.mk (replaceAllChars old.data new.data 0 s.data)

/-- Go `strings.HasPrefix`. -/
def HasPrefix (s pre : String) : Bool := pre.data.isPrefixOf s.data

/-- One attempt, at the head of the text, of a pattern `lit([^"]+)"` where `lit`
is a literal ending in `="`: the capture group. The class `[^"]` also matches a
line break, and `+` stops at the first double quote. -/
def matchQuotedAt (lit s : List Char) : Option (List Char) :=
  if lit.isPrefixOf s then
    let rest := s.drop lit.length
    let value := rest.takeWhile (fun c => c != dq)
    match value, rest.drop value.length with
    | _ :: _, c :: _ => if c = dq then some value else none
    | _, _ => none
  else none

/-- Go `FindStringSubmatch` for `lit([^"]+)"`: the capture of the leftmost
match. -/
def findQuoted (lit : List Char) : List Char → Option (List Char)
  | [] => none
  | c :: cs =>
    match matchQuotedAt lit (c :: cs) with
    | some value => some value
    | none => findQuoted lit cs

/-- The pattern `initialization="([^"]+)"` applied with `FindStringSubmatch`:
`match[1]` when there is a match. -/
def initRe (manifestStr : String) : Option String :=
  (findQuoted ("initialization=".data ++ [dq]) manifestStr.data).map String.mk

/-- The pattern `media="([^"]+)"` applied with `FindStringSubmatch`. -/
def mediaRe (manifestStr : String) : Option String :=
  (findQuoted ("media=".data ++ [dq]) manifestStr.data).map String.mk

/-- One attempt, at the head of the text, of `<S d="\d+"(?: r="(\d+)")?`: the
capture group (empty when the optional group does not take part) and the length
of the match. `\d` is an ASCII digit. -/
def matchSegAt (s : List Char) : Option (List Char × Nat) :=
  let lit := "<S d=".data ++ [dq]
  if lit.isPrefixOf s then
    let rest := s.drop lit.length
    let d := rest.takeWhile Char.isDigit
    match d, rest.drop d.length with
    | _ :: _, c :: rest2 =>
      if c = dq then
        let lit2 := " r=".data ++ [dq]
        let without := some ([], lit.length + d.length + 1)
        if lit2.isPrefixOf rest2 then
          let rest3 := rest2.drop lit2.length
          let r := rest3.takeWhile Char.isDigit
          match r, rest3.drop r.length with
          | _ :: _, c2 :: _ =>
            if c2 = dq then some (r, lit.length + d.length + 1 + lit2.length + r.length + 1)
            else without
          | _, _ => without
        else without
      else none
    | _, _ => none
  else none

/-- Go `FindAllStringSubmatch(manifestStr, -1)` for the segment pattern: the
capture groups of the successive non-overlapping matches. The counter is the
number of characters of the last match still to skip. -/
def segReLoop : Nat → List Char → List (List Char)
  | _, [] => []
  | k + 1, _ :: cs => segReLoop k cs
  | 0, c :: cs =>
    match matchSegAt (c :: cs) with
    | some (capture, len) => capture :: segReLoop (len - 1) cs
    | none => segReLoop 0 cs

/-- The decimal value of a run of ASCII digits. -/
def decimalValue (digits : List Char) : Nat :=
  digits.foldl (fun acc c => acc * 10 + (c.toNat - 48)) 0

/-- The statements `repeat := 0; if match[1] != "" { fmt.Sscanf(match[1], "%d", &repeat) }`
on a capture made of digits: `Sscanf` stores the value when it fits a Go `int`
and leaves `repeat` alone when it reports an overflow. -/
def scanRepeat (capture : List Char) : Int :=
  if capture = [] then 0
  else if (decimalValue capture : Int) ≤ maxInt64 then (decimalValue capture : Int) else 0

/-- Element `S` of the segment timeline. -/
structure Segment where
  Duration : Int
  Repeat : Int
  deriving DecidableEq, Repr

/-- Go `MPD`, reduced to the path
`Period/AdaptationSet/Representation/SegmentTemplate` that `parseManifest` reads. -/
structure MPD where
  Initialization : String
  Media : String
  Segments : List Segment
  deriving DecidableEq, Repr

/-- Go `TidalBTSManifest`. -/
structure TidalBTSManifest where
  MimeType : String
  Codecs : String
  EncryptionType : String
  URLs : List String
  deriving DecidableEq, Repr

/-- The standard-library decoders `parseManifest` calls, each returning the
decoded value or the error text. -/
structure Decoders where
  base64Decode : String → Except String String
  jsonUnmarshal : String → Except String TidalBTSManifest
  xmlUnmarshal : String → Except String MPD

/-- The values `parseManifest` returns next to a nil error. -/
structure ParsedManifest where
  directURL : String
  initURL : String
  mediaURLs : List String
  deriving DecidableEq, Repr

/-- Lines 1206-1221: `initURL` and `mediaTemplate` as read from the XML, replaced
by the regex captures when one of the two is empty and the regex matches. -/
def segmentTemplates (manifestStr : String) (mpd : MPD) : String × String :=
  if mpd.Initialization = "" ∨ mpd.Media = "" then
    ((initRe manifestStr).getD mpd.Initialization, (mediaRe manifestStr).getD mpd.Media)
  else (mpd.Initialization, mpd.Media)

/-- Lines 1232-1235: `segmentCount += seg.Repeat + 1` over the timeline. -/
def timelineSegmentCount (segments : List Segment) : Int :=
  segments.foldl (fun segmentCount seg => wrapInt64 (segmentCount + wrapInt64 (seg.Repeat + 1))) 0

/-- Lines 1239-1247: `segmentCount += repeat + 1` over the regex matches,
starting from zero. -/
def regexSegmentCount (manifestStr : String) : Int :=
  (segReLoop 0 manifestStr.data).foldl
    (fun segmentCount capture => wrapInt64 (segmentCount + wrapInt64 (scanRepeat capture + 1))) 0

/-- Lines 1251-1254: one media URL for each `i` from 1 to `segmentCount`. The
list is built in full whatever its length (memory is not bounded), and
`segmentCount` is below `maxInt64` wherever the theorems use this loop (at
`maxInt64` the Go counter `i` would wrap before the test `i <= segmentCount`
fails). -/
def mediaURLLoop (mediaTemplate : String) (segmentCount : Int) : List String :=
  (List.range segmentCount.toNat).map
    (fun k => ReplaceAll mediaTemplate "$Number$" (Nat.repr (k + 1)))

/-- Lines 1206-1256 of `parseManifest`: the DASH branch after a successful XML
parse. -/
def parseDASH (manifestStr : String) (mpd : MPD) : Except String ParsedManifest :=
  let templates := segmentTemplates manifestStr mpd
  if templates.1 = "" then .error "no initialization URL found in manifest"
  else
    let initURL := ReplaceAll templates.1 "&amp;" "&"
    let mediaTemplate := ReplaceAll templates.2 "&amp;" "&"
    let segmentCount := timelineSegmentCount mpd.Segments
    let segmentCount := if segmentCount = 0 then regexSegmentCount manifestStr else segmentCount
    .ok { directURL := "", initURL := initURL, mediaURLs := mediaURLLoop mediaTemplate segmentCount }

/-- Go `parseManifest` (lines 1172-1257). -/
def parseManifest (lib : Decoders) (manifestB64 : String) : Except String ParsedManifest :=
  match lib.base64Decode manifestB64 with
  | .error err => .error ("failed to decode manifest: " ++ err)
  | .ok manifestStr =>
    if HasPrefix manifestStr "\x7b" then
      match lib.jsonUnmarshal manifestStr with
      | .error err => .error ("failed to parse BTS manifest: " ++ err)
      | .ok btsManifest =>
        match btsManifest.URLs with
        | [] => .error "no URLs in BTS manifest"
        | url :: _ => .ok { directURL := url, initURL := "", mediaURLs := [] }
    else
      match lib.xmlUnmarshal manifestStr with
      | .error err => .error ("failed to parse manifest XML: " ++ err)
      | .ok mpd => parseDASH manifestStr mpd

/-- The test `directURL != ""` by which `DownloadFromManifest` (line 652) takes
the direct transfer; otherwise it downloads `initURL` and the media segments. -/
def takesDirectTransfer (m : ParsedManifest) : Bool := decide (m.directURL ≠ "")

/-! ## progress.go : the download queue -/

/-- Go `DownloadStatus`, a string type. -/
abbrev DownloadStatus := String

def StatusQueued : DownloadStatus := "queued"
def StatusDownloading : DownloadStatus := "downloading"
def StatusCompleted : DownloadStatus := "completed"
def StatusFailed : DownloadStatus := "failed"
def StatusSkipped : DownloadStatus := "skipped"

/-- Go `DownloadItem`; `F` stands for `float64`. -/
structure DownloadItem (F : Type) where
  ID : String
  TrackName : String
  ArtistName : String
  AlbumName : String
  ISRC : String
  Status : DownloadStatus
  Progress : F
  TotalSize : F
  Speed : F
  StartTime : Int
  EndTime : Int
  ErrorMessage : String
  FilePath : String
  deriving DecidableEq, Repr

/-- The package-level variables of progress.go. The locks are left out: every
operation below is the Go function run alone, from its first statement to its
last with no other goroutine writing to these variables in between. -/
structure QueueStore (F : Type) where
  currentProgress : F
  isDownloading : Bool
  currentSpeed : F
  downloadQueue : List (DownloadItem F)
  currentItemID : String
  totalDownloaded : F
  sessionStartTime : Int
  deriving DecidableEq, Repr

section Queue
variable {F : Type}

/-- The loop `for i := range downloadQueue { if downloadQueue[i].ID == id { ...; break } }`:
`f` is applied to the first item whose ID is `id`. -/
def updateFirstByID (id : String) (f : DownloadItem F → DownloadItem F) :
    List (DownloadItem F) → List (DownloadItem F)
  | [] => []
  | item :: rest =>
    if item.ID = id then f item :: rest else item :: updateFirstByID id f rest

/-- Go `AddToQueue`; `now` is the reading of `time.Now().Unix()`. -/
def AddToQueue [Zero F] (s : QueueStore F) (id trackName artistName albumName isrc : String)
    (now : Int) : QueueStore F :=
  let item : DownloadItem F :=
    { ID := id, TrackName := trackName, ArtistName := artistName, AlbumName := albumName,
      ISRC := isrc, Status := StatusQueued, Progress := 0, TotalSize := 0, Speed := 0,
      StartTime := 0, EndTime := 0, ErrorMessage := "", FilePath := "" }
  { s with
    downloadQueue := s.downloadQueue ++ [item]
    sessionStartTime := if s.sessionStartTime = 0 then now else s.sessionStartTime }

/-- Go `StartDownloadItem`. -/
def StartDownloadItem [Zero F] (s : QueueStore F) (id : String) (now : Int) : QueueStore F :=
  { s with
    downloadQueue := updateFirstByID id
      (fun item => { item with Status := StatusDownloading, StartTime := now, Progress := 0 })
      s.downloadQueue
    currentItemID := id }

/-- Go `UpdateItemProgress`. -/
def UpdateItemProgress (s : QueueStore F) (id : String) (progress speed : F) : QueueStore F :=
  { s with
    downloadQueue := updateFirstByID id
      (fun item => { item with Progress := progress, Speed := speed }) s.downloadQueue }

/-- The loop of `CompleteDownloadItem`: the queue and `totalDownloaded` after it. -/
def completeLoop [Add F] (id filePath : String) (finalSize : F) (now : Int) :
    List (DownloadItem F) → F → List (DownloadItem F) × F
  | [], totalDownloaded => ([], totalDownloaded)
  | item :: rest, totalDownloaded =>
    if item.ID = id then
      ({ item with Status := StatusCompleted, EndTime := now, FilePath := filePath,
                   Progress := finalSize, TotalSize := finalSize } :: rest,
        totalDownloaded + finalSize)
    else
      let r := completeLoop id filePath finalSize now rest totalDownloaded
      (item :: r.1, r.2)

/-- Go `CompleteDownloadItem`. -/
def CompleteDownloadItem [Add F] (s : QueueStore F) (id filePath : String) (finalSize : F)
    (now : Int) : QueueStore F :=
  let r := completeLoop id filePath finalSize now s.downloadQueue s.totalDownloaded
  { s with downloadQueue := r.1, totalDownloaded := r.2 }

/-- Go `FailDownloadItem`. -/
def FailDownloadItem (s : QueueStore F) (id errorMsg : String) (now : Int) : QueueStore F :=
  { s with
    downloadQueue := updateFirstByID id
      (fun item => { item with Status := StatusFailed, EndTime := now, ErrorMessage := errorMsg })
      s.downloadQueue }

/-- Go `SkipDownloadItem`. -/
def SkipDownloadItem (s : QueueStore F) (id filePath : String) (now : Int) : QueueStore F :=
  { s with
    downloadQueue := updateFirstByID id
      (fun item => { item with Status := StatusSkipped, EndTime := now, FilePath := filePath })
      s.downloadQueue }

/-- The loop of `CancelAllQueuedItems`; `now i` is the reading of
`time.Now().Unix()` taken while item `i` is handled. -/
def cancelLoop (now : Nat → Int) : Nat → List (DownloadItem F) → List (DownloadItem F)
  | _, [] => []
  | i, item :: rest =>
    (if item.Status = StatusQueued then
      { item with Status := StatusSkipped, EndTime := now i, ErrorMessage := "Cancelled" }
    else item) :: cancelLoop now (i + 1) rest

/-- Go `CancelAllQueuedItems`. -/
def CancelAllQueuedItems (s : QueueStore F) (now : Nat → Int) : QueueStore F :=
  { s with downloadQueue := cancelLoop now 0 s.downloadQueue }

end Queue

/-! ## progress.go : session reset, clearing, and the operations as steps -/

section QueueMore
variable {F : Type}

/-- The loop of `ResetSessionIfComplete`: `hasActiveOrQueued` after it. -/
def hasActiveOrQueuedLoop : List (DownloadItem F) → Bool
  | [] => false
  | item :: rest =>
    if item.Status = StatusQueued ∨ item.Status = StatusDownloading then true
    else hasActiveOrQueuedLoop rest

/-- Go `ResetSessionIfComplete`, run alone: the loop reads the queue under the
read lock, which is released before the two counters are reset, each under its
own lock. -/
def ResetSessionIfComplete [Zero F] (s : QueueStore F) : QueueStore F :=
  if hasActiveOrQueuedLoop s.downloadQueue then s
  else { s with sessionStartTime := 0, totalDownloaded := 0 }

/-- Go `DownloadQueueInfo`. The four counters count items of a slice, so they
stay below its length and are kept as natural numbers. -/
structure DownloadQueueInfo (F : Type) where
  IsDownloading : Bool
  Queue : List (DownloadItem F)
  CurrentSpeed : F
  TotalDownloaded : F
  SessionStartTime : Int
  QueuedCount : Nat
  CompletedCount : Nat
  FailedCount : Nat
  SkippedCount : Nat

/-- The `switch item.Status` loop of `GetDownloadQueue` for one status. -/
def countStatus (status : DownloadStatus) : List (DownloadItem F) → Nat
  | [] => 0
  | item :: rest => (if item.Status = status then 1 else 0) + countStatus status rest

/-- Go `GetDownloadQueue`: the store after the call and the value returned. -/
def GetDownloadQueue [Zero F] (s : QueueStore F) : QueueStore F × DownloadQueueInfo F :=
  let s := ResetSessionIfComplete s
  (s, { IsDownloading := s.isDownloading, Queue := s.downloadQueue,
        CurrentSpeed := s.currentSpeed, TotalDownloaded := s.totalDownloaded,
        SessionStartTime := s.sessionStartTime,
        QueuedCount := countStatus StatusQueued s.downloadQueue,
        CompletedCount := countStatus StatusCompleted s.downloadQueue,
        FailedCount := countStatus StatusFailed s.downloadQueue,
        SkippedCount := countStatus StatusSkipped s.downloadQueue })

/-- The loop of `ClearDownloadQueue`: `newQueue` after it. -/
def clearLoop : List (DownloadItem F) → List (DownloadItem F) → List (DownloadItem F)
  | [], newQueue => newQueue
  | item :: rest, newQueue =>
    clearLoop rest
      (if item.Status = StatusQueued ∨ item.Status = StatusDownloading then newQueue ++ [item]
       else newQueue)

/-- Go `ClearDownloadQueue`. -/
def ClearDownloadQueue (s : QueueStore F) : QueueStore F :=
  { s with downloadQueue := clearLoop s.downloadQueue [] }

/-- Go `ClearAllDownloads`. -/
def ClearAllDownloads [Zero F] (s : QueueStore F) : QueueStore F :=
  { s with currentProgress := 0, currentSpeed := 0, downloadQueue := [], currentItemID := "",
           totalDownloaded := 0, sessionStartTime := 0 }

/-- A call of one of the seven operations that write items, with its arguments
and clock readings. -/
inductive QueueOp (F : Type) where
  | add (id trackName artistName albumName isrc : String) (now : Int)
  | start (id : String) (now : Int)
  | update (id : String) (progress speed : F)
  | complete (id filePath : String) (finalSize : F) (now : Int)
  | fail (id errorMsg : String) (now : Int)
  | skip (id filePath : String) (now : Int)
  | cancelAll (now : Nat → Int)

/-- The store after one call. -/
def applyOp [Zero F] [Add F] (s : QueueStore F) : QueueOp F → QueueStore F
  | .add id trackName artistName albumName isrc now =>
    AddToQueue s id trackName artistName albumName isrc now
  | .start id now => StartDownloadItem s id now
  | .update id progress speed => UpdateItemProgress s id progress speed
  | .complete id filePath finalSize now => CompleteDownloadItem s id filePath finalSize now
  | .fail id errorMsg now => FailDownloadItem s id errorMsg now
  | .skip id filePath now => SkipDownloadItem s id filePath now
  | .cancelAll now => CancelAllQueuedItems s now

/-- The store after a sequence of calls. -/
def applyOps [Zero F] [Add F] (s : QueueStore F) (ops : List (QueueOp F)) : QueueStore F :=
  ops.foldl applyOp s

/-- The id a call looks up and the status it writes to the item found, for the
four calls that write a status to an item found by its id. -/
def opTarget : QueueOp F → Option (String × DownloadStatus)
  | .start id _ => some (id, StatusDownloading)
  | .complete id _ _ _ => some (id, StatusCompleted)
  | .fail id _ _ => some (id, StatusFailed)
  | .skip id _ _ => some (id, StatusSkipped)
  | _ => none

end QueueMore

/-! ## metadata.go, filemanager.go : FLAC files and their comment block

The packages `go-flac`, `flacvorbis` and `strings` are libraries outside the
repository. A metadata block is kept in the form the library parses it to (or
as the fact that it does not parse); `strings.EqualFold`, `strings.ToUpper` and
`strings.ToLower` are parameters. -/

/-- The functions of package `strings` whose result depends on Unicode case
tables. -/
structure StringsLib where
  EqualFold : String → String → Bool
  ToUpper : String → String
  ToLower : String → String

/-- A block of `f.Meta`. A block of type `VorbisComment` is either one that
`flacvorbis.ParseFromMetaDataBlock` parses, given by the parsed vendor string
and comments (`Marshal` produces such a block from them), or one that it
rejects. -/
inductive MetaDataBlock where
  | vorbisComment (vendor : String) (comments : List String)
  | vorbisMalformed (data : List Nat)
  | picture (data : List Nat)
  | other (blockType : Nat) (data : List Nat)
  deriving DecidableEq, Repr

/-- The test `block.Type == flac.VorbisComment`. -/
def MetaDataBlock.isVorbisComment : MetaDataBlock → Bool
  | .vorbisComment _ _ => true
  | .vorbisMalformed _ => true
  | _ => false

/-- The test `block.Type == flac.Picture`. -/
def MetaDataBlock.isPicture : MetaDataBlock → Bool
  | .picture _ => true
  | _ => false

/-- A file that `flac.ParseFile` parses: its metadata blocks and its frames. -/
structure FlacFile where
  Meta : List MetaDataBlock
  Frames : List Nat
  deriving DecidableEq, Repr

/-- Go `Metadata`. -/
structure Metadata where
  Title : String
  Artist : String
  Album : String
  AlbumArtist : String
  Date : String
  ReleaseDate : String
  TrackNumber : Int
  TotalTracks : Int
  DiscNumber : Int
  ISRC : String
  Lyrics : String
  Description : String
  deriving DecidableEq, Repr

/-- Go `AudioMetadata`. -/
structure AudioMetadata where
  Title : String
  Artist : String
  Album : String
  AlbumArtist : String
  TrackNumber : Int
  DiscNumber : Int
  Year : String
  deriving DecidableEq, Repr

/-- Go `strconv.Itoa` on a Go `int`. -/
def Itoa (n : Int) : String :=
  if n < 0 then "-" ++ Nat.repr n.natAbs else Nat.repr n.toNat

/-- Go `strconv.Atoi`: an optional sign followed by decimal digits, with a value
that fits a Go `int`; `none` stands for the error. -/
def Atoi (s : String) : Option Int :=
  let digitsOK := fun (ds : List Char) => !ds.isEmpty && ds.all Char.isDigit
  match s.data with
  | '-' :: ds =>
    if digitsOK ds ∧ (decimalValue ds : Int) ≤ 2 ^ 63 then some (-(decimalValue ds : Int))
    else none
  | '+' :: ds =>
    if digitsOK ds ∧ (decimalValue ds : Int) ≤ maxInt64 then some (decimalValue ds : Int)
    else none
  | ds =>
    if digitsOK ds ∧ (decimalValue ds : Int) ≤ maxInt64 then some (decimalValue ds : Int)
    else none

/-- The two parts of `strings.SplitN(comment, "=", 2)` when there are two. -/
def splitAtEq : List Char → Option (List Char × List Char)
  | [] => none
  | c :: cs =>
    if c = '=' then some ([], cs) else (splitAtEq cs).map (fun p => (c :: p.1, p.2))

/-- Go `strings.SplitN(comment, "=", 2)`: `some (parts[0], parts[1])` when
`len(parts) == 2`. -/
def splitField (comment : String) : Option (String × String) :=
  (splitAtEq comment.data).map (fun p => (String.mk p.1, String.mk p.2))

/-- The test by which `flacvorbis` `Add` accepts a field name: no character below
0x20 or above 0x7d, and no `=`. -/
def validFieldName (key : String) : Bool :=
  key.data.all (fun c => !(decide (c.toNat < 0x20) || decide (c.toNat > 0x7d) || c == '='))

/-- The statement `_ = cmt.Add(key, val)`: the comment `key=val` is appended when
the field name is accepted, and the error is dropped otherwise. -/
def vorbisAdd (comments : List String) (key val : String) : List String :=
  if validFieldName key then comments ++ [key ++ "=" ++ val] else comments

/-- The loop of `flacvorbis` `Get(key)`: the values of the comments whose name
folds to `key`; `none` stands for `ErrorMalformedComment`, returned at the first
comment without `=`. -/
def vorbisGetLoop (lib : StringsLib) (key : String) : List String → List String →
    Option (List String)
  | [], res => some res
  | cmt :: rest, res =>
    match splitField cmt with
    | none => none
    | some (name, value) =>
      vorbisGetLoop lib key rest (if lib.EqualFold name key then res ++ [value] else res)

/-- The call `cmt.Get(key)` of `flacvorbis`. -/
def vorbisGet (lib : StringsLib) (key : String) (comments : List String) :
    Option (List String) :=
  vorbisGetLoop lib key comments []

/-- The vendor string of `flacvorbis.New()`. -/
def flacvorbisVendor : String := "flacvorbis 0.1.0"

/-- Lines 47-82 of `EmbedMetadata`: the comments of `cmt` after the calls of
`Add`. -/
def embedComments (metadata : Metadata) : List String :=
  let cmt : List String := []
  let cmt := if metadata.Title ≠ "" then vorbisAdd cmt "TITLE" metadata.Title else cmt
  let cmt := if metadata.Artist ≠ "" then vorbisAdd cmt "ARTIST" metadata.Artist else cmt
  let cmt := if metadata.Album ≠ "" then vorbisAdd cmt "ALBUM" metadata.Album else cmt
  let cmt := if metadata.AlbumArtist ≠ "" then vorbisAdd cmt "ALBUMARTIST" metadata.AlbumArtist
    else cmt
  let cmt := if metadata.Date ≠ "" then vorbisAdd cmt "DATE" metadata.Date else cmt
  let cmt := if metadata.TrackNumber > 0 then
    vorbisAdd cmt "TRACKNUMBER" (Itoa metadata.TrackNumber) else cmt
  let cmt := if metadata.TotalTracks > 0 then
    vorbisAdd cmt "TOTALTRACKS" (Itoa metadata.TotalTracks) else cmt
  let cmt := if metadata.DiscNumber > 0 then
    vorbisAdd cmt "DISCNUMBER" (Itoa metadata.DiscNumber) else cmt
  let cmt := if metadata.ISRC ≠ "" then vorbisAdd cmt "ISRC" metadata.ISRC else cmt
  let cmt := if metadata.Description ≠ "" then vorbisAdd cmt "DESCRIPTION" metadata.Description
    else cmt
  let cmt := if metadata.Lyrics ≠ "" then vorbisAdd cmt "LYRICS" metadata.Lyrics else cmt
  cmt

/-- The loop of lines 40-45: the first block of type `VorbisComment` is replaced by
`cmtBlock`; `none` when there is none (`cmtIdx < 0`). -/
def replaceFirstComment (cmtBlock : MetaDataBlock) : List MetaDataBlock →
    Option (List MetaDataBlock)
  | [] => none
  | block :: rest =>
    if block.isVorbisComment then some (cmtBlock :: rest)
    else (replaceFirstComment cmtBlock rest).map (fun r => block :: r)

/-- Lines 85-89: `f.Meta` with `cmtBlock` at `cmtIdx`, or appended. -/
def putCommentBlock (cmtBlock : MetaDataBlock) (blocks : List MetaDataBlock) :
    List MetaDataBlock :=
  (replaceFirstComment cmtBlock blocks).getD (blocks ++ [cmtBlock])

/-- Go `embedCoverArt` once the picture block is built: the blocks of type
`Picture` are removed and the new one is appended. -/
def embedCoverArt (blocks : List MetaDataBlock) (pictureBlock : List Nat) :
    List MetaDataBlock :=
  blocks.filter (fun block => !block.isPicture) ++ [.picture pictureBlock]

/-- Go `EmbedMetadata`. `file` is what is on disk (`none` when `flac.ParseFile`
fails), `cover` is the picture block when `coverPath` names an existing file
from which `embedCoverArt` builds one (`none` when nothing is embedded),
`saveErr` is the error of `f.Save`, if any. The result is the file saved. -/
def EmbedMetadata (file : Option FlacFile) (metadata : Metadata) (cover : Option (List Nat))
    (saveErr : Option String) : Except String FlacFile :=
  match file with
  | none => .error "failed to parse FLAC file"
  | some f =>
    let cmtBlock := MetaDataBlock.vorbisComment flacvorbisVendor (embedComments metadata)
    let blocks := putCommentBlock cmtBlock f.Meta
    let blocks := match cover with
      | some pictureBlock => embedCoverArt blocks pictureBlock
      | none => blocks
    match saveErr with
    | some err => .error ("failed to save FLAC file: " ++ err)
    | none => .ok { f with Meta := blocks }

/-- The loop of `ReadISRCFromFile` over `f.Meta`. -/
def readISRCLoop (lib : StringsLib) : List MetaDataBlock → String
  | [] => ""
  | .vorbisComment _ comments :: rest =>
    match vorbisGet lib "ISRC" comments with
    | some (isrc :: _) => isrc
    | _ => readISRCLoop lib rest
  | _ :: rest => readISRCLoop lib rest

/-- Go `ReadISRCFromFile` on a file that exists, given by what is on disk. -/
def ReadISRCFromFile (lib : StringsLib) (file : Option FlacFile) : Except String String :=
  match file with
  | none => .error "failed to parse FLAC file"
  | some f => .ok (readISRCLoop lib f.Meta)

/-- The body of the loop over `cmt.Comments` in `readFlacMetadata`. -/
def readComment (lib : StringsLib) (metadata : AudioMetadata) (comment : String) :
    AudioMetadata :=
  match splitField comment with
  | none => metadata
  | some (name, value) =>
    let fieldName := lib.ToUpper name
    if fieldName = "TITLE" then { metadata with Title := value }
    else if fieldName = "ARTIST" then { metadata with Artist := value }
    else if fieldName = "ALBUM" then { metadata with Album := value }
    else if fieldName = "ALBUMARTIST" then { metadata with AlbumArtist := value }
    else if fieldName = "TRACKNUMBER" then
      match Atoi value with
      | some num => { metadata with TrackNumber := num }
      | none => metadata
    else if fieldName = "DISCNUMBER" then
      match Atoi value with
      | some num => { metadata with DiscNumber := num }
      | none => metadata
    else if fieldName = "DATE" ∨ fieldName = "YEAR" then { metadata with Year := value }
    else metadata

/-- The loop of `readFlacMetadata` over `f.Meta`. -/
def readBlocksLoop (lib : StringsLib) (metadata : AudioMetadata) :
    List MetaDataBlock → AudioMetadata
  | [] => metadata
  | .vorbisComment _ comments :: rest =>
    readBlocksLoop lib (comments.foldl (readComment lib) metadata) rest
  | _ :: rest => readBlocksLoop lib metadata rest

/-- Go `readFlacMetadata`. -/
def readFlacMetadata (lib : StringsLib) (file : Option FlacFile) : Except String AudioMetadata :=
  match file with
  | none => .error "failed to parse FLAC file"
  | some f =>
    .ok (readBlocksLoop lib
      { Title := "", Artist := "", Album := "", AlbumArtist := "", TrackNumber := 0,
        DiscNumber := 0, Year := "" } f.Meta)

/-! ## metadata.go : the existing-file scan -/

/-- An entry of a directory: a file with what is on disk (`none` when
`flac.ParseFile` fails on it), or a directory with its entries. A list of
entries is in the order in which `os.ReadDir` and `filepath.Walk` list them. -/
inductive FSNode where
  | file (name : String) (content : Option FlacFile)
  | dir (name : String) (children : List FSNode)

/-- The test of lines 256-258 passed: the name ends in `.flac`. -/
def hasFlacSuffix (filename : String) : Bool := ".flac".data.isSuffixOf filename.data

/-- The loop of `CheckISRCExists` over the entries: the entries left in the
directory and the path returned with `true`, if any. `remove path` tells whether
`os.Remove(path)` succeeds; when it fails the loop prints a warning and goes on,
and the file stays in the directory. -/
def checkLoop (lib : StringsLib) (remove : String → Bool) (outputDir targetISRC : String) :
    List FSNode → List FSNode × Option String
  | [] => ([], none)
  | .dir name children :: rest =>
    let r := checkLoop lib remove outputDir targetISRC rest
    (.dir name children :: r.1, r.2)
  | .file filename content :: rest =>
    if hasFlacSuffix filename then
      match ReadISRCFromFile lib content with
      | .error _ =>
        let r := checkLoop lib remove outputDir targetISRC rest
        if remove (outputDir ++ "/" ++ filename) then r
        else (.file filename content :: r.1, r.2)
      | .ok isrc =>
        if isrc ≠ "" ∧ lib.EqualFold isrc targetISRC = true then
          (.file filename content :: rest, some (outputDir ++ "/" ++ filename))
        else
          let r := checkLoop lib remove outputDir targetISRC rest
          (.file filename content :: r.1, r.2)
    else
      let r := checkLoop lib remove outputDir targetISRC rest
      (.file filename content :: r.1, r.2)

/-- Go `CheckISRCExists`. `dir` is the content of `outputDir` (`none` when
`os.ReadDir` fails) and `remove` the outcome of `os.Remove` on each path during
this call; the result is the content afterwards and the pair returned. -/
def CheckISRCExists (lib : StringsLib) (remove : String → Bool) (outputDir : String)
    (dir : Option (List FSNode)) (targetISRC : String) :
    Option (List FSNode) × (String × Bool) :=
  if targetISRC = "" then (dir, ("", false))
  else
    match dir with
    | none => (none, ("", false))
    | some entries =>
      let r := checkLoop lib remove outputDir targetISRC entries
      match r.2 with
      | some path => (some r.1, (path, true))
      | none => (some r.1, ("", false))

/-- Go `filepath.Ext` on the characters of the path in reverse order; the
accumulator holds the characters already passed. -/
def extLoop : List Char → List Char → List Char
  | [], _ => []
  | c :: cs, acc =>
    if c = '/' then [] else if c = '.' then '.' :: acc else extLoop cs (c :: acc)

/-- Go `filepath.Ext`, with `/` as path separator. -/
def Ext (path : String) : String := String.mk (extLoop path.data.reverse [])

/-- The statement `index[key] = path` on a map kept as a list of bindings. -/
def indexPut (index : List (String × String)) (key path : String) : List (String × String) :=
  index.filter (fun b => b.1 != key) ++ [(key, path)]

mutual
/-- The callback of `buildISRCIndex` on one entry below `path`, followed by the
walk of its children when it is a directory. -/
def walkNode (lib : StringsLib) (path : String) :
    FSNode → List (String × String) → List (String × String)
  | .dir name children, index => walkNodes lib (path ++ "/" ++ name) children index
  | .file name content, index =>
    if lib.ToLower (Ext (path ++ "/" ++ name)) ≠ ".flac" then index
    else
      match ReadISRCFromFile lib content with
      | .error _ => index
      | .ok isrc => if isrc = "" then index else indexPut index (lib.ToUpper isrc) (path ++ "/" ++ name)
/-- The walk of the entries of the directory `path`, in order. -/
def walkNodes (lib : StringsLib) (path : String) :
    List FSNode → List (String × String) → List (String × String)
  | [], index => index
  | node :: rest, index => walkNodes lib path rest (walkNode lib path node index)
end

/-- Go `buildISRCIndex`: the content of `outputDir` afterwards and the map
returned. The function has no statement that writes to the directory. -/
def buildISRCIndex (lib : StringsLib) (outputDir : String) (dir : Option (List FSNode)) :
    Option (List FSNode) × List (String × String) :=
  match dir with
  | none => (none, [])
  | some entries => (some entries, walkNodes lib outputDir entries [])

/-! ## songlink.go : the rate-limited lookup client

Time is explicit state. A `time.Time` is a reading of the clock and a
`time.Duration` a difference of readings, both in nanoseconds; `Sub` is exact
(the monotonic readings of one process are far from the 64-bit range). The zero
`time.Time` is `none`. `Sleep(d)` advances the clock by `d` and by whatever the
environment adds, a request by the time the answer takes. -/

/-- Go `time.Second`. -/
def second : Int := 1000000000

/-- Go `time.Minute`. -/
def minute : Int := 60 * second

/-- Go `SongLinkClient`, without the HTTP client. -/
structure SongLinkClient where
  lastAPICallTime : Option Int
  apiCallCount : Int
  apiCallResetTime : Int
  deriving DecidableEq, Repr

/-- Go `NewSongLinkClient` at clock reading `now`. -/
def NewSongLinkClient (now : Int) : SongLinkClient :=
  { lastAPICallTime := none, apiCallCount := 0, apiCallResetTime := now }

/-- What a call does that the outside sees: a request issued at a clock reading,
or a `time.Sleep` of a duration. -/
inductive Event where
  | request (issuedAt : Int)
  | sleep (duration : Int)
  deriving DecidableEq, Repr

/-- The client, the clock, and the events so far, oldest first. -/
structure LookupWorld where
  client : SongLinkClient
  clock : Int
  log : List Event
  deriving DecidableEq, Repr

/-- The answer to one `s.client.Do(req)`: the time it takes and the status code,
`none` when `Do` returns an error. -/
structure Answer where
  took : Nat
  status : Option Int

/-- What the environment decides during one call: the time since the previous
call returned, the extra time of each `Sleep` (0: the wait for the next minute,
1: the wait between requests, 2 and 3: the waits before a retry), the answers to
the attempts, and the time the call spends after the loop. -/
structure CallEnv where
  gap : Nat
  oversleep : Nat → Nat
  answers : Nat → Answer
  after : Nat

/-- Go `time.Sleep(d)` for `d > 0`. -/
def doSleep (w : LookupWorld) (d : Int) (extra : Nat) : LookupWorld :=
  { w with clock := w.clock + d + extra, log := w.log ++ [.sleep d] }

/-- Lines 48-51 (and 176-179): a new minute starts when the last one is over. -/
def resetWindow (now : Int) (w : LookupWorld) : LookupWorld :=
  if now - w.client.apiCallResetTime ≥ minute then
    { w with client := { w.client with apiCallCount := 0, apiCallResetTime := now } }
  else w

/-- Lines 54-62 (and 182-190): at nine calls, wait for the end of the minute. -/
def waitForWindow (now : Int) (w : LookupWorld) (env : CallEnv) : LookupWorld :=
  if w.client.apiCallCount ≥ 9 then
    let waitTime := minute - (now - w.client.apiCallResetTime)
    if waitTime > 0 then
      let w := doSleep w waitTime (env.oversleep 0)
      { w with client := { w.client with apiCallCount := 0, apiCallResetTime := w.clock } }
    else w
  else w

/-- Lines 65-73 (and 193-201): wait until 7 seconds after the last answer, as seen
from `now`. -/
def spaceRequests (now : Int) (w : LookupWorld) (env : CallEnv) : LookupWorld :=
  match w.client.lastAPICallTime with
  | some last =>
    let timeSinceLastCall := now - last
    if timeSinceLastCall < 7 * second then
      doSleep w (7 * second - timeSinceLastCall) (env.oversleep 1)
    else w
  | none => w

/-- Lines 47-73 (and 175-201): the rate limiting before the request. `now` is read
once, at entry. -/
def rateLimit (w : LookupWorld) (env : CallEnv) : LookupWorld :=
  let now := w.clock
  spaceRequests now (waitForWindow now (resetWindow now w) env) env

/-- How the retry loop ends. -/
inductive Outcome where
  | answered
  | rateLimitExceeded
  | badStatus (code : Int)
  | requestFailed
  deriving DecidableEq, Repr

/-- Go `maxRetries := 3`. -/
def maxRetries : Nat := 3

/-- Lines 92-119 (and 220-247): the loop `for i := 0; i < maxRetries; i++`, with
the iterations left as first argument. -/
def retryLoop (env : CallEnv) : Nat → Nat → LookupWorld → LookupWorld × Outcome
  | 0, _, w => (w, .answered)
  | left + 1, i, w =>
    let answer := env.answers i
    let w := { w with log := w.log ++ [.request w.clock], clock := w.clock + answer.took }
    match answer.status with
    | none => (w, .requestFailed)
    | some code =>
      let w := { w with client := { w.client with
        lastAPICallTime := some w.clock
        apiCallCount := wrapInt64 (w.client.apiCallCount + 1) } }
      if code = 429 then
        if i < maxRetries - 1 then
          retryLoop env left (i + 1) (doSleep w (15 * second) (env.oversleep (2 + i)))
        else (w, .rateLimitExceeded)
      else if code ≠ 200 then (w, .badStatus code)
      else (w, .answered)

/-- The part that `GetAllURLsFromSpotify` and `CheckTrackAvailability` share word
for word: rate limiting, then the retry loop. -/
def rateLimitedRequest (w : LookupWorld) (env : CallEnv) : LookupWorld × Outcome :=
  let w := { w with clock := w.clock + env.gap }
  let r := retryLoop env maxRetries 0 (rateLimit w env)
  ({ r.1 with clock := r.1.clock + env.after }, r.2)

/-- Go `GetAllURLsFromSpotify`, as far as the clock, the client and the requests
go. -/
def GetAllURLsFromSpotify (w : LookupWorld) (env : CallEnv) : LookupWorld × Outcome :=
  rateLimitedRequest w env

/-- Go `CheckTrackAvailability`, as far as the clock, the client and the requests
to the lookup service go (the Qobuz check is part of the time spent after the
loop). -/
def CheckTrackAvailability (w : LookupWorld) (env : CallEnv) : LookupWorld × Outcome :=
  rateLimitedRequest w env

/-- Which of the two functions a call is. -/
inductive CallKind where
  | getAllURLs
  | checkAvailability
  deriving DecidableEq, Repr

/-- One cross-reference call. -/
def crossReference (w : LookupWorld) (call : CallKind × CallEnv) : LookupWorld :=
  match call.1 with
  | .getAllURLs => (GetAllURLsFromSpotify w call.2).1
  | .checkAvailability => (CheckTrackAvailability w call.2).1

/-- A client created at clock reading `t0`, then the calls one after the other. -/
def runCalls (t0 : Int) (calls : List (CallKind × CallEnv)) : LookupWorld :=
  calls.foldl crossReference { client := NewSongLinkClient t0, clock := t0, log := [] }

/-- The clock readings at which the requests of a log were issued. -/
def requestTimes : List Event → List Int
  | [] => []
  | .request t :: rest => t :: requestTimes rest
  | .sleep _ :: rest => requestTimes rest

/-- The durations of the sleeps of a log. -/
def sleepDurations : List Event → List Int
  | [] => []
  | .request _ :: rest => sleepDurations rest
  | .sleep d :: rest => d :: sleepDurations rest

/-- An environment in which every attempt takes `took` and gets `status`, the
calls follow each other at once, and nothing takes extra time. -/
def steadyEnv (took : Nat) (status : Int) : CallEnv :=
  { gap := 0, oversleep := fun _ => 0, answers := fun _ => { took := took, status := some status },
    after := 0 }

/-! ## metadata.go : EmbedLyricsOnly -/

/-- The loop of lines 162-172 of `EmbedLyricsOnly`: the comments of the first
block of type VorbisComment when `flacvorbis.ParseFromMetaDataBlock` parses it
(`existingCmt`), `none` when there is no such block or it does not parse. -/
def existingComments : List MetaDataBlock → Option (List String)
  | [] => none
  | block :: rest =>
    if block.isVorbisComment then
      match block with
      | .vorbisComment _ comments => some comments
      | _ => none
    else existingComments rest

/-- The loop of lines 178-187 over `existingCmt.Comments`: a comment that splits
at a `=` and whose name in upper case is none of the three lyrics names is
passed to `Add`, whose error is dropped; `cmt` holds the comments added so
far. -/
def copyCommentsLoop (lib : StringsLib) : List String → List String → List String
  | [], cmt => cmt
  | comment :: rest, cmt =>
    match splitField comment with
    | some (name, value) =>
      let fieldName := lib.ToUpper name
      if fieldName ≠ "LYRICS" ∧ fieldName ≠ "UNSYNCEDLYRICS" ∧ fieldName ≠ "SYNCEDLYRICS" then
        copyCommentsLoop lib rest (vorbisAdd cmt name value)
      else copyCommentsLoop lib rest cmt
    | none => copyCommentsLoop lib rest cmt

/-- Go `EmbedLyricsOnly`. `file` is what is on disk (`none` when `flac.ParseFile`
fails), `saveErr` is the error of `f.Save`, if any. The result is what is on
disk afterwards. -/
def EmbedLyricsOnly (lib : StringsLib) (file : Option FlacFile) (lyrics : String)
    (saveErr : Option String) : Except String (Option FlacFile) :=
  if lyrics = "" then .ok file
  else
    match file with
    | none => .error "failed to parse FLAC file"
    | some f =>
      let cmt := match existingComments f.Meta with
        | some comments => copyCommentsLoop lib comments []
        | none => []
      let cmt := vorbisAdd cmt "LYRICS" lyrics
      let cmtBlock := MetaDataBlock.vorbisComment flacvorbisVendor cmt
      let blocks := putCommentBlock cmtBlock f.Meta
      match saveErr with
      | some err => .error ("failed to save FLAC file: " ++ err)
      | none => .ok (some { f with Meta := blocks })

/-! ## tidal.go, amazon.go, qobuz.go : the download entry points

The calls an entry point makes (network, file system, `EmbedMetadata`) are
given by their results in a `DownloadEnv`; an entry point is the control flow
between them. -/

/-- The results of the calls made by a download entry point. An error is given by
its message, `none` standing for `nil`. -/
structure DownloadEnv where
  /-- The error of `GetAvailableAPIs`. -/
  availableAPIs : Option String
  /-- The error of `os.MkdirAll(outputDir, 0755)`. -/
  mkdirAll : Option String
  /-- The error of `GetTrackIDFromURL`. -/
  trackIDFromURL : Option String
  /-- The field `ID` of the track of `GetTrackInfoByID`, or its error. -/
  trackInfoByID : Except String Int
  /-- The field `ID` of the track of `SearchTrackByMetadataWithISRC`, or its
  error. -/
  searchTrack : Except String Int
  /-- The error of Qobuz `SearchByISRC`. -/
  searchByISRC : Option String
  /-- The file found by `CheckISRCExists`, if any. -/
  isrcExists : Option String
  /-- The path `filepath.Join(outputDir, filename)` of the file to write (for
  Amazon, the expected path tested before the download). -/
  outputFilename : String
  /-- The test `err == nil && fileInfo.Size() > 0` after `os.Stat` of that
  path. -/
  statNonEmpty : Bool
  /-- The result of `GetDownloadURL`. -/
  downloadURL : Except String String
  /-- The error of `getDownloadURLParallel`. -/
  downloadURLParallel : Option String
  /-- The error of `DownloadFile`: the transfer. -/
  downloadFile : Option String
  /-- The result of Amazon `DownloadFromService`, the transfer: the path
  written. -/
  downloadFromService : Except String String
  /-- The path `filepath.Join(outputDir, newFilename)` Amazon renames to. -/
  newFilePath : String
  /-- The error of `os.Rename`. -/
  rename : Option String
  /-- The error of `DownloadCoverToPath`. -/
  coverToPath : Option String
  /-- The error of `EmbedMetadata`. -/
  embedMetadata : Option String

/-- What an entry point returns, with what it did to the audio file: whether the
transfer returned without error, where the transferred file is on return
(`none` when it was removed or never written), and the warnings printed. -/
structure DownloadResult where
  path : String
  err : Option String
  transferred : Bool
  fileAt : Option String
  warnings : List String
  deriving DecidableEq, Repr

/-- A return `"", err` before the transfer has succeeded. -/
def failBefore (msg : String) : DownloadResult :=
  { path := "", err := some msg, transferred := false, fileAt := none, warnings := [] }

/-- A return `"EXISTS:" + path, nil`. -/
def alreadyExists (path : String) : DownloadResult :=
  { path := "EXISTS:" ++ path, err := none, transferred := false, fileAt := none,
    warnings := [] }

/-- Go `os.Remove(target)`, as far as the transferred file is concerned. -/
def osRemove (fileAt : Option String) (target : String) : Option String :=
  if fileAt = some target then none else fileAt

/-- The cover download that follows the transfer in every entry point: the
value of `coverPath`, the paths of the deferred `os.Remove` calls, and the
warnings printed. -/
def downloadCover (env : DownloadEnv) (file spotifyCoverURL : String) :
    String × List String × List String :=
  if spotifyCoverURL ≠ "" then
    match env.coverToPath with
    | some err => ("", [], ["Warning: Failed to download Spotify cover: " ++ err])
    | none => (file ++ ".cover.jpg", [file ++ ".cover.jpg"], [])
  else ("", [], [])

/-- The lines after the transfer in the four Tidal entry points (852-895,
967-1010, 1102-1145, 1430-1473): the cover download, `EmbedMetadata`, whose
error is printed, and the return of the path; the deferred removals run at the
return. -/
def tidalEmbedAndReturn (env : DownloadEnv) (outputFilename spotifyCoverURL : String) :
    DownloadResult :=
  let cover := downloadCover env outputFilename spotifyCoverURL
  let embedWarnings := match env.embedMetadata with
    | some err => ["Tagging failed: " ++ err]
    | none => []
  { path := outputFilename, err := none, transferred := true,
    fileAt := cover.2.1.foldl osRemove (some outputFilename),
    warnings := cover.2.2 ++ embedWarnings }

/-- Go `(*TidalDownloader).DownloadByURL`. -/
def TidalDownloader.DownloadByURL (env : DownloadEnv) (outputDir spotifyCoverURL : String) :
    DownloadResult :=
  match (if outputDir ≠ "." then env.mkdirAll else none) with
  | some err => failBefore ("directory error: " ++ err)
  | none =>
    match env.trackIDFromURL with
    | some err => failBefore err
    | none =>
      match env.trackInfoByID with
      | .error err => failBefore err
      | .ok trackInfoID =>
        if trackInfoID = 0 then failBefore "no track ID found"
        else
          match env.isrcExists with
          | some existingFile => alreadyExists existingFile
          | none =>
            if env.statNonEmpty then alreadyExists env.outputFilename
            else
              match env.downloadURL with
              | .error err => failBefore err
              | .ok _ =>
                match env.downloadFile with
                | some err => failBefore err
                | none => tidalEmbedAndReturn env env.outputFilename spotifyCoverURL

/-- Go `(*TidalDownloader).DownloadByURLWithFallback`. -/
def TidalDownloader.DownloadByURLWithFallback (env : DownloadEnv)
    (outputDir spotifyCoverURL : String) : DownloadResult :=
  match env.availableAPIs with
  | some err => failBefore ("no APIs available for fallback: " ++ err)
  | none =>
    match (if outputDir ≠ "." then env.mkdirAll else none) with
    | some err => failBefore ("directory error: " ++ err)
    | none =>
      match env.trackIDFromURL with
      | some err => failBefore err
      | none =>
        match env.trackInfoByID with
        | .error err => failBefore err
        | .ok trackInfoID =>
          if trackInfoID = 0 then failBefore "no track ID found"
          else
            match env.isrcExists with
            | some existingFile => alreadyExists existingFile
            | none =>
              if env.statNonEmpty then alreadyExists env.outputFilename
              else
                match env.downloadURLParallel with
                | some err => failBefore err
                | none =>
                  match env.downloadFile with
                  | some err => failBefore err
                  | none => tidalEmbedAndReturn env env.outputFilename spotifyCoverURL

/-- Go `(*TidalDownloader).DownloadBySearchWithISRC`. -/
def TidalDownloader.DownloadBySearchWithISRC (env : DownloadEnv)
    (outputDir spotifyCoverURL : String) : DownloadResult :=
  match (if outputDir ≠ "." then env.mkdirAll else none) with
  | some err => failBefore ("directory error: " ++ err)
  | none =>
    match env.searchTrack with
    | .error err => failBefore ("search fallback failed: " ++ err)
    | .ok trackInfoID =>
      if trackInfoID = 0 then failBefore "no track ID found from search"
      else
        match env.isrcExists with
        | some existingFile => alreadyExists existingFile
        | none =>
          if env.statNonEmpty then alreadyExists env.outputFilename
          else
            match env.downloadURL with
            | .error err => failBefore err
            | .ok _ =>
              match env.downloadFile with
              | some err => failBefore err
              | none => tidalEmbedAndReturn env env.outputFilename spotifyCoverURL

/-- Go `(*TidalDownloader).DownloadBySearchWithFallback`. -/
def TidalDownloader.DownloadBySearchWithFallback (env : DownloadEnv)
    (outputDir spotifyCoverURL : String) : DownloadResult :=
  match env.availableAPIs with
  | some err => failBefore ("no APIs available for fallback: " ++ err)
  | none =>
    match (if outputDir ≠ "." then env.mkdirAll else none) with
    | some err => failBefore ("directory error: " ++ err)
    | none =>
      match env.searchTrack with
      | .error err => failBefore ("search failed: " ++ err)
      | .ok trackInfoID =>
        if trackInfoID = 0 then failBefore "no track ID found from search"
        else
          match env.isrcExists with
          | some existingFile => alreadyExists existingFile
          | none =>
            if env.statNonEmpty then alreadyExists env.outputFilename
            else
              match env.downloadURLParallel with
              | some err => failBefore err
              | none =>
                match env.downloadFile with
                | some err => failBefore ("download failed: " ++ err)
                | none => tidalEmbedAndReturn env env.outputFilename spotifyCoverURL

/-- Go `(*AmazonDownloader).DownloadByURL`. -/
def AmazonDownloader.DownloadByURL (env : DownloadEnv)
    (outputDir spotifyTrackName spotifyArtistName spotifyCoverURL : String) : DownloadResult :=
  match (if outputDir ≠ "." then env.mkdirAll else none) with
  | some err => failBefore ("failed to create output directory: " ++ err)
  | none =>
    if spotifyTrackName ≠ "" ∧ spotifyArtistName ≠ "" ∧ env.statNonEmpty = true then
      alreadyExists env.outputFilename
    else
      match env.downloadFromService with
      | .error err => failBefore err
      | .ok downloaded =>
        let renamed : String × List String :=
          if spotifyTrackName ≠ "" ∧ spotifyArtistName ≠ "" then
            match env.rename with
            | some err => (downloaded, ["Warning: Failed to rename file: " ++ err])
            | none => (env.newFilePath, [])
          else (downloaded, [])
        let filePath := renamed.1
        let cover := downloadCover env filePath spotifyCoverURL
        let embedWarnings := match env.embedMetadata with
          | some err => ["Warning: Failed to embed metadata: " ++ err]
          | none => []
        { path := filePath, err := none, transferred := true,
          fileAt := cover.2.1.foldl osRemove (some filePath),
          warnings := renamed.2 ++ cover.2.2 ++ embedWarnings }

/-- Go `(*QobuzDownloader).DownloadByISRC`. -/
def QobuzDownloader.DownloadByISRC (env : DownloadEnv) (outputDir spotifyCoverURL : String) :
    DownloadResult :=
  match (if outputDir ≠ "." then env.mkdirAll else none) with
  | some err => failBefore ("failed to create output directory: " ++ err)
  | none =>
    match env.searchByISRC with
    | some err => failBefore err
    | none =>
      match env.downloadURL with
      | .error err => failBefore ("failed to get download URL: " ++ err)
      | .ok downloadURL =>
        if downloadURL = "" then failBefore "received empty download URL"
        else
          match env.isrcExists with
          | some existingFile => alreadyExists existingFile
          | none =>
            if env.statNonEmpty then alreadyExists env.outputFilename
            else
              match env.downloadFile with
              | some err => failBefore ("failed to download file: " ++ err)
              | none =>
                let cover := downloadCover env env.outputFilename spotifyCoverURL
                let fileAt := cover.2.1.foldl osRemove (some env.outputFilename)
                match env.embedMetadata with
                | some err =>
                  { path := "", err := some ("failed to embed metadata: " ++ err),
                    transferred := true, fileAt := fileAt, warnings := cover.2.2 }
                | none =>
                  { path := env.outputFilename, err := none, transferred := true,
                    fileAt := fileAt, warnings := cover.2.2 }

/-! ## tidal.go : getDownloadURLParallel

The goroutines send one `manifestResult` each on a channel; the collecting loop
reads them in the order they arrive. That order is an argument of the model. -/

/-- Go `manifestResult`; `err` is the message of the error, `none` for `nil`. -/
structure manifestResult where
  apiURL : String
  manifest : String
  err : Option String
  deriving DecidableEq, Repr

/-- What `json.Unmarshal` makes of a response body: `v2` is
`v2Response.Data.Manifest` when the body decodes as a `TidalAPIResponseV2`,
`v1` holds the `OriginalTrackURL` of the items when the body decodes as a list
of `TidalAPIResponse`. -/
structure MirrorBody where
  v2 : Option String
  v1 : Option (List String)
  deriving DecidableEq, Repr

/-- What a mirror answers to `client.Get`: a transport error, or a response with
its status code and its body (or the error of reading it). -/
inductive MirrorAnswer where
  | transportError (err : String)
  | response (statusCode : Int) (body : Except String MirrorBody)

/-- Go `strings.TrimPrefix`. -/
def TrimPrefix (s pre : String) : String :=
  if HasPrefix s pre then String.mk (s.data.drop pre.data.length) else s

/-- The loop over `v1Responses`: the first `OriginalTrackURL` that is not
empty. -/
def firstOriginalTrackURL : List String → Option String
  | [] => none
  | url :: rest => if url ≠ "" then some url else firstOriginalTrackURL rest

/-- The body of the goroutine (lines 1279-1321): the one result it sends. -/
def requestMirror (api : String) : MirrorAnswer → manifestResult
  | .transportError err => { apiURL := api, manifest := "", err := some err }
  | .response statusCode body =>
    if statusCode ≠ 200 then
      { apiURL := api, manifest := "", err := some ("HTTP " ++ Itoa statusCode) }
    else
      match body with
      | .error err => { apiURL := api, manifest := "", err := some err }
      | .ok parsed =>
        let v1Result : manifestResult :=
          match parsed.v1.bind firstOriginalTrackURL with
          | some url => { apiURL := api, manifest := "DIRECT:" ++ url, err := none }
          | none =>
            { apiURL := api, manifest := "",
              err := some "no download URL or manifest in response" }
        match parsed.v2 with
        | some manifest =>
          if manifest ≠ "" then { apiURL := api, manifest := manifest, err := none }
          else v1Result
        | none => v1Result

/-- Go `GetDownloadURL` (lines 521-581) on the answer of its mirror, the
sequential sibling of `getDownloadURLParallel`: the locator returned, `none` for
each of the returns with an error. -/
def GetDownloadURL : MirrorAnswer → Option String
  | .transportError _ => none
  | .response statusCode body =>
    if statusCode ≠ 200 then none
    else
      match body with
      | .error _ => none
      | .ok parsed =>
        let v1Result : Option String :=
          match parsed.v1 with
          | none => none
          | some urls => if urls.length = 0 then none else firstOriginalTrackURL urls
        match parsed.v2 with
        | some manifest =>
          if manifest ≠ "" then some ("MANIFEST:" ++ manifest) else v1Result
        | none => v1Result

/-- What `getDownloadURLParallel` returns: the mirror and the locator, or an
error; `nilError` stands for the call `result.err.Error()` on a `nil` error. -/
inductive URLResult where
  | found (apiURL locator : String)
  | failed (msg : String)
  | nilError
  deriving DecidableEq, Repr

/-- The collecting loop (lines 1327-1352) over the results in the order they
arrive, `apiCount` being `len(apis)`. -/
def collectLoop (apiCount : Nat) : List manifestResult → Option String → URLResult
  | [], lastError =>
    .failed ("all " ++ Itoa apiCount ++ " APIs failed. Last error: " ++ lastError.getD "<nil>")
  | result :: rest, _ =>
    if result.err = none ∧ result.manifest ≠ "" then
      if HasPrefix result.manifest "DIRECT:" then
        .found result.apiURL (TrimPrefix result.manifest "DIRECT:")
      else .found result.apiURL ("MANIFEST:" ++ result.manifest)
    else
      match result.err with
      | none => .nilError
      | some err => collectLoop apiCount rest (some err)

/-- Go `getDownloadURLParallel`. `answers` pairs each mirror with what it
answers, in the order in which the results arrive on the channel. -/
def getDownloadURLParallel (apis : List String) (answers : List (String × MirrorAnswer)) :
    URLResult :=
  if apis.length = 0 then .failed "no APIs available"
  else
    collectLoop apis.length
      ((answers.map (fun p => requestMirror p.1 p.2)).take apis.length) none

/-! ## analysis.go : the STREAMINFO block

A byte is a number below 256; a shift to the left on `uint8`, `uint32` and
`uint64` reduces modulo `2 ^ 8`, `2 ^ 32` and `2 ^ 64`, and so does an
addition. -/

/-- The fields of `AnalysisResult` that `AnalyzeTrack` reads from the STREAMINFO
block. -/
structure StreamProperties where
  SampleRate : Nat
  Channels : Nat
  BitsPerSample : Nat
  TotalSamples : Nat
  deriving DecidableEq, Repr

/-- Go `x << k` on an unsigned integer of `w` bits. -/
def shiftLeftBits (w x k : Nat) : Nat := (x <<< k) % 2 ^ w

/-- Lines 55-71 of `AnalyzeTrack` on `data := streamInfo.Data`: the four fields
keep their zero value when `len(data) < 18`. -/
def decodeStreamInfo (data : List Nat) : StreamProperties :=
  if data.length ≥ 18 then
    let byte := fun i => data.getD i 0
    { SampleRate :=
        (shiftLeftBits 32 (byte 10) 12 ||| shiftLeftBits 32 (byte 11) 4) ||| (byte 12 >>> 4)
      Channels := (((byte 12 >>> 1) &&& 0x07) + 1) % 2 ^ 8
      BitsPerSample := ((shiftLeftBits 8 (byte 12 &&& 0x01) 4 ||| (byte 13 >>> 4)) + 1) % 2 ^ 8
      TotalSamples :=
        (((shiftLeftBits 64 (byte 13 &&& 0x0F) 32 ||| shiftLeftBits 64 (byte 14) 24) |||
            shiftLeftBits 64 (byte 15) 16) ||| shiftLeftBits 64 (byte 16) 8) ||| byte 17 }
  else { SampleRate := 0, Channels := 0, BitsPerSample := 0, TotalSamples := 0 }

/-! ## filename.go (package backend) : sanitizeFilename

A Go string is a sequence of bytes; the model takes the text as a sequence of
characters, which is the same for valid UTF-8, the only input considered. -/

/-- The backslash character. -/
def backslash : Char := Char.ofNat 92

/-- The character class `[<>:"\\|?*]` of the first regular expression. -/
def isInvalidFilesystemChar (c : Char) : Bool :=
  c == '<' || c == '>' || c == ':' || c == dq || c == backslash || c == '|' || c == '?' ||
    c == '*'

/-- Go `unicode.IsControl`: the characters of category Cc. -/
def IsControl (r : Char) : Bool :=
  decide (r.toNat < 0x20) || (decide (0x7F ≤ r.toNat) && decide (r.toNat ≤ 0x9F))

/-- The body of the loop over the runes (lines 85-108): whether the rune is
written to the builder. -/
def keepsRune (r : Char) : Bool :=
  let n := r.toNat
  if n < 0x20 ∧ n ≠ 0x09 ∧ n ≠ 0x0A ∧ n ≠ 0x0D then false
  else if n = 0x7F then false
  else if IsControl r = true ∧ n ≠ 0x09 ∧ n ≠ 0x0A ∧ n ≠ 0x0D then false
  else if (n ≥ 0x1F300 ∧ n ≤ 0x1F9FF) ∨ (n ≥ 0x2600 ∧ n ≤ 0x26FF) ∨
      (n ≥ 0x2700 ∧ n ≤ 0x27BF) ∨ (n ≥ 0xFE00 ∧ n ≤ 0xFE0F) ∨
      (n ≥ 0x1F900 ∧ n ≤ 0x1F9FF) ∨ (n ≥ 0x1F600 ∧ n ≤ 0x1F64F) ∨
      (n ≥ 0x1F680 ∧ n ≤ 0x1F6FF) ∨ (n ≥ 0x1F1E0 ∧ n ≤ 0x1F1FF) then false
  else true

/-- Go `unicode.IsSpace`. -/
def IsSpace (r : Char) : Bool :=
  let n := r.toNat
  decide ((0x09 ≤ n ∧ n ≤ 0x0D) ∨ n = 0x20 ∨ n = 0x85 ∨ n = 0xA0 ∨ n = 0x1680 ∨
    (0x2000 ≤ n ∧ n ≤ 0x200A) ∨ n = 0x2028 ∨ n = 0x2029 ∨ n = 0x202F ∨ n = 0x205F ∨
    n = 0x3000)

/-- The characters of a cut set removed from both ends. -/
def trimChars (inCutset : Char → Bool) (s : List Char) : List Char :=
  ((s.dropWhile inCutset).reverse.dropWhile inCutset).reverse

/-- Go `strings.TrimSpace`. -/
def TrimSpace (s : String) : String := String.mk (trimChars IsSpace s.data)

/-- Go `strings.Trim(s, cutset)`. -/
def Trim (s cutset : String) : String :=
  String.mk (trimChars (fun c => cutset.data.contains c) s.data)

/-- The class `\s` of Go regular expressions: `[\t\n\f\r ]`. -/
def isRegexSpace (c : Char) : Bool :=
  c == '\t' || c == '\n' || c == Char.ofNat 12 || c == '\r' || c == ' '

/-- The call `ReplaceAllString(s, repl)` of a regular expression `c+` for a class
of characters `c`: every maximal run of characters of the class is replaced by
`repl`. The flag tells whether the character before was of the class. -/
def replaceRuns (inClass : Char → Bool) (repl : Char) : Bool → List Char → List Char
  | _, [] => []
  | inRun, c :: cs =>
    if inClass c then
      if inRun then replaceRuns inClass repl true cs
      else repl :: replaceRuns inClass repl true cs
    else c :: replaceRuns inClass repl false cs

/-- Go `sanitizeFilename` of package `backend`. The last step, `ToValidUTF8`,
changes nothing in valid UTF-8. -/
def sanitizeFilename (name : String) : String :=
  let sanitized := ReplaceAll name "/" " "
  let sanitized := String.mk (sanitized.data.map
    (fun c => if isInvalidFilesystemChar c then ' ' else c))
  let sanitized := String.mk (sanitized.data.filter keepsRune)
  let sanitized := TrimSpace sanitized
  let sanitized := Trim sanitized ". "
  let sanitized := String.mk (replaceRuns isRegexSpace ' ' false sanitized.data)
  let sanitized := String.mk (replaceRuns (fun c => c == '_') '_' false sanitized.data)
  let sanitized := Trim sanitized "_ "
  if sanitized = "" then "Unknown" else sanitized

/-! ## filename.go (package gobackend) : buildFilenameFromTemplate

The metadata is a Go map from names to values of any type. The placeholder
table is a Go map as well, and `range` visits its keys in an order that the
language leaves open: that order is an argument of the model. Package `time`
is a library outside the repository and is a parameter. Text indexed by
bytes (`date[:4]`, `clean[:10]`) is indexed by characters, which is the same
for the ASCII text of a date. -/

/-- The left brace. -/
def lbrace : Char := Char.ofNat 123

/-- The right brace. -/
def rbrace : Char := Char.ofNat 125

/-- A value of the metadata map, by its dynamic type; a `float64` is given by the
result of the conversion `int(value)`, the only use made of it. -/
inductive MetaValue where
  | str (value : String)
  | int (value : Int)
  | int64 (value : Int)
  | float64 (asInt : Int)
  | other
  deriving DecidableEq, Repr

/-- The map `map[string]interface{}`, by its entries; the entry of a key is the
first one. -/
abbrev MetadataMap := List (String × MetaValue)

/-- Go `getString`. -/
def getString (m : MetadataMap) (key : String) : String :=
  match m.lookup key with
  | some (.str value) => TrimSpace value
  | some (.int value) => Itoa value
  | some (.int64 value) => Itoa value
  | some (.float64 asInt) => Itoa asInt
  | _ => ""

/-- The loop of `getInt` over `candidateKeys`. -/
def getIntLoop (m : MetadataMap) : List String → Int
  | [] => 0
  | candidate :: rest =>
    match m.lookup candidate with
    | some (.int n) => n
    | some (.int64 n) => n
    | some (.float64 asInt) => asInt
    | some (.str n) =>
      match Atoi (TrimSpace n) with
      | some parsed => parsed
      | none => getIntLoop m rest
    | _ => getIntLoop m rest

/-- Go `getInt`. -/
def getInt (m : MetadataMap) (key : String) : Int :=
  let candidateKeys :=
    if key = "track" then [key, "track_number"]
    else if key = "disc" then [key, "disc_number"]
    else [key]
  getIntLoop m candidateKeys

/-- Go `fmt.Sprintf` with a verb `%0<width>d`: the decimal numeral, filled with
zeros after the sign up to the width. -/
def sprintfZeroPadded (width : Nat) (n : Int) : String :=
  if n < 0 then
    "-" ++ String.mk (List.replicate (width - 1 - (Nat.repr n.natAbs).length) '0')
      ++ Nat.repr n.natAbs
  else String.mk (List.replicate (width - (Nat.repr n.toNat).length) '0') ++ Nat.repr n.toNat

/-- Go `fmt.Sprintf("%0*d", width, n)` for `width > 1`, the only call: `fmt`
refuses a width above one million, prints `%!(BADWIDTH)` and then the number
without a width. -/
def sprintfZeroStar (width n : Int) : String :=
  if width > 1000000 then "%!(BADWIDTH)" ++ Itoa n
  else sprintfZeroPadded width.toNat n

/-- Go `formatTrackNumber`. -/
def formatTrackNumber (n : Int) : String :=
  if n ≤ 0 then "" else sprintfZeroPadded 2 n

/-- Go `formatDiscNumber`. -/
def formatDiscNumber (n : Int) : String :=
  if n ≤ 0 then "" else Itoa n

/-- Go `formatRawNumber`. -/
def formatRawNumber (n : Int) : String :=
  if n ≤ 0 then "" else Itoa n

/-- Go `formatNumberWithWidth`. -/
def formatNumberWithWidth (n width : Int) : String :=
  if n ≤ 0 ∨ width ≤ 0 then ""
  else if width ≤ 1 then formatRawNumber n
  else sprintfZeroStar width n

/-- Go `ReplaceAllStringFunc` for a regular expression that matches no empty
text: `matchAt s` tells whether the expression matches at the start of `s`, and
gives then the replacement and the length of the match; matches are replaced
left to right without overlap. The counter is the number of characters of a
replaced match still to skip. -/
def replaceMatches (matchAt : List Char → Option (List Char × Nat)) :
    Nat → List Char → List Char
  | _, [] => []
  | k + 1, _ :: cs => replaceMatches matchAt k cs
  | 0, c :: cs =>
    match matchAt (c :: cs) with
    | some (repl, len) => repl ++ replaceMatches matchAt (len - 1) cs
    | none => c :: replaceMatches matchAt 0 cs

/-- The regular expression `\{(track|disc):([0-9]+)\}` at the start of `s`: the
two captures when it matches. -/
def matchNumberPlaceholder (s : List Char) : Option (String × List Char) :=
  match s with
  | [] => none
  | c :: rest =>
    if c = lbrace then
      let afterName : Option (String × List Char) :=
        if "track:".data.isPrefixOf rest then some ("track", rest.drop 6)
        else if "disc:".data.isPrefixOf rest then some ("disc", rest.drop 5)
        else none
      match afterName with
      | some (name, tail) =>
        let digits := tail.takeWhile Char.isDigit
        if digits ≠ [] ∧ (tail.drop digits.length).head? = some rbrace then some (name, digits)
        else none
      | none => none
    else none

/-- The function passed to `ReplaceAllStringFunc` in
`replaceFormattedNumberPlaceholders`, on the two captures. -/
def formattedNumber (metadata : MetadataMap) (name : String) (digits : List Char) : String :=
  let number := getInt metadata name
  match Atoi (String.mk digits) with
  | none => ""
  | some width => formatNumberWithWidth number width

/-- Go `replaceFormattedNumberPlaceholders`. -/
def replaceFormattedNumberPlaceholders (template : String) (metadata : MetadataMap) : String :=
  String.mk (replaceMatches
    (fun s => (matchNumberPlaceholder s).map
      (fun p => ((formattedNumber metadata p.1 p.2).data, p.1.length + p.2.length + 3)))
    0 template.data)

/-- Package `time` as far as `formatDateWithPattern` uses it: `Parse(layout,
value)` with `none` for an error, `Format`, and `Date(year, time.January, 1, 0,
0, 0, 0, time.UTC)`. -/
structure TimeLib (T : Type) where
  Parse : String → String → Option T
  Format : T → String → String
  Date : Int → T

/-- The layouts tried by `parseMetadataDate`, the first two being
`time.RFC3339Nano` and `time.RFC3339`. -/
def dateLayouts : List String :=
  ["2006-01-02T15:04:05.999999999Z07:00", "2006-01-02T15:04:05Z07:00", "2006-01-02",
   "2006-01", "2006", "2006/01/02", "2006/01", "2006.01.02", "2006.01"]

/-- The loop of `parseMetadataDate` over the layouts. -/
def parseLayoutsLoop {T : Type} (lib : TimeLib T) (clean : String) : List String → Option T
  | [] => none
  | layout :: rest =>
    match lib.Parse layout clean with
    | some parsed => some parsed
    | none => parseLayoutsLoop lib clean rest

/-- The call `yearPattern.FindString` for the expression `\d{4}`: the leftmost
four digits in a row. -/
def findYear : List Char → Option (List Char)
  | [] => none
  | c :: cs =>
    if ((c :: cs).take 4).length = 4 ∧ ((c :: cs).take 4).all Char.isDigit then
      some ((c :: cs).take 4)
    else findYear cs

/-- Go `parseMetadataDate`; `none` stands for the result `false`. -/
def parseMetadataDate {T : Type} (lib : TimeLib T) (rawDate : String) : Option T :=
  let clean := TrimSpace rawDate
  if clean = "" then none
  else
    match parseLayoutsLoop lib clean dateLayouts with
    | some parsed => some parsed
    | none =>
      let prefixParsed :=
        if clean.length ≥ 10 then lib.Parse "2006-01-02" (String.mk (clean.data.take 10))
        else none
      match prefixParsed with
      | some parsed => some parsed
      | none =>
        match findYear clean.data with
        | none => none
        | some yearMatch =>
          match Atoi (String.mk yearMatch) with
          | none => none
          | some year => if year ≤ 0 then none else some (lib.Date year)

/-- The loop of `convertStrftimeToGoLayout` over the pattern. -/
def convertStrftimeLoop : List Char → List Char
  | [] => []
  | ch :: rest =>
    if ch ≠ '%' then ch :: convertStrftimeLoop rest
    else
      match rest with
      | [] => ['%']
      | directive :: rest' =>
        (if directive = 'Y' then "2006".data
          else if directive = 'y' then "06".data
          else if directive = 'm' then "01".data
          else if directive = 'd' then "02".data
          else if directive = 'b' then "Jan".data
          else if directive = 'B' then "January".data
          else if directive = '%' then ['%']
          else ['%', directive]) ++ convertStrftimeLoop rest'

/-- Go `convertStrftimeToGoLayout`. -/
def convertStrftimeToGoLayout (pattern : String) : String :=
  String.mk (convertStrftimeLoop pattern.data)

/-- Go `formatDateWithPattern`. -/
def formatDateWithPattern {T : Type} (lib : TimeLib T) (rawDate strftimePattern : String) :
    String :=
  if rawDate = "" ∨ strftimePattern = "" then ""
  else
    match parseMetadataDate lib rawDate with
    | none => ""
    | some parsedDate =>
      let goLayout := convertStrftimeToGoLayout strftimePattern
      if goLayout = "" then "" else lib.Format parsedDate goLayout

/-- Go `getDateValue`. -/
def getDateValue (metadata : MetadataMap) : String :=
  let date := getString metadata "date"
  if date ≠ "" then date
  else
    let releaseDate := getString metadata "release_date"
    if releaseDate ≠ "" then releaseDate else getString metadata "year"

/-- The regular expression `\{date:([^{}]+)\}` at the start of `s`: the capture
when it matches. -/
def matchDatePlaceholder (s : List Char) : Option (List Char) :=
  match s with
  | [] => none
  | c :: rest =>
    if c = lbrace ∧ "date:".data.isPrefixOf rest = true then
      let tail := rest.drop 5
      let pattern := tail.takeWhile (fun x => x ≠ lbrace ∧ x ≠ rbrace)
      if pattern ≠ [] ∧ (tail.drop pattern.length).head? = some rbrace then some pattern
      else none
    else none

/-- Go `replaceDateFormatPlaceholders`. -/
def replaceDateFormatPlaceholders {T : Type} (lib : TimeLib T) (template : String)
    (metadata : MetadataMap) : String :=
  String.mk (replaceMatches
    (fun s => (matchDatePlaceholder s).map
      (fun pattern =>
        ((formatDateWithPattern lib (getDateValue metadata) (String.mk pattern)).data,
          pattern.length + 7)))
    0 template.data)

/-- Go `extractYear` of package `gobackend`. -/
def extractYear (date : String) : String :=
  if date.length ≥ 4 then String.mk (date.data.take 4) else date

/-- The map `placeholders` of `buildFilenameFromTemplate`, in the order of the
source text. -/
def placeholderTable (metadata : MetadataMap) : List (String × String) :=
  let dateValue := getDateValue metadata
  let yearValue := getString metadata "year"
  let yearValue := if yearValue = "" then extractYear dateValue else yearValue
  [("\x7btitle\x7d", getString metadata "title"),
   ("\x7bartist\x7d", getString metadata "artist"),
   ("\x7balbum\x7d", getString metadata "album"),
   ("\x7btrack\x7d", formatTrackNumber (getInt metadata "track")),
   ("\x7btrack_raw\x7d", formatRawNumber (getInt metadata "track")),
   ("\x7byear\x7d", yearValue),
   ("\x7bdate\x7d", dateValue),
   ("\x7bdisc\x7d", formatDiscNumber (getInt metadata "disc")),
   ("\x7bdisc_raw\x7d", formatRawNumber (getInt metadata "disc"))]

/-- The loop `for placeholder, value := range placeholders`, `order` being the
keys in the order in which `range` visits them. -/
def replacePlaceholdersLoop (table : List (String × String)) (result : String) :
    List String → String
  | [] => result
  | placeholder :: rest =>
    match table.lookup placeholder with
    | some value => replacePlaceholdersLoop table (ReplaceAll result placeholder value) rest
    | none => replacePlaceholdersLoop table result rest

/-- Go `buildFilenameFromTemplate`; `order` is the order in which `range` visits
the keys of `placeholders`, a permutation of them. -/
def buildFilenameFromTemplate {T : Type} (lib : TimeLib T) (order : List String)
    (template : String) (metadata : MetadataMap) : String :=
  let template := if template = "" then "\x7bartist\x7d - \x7btitle\x7d" else template
  let result := replaceFormattedNumberPlaceholders template metadata
  let result := replaceDateFormatPlaceholders lib result metadata
  replacePlaceholdersLoop (placeholderTable metadata) result order

/-! ## spectrum.go : the fast Fourier transform

The arithmetic of `complex128` is taken exact: the model works over any type
with the operations of a ring, and the factor
`cmplx.Exp(complex(0, -2*math.Pi*float64(k)/float64(n)))` is the parameter
`twiddle k n`. A slice made by `make` starts filled with zeros. -/

/-- Go `fftRecursive`. The recursion is on the length of `x`, which the two
halves `even` and `odd` divide by two. -/
def fftRecursive {K : Type} [Zero K] [Add K] [Sub K] [Mul K] (twiddle : Nat → Nat → K)
    (x : List K) : List K :=
  if x.length ≤ 1 then x
  else
    let n := x.length
    let even := (List.range (n / 2)).map (fun i => x.getD (2 * i) 0)
    let odd := (List.range (n / 2)).map (fun i => x.getD (2 * i + 1) 0)
    let evenFFT := fftRecursive twiddle even
    let oddFFT := fftRecursive twiddle odd
    (List.range (n / 2)).map (fun k => evenFFT.getD k 0 + twiddle k n * oddFFT.getD k 0) ++
      (List.range (n / 2)).map (fun k => evenFFT.getD k 0 - twiddle k n * oddFFT.getD k 0) ++
      List.replicate (n - 2 * (n / 2)) 0
termination_by x.length
decreasing_by
  all_goals simp only [List.length_map, List.length_range]
  all_goals omega

/-- Go `fft`: the samples as complex numbers, then `fftRecursive`; `ofReal` is
the conversion `complex(samples[i], 0)`. -/
def fft {R K : Type} [Zero K] [Add K] [Sub K] [Mul K] (ofReal : R → K)
    (twiddle : Nat → Nat → K) (samples : List R) : List K :=
  fftRecursive twiddle (samples.map ofReal)

/-! ## Quantities of the claims and sample data -/

/-- A candidate with the given id, ISRC, duration, quality and tags. -/
def sampleTrack (id : Int) (isrc : String) (duration : Int) (quality : String)
    (tags : List String) : TidalTrack :=
  { ID := id, Title := "Song", ISRC := isrc, AudioQuality := quality, TrackNumber := 1,
    VolumeNumber := 1, Duration := duration, Copyright := "", Explicit := false,
    AlbumTitle := "Album", AlbumCover := "", AlbumReleaseDate := "", Artists := ["Artist"],
    ArtistName := "Artist", Tags := tags }

/-- The number `sum (r_i + 1)` of segments a timeline describes, in unbounded
integers. -/
def timelineTotal (segments : List Segment) : Int :=
  (segments.map (fun seg => seg.Repeat + 1)).sum

/-- Decoders answering one manifest: the decoded text and what the JSON and XML
decoders return on it. -/
def decodersFor (manifestStr : String) (json : Except String TidalBTSManifest)
    (xml : Except String MPD) : Decoders :=
  { base64Decode := fun _ => .ok manifestStr
    jsonUnmarshal := fun _ => json
    xmlUnmarshal := fun _ => xml }

/-- A DASH manifest with a `$Number$` template and a timeline of three segments
without repeats. -/
def dashThree : String :=
  "<MPD><Period><AdaptationSet><Representation><SegmentTemplate initialization=\"https://h/init.mp4\" media=\"https://h/$Number$.mp4\"><SegmentTimeline><S d=\"4\"/><S d=\"4\"/><S d=\"4\"/></SegmentTimeline></SegmentTemplate></Representation></AdaptationSet></Period></MPD>"

/-- What `xml.Unmarshal` reads from `dashThree`. -/
def dashThreeMPD : MPD :=
  { Initialization := "https://h/init.mp4", Media := "https://h/$Number$.mp4",
    Segments := [⟨4, 0⟩, ⟨4, 0⟩, ⟨4, 0⟩] }

/-- A DASH manifest whose only timeline entry has `r="9223372036854775807"`. -/
def dashHuge : String :=
  "<MPD><Period><AdaptationSet><Representation><SegmentTemplate initialization=\"https://h/init.mp4\" media=\"https://h/$Number$.mp4\"><SegmentTimeline><S d=\"4\" r=\"9223372036854775807\"/></SegmentTimeline></SegmentTemplate></Representation></AdaptationSet></Period></MPD>"

/-- What `xml.Unmarshal` reads from `dashHuge`. -/
def dashHugeMPD : MPD :=
  { Initialization := "https://h/init.mp4", Media := "https://h/$Number$.mp4",
    Segments := [⟨4, 9223372036854775807⟩] }

/-- A DASH manifest cut off after its first timeline entry: `xml.Unmarshal`
reports a syntax error on it. -/
def dashTruncated : String :=
  "<MPD><Period><AdaptationSet><Representation><SegmentTemplate initialization=\"https://h/init.mp4?a=1&amp;b=2\" media=\"https://h/$Number$.mp4?a=1&amp;b=2\"><SegmentTimeline><S d=\"4\" r=\"2\"/>"

/-- A well-formed manifest whose `SegmentTemplate` is a child of `AdaptationSet`
and not of `Representation`: `xml.Unmarshal` succeeds and leaves the fields of
`MPD` at their zero values. -/
def dashOffPath : String :=
  "<MPD><Period><AdaptationSet><SegmentTemplate initialization=\"https://h/init.mp4?a=1&amp;b=2\" media=\"https://h/$Number$.mp4?a=1&amp;b=2\"><SegmentTimeline><S d=\"4\" r=\"2\"/><S d=\"3\"/></SegmentTimeline></SegmentTemplate></AdaptationSet></Period></MPD>"

/-- A BTS manifest whose URL list holds one empty string. -/
def btsEmptyURL : String := "\x7b\"urls\":[\"\"]\x7d"

/-- The package-level variables before any call: every variable at its zero
value. -/
def initialStore (F : Type) [Zero F] : QueueStore F :=
  { currentProgress := 0, isDownloading := false, currentSpeed := 0, downloadQueue := [],
    currentItemID := "", totalDownloaded := 0, sessionStartTime := 0 }

/-- A queued item as `AddToQueue` creates it, with numbers in `ℚ`. -/
def queuedItem (id : String) : DownloadItem ℚ :=
  { ID := id, TrackName := "Song", ArtistName := "Artist", AlbumName := "Album",
    ISRC := "US1234567890", Status := StatusQueued, Progress := 0, TotalSize := 0, Speed := 0,
    StartTime := 0, EndTime := 0, ErrorMessage := "", FilePath := "" }

/-- The field names `EmbedMetadata` writes, in the order of the calls of `Add`. -/
def embedKeys : List String :=
  ["TITLE", "ARTIST", "ALBUM", "ALBUMARTIST", "DATE", "TRACKNUMBER", "TOTALTRACKS",
   "DISCNUMBER", "ISRC", "DESCRIPTION", "LYRICS"]

/-- What the theorems use of package `strings`: `EqualFold` holds between a
string and itself, and on the field names of `embedKeys`, which are made of
upper-case ASCII letters, `ToUpper` changes nothing and `EqualFold` is
equality. -/
structure StringsLib.Sound (lib : StringsLib) : Prop where
  equalFold_refl : ∀ s, lib.EqualFold s s = true
  toUpper_key : ∀ k ∈ embedKeys, lib.ToUpper k = k
  equalFold_key : ∀ k ∈ embedKeys, ∀ k' ∈ embedKeys, lib.EqualFold k k' = decide (k = k')

/-- The three functions restricted to ASCII letters, for the examples. -/
def asciiStrings : StringsLib :=
  { EqualFold := fun a b => a.data.map Char.toUpper == b.data.map Char.toUpper
    ToUpper := fun a => String.mk (a.data.map Char.toUpper)
    ToLower := fun a => String.mk (a.data.map Char.toLower) }

/-- The value a Metadata sets for a field name: the string when it is not empty,
the numeral when the number is above zero, nothing otherwise. -/
def fieldValue (metadata : Metadata) (key : String) : Option String :=
  if key = "TITLE" then (if metadata.Title ≠ "" then some metadata.Title else none)
  else if key = "ARTIST" then (if metadata.Artist ≠ "" then some metadata.Artist else none)
  else if key = "ALBUM" then (if metadata.Album ≠ "" then some metadata.Album else none)
  else if key = "ALBUMARTIST" then
    (if metadata.AlbumArtist ≠ "" then some metadata.AlbumArtist else none)
  else if key = "DATE" then (if metadata.Date ≠ "" then some metadata.Date else none)
  else if key = "TRACKNUMBER" then
    (if metadata.TrackNumber > 0 then some (Itoa metadata.TrackNumber) else none)
  else if key = "TOTALTRACKS" then
    (if metadata.TotalTracks > 0 then some (Itoa metadata.TotalTracks) else none)
  else if key = "DISCNUMBER" then
    (if metadata.DiscNumber > 0 then some (Itoa metadata.DiscNumber) else none)
  else if key = "ISRC" then (if metadata.ISRC ≠ "" then some metadata.ISRC else none)
  else if key = "DESCRIPTION" then
    (if metadata.Description ≠ "" then some metadata.Description else none)
  else if key = "LYRICS" then (if metadata.Lyrics ≠ "" then some metadata.Lyrics else none)
  else none

/-- One name and value when the condition holds, nothing otherwise. -/
def optField (c : Prop) [Decidable c] (key val : String) : List (String × String) :=
  if c then [(key, val)] else []

/-- The names and values of the comments of `embedComments`, in order. -/
def embedFields (metadata : Metadata) : List (String × String) :=
  optField (metadata.Title ≠ "") "TITLE" metadata.Title ++
  optField (metadata.Artist ≠ "") "ARTIST" metadata.Artist ++
  optField (metadata.Album ≠ "") "ALBUM" metadata.Album ++
  optField (metadata.AlbumArtist ≠ "") "ALBUMARTIST" metadata.AlbumArtist ++
  optField (metadata.Date ≠ "") "DATE" metadata.Date ++
  optField (metadata.TrackNumber > 0) "TRACKNUMBER" (Itoa metadata.TrackNumber) ++
  optField (metadata.TotalTracks > 0) "TOTALTRACKS" (Itoa metadata.TotalTracks) ++
  optField (metadata.DiscNumber > 0) "DISCNUMBER" (Itoa metadata.DiscNumber) ++
  optField (metadata.ISRC ≠ "") "ISRC" metadata.ISRC ++
  optField (metadata.Description ≠ "") "DESCRIPTION" metadata.Description ++
  optField (metadata.Lyrics ≠ "") "LYRICS" metadata.Lyrics

/-- A Metadata for the examples. -/
def sampleMetadata : Metadata :=
  { Title := "Song", Artist := "Artist", Album := "Album", AlbumArtist := "", Date := "2020-05-01",
    ReleaseDate := "2020-05-01", TrackNumber := 3, TotalTracks := 12, DiscNumber := 0,
    ISRC := "US1234567890", Lyrics := "", Description := "a=b" }

/-- A parsed file with a STREAMINFO block, a comment block holding `COMPOSER=x`
and `TITLE=Old`, and a padding block. -/
def sampleFlac : FlacFile :=
  { Meta := [.other 0 [16, 0], .vorbisComment "reference libFLAC" ["COMPOSER=x", "TITLE=Old"],
             .other 1 [0, 0]],
    Frames := [255, 248] }

/-- The body of `readComment` after the split, for a name that `ToUpper` leaves
as it is. -/
def readField (metadata : AudioMetadata) (fieldName value : String) : AudioMetadata :=
  if fieldName = "TITLE" then { metadata with Title := value }
  else if fieldName = "ARTIST" then { metadata with Artist := value }
  else if fieldName = "ALBUM" then { metadata with Album := value }
  else if fieldName = "ALBUMARTIST" then { metadata with AlbumArtist := value }
  else if fieldName = "TRACKNUMBER" then
    match Atoi value with
    | some num => { metadata with TrackNumber := num }
    | none => metadata
  else if fieldName = "DISCNUMBER" then
    match Atoi value with
    | some num => { metadata with DiscNumber := num }
    | none => metadata
  else if fieldName = "DATE" ∨ fieldName = "YEAR" then { metadata with Year := value }
  else metadata

/-- The value `readFlacMetadata` starts from. -/
def emptyAudioMetadata : AudioMetadata :=
  { Title := "", Artist := "", Album := "", AlbumArtist := "", TrackNumber := 0,
    DiscNumber := 0, Year := "" }

/-- An entry that the scan of `CheckISRCExists` removes when it visits it: a file
whose name ends in `.flac`, that `flac.ParseFile` rejects, and on whose path
`os.Remove` succeeds. -/
def isRemovedFlac (remove : String → Bool) (outputDir : String) : FSNode → Bool
  | .file name none => hasFlacSuffix name && remove (outputDir ++ "/" ++ name)
  | _ => false

/-- A file system in which every `os.Remove` succeeds. -/
def removeSucceeds : String → Bool := fun _ => true

/-- A file system in which every `os.Remove` fails, as in a directory without
write permission. -/
def removeFails : String → Bool := fun _ => false

/-- A parsed file whose comment block holds the given ISRC. -/
def taggedFlac (isrc : String) : FlacFile :=
  { Meta := [.other 0 [16, 0], .vorbisComment "reference libFLAC" ["TITLE=Song", "ISRC=" ++ isrc]],
    Frames := [255, 248] }

/-- A parsed file whose comment block holds no ISRC. -/
def untaggedFlac : FlacFile :=
  { Meta := [.other 0 [16, 0], .vorbisComment "reference libFLAC" ["TITLE=Song"]],
    Frames := [255, 248] }

/-- What holds between the calls: the last answer is not in the future, every
request so far was issued no later than the last answer, and the requests so
far are at least 7 seconds apart. -/
def LookupInv (w : LookupWorld) : Prop :=
  (∀ l, w.client.lastAPICallTime = some l → l ≤ w.clock) ∧
  (∀ t ∈ requestTimes w.log, ∃ l, w.client.lastAPICallTime = some l ∧ t ≤ l) ∧
  (requestTimes w.log).Pairwise (fun a b => a + 7 * second ≤ b)

/-- The comments that the loop of `EmbedLyricsOnly` carries over: those with a
`=` whose name `Add` accepts and is, in upper case, none of the three lyrics
names. -/
def isCarriedOver (lib : StringsLib) (comment : String) : Bool :=
  match splitField comment with
  | some (name, _) =>
    validFieldName name &&
      decide (lib.ToUpper name ≠ "LYRICS" ∧ lib.ToUpper name ≠ "UNSYNCEDLYRICS" ∧
        lib.ToUpper name ≠ "SYNCEDLYRICS")
  | none => false

/-- A parsed file whose comment block holds a title, a field whose name has a
letter outside ASCII, a comment without `=`, and old lyrics. -/
def lyricsFlac : FlacFile :=
  { Meta := [.other 0 [16, 0],
             .vorbisComment "reference libFLAC"
               ["TITLE=Song", "KÜNSTLER=Band", "remastered", "Lyrics=old"],
             .other 1 [0, 0]],
    Frames := [255, 248] }

/-- An environment in which every call succeeds except `EmbedMetadata`. -/
def embedFailsEnv : DownloadEnv :=
  { availableAPIs := none, mkdirAll := none, trackIDFromURL := none, trackInfoByID := .ok 7,
    searchTrack := .ok 7, searchByISRC := none, isrcExists := none,
    outputFilename := "out/Artist - Song.flac", statNonEmpty := false,
    downloadURL := .ok "https://cdn/7.flac", downloadURLParallel := none,
    downloadFile := none, downloadFromService := .ok "out/tmp.flac",
    newFilePath := "out/Artist - Song.flac", rename := none, coverToPath := none,
    embedMetadata := some "failed to save FLAC file" }

/-- A structurally valid answer: status 200, a readable body, and in it a v2
manifest that is not empty or a v1 item with a direct URL that is not empty. -/
def structurallyValid : MirrorAnswer → Bool
  | .response 200 (.ok parsed) =>
    (match parsed.v2 with
      | some manifest => decide (manifest ≠ "")
      | none => false) ||
    (match parsed.v1 with
      | some urls => urls.any (fun url => decide (url ≠ ""))
      | none => false)
  | _ => false

/-- The locator of a structurally valid answer: the v2 manifest marked
`MANIFEST:`, else the first direct URL that is not empty. -/
def locatorOf : MirrorAnswer → String
  | .response _ (.ok parsed) =>
    match parsed.v2 with
    | some manifest =>
      if manifest ≠ "" then "MANIFEST:" ++ manifest
      else ((parsed.v1.getD []).find? (fun url => decide (url ≠ ""))).getD ""
    | none => ((parsed.v1.getD []).find? (fun url => decide (url ≠ ""))).getD ""
  | _ => ""

/-- The v2 manifest of an answer, if it has one. -/
def v2Manifest : MirrorAnswer → Option String
  | .response _ (.ok parsed) => parsed.v2
  | _ => none

/-- Three mirrors. -/
def raceMirrors : List String := ["https://m1", "https://m2", "https://m3"]

/-- Their answers in an order of arrival: the second mirror answers first, with
status 200 and a body holding neither manifest nor URL; then the third, with a
direct URL; then the first, with a manifest. -/
def raceAnswers : List (String × MirrorAnswer) :=
  [("https://m2", .response 200 (.ok { v2 := some "", v1 := none })),
   ("https://m3", .response 200 (.ok { v2 := none, v1 := some ["", "https://cdn/a.flac"] })),
   ("https://m1", .response 200 (.ok { v2 := some "PE1QRD4=", v1 := none }))]

/-- The number a sequence of bytes writes, the first byte being the most
significant. -/
def bigEndian (bytes : List Nat) : Nat :=
  bytes.foldl (fun acc byte => acc * 256 + byte) 0

/-- The 64 bits of the STREAMINFO layout that follow the frame sizes: the sample
rate on 20 bits, the channel count less one on 3 bits, the bit depth less one on
5 bits, the total sample count on 36 bits. -/
def streamInfoBits (sr ch b t : Nat) : Nat :=
  sr * 2 ^ 44 + (ch - 1) * 2 ^ 41 + (b - 1) * 2 ^ 36 + t

/-- A STREAMINFO block of 34 bytes: 44100 Hz, 2 channels, 16 bits, 441000
samples. -/
def sampleStreamInfo : List Nat :=
  [16, 0, 16, 0, 0, 0, 14, 0, 56, 12, 10, 196, 66, 240, 0, 6, 186, 168,
   0, 0, 0, 0, 0, 0, 0, 0, 0, 0, 0, 0, 0, 0, 0, 0]

/-- The characters that the claim on `sanitizeFilename` excludes from the
result: `< > : " / \ | ? *`. -/
def isForbiddenInName (c : Char) : Bool := c == '/' || isInvalidFilesystemChar c

/-- The keys of `placeholders`, in the order of the source text. -/
def placeholderKeys : List String :=
  ["\x7btitle\x7d", "\x7bartist\x7d", "\x7balbum\x7d", "\x7btrack\x7d", "\x7btrack_raw\x7d",
   "\x7byear\x7d", "\x7bdate\x7d", "\x7bdisc\x7d", "\x7bdisc_raw\x7d"]

/-- Whether a list of ten characters writes a calendar date `YYYY-MM-DD`: digits
and dashes in place, a month from 01 to 12 and a day of that month, February
having 29 days in the leap years of the Gregorian calendar. -/
def isCalendarDate (s : String) : Bool :=
  match s.data with
  | [y1, y2, y3, y4, s1, m1, m2, s2, d1, d2] =>
    let year := decimalValue [y1, y2, y3, y4]
    let month := decimalValue [m1, m2]
    let day := decimalValue [d1, d2]
    let leap := (year % 4 == 0 && year % 100 != 0) || year % 400 == 0
    let daysIn :=
      if month == 2 then (if leap then 29 else 28)
      else if month == 4 || month == 6 || month == 9 || month == 11 then 30
      else 31
    [y1, y2, y3, y4, m1, m2, d1, d2].all Char.isDigit && s1 == '-' && s2 == '-' &&
      decide (1 ≤ month) && decide (month ≤ 12) && decide (1 ≤ day) && decide (day ≤ daysIn)
  | _ => false

/-- Whether a text is four digits. -/
def isYearText (s : String) : Bool :=
  decide (s.data.length = 4) && s.data.all Char.isDigit

/-- Whether a text writes a year and a month `YYYY-MM`. -/
def isYearMonth (s : String) : Bool :=
  match s.data with
  | [y1, y2, y3, y4, s1, m1, m2] =>
    [y1, y2, y3, y4, m1, m2].all Char.isDigit && s1 == '-' &&
      decide (1 ≤ decimalValue [m1, m2]) && decide (decimalValue [m1, m2] ≤ 12)
  | _ => false

/-- What the theorems use of package `time`: the two RFC 3339 layouts reject a
calendar date `YYYY-MM-DD` and a year `YYYY`, the layouts with a month reject a
year, the layout `2006-01-02` parses a calendar date and the layout `2006` a
year, and the time parsed formats with `2006`, `01` and `02` to the year, the
month and the day of the text, January the first for a year alone. -/
structure TimeLib.Sound {T : Type} (lib : TimeLib T) : Prop where
  rfc_rejects : ∀ s, isCalendarDate s = true ∨ isYearText s = true →
    lib.Parse "2006-01-02T15:04:05.999999999Z07:00" s = none ∧
    lib.Parse "2006-01-02T15:04:05Z07:00" s = none
  date_parses : ∀ s, isCalendarDate s = true →
    ∃ t, lib.Parse "2006-01-02" s = some t ∧
      lib.Format t "2006" = String.mk (s.data.take 4) ∧
      lib.Format t "01" = String.mk ((s.data.drop 5).take 2) ∧
      lib.Format t "02" = String.mk (s.data.drop 8) ∧
      lib.Format t "2006-01-02" = s
  year_rejected : ∀ s, isYearText s = true →
    lib.Parse "2006-01-02" s = none ∧ lib.Parse "2006-01" s = none
  year_parses : ∀ s, isYearText s = true →
    ∃ t, lib.Parse "2006" s = some t ∧
      lib.Format t "2006" = s ∧ lib.Format t "01" = "01" ∧ lib.Format t "02" = "01"

/-- Package `time` restricted to dates written with digits, for the examples: a
time is the text `YYYY-MM-DD` of its day, the layouts `2006-01-02`, `2006-01`
and `2006` parse, and a layout is formatted by writing the year for `2006`, the
month for `01` and the day for `02`, left to right. -/
def dateOnlyTime : TimeLib String :=
  { Parse := fun layout value =>
      if layout = "2006-01-02" then (if isCalendarDate value then some value else none)
      else if layout = "2006-01" then (if isYearMonth value then some (value ++ "-01") else none)
      else if layout = "2006" then (if isYearText value then some (value ++ "-01-01") else none)
      else none
    Format := fun t layout =>
      String.mk (replaceMatches
        (fun s =>
          if "2006".data.isPrefixOf s then some (t.data.take 4, 4)
          else if "01".data.isPrefixOf s then some ((t.data.drop 5).take 2, 2)
          else if "02".data.isPrefixOf s then some (t.data.drop 8, 2)
          else none)
        0 layout.data)
    Date := fun year => sprintfZeroPadded 4 year ++ "-01-01" }

/-- A piece of a template: a text, or a tag, which is a body between braces. -/
inductive Tile where
  | text (s : List Char)
  | tag (body : List Char)
  deriving DecidableEq, Repr

/-- Whether a text holds no brace. -/
def braceFree (s : List Char) : Bool := s.all (fun c => c != lbrace && c != rbrace)

/-- The characters of a piece. -/
def Tile.chars : Tile → List Char
  | .text s => s
  | .tag body => lbrace :: body ++ [rbrace]

/-- A piece is well formed when its text, or its body, holds no brace. -/
def Tile.wellFormed : Tile → Bool
  | .text s => braceFree s
  | .tag body => braceFree body

/-- The template that the pieces write. -/
def tilesText (tiles : List Tile) : List Char :=
  tiles.foldr (fun tile acc => tile.chars ++ acc) []

/-- A piece after the tags that `f` knows are replaced by their text. -/
def Tile.rewrite (f : List Char → Option (List Char)) : Tile → Tile
  | .text s => .text s
  | .tag body =>
    match f body with
    | some r => .text r
    | none => .tag body

/-- The first of two rewritings that knows a tag. -/
def firstOf (f g : List Char → Option (List Char)) (body : List Char) : Option (List Char) :=
  match f body with
  | some r => some r
  | none => g body

/-- The captures of `\{(track|disc):([0-9]+)\}` on a tag, by its body: the body
is `track:` or `disc:` followed by digits, at least one. -/
def numberTag (body : List Char) : Option (String × List Char) :=
  if "track:".data.isPrefixOf body then
    (if body.drop 6 ≠ [] ∧ (body.drop 6).all Char.isDigit = true then
      some ("track", body.drop 6) else none)
  else if "disc:".data.isPrefixOf body then
    (if body.drop 5 ≠ [] ∧ (body.drop 5).all Char.isDigit = true then
      some ("disc", body.drop 5) else none)
  else none

/-- The capture of `\{date:([^{}]+)\}` on a tag, by its body: the body is
`date:` followed by a pattern that is not empty. -/
def dateTag (body : List Char) : Option (List Char) :=
  if "date:".data.isPrefixOf body = true ∧ body.drop 5 ≠ [] then some (body.drop 5) else none

/-- What the scan of the numbered placeholders writes for a tag. -/
def numberRewrite (metadata : MetadataMap) (body : List Char) : Option (List Char) :=
  (numberTag body).map (fun p => (formattedNumber metadata p.1 p.2).data)

/-- What the scan of the date placeholders writes for a tag. -/
def dateRewrite {T : Type} (lib : TimeLib T) (metadata : MetadataMap) (body : List Char) :
    Option (List Char) :=
  (dateTag body).map (fun pattern =>
    (formatDateWithPattern lib (getDateValue metadata) (String.mk pattern)).data)

/-- What the loop over the placeholder table writes for a tag when the keys are
visited in the given order: the value of the first key visited that is the
tag. -/
def orderRewrite (table : List (String × String)) : List String → List Char →
    Option (List Char)
  | [], _ => none
  | key :: rest, body =>
    match table.lookup key with
    | some value =>
      if key.data = lbrace :: body ++ [rbrace] then some value.data
      else orderRewrite table rest body
    | none => orderRewrite table rest body

/-- What `buildFilenameFromTemplate` writes for a tag: the numbered placeholders
first, then the date placeholders, then the table. -/
def renderTag {T : Type} (lib : TimeLib T) (order : List String) (metadata : MetadataMap) :
    List Char → Option (List Char) :=
  firstOf (numberRewrite metadata)
    (firstOf (dateRewrite lib metadata) (orderRewrite (placeholderTable metadata) order))

/-- The name between the braces of a key of the table. -/
def keyName (key : String) : List Char := (key.data.drop 1).dropLast

/-- A positive number in decimal, on two digits at least. -/
def twoDigits (n : Int) : String := if n < 10 then "0" ++ Itoa n else Itoa n

/-- What C24 says the placeholders of the track and disc numbers are replaced
by, for the track number `n` and the disc number `d`. -/
def numberedText (n d : Int) (body : List Char) : Option (List Char) :=
  if body = "track".data then some (if n > 0 then twoDigits n else "").data
  else if body = "track_raw".data then some (if n > 0 then Itoa n else "").data
  else if body = "disc".data ∨ body = "disc_raw".data then
    some (if d > 0 then Itoa d else "").data
  else none

/-- Whether a piece is a text, or a tag whose body passes the test. -/
def Tile.tagSatisfies (p : List Char → Bool) : Tile → Bool
  | .text _ => true
  | .tag body => p body

/-- The bodies of the four placeholders of the track and disc numbers. -/
def numberedBodies : List (List Char) :=
  ["track".data, "track_raw".data, "disc".data, "disc_raw".data]

/-- The metadata of the first test of `filename_test.go`. -/
def rawTrackMetadata : MetadataMap :=
  [("title", .str "Song Name"), ("artist", .str "Artist Name"), ("album", .str "Album Name"),
   ("track", .int 1), ("disc", .int 2), ("year", .str "2025")]

/-- The template `{track} - {track_raw} - d{disc} - d{disc_raw}` in pieces. -/
def rawTrackTiles : List Tile :=
  [.tag "track".data, .text " - ".data, .tag "track_raw".data, .text " - d".data,
   .tag "disc".data, .text " - d".data, .tag "disc_raw".data]

/-- A number in decimal, filled with zeros on the left up to the width. -/
def zeroPadded (width : Nat) (n : Int) : String :=
  String.mk (List.replicate (width - (Itoa n).length) '0') ++ Itoa n

/-- What C25, amended, says an inline placeholder is replaced by, for the number
`n` and the width numeral `W`: nothing when `n` is zero or below, when the width
is zero, or when the width does not fit a Go `int`; the mark `%!(BADWIDTH)`
and `n` when the width is above one million; `n` filled with zeros up to the
width otherwise. -/
def inlineText (n : Int) (W : List Char) : String :=
  if n ≤ 0 ∨ decimalValue W = 0 ∨ (decimalValue W : Int) > maxInt64 then ""
  else if decimalValue W > 1000000 then "%!(BADWIDTH)" ++ Itoa n
  else zeroPadded (decimalValue W) n

/-- What C25, amended, says a tag `track:W` or `disc:W` is replaced by. -/
def inlineTagText (metadata : MetadataMap) (body : List Char) : Option (List Char) :=
  (numberTag body).map (fun p => (inlineText (getInt metadata p.1) p.2).data)

/-- The metadata of the third test of `filename_test.go`. -/
def inlineMetadata : MetadataMap := [("track", .int 3), ("disc", .int 2)]

/-- The template `{track:1}-{track:02}-{disc:03}` of that test, in pieces. -/
def inlineTiles : List Tile :=
  [.tag "track:1".data, .text "-".data, .tag "track:02".data, .text "-".data,
   .tag "disc:03".data]

/-- The bodies of the tags of C26: the three date directives, the full date, and
the year. -/
def dateBodies : List (List Char) :=
  ["date:%Y".data, "date:%m".data, "date:%d".data, "date:%Y-%m-%d".data, "year".data]

/-- What C26 says these tags are replaced by when the date value is the calendar
date `date`, written `YYYY-MM-DD`: its first four characters for the year, its
characters 6 and 7 for the month, its last two for the day, the date itself for
the full pattern. -/
def calendarDateText (date : String) (body : List Char) : Option (List Char) :=
  if body = "date:%Y".data ∨ body = "year".data then some (date.data.take 4)
  else if body = "date:%m".data then some ((date.data.drop 5).take 2)
  else if body = "date:%d".data then some (date.data.drop 8)
  else if body = "date:%Y-%m-%d".data then some date.data
  else none

/-- The bodies of the three date directives. -/
def directiveBodies : List (List Char) := ["date:%Y".data, "date:%m".data, "date:%d".data]

/-- What C26 says the three directives are replaced by when the date value is
only the year `year`: the year, and `01` for the month and for the day. -/
def yearOnlyText (year : String) (body : List Char) : Option (List Char) :=
  if body = "date:%Y".data then some year.data
  else if body = "date:%m".data ∨ body = "date:%d".data then some "01".data
  else none

/-- The metadata of the fourth test of `filename_test.go`. -/
def releaseDateMetadata : MetadataMap :=
  [("artist", .str "Artist Name"), ("title", .str "Song Name"),
   ("release_date", .str "2024-03-09"), ("track_number", .int 7), ("disc_number", .int 1)]

/-- The metadata of the fifth test of `filename_test.go`. -/
def yearOnlyMetadata : MetadataMap :=
  [("artist", .str "Artist Name"), ("title", .str "Song Name"), ("date", .str "2019")]

/-- The template `{date:%Y}-{date:%m}-{date:%d}` of the fifth test, in pieces. -/
def directiveTiles : List Tile :=
  [.tag "date:%Y".data, .text "-".data, .tag "date:%m".data, .text "-".data,
   .tag "date:%d".data]

/-- The template `{date:%Y-%m-%d} - {year}`, in pieces. -/
def fullDateTiles : List Tile :=
  [.tag "date:%Y-%m-%d".data, .text " - ".data, .tag "year".data]

/-- A metadata map whose title is the text of the artist placeholder. -/
def nestedMetadata : MetadataMap :=
  [("title", .str "\x7bartist\x7d"), ("artist", .str "X")]

/-- What the proof uses of the numbers `w n j = exp(-2*pi*i*j/n)`: they turn sums
of exponents into products, `w (2h) (2a)` is `w h a`, `w (2h) h` is `-1` and
`w h (h*k)` is `1`. -/
structure TwiddleLaws {K : Type} [CommRing K] (w : Nat → Nat → K) : Prop where
  add : ∀ n a b, w n (a + b) = w n a * w n b
  double : ∀ h a, 0 < h → w (2 * h) (2 * a) = w h a
  half : ∀ h, 0 < h → w (2 * h) h = -1
  period : ∀ h k, 0 < h → w h (h * k) = 1

/-- The discrete Fourier transform of `x` at the index `m`, for the numbers `w`. -/
def dftEntry {K : Type} [CommRing K] (w : Nat → Nat → K) (x : List K) (m : Nat) : K :=
  ∑ j in Finset.range x.length, x.getD j 0 * w x.length (j * m)

/-! # Theorems -/

/-! ### Lemmas on the selection loops -/

theorem isrcLoop_append (isrc : String) (pre : List TidalTrack) (t : TidalTrack)
    (post : List TidalTrack) (n : Nat) (hpre : ∀ x ∈ pre, x.ISRC ≠ isrc) (ht : t.ISRC = isrc) :
    isrcLoop isrc n (pre ++ t :: post) = some (n + pre.length, t) := by
  induction pre generalizing n with
  | nil => simp [isrcLoop, ht]
  | cons x xs ih =>
    have hx : x.ISRC ≠ isrc := hpre x (List.mem_cons_self _ _)
    have hxs : ∀ y ∈ xs, y.ISRC ≠ isrc := fun y hy => hpre y (List.mem_cons_of_mem _ hy)
    have e : n + 1 + xs.length = n + (xs.length + 1) := by omega
    rw [List.cons_append, isrcLoop, if_neg hx, ih (n + 1) hxs, List.length_cons, e]

theorem isrcLoop_none (isrc : String) (l : List TidalTrack) (n : Nat)
    (h : ∀ x ∈ l, x.ISRC ≠ isrc) : isrcLoop isrc n l = none := by
  induction l generalizing n with
  | nil => rfl
  | cons x xs ih =>
    have hx : x.ISRC ≠ isrc := h x (List.mem_cons_self _ _)
    simp only [isrcLoop, hx, if_false]
    exact ih (n + 1) (fun y hy => h y (List.mem_cons_of_mem _ hy))

/-- A list with an element satisfying `p` splits at the first such element. -/
theorem exists_first_split {α : Type} (p : α → Prop) [DecidablePred p] (l : List α)
    (h : ∃ x ∈ l, p x) :
    ∃ pre t post, l = pre ++ t :: post ∧ (∀ x ∈ pre, ¬ p x) ∧ p t := by
  induction l with
  | nil => simp at h
  | cons a as ih =>
    by_cases ha : p a
    · exact ⟨[], a, as, rfl, by simp, ha⟩
    · have h2 : ∃ x ∈ as, p x := by
        obtain ⟨x, hx, hpx⟩ := h
        rcases List.mem_cons.mp hx with rfl | hx2
        · exact absurd hpx ha
        · exact ⟨x, hx2, hpx⟩
      obtain ⟨pre, t, post, hl, hpre, ht⟩ := ih h2
      refine ⟨a :: pre, t, post, by simp [hl], ?_, ht⟩
      intro x hx
      rcases List.mem_cons.mp hx with rfl | hx2
      · exact ha
      · exact hpre x hx2

/-- Inside the 64-bit range `wrapInt64` is the identity. -/
theorem wrapInt64_of_range (x : Int) (h1 : -(2 ^ 63) ≤ x) (h2 : x < 2 ^ 63) : wrapInt64 x = x := by
  unfold wrapInt64
  have h : (x + 2 ^ 63) % 2 ^ 64 = x + 2 ^ 63 :=
    Int.emod_eq_of_lt (by omega) (by omega)
  omega

/-- When neither the subtraction nor the negation overflows, the Go test is the
test `|duration - expectedDuration| ≤ 3`. -/
theorem durationWithinTolerance_iff (d e : Int) (h1 : -(2 ^ 63) < d - e) (h2 : d - e < 2 ^ 63) :
    durationWithinTolerance d e = true ↔ |d - e| ≤ 3 := by
  unfold durationWithinTolerance
  rw [wrapInt64_of_range (d - e) (by omega) h2]
  by_cases hneg : d - e < 0
  · simp only [hneg, if_true]
    rw [wrapInt64_of_range (-(d - e)) (by omega) (by omega), decide_eq_true_eq, abs_of_neg hneg]
  · simp only [hneg, if_false]
    rw [decide_eq_true_eq, abs_of_nonneg (by omega)]

theorem durationLoop_sound (e : Int) (l : List TidalTrack) (n : Nat) (p : Nat × TidalTrack)
    (h : p ∈ durationLoop e n l) :
    n ≤ p.1 ∧ l[p.1 - n]? = some p.2 ∧ durationWithinTolerance p.2.Duration e = true := by
  induction l generalizing n with
  | nil => simp [durationLoop] at h
  | cons x xs ih =>
    unfold durationLoop at h
    by_cases hx : durationWithinTolerance x.Duration e = true
    · rw [if_pos hx] at h
      rcases List.mem_cons.mp h with rfl | h2
      · simp [hx]
      · obtain ⟨a, b, c⟩ := ih (n + 1) h2
        refine ⟨by omega, ?_, c⟩
        have e1 : p.1 - n = (p.1 - (n + 1)) + 1 := by omega
        rw [e1, List.getElem?_cons_succ]
        exact b
    · rw [if_neg hx] at h
      obtain ⟨a, b, c⟩ := ih (n + 1) h
      refine ⟨by omega, ?_, c⟩
      have e1 : p.1 - n = (p.1 - (n + 1)) + 1 := by omega
      rw [e1, List.getElem?_cons_succ]
      exact b

theorem durationLoop_complete (e : Int) (l : List TidalTrack) (n : Nat) (t : TidalTrack)
    (ht : t ∈ l) (hw : durationWithinTolerance t.Duration e = true) :
    ∃ i, (i, t) ∈ durationLoop e n l := by
  induction l generalizing n with
  | nil => simp at ht
  | cons x xs ih =>
    unfold durationLoop
    rcases List.mem_cons.mp ht with rfl | h2
    · exact ⟨n, by simp [hw]⟩
    · obtain ⟨i, hi⟩ := ih (n + 1) h2
      by_cases hx : durationWithinTolerance x.Duration e = true
      · exact ⟨i, by simp [hx, hi]⟩
      · exact ⟨i, by simp [hx, hi]⟩

theorem bestQualityLoop_mem (b : Nat × TidalTrack) (ps : List (Nat × TidalTrack)) :
    bestQualityLoop b ps = b ∨ bestQualityLoop b ps ∈ ps := by
  induction ps generalizing b with
  | nil => exact Or.inl rfl
  | cons p ps ih =>
    unfold bestQualityLoop
    rcases ih (if hasHiResTag p.2.Tags then p else b) with h | h
    · by_cases hp : hasHiResTag p.2.Tags = true
      · right
        rw [h, if_pos hp]
        exact List.mem_cons_self _ _
      · left
        rw [h, if_neg hp]
    · exact Or.inr (List.mem_cons_of_mem _ h)

theorem bestQualityLoop_hires (b : Nat × TidalTrack) (ps : List (Nat × TidalTrack))
    (h : hasHiResTag b.2.Tags = true ∨ ∃ p ∈ ps, hasHiResTag p.2.Tags = true) :
    hasHiResTag (bestQualityLoop b ps).2.Tags = true := by
  induction ps generalizing b with
  | nil =>
    rcases h with h | ⟨p, hp, _⟩
    · exact h
    · simp at hp
  | cons q qs ih =>
    unfold bestQualityLoop
    apply ih
    by_cases hq : hasHiResTag q.2.Tags = true
    · left
      rw [if_pos hq]
      exact hq
    · rw [if_neg hq]
      rcases h with h | ⟨p, hp, hpt⟩
      · exact Or.inl h
      · rcases List.mem_cons.mp hp with rfl | hp2
        · exact absurd hpt hq
        · exact Or.inr ⟨p, hp2, hpt⟩

/-! ### Claims on the selection step -/

/-- C1: with a non-empty requested ISRC, as soon as some candidate has that
ISRC the selection returns the first such candidate in merged order, whatever
the durations, tags and expected duration are. -/
theorem isrc_match_returns_first (allTracks : List TidalTrack) (spotifyISRC : String)
    (expectedDuration : Int) (hisrc : spotifyISRC ≠ "")
    (h : ∃ t ∈ allTracks, t.ISRC = spotifyISRC) :
    ∃ pre t post, allTracks = pre ++ t :: post ∧ (∀ x ∈ pre, x.ISRC ≠ spotifyISRC) ∧
      t.ISRC = spotifyISRC ∧
      SearchTrackByMetadataWithISRC allTracks spotifyISRC expectedDuration
        = .ok (pre.length, t) := by
  obtain ⟨pre, t, post, hl, hpre, ht⟩ :=
    exists_first_split (fun x : TidalTrack => x.ISRC = spotifyISRC) allTracks h
  refine ⟨pre, t, post, hl, hpre, ht, ?_⟩
  have hloop := isrcLoop_append spotifyISRC pre t post 0 hpre ht
  rw [Nat.zero_add, ← hl] at hloop
  cases hall : allTracks with
  | nil =>
    rw [hall] at hl
    simp at hl
  | cons first rest =>
    rw [hall] at hloop
    simp only [SearchTrackByMetadataWithISRC, hisrc, ne_eq, not_false_eq_true, if_true, hloop]

/-- C1, at the scenario of the spec: the 205 s LOSSLESS candidate with the ISRC is
returned, the 200 s HIRES_LOSSLESS candidate without it being listed first. -/
theorem isrc_match_returns_first_witness :
    ("US1234567890" ≠ "" ∧
      ∃ t ∈ [sampleTrack 1 "" 200 "HI_RES_LOSSLESS" ["HIRES_LOSSLESS"],
             sampleTrack 2 "US1234567890" 205 "LOSSLESS" ["LOSSLESS"]], t.ISRC = "US1234567890") ∧
    ∃ pre t post,
      [sampleTrack 1 "" 200 "HI_RES_LOSSLESS" ["HIRES_LOSSLESS"],
       sampleTrack 2 "US1234567890" 205 "LOSSLESS" ["LOSSLESS"]] = pre ++ t :: post ∧
      (∀ x ∈ pre, x.ISRC ≠ "US1234567890") ∧ t.ISRC = "US1234567890" ∧
      SearchTrackByMetadataWithISRC
        [sampleTrack 1 "" 200 "HI_RES_LOSSLESS" ["HIRES_LOSSLESS"],
         sampleTrack 2 "US1234567890" 205 "LOSSLESS" ["LOSSLESS"]] "US1234567890" 200
        = .ok (pre.length, t) :=
  ⟨⟨by decide, sampleTrack 2 "US1234567890" 205 "LOSSLESS" ["LOSSLESS"], by simp, rfl⟩,
   isrc_match_returns_first _ "US1234567890" 200 (by decide)
     ⟨sampleTrack 2 "US1234567890" 205 "LOSSLESS" ["LOSSLESS"], by simp, rfl⟩⟩

/-- C2: with a non-empty requested ISRC that no candidate has, the selection
returns an error and no track, whatever the durations and tags are: the
"no tracks" error on an empty list, the ISRC mismatch error otherwise. -/
theorem isrc_miss_is_error (allTracks : List TidalTrack) (spotifyISRC : String)
    (expectedDuration : Int) (hisrc : spotifyISRC ≠ "")
    (h : ∀ t ∈ allTracks, t.ISRC ≠ spotifyISRC) :
    SearchTrackByMetadataWithISRC allTracks spotifyISRC expectedDuration
      = .error (if allTracks = [] then "no tracks found for any search query"
                else "ISRC mismatch: no track found with ISRC " ++ spotifyISRC ++ " on Tidal") := by
  cases hall : allTracks with
  | nil => simp [SearchTrackByMetadataWithISRC]
  | cons first rest =>
    have hloop := isrcLoop_none spotifyISRC allTracks 0 h
    rw [hall] at hloop
    simp only [SearchTrackByMetadataWithISRC, hisrc, ne_eq, not_false_eq_true, if_true, hloop]
    simp

/-- C2, at a list whose only candidate matches the expected duration exactly and
carries the HIRES_LOSSLESS tag. -/
theorem isrc_miss_is_error_witness :
    ("US1234567890" ≠ "" ∧
      ∀ t ∈ [sampleTrack 1 "GB0000000001" 200 "HI_RES_LOSSLESS" ["HIRES_LOSSLESS"]],
        t.ISRC ≠ "US1234567890") ∧
    SearchTrackByMetadataWithISRC
        [sampleTrack 1 "GB0000000001" 200 "HI_RES_LOSSLESS" ["HIRES_LOSSLESS"]] "US1234567890" 200
      = .error "ISRC mismatch: no track found with ISRC US1234567890 on Tidal" :=
  ⟨⟨by decide, by simp [sampleTrack]⟩,
   isrc_miss_is_error _ "US1234567890" 200 (by decide) (by simp [sampleTrack])⟩

/-- What the Priority 3 loop returns once `bestMatch` points at the first element:
the first tagged candidate among those after the current one when there is one,
otherwise `bestMatch` unchanged. -/
theorem firstResultsLoop_rest (b : Nat × TidalTrack) (hb : b.1 = 0) (n : Nat)
    (l : List TidalTrack) :
    (∃ pre t post, l = pre ++ t :: post ∧ (∀ x ∈ pre, hasHiResTag x.Tags = false) ∧
        hasHiResTag t.Tags = true ∧
        firstResultsLoop b (n + 1) l = (n + 1 + pre.length, t)) ∨
    ((∀ x ∈ l, hasHiResTag x.Tags = false) ∧ firstResultsLoop b (n + 1) l = b) := by
  induction l generalizing n with
  | nil => exact Or.inr ⟨by simp, rfl⟩
  | cons x xs ih =>
    by_cases hx : hasHiResTag x.Tags = true
    · left
      refine ⟨[], x, xs, rfl, by simp, hx, ?_⟩
      simp [firstResultsLoop, hx]
    · have hx2 : hasHiResTag x.Tags = false := by simpa using hx
      have step : firstResultsLoop b (n + 1) (x :: xs) = firstResultsLoop b (n + 1 + 1) xs := by
        simp [firstResultsLoop, hx2, hb]
      rcases ih (n + 1) with ⟨pre, t, post, hl, hpre, ht, hres⟩ | ⟨hall, hres⟩
      · left
        refine ⟨x :: pre, t, post, by simp [hl], ?_, ht, ?_⟩
        · intro y hy
          rcases List.mem_cons.mp hy with rfl | hy2
          · exact hx2
          · exact hpre y hy2
        · rw [step, hres, List.length_cons]
          congr 1
          omega
      · right
        refine ⟨?_, by rw [step, hres]⟩
        intro y hy
        rcases List.mem_cons.mp hy with rfl | hy2
        · exact hx2
        · exact hall y hy2

/-- What the selection returns with no ISRC and no expected duration: the first
tagged candidate among those after the first one when there is one, otherwise
the first candidate, whether or not the first candidate carries the tag. -/
theorem first_results_selection (first : TidalTrack) (rest : List TidalTrack)
    (expectedDuration : Int) (hdur : expectedDuration ≤ 0) :
    (∃ pre t post, rest = pre ++ t :: post ∧ (∀ x ∈ pre, hasHiResTag x.Tags = false) ∧
        hasHiResTag t.Tags = true ∧
        SearchTrackByMetadataWithISRC (first :: rest) "" expectedDuration
          = .ok (1 + pre.length, t)) ∨
    ((∀ x ∈ rest, hasHiResTag x.Tags = false) ∧
      SearchTrackByMetadataWithISRC (first :: rest) "" expectedDuration = .ok (0, first)) := by
  have hnot : ¬ expectedDuration > 0 := by omega
  have hhead : firstResultsLoop (0, first) 0 (first :: rest)
      = firstResultsLoop (0, first) (0 + 1) rest := by
    by_cases hf : hasHiResTag first.Tags = true
    · simp [firstResultsLoop, hf]
    · simp [firstResultsLoop, hf]
  have hres : SearchTrackByMetadataWithISRC (first :: rest) "" expectedDuration
      = .ok (firstResultsLoop (0, first) (0 + 1) rest) := by
    simp only [SearchTrackByMetadataWithISRC, ne_eq, not_true_eq_false, if_false, hnot, hhead]
  rcases firstResultsLoop_rest (0, first) rfl 0 rest with ⟨pre, t, post, hl, hpre, ht, hloop⟩ | ⟨hall, hloop⟩
  · left
    refine ⟨pre, t, post, hl, hpre, ht, ?_⟩
    rw [hres, hloop]
  · right
    exact ⟨hall, by rw [hres, hloop]⟩

/-- C3, at the failing input: two candidates that both carry the tag, no ISRC, no
expected duration. The selection returns the second candidate (index 1),
although the first candidate in merged order carrying the tag is the first one. -/
theorem first_results_skips_tagged_head :
    SearchTrackByMetadataWithISRC
        [sampleTrack 1 "" 200 "HI_RES_LOSSLESS" ["HIRES_LOSSLESS"],
         sampleTrack 2 "" 205 "HI_RES_LOSSLESS" ["HIRES_LOSSLESS"]] "" 0
      = .ok (1, sampleTrack 2 "" 205 "HI_RES_LOSSLESS" ["HIRES_LOSSLESS"]) ∧
    hasHiResTag (sampleTrack 1 "" 200 "HI_RES_LOSSLESS" ["HIRES_LOSSLESS"]).Tags = true := by
  constructor
  · rfl
  · rfl

/-- C4 fails at the edge of the 64-bit range: with expected duration 1, a
candidate of duration -9223372036854775807 gives `durationDiff = -2^63`, whose
negation wraps to itself and passes `durationDiff <= tolerance`; it is returned
ahead of the candidate of duration 1. -/
theorem duration_match_overflow :
    (1 : Int) > 0 ∧
    (∃ t ∈ [sampleTrack 1 "" (-9223372036854775807) "LOSSLESS" [],
            sampleTrack 2 "" 1 "LOSSLESS" []], |t.Duration - 1| ≤ 3) ∧
    SearchTrackByMetadataWithISRC
        [sampleTrack 1 "" (-9223372036854775807) "LOSSLESS" [],
         sampleTrack 2 "" 1 "LOSSLESS" []] "" 1
      = .ok (0, sampleTrack 1 "" (-9223372036854775807) "LOSSLESS" []) ∧
    ¬ |(sampleTrack 1 "" (-9223372036854775807) "LOSSLESS" []).Duration - 1| ≤ 3 := by
  refine ⟨by decide, ⟨sampleTrack 2 "" 1 "LOSSLESS" [], by simp, by simp [sampleTrack]⟩, ?_, ?_⟩
  · rfl
  · simp [sampleTrack]

/-- C4, amended: with an empty ISRC, an expected duration above zero, and
durations for which `Duration - expectedDuration` lies strictly between -2^63 and
2^63, as soon as some candidate is within 3 seconds the returned track is a
candidate within 3 seconds, and it carries the HIRES_LOSSLESS tag whenever some
candidate within 3 seconds does. -/
theorem duration_match_in_range (allTracks : List TidalTrack) (expectedDuration : Int)
    (hpos : 0 < expectedDuration)
    (hrange : ∀ t ∈ allTracks,
      -(2 ^ 63) < t.Duration - expectedDuration ∧ t.Duration - expectedDuration < 2 ^ 63)
    (h : ∃ t ∈ allTracks, |t.Duration - expectedDuration| ≤ 3) :
    ∃ i t, SearchTrackByMetadataWithISRC allTracks "" expectedDuration = .ok (i, t) ∧
      allTracks[i]? = some t ∧ |t.Duration - expectedDuration| ≤ 3 ∧
      ((∃ u ∈ allTracks, |u.Duration - expectedDuration| ≤ 3 ∧ hasHiResTag u.Tags = true) →
        hasHiResTag t.Tags = true) := by
  obtain ⟨t0, ht0, hw0⟩ := h
  have hw0b := (durationWithinTolerance_iff t0.Duration expectedDuration
    (hrange t0 ht0).1 (hrange t0 ht0).2).mpr hw0
  obtain ⟨i0, hi0⟩ := durationLoop_complete expectedDuration allTracks 0 t0 ht0 hw0b
  cases hall : allTracks with
  | nil =>
    rw [hall] at ht0
    simp at ht0
  | cons first rest =>
    cases hdm : durationLoop expectedDuration 0 allTracks with
    | nil =>
      rw [hdm] at hi0
      simp at hi0
    | cons firstMatch durationMatches =>
      have hres : SearchTrackByMetadataWithISRC (first :: rest) "" expectedDuration
          = .ok (bestQualityLoop firstMatch (firstMatch :: durationMatches)) := by
        rw [hall] at hdm
        simp only [SearchTrackByMetadataWithISRC, ne_eq, not_true_eq_false, if_false, gt_iff_lt,
          hpos, if_true, hdm]
      have hmem : bestQualityLoop firstMatch (firstMatch :: durationMatches)
          ∈ durationLoop expectedDuration 0 allTracks := by
        rw [hdm]
        rcases bestQualityLoop_mem firstMatch (firstMatch :: durationMatches) with e | e
        · rw [e]
          exact List.mem_cons_self _ _
        · exact e
      obtain ⟨_, hget, hw⟩ := durationLoop_sound expectedDuration allTracks 0 _ hmem
      rw [Nat.sub_zero] at hget
      have hin : (bestQualityLoop firstMatch (firstMatch :: durationMatches)).2 ∈ allTracks :=
        List.getElem?_mem hget
      refine ⟨(bestQualityLoop firstMatch (firstMatch :: durationMatches)).1,
        (bestQualityLoop firstMatch (firstMatch :: durationMatches)).2, hres, ?_, ?_, ?_⟩
      · rw [← hall]
        exact hget
      · exact (durationWithinTolerance_iff _ expectedDuration
          (hrange _ hin).1 (hrange _ hin).2).mp hw
      · rintro ⟨u, hu, huw, hut⟩
        rw [← hall] at hu
        have huwb := (durationWithinTolerance_iff u.Duration expectedDuration
          (hrange u hu).1 (hrange u hu).2).mpr huw
        obtain ⟨j, hj⟩ := durationLoop_complete expectedDuration allTracks 0 u hu huwb
        apply bestQualityLoop_hires
        right
        rw [hdm] at hj
        exact ⟨(j, u), hj, hut⟩

/-- C4, amended, at three candidates for an expected duration of 200 s: the
tagged candidate within tolerance wins over the untagged ones. -/
theorem duration_match_in_range_witness :
    ((0 : Int) < 200 ∧
      (∀ t ∈ [sampleTrack 1 "" 199 "LOSSLESS" [],
              sampleTrack 2 "" 203 "HI_RES_LOSSLESS" ["HIRES_LOSSLESS"],
              sampleTrack 3 "" 250 "HI_RES_LOSSLESS" ["HIRES_LOSSLESS"]],
        -(2 ^ 63) < t.Duration - 200 ∧ t.Duration - 200 < 2 ^ 63) ∧
      ∃ t ∈ [sampleTrack 1 "" 199 "LOSSLESS" [],
             sampleTrack 2 "" 203 "HI_RES_LOSSLESS" ["HIRES_LOSSLESS"],
             sampleTrack 3 "" 250 "HI_RES_LOSSLESS" ["HIRES_LOSSLESS"]], |t.Duration - 200| ≤ 3) ∧
    ∃ i t, SearchTrackByMetadataWithISRC
        [sampleTrack 1 "" 199 "LOSSLESS" [],
         sampleTrack 2 "" 203 "HI_RES_LOSSLESS" ["HIRES_LOSSLESS"],
         sampleTrack 3 "" 250 "HI_RES_LOSSLESS" ["HIRES_LOSSLESS"]] "" 200 = .ok (i, t) ∧
      [sampleTrack 1 "" 199 "LOSSLESS" [],
       sampleTrack 2 "" 203 "HI_RES_LOSSLESS" ["HIRES_LOSSLESS"],
       sampleTrack 3 "" 250 "HI_RES_LOSSLESS" ["HIRES_LOSSLESS"]][i]? = some t ∧
      |t.Duration - 200| ≤ 3 ∧
      ((∃ u ∈ [sampleTrack 1 "" 199 "LOSSLESS" [],
               sampleTrack 2 "" 203 "HI_RES_LOSSLESS" ["HIRES_LOSSLESS"],
               sampleTrack 3 "" 250 "HI_RES_LOSSLESS" ["HIRES_LOSSLESS"]],
          |u.Duration - 200| ≤ 3 ∧ hasHiResTag u.Tags = true) → hasHiResTag t.Tags = true) :=
  ⟨⟨by decide, by simp [sampleTrack],
     sampleTrack 1 "" 199 "LOSSLESS" [], by simp, by simp [sampleTrack]⟩,
   duration_match_in_range _ 200 (by decide) (by simp [sampleTrack])
     ⟨sampleTrack 1 "" 199 "LOSSLESS" [], by simp, by simp [sampleTrack]⟩⟩

/-! ### Lemmas on parseManifest -/

theorem replaceAllChars_ne_nil (old new : List Char) (hnew : new ≠ []) (s : List Char)
    (hs : s ≠ []) : replaceAllChars old new 0 s ≠ [] := by
  cases s with
  | nil => exact absurd rfl hs
  | cons c cs =>
    unfold replaceAllChars
    by_cases h : old.isPrefixOf (c :: cs) = true
    · rw [if_pos h]
      intro hnil
      exact hnew (List.append_eq_nil.mp hnil).1
    · rw [if_neg h]
      exact List.cons_ne_nil _ _

/-- Unescaping `&amp;` never empties a non-empty string. -/
theorem ReplaceAll_amp_ne_empty (s : String) (hs : s ≠ "") : ReplaceAll s "&amp;" "&" ≠ "" := by
  have hdata : s.data ≠ [] := by
    intro h
    apply hs
    cases s
    simp_all
  intro h
  have h2 := congrArg String.data h
  exact replaceAllChars_ne_nil _ _ (by decide) s.data hdata h2

theorem timelineTotal_nonneg (segments : List Segment) (h : ∀ seg ∈ segments, 0 ≤ seg.Repeat) :
    (segments.length : Int) ≤ timelineTotal segments := by
  induction segments with
  | nil => simp [timelineTotal]
  | cons x xs ih =>
    have hx := h x (List.mem_cons_self _ _)
    have hxs := ih (fun seg hs => h seg (List.mem_cons_of_mem _ hs))
    simp only [timelineTotal, List.map_cons, List.sum_cons, List.length_cons] at hxs ⊢
    push_cast
    omega

theorem timelineFold_eq (segments : List Segment) (acc : Int) (hacc : 0 ≤ acc)
    (h : ∀ seg ∈ segments, 0 ≤ seg.Repeat) (hsum : acc + timelineTotal segments < 2 ^ 63) :
    segments.foldl
      (fun segmentCount seg => wrapInt64 (segmentCount + wrapInt64 (seg.Repeat + 1))) acc
      = acc + timelineTotal segments := by
  induction segments generalizing acc with
  | nil => simp [timelineTotal]
  | cons x xs ih =>
    have hx := h x (List.mem_cons_self _ _)
    have hxs : ∀ seg ∈ xs, 0 ≤ seg.Repeat := fun seg hs => h seg (List.mem_cons_of_mem _ hs)
    have hnn := timelineTotal_nonneg xs hxs
    have hlen : (0 : Int) ≤ (xs.length : Int) := Int.ofNat_nonneg _
    have hcons : timelineTotal (x :: xs) = x.Repeat + 1 + timelineTotal xs := by
      simp [timelineTotal]
    rw [hcons] at hsum
    have w1 : wrapInt64 (x.Repeat + 1) = x.Repeat + 1 :=
      wrapInt64_of_range _ (by omega) (by omega)
    have w2 : wrapInt64 (acc + (x.Repeat + 1)) = acc + (x.Repeat + 1) :=
      wrapInt64_of_range _ (by omega) (by omega)
    rw [List.foldl_cons, w1, w2, ih (acc + (x.Repeat + 1)) (by omega) hxs (by omega), hcons]
    omega

/-- A timeline of non-negative repeat counts whose total fits a Go `int` is
counted exactly. -/
theorem timelineSegmentCount_eq (segments : List Segment)
    (h : ∀ seg ∈ segments, 0 ≤ seg.Repeat) (hsum : timelineTotal segments < 2 ^ 63) :
    timelineSegmentCount segments = timelineTotal segments := by
  unfold timelineSegmentCount
  rw [timelineFold_eq segments 0 (le_refl _) h (by omega)]
  omega

theorem mediaURLLoop_length (mediaTemplate : String) (segmentCount : Int) :
    (mediaURLLoop mediaTemplate segmentCount).length = segmentCount.toNat := by
  simp [mediaURLLoop]

theorem mediaURLLoop_get (mediaTemplate : String) (segmentCount : Int) (i : Nat)
    (h1 : 1 ≤ i) (h2 : i ≤ segmentCount.toNat) :
    (mediaURLLoop mediaTemplate segmentCount)[i - 1]?
      = some (ReplaceAll mediaTemplate "$Number$" (Nat.repr i)) := by
  have hlt : i - 1 < segmentCount.toNat := by omega
  have hi : i - 1 + 1 = i := by omega
  simp [mediaURLLoop, List.getElem?_map, List.getElem?_range hlt, hi]

/-- The DASH branch, when it returns without error, returns an empty direct URL
and a non-empty initialization URL. -/
theorem parseDASH_shape (manifestStr : String) (mpd : MPD) (r : ParsedManifest)
    (h : parseDASH manifestStr mpd = .ok r) : r.directURL = "" ∧ r.initURL ≠ "" := by
  unfold parseDASH at h
  by_cases hinit : (segmentTemplates manifestStr mpd).1 = ""
  · simp [hinit] at h
  · simp only [hinit, if_false, Except.ok.injEq] at h
    rw [← h]
    exact ⟨rfl, ReplaceAll_amp_ne_empty _ hinit⟩

theorem matchQuotedAt_ne_nil (lit s value : List Char) (h : matchQuotedAt lit s = some value) :
    value ≠ [] := by
  unfold matchQuotedAt at h
  by_cases hp : lit.isPrefixOf s = true
  · rw [if_pos hp] at h
    dsimp only at h
    split at h
    · rename_i hd tl c rest hv hr
      by_cases hc : c = dq
      · rw [if_pos hc, Option.some.injEq] at h
        rw [← h, hv]
        exact List.cons_ne_nil _ _
      · rw [if_neg hc] at h
        exact absurd h (by simp)
    · exact absurd h (by simp)
  · rw [if_neg hp] at h
    exact absurd h (by simp)

theorem findQuoted_ne_nil (lit s value : List Char) (h : findQuoted lit s = some value) :
    value ≠ [] := by
  induction s with
  | nil => simp [findQuoted] at h
  | cons c cs ih =>
    unfold findQuoted at h
    cases hm : matchQuotedAt lit (c :: cs) with
    | some v =>
      rw [hm] at h
      simp only [Option.some.injEq] at h
      rw [← h]
      exact matchQuotedAt_ne_nil lit (c :: cs) v hm
    | none =>
      rw [hm] at h
      exact ih h

/-- A capture of the initialization pattern is never empty. -/
theorem initRe_ne_empty (manifestStr U : String) (h : initRe manifestStr = some U) : U ≠ "" := by
  unfold initRe at h
  cases hf : findQuoted ("initialization=".data ++ [dq]) manifestStr.data with
  | none =>
    rw [hf] at h
    simp at h
  | some v =>
    rw [hf] at h
    simp only [Option.map_some', Option.some.injEq] at h
    have hv := findQuoted_ne_nil _ _ v hf
    intro hU
    rw [hU] at h
    have h2 := congrArg String.data h
    exact hv h2

/-- Whenever `parseManifest` returns without error, either the JSON branch
returned the first URL of the list (with no initialization URL and no media
URL), or the DASH branch returned no direct URL and a non-empty initialization
URL. -/
theorem parseManifest_shape (lib : Decoders) (manifestB64 : String) (r : ParsedManifest)
    (h : parseManifest lib manifestB64 = .ok r) :
    (∃ manifestStr btsManifest url rest, lib.base64Decode manifestB64 = .ok manifestStr ∧
        lib.jsonUnmarshal manifestStr = .ok btsManifest ∧ btsManifest.URLs = url :: rest ∧
        r = { directURL := url, initURL := "", mediaURLs := [] }) ∨
    (r.directURL = "" ∧ r.initURL ≠ "") := by
  unfold parseManifest at h
  cases hdec : lib.base64Decode manifestB64 with
  | error e => simp [hdec] at h
  | ok manifestStr =>
    simp only [hdec] at h
    by_cases hjson : HasPrefix manifestStr "\x7b" = true
    · simp only [hjson, if_true] at h
      cases hj : lib.jsonUnmarshal manifestStr with
      | error e => simp [hj] at h
      | ok btsManifest =>
        simp only [hj] at h
        cases hu : btsManifest.URLs with
        | nil => simp [hu] at h
        | cons url rest =>
          simp only [hu, Except.ok.injEq] at h
          exact Or.inl ⟨manifestStr, btsManifest, url, rest, rfl, hj, hu, h.symm⟩
    · simp only [hjson] at h
      cases hx : lib.xmlUnmarshal manifestStr with
      | error e => simp [hx] at h
      | ok mpd =>
        simp only [hx] at h
        exact Or.inr (parseDASH_shape manifestStr mpd r (by simpa using h))

/-! ### Claims on parseManifest -/

/-- C5 fails once the count leaves the 64-bit range: for the single timeline
entry `r="9223372036854775807"` the sum `r + 1` is 2^63, `seg.Repeat + 1` wraps
to -2^63, and the manifest is accepted with no media URL at all. -/
theorem huge_repeat_yields_no_media_url :
    HasPrefix dashHuge "\x7b" = false ∧
    (∀ seg ∈ dashHugeMPD.Segments, 0 ≤ seg.Repeat) ∧
    timelineTotal dashHugeMPD.Segments = 2 ^ 63 ∧
    parseManifest
        (decodersFor dashHuge (.error "invalid character '<' looking for beginning of value")
          (.ok dashHugeMPD))
        "PE1QRD48UGVyaW9kPjxBZGFwdGF0aW9uU2V0PjxSZXByZXNlbnRhdGlvbj48U2VnbWVudFRlbXBsYXRlIGluaXRpYWxpemF0aW9uPSJodHRwczovL2gvaW5pdC5tcDQiIG1lZGlhPSJodHRwczovL2gvJE51bWJlciQubXA0Ij48U2VnbWVudFRpbWVsaW5lPjxTIGQ9IjQiIHI9IjkyMjMzNzIwMzY4NTQ3NzU4MDciLz48L1NlZ21lbnRUaW1lbGluZT48L1NlZ21lbnRUZW1wbGF0ZT48L1JlcHJlc2VudGF0aW9uPjwvQWRhcHRhdGlvblNldD48L1BlcmlvZD48L01QRD4="
      = .ok { directURL := "", initURL := "https://h/init.mp4", mediaURLs := [] } := by
  refine ⟨by rfl, by decide, by decide, by rfl⟩

/-- C5, amended: for a DASH manifest that `parseManifest` accepts, whose timeline
has at least one entry, repeat counts at least zero and a total `sum (r_i + 1)`
below 2^63 - 1, the result has no direct URL, one non-empty initialization
URL, exactly `sum (r_i + 1)` media URLs, and the i-th of them (from 1) is the
media template, `&amp;` unescaped, with every `$Number$` replaced by the decimal
numeral of i. -/
theorem dash_media_urls (lib : Decoders) (manifestB64 manifestStr : String) (mpd : MPD)
    (r : ParsedManifest)
    (hdec : lib.base64Decode manifestB64 = .ok manifestStr)
    (hdash : HasPrefix manifestStr "\x7b" = false)
    (hxml : lib.xmlUnmarshal manifestStr = .ok mpd)
    (hok : parseManifest lib manifestB64 = .ok r)
    (hne : mpd.Segments ≠ [])
    (hrep : ∀ seg ∈ mpd.Segments, 0 ≤ seg.Repeat)
    (hsum : timelineTotal mpd.Segments < 2 ^ 63 - 1) :
    r.directURL = "" ∧ r.initURL ≠ "" ∧
    r.initURL = ReplaceAll (segmentTemplates manifestStr mpd).1 "&amp;" "&" ∧
    r.mediaURLs.length = (timelineTotal mpd.Segments).toNat ∧
    ∀ i : Nat, 1 ≤ i → i ≤ (timelineTotal mpd.Segments).toNat →
      r.mediaURLs[i - 1]?
        = some (ReplaceAll (ReplaceAll (segmentTemplates manifestStr mpd).2 "&amp;" "&")
            "$Number$" (Nat.repr i)) := by
  have hcount := timelineSegmentCount_eq mpd.Segments hrep (by omega)
  have hpos : timelineTotal mpd.Segments ≠ 0 := by
    have hlen := timelineTotal_nonneg mpd.Segments hrep
    have : 0 < mpd.Segments.length := List.length_pos.mpr hne
    omega
  have hdashOk : parseDASH manifestStr mpd = .ok r := by
    unfold parseManifest at hok
    simpa [hdec, hdash, hxml] using hok
  obtain ⟨hdirect, hinit⟩ := parseDASH_shape manifestStr mpd r hdashOk
  unfold parseDASH at hdashOk
  by_cases hempty : (segmentTemplates manifestStr mpd).1 = ""
  · simp [hempty] at hdashOk
  · simp only [hempty, if_false, hcount, hpos, Except.ok.injEq] at hdashOk
    refine ⟨hdirect, hinit, ?_, ?_, ?_⟩
    · rw [← hdashOk]
    · rw [← hdashOk]
      exact mediaURLLoop_length _ _
    · intro i h1 h2
      rw [← hdashOk]
      exact mediaURLLoop_get _ _ i h1 h2

/-- C5, amended, at the scenario of the spec: three timeline entries without
repeats give the media URLs numbered 1, 2, 3 and one initialization URL. -/
theorem dash_media_urls_witness :
    (HasPrefix dashThree "\x7b" = false ∧ dashThreeMPD.Segments ≠ [] ∧
      (∀ seg ∈ dashThreeMPD.Segments, 0 ≤ seg.Repeat) ∧
      timelineTotal dashThreeMPD.Segments < 2 ^ 63 - 1 ∧
      parseManifest
          (decodersFor dashThree (.error "invalid character '<' looking for beginning of value")
            (.ok dashThreeMPD))
          "PE1QRD48UGVyaW9kPjxBZGFwdGF0aW9uU2V0PjxSZXByZXNlbnRhdGlvbj48U2VnbWVudFRlbXBsYXRlIGluaXRpYWxpemF0aW9uPSJodHRwczovL2gvaW5pdC5tcDQiIG1lZGlhPSJodHRwczovL2gvJE51bWJlciQubXA0Ij48U2VnbWVudFRpbWVsaW5lPjxTIGQ9IjQiLz48UyBkPSI0Ii8+PFMgZD0iNCIvPjwvU2VnbWVudFRpbWVsaW5lPjwvU2VnbWVudFRlbXBsYXRlPjwvUmVwcmVzZW50YXRpb24+PC9BZGFwdGF0aW9uU2V0PjwvUGVyaW9kPjwvTVBEPg=="
        = .ok { directURL := "", initURL := "https://h/init.mp4",
                mediaURLs := ["https://h/1.mp4", "https://h/2.mp4", "https://h/3.mp4"] }) ∧
    (("" : String) = "" ∧ ("https://h/init.mp4" : String) ≠ "" ∧
      "https://h/init.mp4" = ReplaceAll (segmentTemplates dashThree dashThreeMPD).1 "&amp;" "&" ∧
      ["https://h/1.mp4", "https://h/2.mp4", "https://h/3.mp4"].length
        = (timelineTotal dashThreeMPD.Segments).toNat ∧
      ∀ i : Nat, 1 ≤ i → i ≤ (timelineTotal dashThreeMPD.Segments).toNat →
        ["https://h/1.mp4", "https://h/2.mp4", "https://h/3.mp4"][i - 1]?
          = some (ReplaceAll (ReplaceAll (segmentTemplates dashThree dashThreeMPD).2 "&amp;" "&")
              "$Number$" (Nat.repr i))) :=
  ⟨⟨by rfl, by decide, by decide, by decide, by rfl⟩,
   dash_media_urls
     (decodersFor dashThree (.error "invalid character '<' looking for beginning of value")
       (.ok dashThreeMPD))
     "PE1QRD48UGVyaW9kPjxBZGFwdGF0aW9uU2V0PjxSZXByZXNlbnRhdGlvbj48U2VnbWVudFRlbXBsYXRlIGluaXRpYWxpemF0aW9uPSJodHRwczovL2gvaW5pdC5tcDQiIG1lZGlhPSJodHRwczovL2gvJE51bWJlciQubXA0Ij48U2VnbWVudFRpbWVsaW5lPjxTIGQ9IjQiLz48UyBkPSI0Ii8+PFMgZD0iNCIvPjwvU2VnbWVudFRpbWVsaW5lPjwvU2VnbWVudFRlbXBsYXRlPjwvUmVwcmVzZW50YXRpb24+PC9BZGFwdGF0aW9uU2V0PjwvUGVyaW9kPjwvTVBEPg=="
     dashThree dashThreeMPD
     { directURL := "", initURL := "https://h/init.mp4",
       mediaURLs := ["https://h/1.mp4", "https://h/2.mp4", "https://h/3.mp4"] }
     rfl (by rfl) rfl (by rfl) (by decide) (by decide) (by decide)⟩

/-- C6 fails when the XML parser rejects the text: `parseManifest` returns the
parser's error at once, although the three patterns are all present in the
text; the regex fallback is not reached. -/
theorem rejected_xml_is_an_error :
    HasPrefix dashTruncated "\x7b" = false ∧
    initRe dashTruncated = some "https://h/init.mp4?a=1&amp;b=2" ∧
    mediaRe dashTruncated = some "https://h/$Number$.mp4?a=1&amp;b=2" ∧
    regexSegmentCount dashTruncated = 3 ∧
    parseManifest
        (decodersFor dashTruncated (.error "invalid character '<' looking for beginning of value")
          (.error "XML syntax error on line 1: unexpected EOF"))
        "PE1QRD48UGVyaW9kPjxBZGFwdGF0aW9uU2V0PjxSZXByZXNlbnRhdGlvbj48U2VnbWVudFRlbXBsYXRlIGluaXRpYWxpemF0aW9uPSJodHRwczovL2gvaW5pdC5tcDQ/YT0xJmFtcDtiPTIiIG1lZGlhPSJodHRwczovL2gvJE51bWJlciQubXA0P2E9MSZhbXA7Yj0yIj48U2VnbWVudFRpbWVsaW5lPjxTIGQ9IjQiIHI9IjIiLz4="
      = .error "failed to parse manifest XML: XML syntax error on line 1: unexpected EOF" := by
  refine ⟨by rfl, by rfl, by rfl, by rfl, by rfl⟩

/-- C6, amended: when the decoded text is not JSON, the XML parser accepts it but
the parsed template lacks the initialization or the media attribute and has no
timeline entry, and the text contains the patterns with leftmost captures U and
T, then `parseManifest` does not fail: it returns U as initialization URL and
the media URLs generated from T, one for each segment counted by the segment
pattern, with `&amp;` unescaped in both. -/
theorem regex_fallback (lib : Decoders) (manifestB64 manifestStr : String) (mpd : MPD)
    (U T : String)
    (hdec : lib.base64Decode manifestB64 = .ok manifestStr)
    (hdash : HasPrefix manifestStr "\x7b" = false)
    (hxml : lib.xmlUnmarshal manifestStr = .ok mpd)
    (hempty : mpd.Initialization = "" ∨ mpd.Media = "")
    (hseg : mpd.Segments = [])
    (hU : initRe manifestStr = some U)
    (hT : mediaRe manifestStr = some T)
    (_hcount : regexSegmentCount manifestStr < maxInt64) :
    parseManifest lib manifestB64
      = .ok { directURL := ""
              initURL := ReplaceAll U "&amp;" "&"
              mediaURLs := mediaURLLoop (ReplaceAll T "&amp;" "&")
                (regexSegmentCount manifestStr) } := by
  have hUne := initRe_ne_empty manifestStr U hU
  have htemplates : segmentTemplates manifestStr mpd = (U, T) := by
    unfold segmentTemplates
    rw [if_pos hempty, hU, hT]
    rfl
  unfold parseManifest
  simp only [hdec, hdash, hxml]
  unfold parseDASH
  simp [htemplates, hUne, hseg, timelineSegmentCount]

/-- C6, amended, at a well-formed manifest whose template is not on the parsed
path: the URLs come from the patterns, with `&amp;` unescaped. -/
theorem regex_fallback_witness :
    (HasPrefix dashOffPath "\x7b" = false ∧
      (({ Initialization := "", Media := "", Segments := [] } : MPD).Initialization = "" ∨
        ({ Initialization := "", Media := "", Segments := [] } : MPD).Media = "") ∧
      ({ Initialization := "", Media := "", Segments := [] } : MPD).Segments = [] ∧
      initRe dashOffPath = some "https://h/init.mp4?a=1&amp;b=2" ∧
      mediaRe dashOffPath = some "https://h/$Number$.mp4?a=1&amp;b=2" ∧
      regexSegmentCount dashOffPath < maxInt64) ∧
    parseManifest
        (decodersFor dashOffPath (.error "invalid character '<' looking for beginning of value")
          (.ok { Initialization := "", Media := "", Segments := [] }))
        "PE1QRD48UGVyaW9kPjxBZGFwdGF0aW9uU2V0PjxTZWdtZW50VGVtcGxhdGUgaW5pdGlhbGl6YXRpb249Imh0dHBzOi8vaC9pbml0Lm1wND9hPTEmYW1wO2I9MiIgbWVkaWE9Imh0dHBzOi8vaC8kTnVtYmVyJC5tcDQ/YT0xJmFtcDtiPTIiPjxTZWdtZW50VGltZWxpbmU+PFMgZD0iNCIgcj0iMiIvPjxTIGQ9IjMiLz48L1NlZ21lbnRUaW1lbGluZT48L1NlZ21lbnRUZW1wbGF0ZT48L0FkYXB0YXRpb25TZXQ+PC9QZXJpb2Q+PC9NUEQ+"
      = .ok { directURL := ""
              initURL := ReplaceAll "https://h/init.mp4?a=1&amp;b=2" "&amp;" "&"
              mediaURLs := mediaURLLoop (ReplaceAll "https://h/$Number$.mp4?a=1&amp;b=2" "&amp;" "&")
                (regexSegmentCount dashOffPath) } :=
  ⟨⟨by rfl, Or.inl rfl, rfl, by rfl, by rfl, by decide⟩,
   regex_fallback
     (decodersFor dashOffPath (.error "invalid character '<' looking for beginning of value")
       (.ok { Initialization := "", Media := "", Segments := [] }))
     _ dashOffPath { Initialization := "", Media := "", Segments := [] }
     "https://h/init.mp4?a=1&amp;b=2" "https://h/$Number$.mp4?a=1&amp;b=2"
     rfl (by rfl) rfl (Or.inl rfl) rfl (by rfl) (by rfl) (by decide)⟩

/-- The URLs of the fallback example, evaluated: four segments, `&amp;` unescaped. -/
theorem regex_fallback_example :
    ReplaceAll "https://h/init.mp4?a=1&amp;b=2" "&amp;" "&" = "https://h/init.mp4?a=1&b=2" ∧
    mediaURLLoop (ReplaceAll "https://h/$Number$.mp4?a=1&amp;b=2" "&amp;" "&")
        (regexSegmentCount dashOffPath)
      = ["https://h/1.mp4?a=1&b=2", "https://h/2.mp4?a=1&b=2", "https://h/3.mp4?a=1&b=2",
         "https://h/4.mp4?a=1&b=2"] := by
  constructor
  · rfl
  · rfl

/-- C7, at the failing input: the BTS manifest whose URL list is `[""]` passes the
test `len(btsManifest.URLs) == 0`, and `parseManifest` returns without error
with the direct URL and the initialization URL both empty, so that
`DownloadFromManifest` does not take the direct transfer. -/
theorem empty_first_url_is_accepted :
    parseManifest
        (decodersFor btsEmptyURL
          (.ok { MimeType := "", Codecs := "", EncryptionType := "", URLs := [""] })
          (.error "EOF"))
        "eyJ1cmxzIjpbIiJdfQ=="
      = .ok { directURL := "", initURL := "", mediaURLs := [] } ∧
    takesDirectTransfer { directURL := "", initURL := "", mediaURLs := [] } = false := by
  constructor
  · rfl
  · rfl

/-! ### Lemmas on the queue -/

section QueueLemmas
variable {F : Type}

theorem updateFirstByID_split (id : String) (f : DownloadItem F → DownloadItem F)
    (pre : List (DownloadItem F)) (item : DownloadItem F) (post : List (DownloadItem F))
    (hpre : ∀ x ∈ pre, x.ID ≠ id) (hitem : item.ID = id) :
    updateFirstByID id f (pre ++ item :: post) = pre ++ f item :: post := by
  induction pre with
  | nil => simp [updateFirstByID, hitem]
  | cons x xs ih =>
    have hx : x.ID ≠ id := hpre x (List.mem_cons_self _ _)
    have hxs : ∀ y ∈ xs, y.ID ≠ id := fun y hy => hpre y (List.mem_cons_of_mem _ hy)
    rw [List.cons_append, updateFirstByID, if_neg hx, ih hxs, List.cons_append]

theorem updateFirstByID_absent (id : String) (f : DownloadItem F → DownloadItem F)
    (q : List (DownloadItem F)) (h : ∀ x ∈ q, x.ID ≠ id) : updateFirstByID id f q = q := by
  induction q with
  | nil => rfl
  | cons x xs ih =>
    have hx : x.ID ≠ id := h x (List.mem_cons_self _ _)
    rw [updateFirstByID, if_neg hx, ih (fun y hy => h y (List.mem_cons_of_mem _ hy))]

theorem completeLoop_split [Add F] (id filePath : String) (finalSize : F) (now : Int)
    (pre : List (DownloadItem F)) (item : DownloadItem F) (post : List (DownloadItem F))
    (total : F) (hpre : ∀ x ∈ pre, x.ID ≠ id) (hitem : item.ID = id) :
    completeLoop id filePath finalSize now (pre ++ item :: post) total
      = (pre ++ { item with Status := StatusCompleted, EndTime := now, FilePath := filePath,
                            Progress := finalSize, TotalSize := finalSize } :: post,
         total + finalSize) := by
  induction pre with
  | nil => simp [completeLoop, hitem]
  | cons x xs ih =>
    have hx : x.ID ≠ id := hpre x (List.mem_cons_self _ _)
    have hxs : ∀ y ∈ xs, y.ID ≠ id := fun y hy => hpre y (List.mem_cons_of_mem _ hy)
    rw [List.cons_append, completeLoop, if_neg hx, ih hxs]
    rfl

theorem cancelLoop_length (now : Nat → Int) (n : Nat) (q : List (DownloadItem F)) :
    (cancelLoop now n q).length = q.length := by
  induction q generalizing n with
  | nil => rfl
  | cons x xs ih => simp [cancelLoop, ih]

theorem cancelLoop_get (now : Nat → Int) (n : Nat) (q : List (DownloadItem F)) (i : Nat)
    (item : DownloadItem F) (h : q[i]? = some item) :
    (cancelLoop now n q)[i]?
      = some (if item.Status = StatusQueued then
          { item with Status := StatusSkipped, EndTime := now (n + i), ErrorMessage := "Cancelled" }
        else item) := by
  induction q generalizing n i with
  | nil => simp at h
  | cons x xs ih =>
    cases i with
    | zero =>
      simp only [List.getElem?_cons_zero, Option.some.injEq] at h
      simp [cancelLoop, h]
    | succ j =>
      simp only [List.getElem?_cons_succ] at h
      have e : n + (j + 1) = n + 1 + j := by omega
      rw [cancelLoop, List.getElem?_cons_succ, ih (n + 1) j h, e]

end QueueLemmas

/-! ### Claims on the queue -/

/-- C8: for an id not yet in the queue, AddToQueue, StartDownloadItem and
CompleteDownloadItem at clock readings above zero leave the old items in
place, followed by the one item with that id, which is completed, has a
non-zero EndTime and the given file path; the session total is its previous
value plus the size. -/
theorem enqueue_start_complete {F : Type} [Zero F] [Add F] (s : QueueStore F)
    (id trackName artistName albumName isrc filePath : String) (finalSize : F)
    (t1 t2 t3 : Int) (hfresh : ∀ item ∈ s.downloadQueue, item.ID ≠ id)
    (_h1 : 0 < t1) (_h2 : 0 < t2) (h3 : 0 < t3) :
    (CompleteDownloadItem
        (StartDownloadItem (AddToQueue s id trackName artistName albumName isrc t1) id t2)
        id filePath finalSize t3).downloadQueue
      = s.downloadQueue ++
          [{ ID := id, TrackName := trackName, ArtistName := artistName, AlbumName := albumName,
             ISRC := isrc, Status := StatusCompleted, Progress := finalSize,
             TotalSize := finalSize, Speed := 0, StartTime := t2, EndTime := t3,
             ErrorMessage := "", FilePath := filePath }] ∧
    (∀ item ∈ (CompleteDownloadItem
        (StartDownloadItem (AddToQueue s id trackName artistName albumName isrc t1) id t2)
        id filePath finalSize t3).downloadQueue,
      item.ID = id →
        item.Status = StatusCompleted ∧ item.EndTime ≠ 0 ∧ item.FilePath = filePath) ∧
    (CompleteDownloadItem
        (StartDownloadItem (AddToQueue s id trackName artistName albumName isrc t1) id t2)
        id filePath finalSize t3).totalDownloaded
      = s.totalDownloaded + finalSize := by
  have hq : (CompleteDownloadItem
        (StartDownloadItem (AddToQueue s id trackName artistName albumName isrc t1) id t2)
        id filePath finalSize t3).downloadQueue
      = s.downloadQueue ++
          [{ ID := id, TrackName := trackName, ArtistName := artistName, AlbumName := albumName,
             ISRC := isrc, Status := StatusCompleted, Progress := finalSize,
             TotalSize := finalSize, Speed := 0, StartTime := t2, EndTime := t3,
             ErrorMessage := "", FilePath := filePath }] := by
    simp only [CompleteDownloadItem, StartDownloadItem, AddToQueue]
    rw [updateFirstByID_split id _ s.downloadQueue _ [] hfresh rfl,
      completeLoop_split id filePath finalSize t3 s.downloadQueue _ [] _ hfresh rfl]
  have ht : (CompleteDownloadItem
        (StartDownloadItem (AddToQueue s id trackName artistName albumName isrc t1) id t2)
        id filePath finalSize t3).totalDownloaded = s.totalDownloaded + finalSize := by
    simp only [CompleteDownloadItem, StartDownloadItem, AddToQueue]
    rw [updateFirstByID_split id _ s.downloadQueue _ [] hfresh rfl,
      completeLoop_split id filePath finalSize t3 s.downloadQueue _ [] _ hfresh rfl]
  refine ⟨hq, ?_, ht⟩
  intro item hitem hid
  rw [hq] at hitem
  rcases List.mem_append.mp hitem with hold | hnew
  · exact absurd hid (hfresh item hold)
  · rw [List.mem_singleton] at hnew
    rw [hnew]
    exact ⟨rfl, by simp only; omega, rfl⟩

/-- C8, from an empty queue, with sizes in `ℚ`. -/
theorem enqueue_start_complete_witness :
    ((∀ item ∈ (initialStore ℚ).downloadQueue, item.ID ≠ "track-1") ∧
      (0 : Int) < 1700000000 ∧ (0 : Int) < 1700000001 ∧ (0 : Int) < 1700000060) ∧
    ((CompleteDownloadItem
        (StartDownloadItem
          (AddToQueue (initialStore ℚ) "track-1" "Song" "Artist" "Album" "US1234567890" 1700000000)
          "track-1" 1700000001)
        "track-1" "/music/Song.flac" (61 / 2) 1700000060).downloadQueue
      = (initialStore ℚ).downloadQueue ++
          [{ ID := "track-1", TrackName := "Song", ArtistName := "Artist", AlbumName := "Album",
             ISRC := "US1234567890", Status := StatusCompleted, Progress := 61 / 2,
             TotalSize := 61 / 2, Speed := 0, StartTime := 1700000001, EndTime := 1700000060,
             ErrorMessage := "", FilePath := "/music/Song.flac" }] ∧
    (∀ item ∈ (CompleteDownloadItem
        (StartDownloadItem
          (AddToQueue (initialStore ℚ) "track-1" "Song" "Artist" "Album" "US1234567890" 1700000000)
          "track-1" 1700000001)
        "track-1" "/music/Song.flac" (61 / 2) 1700000060).downloadQueue,
      item.ID = "track-1" →
        item.Status = StatusCompleted ∧ item.EndTime ≠ 0 ∧ item.FilePath = "/music/Song.flac") ∧
    (CompleteDownloadItem
        (StartDownloadItem
          (AddToQueue (initialStore ℚ) "track-1" "Song" "Artist" "Album" "US1234567890" 1700000000)
          "track-1" 1700000001)
        "track-1" "/music/Song.flac" (61 / 2) 1700000060).totalDownloaded
      = (initialStore ℚ).totalDownloaded + 61 / 2) :=
  ⟨⟨by simp [initialStore], by decide, by decide, by decide⟩,
   enqueue_start_complete (initialStore ℚ) "track-1" "Song" "Artist" "Album" "US1234567890"
     "/music/Song.flac" (61 / 2) 1700000000 1700000001 1700000060
     (by simp [initialStore]) (by decide) (by decide) (by decide)⟩

/-- C9: CancelAllQueuedItems keeps the number and the order of the items; an
item whose status is queued becomes skipped with ErrorMessage "Cancelled" and
the clock reading as EndTime, its other fields unchanged; every other item is
left identical in every field; nothing else in the store changes. -/
theorem cancel_all_queued_items {F : Type} (s : QueueStore F) (now : Nat → Int) :
    (CancelAllQueuedItems s now).downloadQueue.length = s.downloadQueue.length ∧
    (∀ (i : Nat) (item : DownloadItem F), s.downloadQueue[i]? = some item →
      (CancelAllQueuedItems s now).downloadQueue[i]?
        = some (if item.Status = StatusQueued then
            { item with Status := StatusSkipped, EndTime := now i, ErrorMessage := "Cancelled" }
          else item)) ∧
    CancelAllQueuedItems s now = { s with downloadQueue := (CancelAllQueuedItems s now).downloadQueue } := by
  refine ⟨cancelLoop_length now 0 s.downloadQueue, ?_, rfl⟩
  intro i item h
  have := cancelLoop_get now 0 s.downloadQueue i item h
  rw [Nat.zero_add] at this
  exact this

/-- C10 fails on an item that is queued: UpdateItemProgress finds it by its ID
and overwrites its Progress and Speed. -/
theorem progress_update_changes_queued_item :
    (queuedItem "track-1").Status = StatusQueued ∧
    UpdateItemProgress { initialStore ℚ with downloadQueue := [queuedItem "track-1"] }
        "track-1" (3 / 2) (1 / 4)
      = { initialStore ℚ with
          downloadQueue := [{ queuedItem "track-1" with Progress := 3 / 2, Speed := 1 / 4 }] } ∧
    UpdateItemProgress { initialStore ℚ with downloadQueue := [queuedItem "track-1"] }
        "track-1" (3 / 2) (1 / 4)
      ≠ { initialStore ℚ with downloadQueue := [queuedItem "track-1"] } := by
  refine ⟨rfl, ?_, ?_⟩
  · simp [UpdateItemProgress, updateFirstByID, queuedItem]
  · intro h
    have h2 := congrArg (fun st => st.downloadQueue.map (fun item => item.Progress)) h
    simp [UpdateItemProgress, updateFirstByID, queuedItem] at h2

/-- C10, amended: UpdateItemProgress sets Progress and Speed of the first item
whose ID is the given one, whatever its status, and leaves every other item and
every other variable unchanged; when no item has that id the store is
unchanged. -/
theorem update_item_progress_effect {F : Type} (s : QueueStore F) (id : String)
    (progress speed : F) :
    (∀ (pre : List (DownloadItem F)) (item : DownloadItem F) (post : List (DownloadItem F)),
      s.downloadQueue = pre ++ item :: post → (∀ x ∈ pre, x.ID ≠ id) → item.ID = id →
      UpdateItemProgress s id progress speed
        = { s with downloadQueue :=
              pre ++ { item with Progress := progress, Speed := speed } :: post }) ∧
    ((∀ x ∈ s.downloadQueue, x.ID ≠ id) → UpdateItemProgress s id progress speed = s) := by
  constructor
  · intro pre item post hq hpre hitem
    unfold UpdateItemProgress
    rw [hq, updateFirstByID_split id _ pre item post hpre hitem]
  · intro h
    unfold UpdateItemProgress
    rw [updateFirstByID_absent id _ s.downloadQueue h]

/-! ### Lemmas on the operations as steps -/

section QueueStepLemmas
variable {F : Type}

theorem updateFirstByID_get (id : String) (f : DownloadItem F → DownloadItem F)
    (q : List (DownloadItem F)) (i : Nat) (item : DownloadItem F) (h : q[i]? = some item) :
    (updateFirstByID id f q)[i]?
      = some (if item.ID = id ∧ ∀ x ∈ q.take i, x.ID ≠ id then f item else item) := by
  induction q generalizing i with
  | nil => simp at h
  | cons x xs ih =>
    cases i with
    | zero =>
      simp only [List.getElem?_cons_zero, Option.some.injEq] at h
      subst h
      by_cases hx : x.ID = id
      · simp [updateFirstByID, hx]
      · simp [updateFirstByID, hx]
    | succ j =>
      simp only [List.getElem?_cons_succ] at h
      by_cases hx : x.ID = id
      · simp [updateFirstByID, hx, h]
      · simp [updateFirstByID, hx, ih j h]

theorem completeLoop_fst [Add F] (id filePath : String) (finalSize : F) (now : Int)
    (q : List (DownloadItem F)) (total : F) :
    (completeLoop id filePath finalSize now q total).1
      = updateFirstByID id
          (fun item => { item with Status := StatusCompleted, EndTime := now,
                                   FilePath := filePath, Progress := finalSize,
                                   TotalSize := finalSize }) q := by
  induction q with
  | nil => rfl
  | cons x xs ih =>
    by_cases hx : x.ID = id
    · simp [completeLoop, updateFirstByID, hx]
    · simp [completeLoop, updateFirstByID, hx, ih]

theorem clearLoop_eq_filter (q acc : List (DownloadItem F)) :
    clearLoop q acc
      = acc ++ q.filter
          (fun item => decide (item.Status = StatusQueued ∨ item.Status = StatusDownloading)) := by
  induction q generalizing acc with
  | nil => simp [clearLoop]
  | cons x xs ih =>
    by_cases hx : x.Status = StatusQueued ∨ x.Status = StatusDownloading
    · simp [clearLoop, ih, hx]
    · simp [clearLoop, ih, hx]

theorem hasActiveOrQueuedLoop_iff (q : List (DownloadItem F)) :
    hasActiveOrQueuedLoop q = true
      ↔ ∃ item ∈ q, item.Status = StatusQueued ∨ item.Status = StatusDownloading := by
  induction q with
  | nil => simp [hasActiveOrQueuedLoop]
  | cons x xs ih =>
    by_cases hx : x.Status = StatusQueued ∨ x.Status = StatusDownloading
    · simp [hasActiveOrQueuedLoop, hx]
    · simp [hasActiveOrQueuedLoop, hx, ih]

end QueueStepLemmas

/-! ### Claims on the queue as a state machine -/

/-- C11 fails on a reachable store: after AddToQueue, StartDownloadItem and
CompleteDownloadItem the item is completed, and a further StartDownloadItem
with its id sets it back to downloading. -/
theorem completed_item_restarts :
    ((applyOps (initialStore ℚ)
        [.add "track-1" "Song" "Artist" "Album" "US1234567890" 1700000000,
         .start "track-1" 1700000001,
         .complete "track-1" "/music/Song.flac" (61 / 2) 1700000060]).downloadQueue.map
      (fun item => item.Status)) = [StatusCompleted] ∧
    ((StartDownloadItem
        (applyOps (initialStore ℚ)
          [.add "track-1" "Song" "Artist" "Album" "US1234567890" 1700000000,
           .start "track-1" 1700000001,
           .complete "track-1" "/music/Song.flac" (61 / 2) 1700000060])
        "track-1" 1700000100).downloadQueue.map
      (fun item => item.Status)) = [StatusDownloading] := by
  constructor
  · simp [applyOps, applyOp, initialStore, AddToQueue, StartDownloadItem, CompleteDownloadItem,
      completeLoop, updateFirstByID]
  · simp [applyOps, applyOp, initialStore, AddToQueue, StartDownloadItem, CompleteDownloadItem,
      completeLoop, updateFirstByID]

/-- C11, amended: for an item that is completed, failed or skipped, a call of
AddToQueue, UpdateItemProgress or CancelAllQueuedItems leaves its status as it
is, and a call of StartDownloadItem, CompleteDownloadItem, FailDownloadItem or
SkipDownloadItem changes it exactly when the item is the first one of the
queue carrying the given id, the status then becoming downloading, completed,
failed or skipped respectively; the item keeps its place and its id. -/
theorem terminal_status_after_call {F : Type} [Zero F] [Add F] (s : QueueStore F)
    (op : QueueOp F) (i : Nat) (item : DownloadItem F)
    (hi : s.downloadQueue[i]? = some item)
    (hterm : item.Status = StatusCompleted ∨ item.Status = StatusFailed ∨
      item.Status = StatusSkipped) :
    ∃ item', (applyOp s op).downloadQueue[i]? = some item' ∧ item'.ID = item.ID ∧
      item'.Status =
        (match opTarget op with
         | some (id, target) =>
           if item.ID = id ∧ ∀ x ∈ s.downloadQueue.take i, x.ID ≠ id then target
           else item.Status
         | none => item.Status) := by
  have hnq : item.Status ≠ StatusQueued := by
    rcases hterm with h | h | h <;> rw [h] <;> decide
  cases op with
  | add id trackName artistName albumName isrc now =>
    refine ⟨item, ?_, rfl, rfl⟩
    have hlt : i < s.downloadQueue.length := by
      by_contra hge
      rw [List.getElem?_eq_none (by omega)] at hi
      exact absurd hi (by simp)
    simp only [applyOp, AddToQueue]
    rw [List.getElem?_append_left hlt]
    exact hi
  | start id now =>
    refine ⟨_, updateFirstByID_get id _ s.downloadQueue i item hi, ?_, ?_⟩
    · split <;> rfl
    · simp only [opTarget]
      split <;> rfl
  | update id progress speed =>
    refine ⟨_, updateFirstByID_get id _ s.downloadQueue i item hi, ?_, ?_⟩
    · split <;> rfl
    · simp only [opTarget]
      split <;> rfl
  | complete id filePath finalSize now =>
    have hq : (applyOp s (.complete id filePath finalSize now)).downloadQueue
        = updateFirstByID id
            (fun item => { item with Status := StatusCompleted, EndTime := now,
                                     FilePath := filePath, Progress := finalSize,
                                     TotalSize := finalSize }) s.downloadQueue :=
      completeLoop_fst id filePath finalSize now s.downloadQueue s.totalDownloaded
    rw [hq]
    refine ⟨_, updateFirstByID_get id _ s.downloadQueue i item hi, ?_, ?_⟩
    · split <;> rfl
    · simp only [opTarget]
      split <;> rfl
  | fail id errorMsg now =>
    refine ⟨_, updateFirstByID_get id _ s.downloadQueue i item hi, ?_, ?_⟩
    · split <;> rfl
    · simp only [opTarget]
      split <;> rfl
  | skip id filePath now =>
    refine ⟨_, updateFirstByID_get id _ s.downloadQueue i item hi, ?_, ?_⟩
    · split <;> rfl
    · simp only [opTarget]
      split <;> rfl
  | cancelAll now =>
    have hget := cancelLoop_get now 0 s.downloadQueue i item hi
    rw [if_neg hnq] at hget
    exact ⟨item, hget, rfl, rfl⟩

/-- C11, amended, at a store holding one completed item "track-1": a
FailDownloadItem for another id leaves its status as it is. -/
theorem terminal_status_after_call_witness :
    (([{ queuedItem "track-1" with Status := StatusCompleted }] : List (DownloadItem ℚ))[0]?
        = some { queuedItem "track-1" with Status := StatusCompleted } ∧
      (({ queuedItem "track-1" with Status := StatusCompleted } : DownloadItem ℚ).Status
          = StatusCompleted ∨
        ({ queuedItem "track-1" with Status := StatusCompleted } : DownloadItem ℚ).Status
          = StatusFailed ∨
        ({ queuedItem "track-1" with Status := StatusCompleted } : DownloadItem ℚ).Status
          = StatusSkipped)) ∧
    ∃ item' : DownloadItem ℚ,
      (applyOp
          { initialStore ℚ with
            downloadQueue := [{ queuedItem "track-1" with Status := StatusCompleted }] }
          (.fail "track-2" "network error" 1700000100)).downloadQueue[0]? = some item' ∧
      item'.ID = ({ queuedItem "track-1" with Status := StatusCompleted } : DownloadItem ℚ).ID ∧
      item'.Status =
        (match opTarget (QueueOp.fail "track-2" "network error" 1700000100 : QueueOp ℚ) with
         | some (id, target) =>
           if ({ queuedItem "track-1" with Status := StatusCompleted } : DownloadItem ℚ).ID = id ∧
              ∀ x ∈ ({ initialStore ℚ with
                  downloadQueue := [{ queuedItem "track-1" with Status := StatusCompleted }]
                  } : QueueStore ℚ).downloadQueue.take 0, x.ID ≠ id
           then target
           else ({ queuedItem "track-1" with Status := StatusCompleted } : DownloadItem ℚ).Status
         | none => ({ queuedItem "track-1" with Status := StatusCompleted } : DownloadItem ℚ).Status) :=
  ⟨⟨rfl, Or.inl rfl⟩,
   terminal_status_after_call
     { initialStore ℚ with
       downloadQueue := [{ queuedItem "track-1" with Status := StatusCompleted }] }
     (.fail "track-2" "network error" 1700000100) 0
     { queuedItem "track-1" with Status := StatusCompleted } rfl (Or.inl rfl)⟩

/-- C12: ResetSessionIfComplete sets the session total and the session start time
to zero when no item is queued or downloading, changes nothing when some item
is, and never changes the item list; GetDownloadQueue leaves the store in that
state and reports it. -/
theorem reset_session_if_complete {F : Type} [Zero F] (s : QueueStore F) :
    ((∀ item ∈ s.downloadQueue,
        ¬ (item.Status = StatusQueued ∨ item.Status = StatusDownloading)) →
      ResetSessionIfComplete s = { s with sessionStartTime := 0, totalDownloaded := 0 }) ∧
    ((∃ item ∈ s.downloadQueue,
        item.Status = StatusQueued ∨ item.Status = StatusDownloading) →
      ResetSessionIfComplete s = s) ∧
    (ResetSessionIfComplete s).downloadQueue = s.downloadQueue ∧
    (GetDownloadQueue s).1 = ResetSessionIfComplete s ∧
    (GetDownloadQueue s).2.Queue = s.downloadQueue ∧
    (GetDownloadQueue s).2.TotalDownloaded = (ResetSessionIfComplete s).totalDownloaded ∧
    (GetDownloadQueue s).2.SessionStartTime = (ResetSessionIfComplete s).sessionStartTime := by
  have hq : (ResetSessionIfComplete s).downloadQueue = s.downloadQueue := by
    unfold ResetSessionIfComplete
    split <;> rfl
  refine ⟨?_, ?_, hq, rfl, hq, rfl, rfl⟩
  · intro h
    have hfalse : hasActiveOrQueuedLoop s.downloadQueue = false := by
      cases hb : hasActiveOrQueuedLoop s.downloadQueue with
      | false => rfl
      | true =>
        obtain ⟨item, hmem, hst⟩ := (hasActiveOrQueuedLoop_iff s.downloadQueue).mp hb
        exact absurd hst (h item hmem)
    simp [ResetSessionIfComplete, hfalse]
  · intro h
    have htrue := (hasActiveOrQueuedLoop_iff s.downloadQueue).mpr h
    simp [ResetSessionIfComplete, htrue]

/-- C13: ClearDownloadQueue keeps exactly the items that are queued or
downloading, unchanged and in their order, removes every other item, and
changes no other variable (session total, session start time and current item
id included). -/
theorem clear_download_queue {F : Type} (s : QueueStore F) :
    (ClearDownloadQueue s).downloadQueue
      = s.downloadQueue.filter
          (fun item => decide (item.Status = StatusQueued ∨ item.Status = StatusDownloading)) ∧
    List.Sublist (ClearDownloadQueue s).downloadQueue s.downloadQueue ∧
    (∀ item, item ∈ (ClearDownloadQueue s).downloadQueue ↔
      item ∈ s.downloadQueue ∧
        (item.Status = StatusQueued ∨ item.Status = StatusDownloading)) ∧
    (ClearDownloadQueue s).totalDownloaded = s.totalDownloaded ∧
    (ClearDownloadQueue s).sessionStartTime = s.sessionStartTime ∧
    (ClearDownloadQueue s).currentItemID = s.currentItemID ∧
    ClearDownloadQueue s = { s with downloadQueue := (ClearDownloadQueue s).downloadQueue } := by
  have hq : (ClearDownloadQueue s).downloadQueue
      = s.downloadQueue.filter
          (fun item => decide (item.Status = StatusQueued ∨ item.Status = StatusDownloading)) := by
    simp [ClearDownloadQueue, clearLoop_eq_filter]
  refine ⟨hq, ?_, ?_, rfl, rfl, rfl, rfl⟩
  · rw [hq]
    exact List.filter_sublist _
  · intro item
    rw [hq, List.mem_filter]
    simp

/-! ### Lemmas on decimal numerals -/

theorem digitChar_facts (d : Nat) (hd : d < 10) :
    (Nat.digitChar d).isDigit = true ∧ (Nat.digitChar d).toNat - 48 = d := by
  interval_cases d <;> exact ⟨by decide, by decide⟩

theorem toDigitsCore_append (fuel n : Nat) (ds : List Char) :
    Nat.toDigitsCore 10 fuel n ds = Nat.toDigitsCore 10 fuel n [] ++ ds := by
  induction fuel generalizing n ds with
  | zero => simp [Nat.toDigitsCore]
  | succ fuel ih =>
    simp only [Nat.toDigitsCore]
    by_cases h : n / 10 = 0
    · simp [h]
    · simp only [h, if_false]
      rw [ih (n / 10) (Nat.digitChar (n % 10) :: ds), ih (n / 10) [Nat.digitChar (n % 10)]]
      simp

theorem decimalValue_append_single (xs : List Char) (c : Char) :
    decimalValue (xs ++ [c]) = decimalValue xs * 10 + (c.toNat - 48) := by
  simp [decimalValue, List.foldl_append]

theorem decimalValue_toDigitsCore (fuel n : Nat) (h : n < fuel) :
    decimalValue (Nat.toDigitsCore 10 fuel n []) = n := by
  induction fuel generalizing n with
  | zero => omega
  | succ fuel ih =>
    have hd := (digitChar_facts (n % 10) (Nat.mod_lt _ (by decide))).2
    simp only [Nat.toDigitsCore]
    by_cases h0 : n / 10 = 0
    · simp only [h0, if_true]
      have : decimalValue [Nat.digitChar (n % 10)] = (Nat.digitChar (n % 10)).toNat - 48 := by
        simp [decimalValue]
      rw [this, hd]
      omega
    · simp only [h0, if_false]
      rw [toDigitsCore_append, decimalValue_append_single, ih (n / 10) (by omega), hd]
      omega

theorem toDigitsCore_isDigit (fuel n : Nat) (ds : List Char)
    (hds : ∀ c ∈ ds, c.isDigit = true) :
    ∀ c ∈ Nat.toDigitsCore 10 fuel n ds, c.isDigit = true := by
  induction fuel generalizing n ds with
  | zero => simpa [Nat.toDigitsCore] using hds
  | succ fuel ih =>
    have hd := (digitChar_facts (n % 10) (Nat.mod_lt _ (by decide))).1
    have hcons : ∀ c ∈ Nat.digitChar (n % 10) :: ds, c.isDigit = true := by
      intro c hc
      rcases List.mem_cons.mp hc with rfl | hc2
      · exact hd
      · exact hds c hc2
    simp only [Nat.toDigitsCore]
    by_cases h0 : n / 10 = 0
    · simpa [h0] using hcons
    · simp only [h0, if_false]
      exact ih (n / 10) _ hcons

theorem toDigits_ne_nil (n : Nat) : Nat.toDigits 10 n ≠ [] := by
  unfold Nat.toDigits
  simp only [Nat.toDigitsCore]
  by_cases h0 : n / 10 = 0
  · simp [h0]
  · simp only [h0, if_false]
    rw [toDigitsCore_append]
    simp

/-- `strconv.Atoi` reads back the numeral `strconv.Itoa` writes for a number
above zero that fits a Go `int`. -/
theorem Atoi_Itoa (n : Int) (hpos : 0 < n) (hmax : n ≤ maxInt64) : Atoi (Itoa n) = some n := by
  have hnn : ¬ n < 0 := by omega
  have hdata : (Itoa n).data = Nat.toDigits 10 n.toNat := by
    simp [Itoa, hnn, Nat.repr, List.asString]
  have hval : decimalValue (Nat.toDigits 10 n.toNat) = n.toNat :=
    decimalValue_toDigitsCore (n.toNat + 1) n.toNat (by omega)
  have hdig : ∀ c ∈ Nat.toDigits 10 n.toNat, c.isDigit = true :=
    toDigitsCore_isDigit (n.toNat + 1) n.toNat [] (by simp)
  have hne := toDigits_ne_nil n.toNat
  have hcast : ((n.toNat : Nat) : Int) = n := Int.toNat_of_nonneg (by omega)
  have hall : (Nat.toDigits 10 n.toNat).all Char.isDigit = true := List.all_eq_true.mpr hdig
  have hemp : (Nat.toDigits 10 n.toNat).isEmpty = false := by
    cases hl : Nat.toDigits 10 n.toNat with
    | nil => exact absurd hl hne
    | cons c cs => rfl
  unfold Atoi
  rw [hdata]
  split
  · rename_i ds heq
    have hm := hdig '-' (by rw [heq]; exact List.mem_cons_self _ _)
    exact absurd hm (by decide)
  · rename_i ds heq
    have hp := hdig '+' (by rw [heq]; exact List.mem_cons_self _ _)
    exact absurd hp (by decide)
  · simp only [hall, hemp, hval, hcast, hmax, Bool.not_false, Bool.and_self, and_self, if_true]

/-! ### Lemmas on the comment block -/

theorem splitAtEq_append (key value : List Char) (hkey : ∀ c ∈ key, c ≠ '=') :
    splitAtEq (key ++ '=' :: value) = some (key, value) := by
  induction key with
  | nil => simp [splitAtEq]
  | cons c cs ih =>
    have hc : c ≠ '=' := hkey c (List.mem_cons_self _ _)
    have hcs : ∀ x ∈ cs, x ≠ '=' := fun x hx => hkey x (List.mem_cons_of_mem _ hx)
    simp [splitAtEq, hc, ih hcs]

theorem splitField_entry (key value : String) (hkey : ∀ c ∈ key.data, c ≠ '=') :
    splitField (key ++ "=" ++ value) = some (key, value) := by
  have hdata : (key ++ "=" ++ value).data = key.data ++ '=' :: value.data := by
    simp [String.data_append]
  simp [splitField, hdata, splitAtEq_append key.data value.data hkey]

theorem embedKeys_no_eq (k : String) (hk : k ∈ embedKeys) : ∀ c ∈ k.data, c ≠ '=' := by
  simp only [embedKeys, List.mem_cons, List.mem_singleton, List.not_mem_nil, or_false] at hk
  rcases hk with rfl | rfl | rfl | rfl | rfl | rfl | rfl | rfl | rfl | rfl | rfl <;> decide

theorem embedKeys_valid (k : String) (hk : k ∈ embedKeys) : validFieldName k = true := by
  simp only [embedKeys, List.mem_cons, List.mem_singleton, List.not_mem_nil, or_false] at hk
  rcases hk with rfl | rfl | rfl | rfl | rfl | rfl | rfl | rfl | rfl | rfl | rfl <;> decide

theorem vorbisAdd_optField (cmt : List String) (c : Prop) [Decidable c] (key val : String)
    (hk : validFieldName key = true) :
    (if c then vorbisAdd cmt key val else cmt)
      = cmt ++ (optField c key val).map (fun p => p.1 ++ "=" ++ p.2) := by
  by_cases hc : c
  · simp [hc, vorbisAdd, hk, optField]
  · simp [hc, optField]

/-- The comments `EmbedMetadata` writes are the entries `name=value` of
`embedFields`. -/
theorem embedComments_eq (metadata : Metadata) :
    embedComments metadata = (embedFields metadata).map (fun p => p.1 ++ "=" ++ p.2) := by
  unfold embedComments embedFields
  simp only [vorbisAdd_optField _ _ _ _ (show validFieldName "TITLE" = true by decide),
    vorbisAdd_optField _ _ _ _ (show validFieldName "ARTIST" = true by decide),
    vorbisAdd_optField _ _ _ _ (show validFieldName "ALBUM" = true by decide),
    vorbisAdd_optField _ _ _ _ (show validFieldName "ALBUMARTIST" = true by decide),
    vorbisAdd_optField _ _ _ _ (show validFieldName "DATE" = true by decide),
    vorbisAdd_optField _ _ _ _ (show validFieldName "TRACKNUMBER" = true by decide),
    vorbisAdd_optField _ _ _ _ (show validFieldName "TOTALTRACKS" = true by decide),
    vorbisAdd_optField _ _ _ _ (show validFieldName "DISCNUMBER" = true by decide),
    vorbisAdd_optField _ _ _ _ (show validFieldName "ISRC" = true by decide),
    vorbisAdd_optField _ _ _ _ (show validFieldName "DESCRIPTION" = true by decide),
    vorbisAdd_optField _ _ _ _ (show validFieldName "LYRICS" = true by decide),
    List.map_append, List.nil_append, List.append_assoc]

theorem embedFields_keys (metadata : Metadata) : ∀ p ∈ embedFields metadata, p.1 ∈ embedKeys := by
  intro p hp
  simp only [embedFields, optField, List.mem_append] at hp
  simp only [embedKeys, List.mem_cons, List.mem_singleton]
  rcases hp with ((((((((((h | h) | h) | h) | h) | h) | h) | h) | h) | h) | h) <;>
    (split at h <;> first | (simp at h; done) | (simp at h; simp [h]))

theorem vorbisGetLoop_entries (lib : StringsLib) (key : String)
    (entries : List (String × String)) (res : List String)
    (hkeys : ∀ p ∈ entries, ∀ c ∈ p.1.data, c ≠ '=') :
    vorbisGetLoop lib key (entries.map (fun p => p.1 ++ "=" ++ p.2)) res
      = some (res ++ (entries.filter (fun p => lib.EqualFold p.1 key)).map Prod.snd) := by
  induction entries generalizing res with
  | nil => simp [vorbisGetLoop]
  | cons p ps ih =>
    have hp := hkeys p (List.mem_cons_self _ _)
    have hps : ∀ q ∈ ps, ∀ c ∈ q.1.data, c ≠ '=' :=
      fun q hq => hkeys q (List.mem_cons_of_mem _ hq)
    simp only [List.map_cons, vorbisGetLoop, splitField_entry p.1 p.2 hp]
    rw [ih _ hps]
    by_cases hf : lib.EqualFold p.1 key = true
    · simp [hf, List.filter_cons]
    · simp [hf, List.filter_cons]

theorem readComment_key (lib : StringsLib) (hlib : lib.Sound) (metadata : AudioMetadata)
    (key value : String) (hk : key ∈ embedKeys) :
    readComment lib metadata (key ++ "=" ++ value) = readField metadata key value := by
  unfold readComment readField
  rw [splitField_entry key value (embedKeys_no_eq key hk)]
  simp only [hlib.toUpper_key key hk]

theorem foldl_optField (lib : StringsLib) (metadata : AudioMetadata) (c : Prop) [Decidable c]
    (key val : String) :
    ((optField c key val).map (fun p => p.1 ++ "=" ++ p.2)).foldl (readComment lib) metadata
      = if c then readComment lib metadata (key ++ "=" ++ val) else metadata := by
  by_cases hc : c
  · simp [optField, hc]
  · simp [optField, hc]

/-- What the loop of `readFlacMetadata` reads from the comments `EmbedMetadata`
writes. -/
theorem readComments_embed (lib : StringsLib) (hlib : lib.Sound) (m : Metadata)
    (htn : m.TrackNumber ≤ maxInt64) (hdn : m.DiscNumber ≤ maxInt64) :
    (embedComments m).foldl (readComment lib) emptyAudioMetadata
      = { Title := m.Title, Artist := m.Artist, Album := m.Album, AlbumArtist := m.AlbumArtist,
          TrackNumber := if m.TrackNumber > 0 then m.TrackNumber else 0,
          DiscNumber := if m.DiscNumber > 0 then m.DiscNumber else 0,
          Year := m.Date } := by
  have ht : m.TrackNumber > 0 → Atoi (Itoa m.TrackNumber) = some m.TrackNumber :=
    fun h => Atoi_Itoa _ h htn
  have hd : m.DiscNumber > 0 → Atoi (Itoa m.DiscNumber) = some m.DiscNumber :=
    fun h => Atoi_Itoa _ h hdn
  rw [embedComments_eq]
  unfold embedFields
  simp only [List.map_append, List.foldl_append, foldl_optField,
    readComment_key lib hlib _ _ _ (show "TITLE" ∈ embedKeys by decide),
    readComment_key lib hlib _ _ _ (show "ARTIST" ∈ embedKeys by decide),
    readComment_key lib hlib _ _ _ (show "ALBUM" ∈ embedKeys by decide),
    readComment_key lib hlib _ _ _ (show "ALBUMARTIST" ∈ embedKeys by decide),
    readComment_key lib hlib _ _ _ (show "DATE" ∈ embedKeys by decide),
    readComment_key lib hlib _ _ _ (show "TRACKNUMBER" ∈ embedKeys by decide),
    readComment_key lib hlib _ _ _ (show "TOTALTRACKS" ∈ embedKeys by decide),
    readComment_key lib hlib _ _ _ (show "DISCNUMBER" ∈ embedKeys by decide),
    readComment_key lib hlib _ _ _ (show "ISRC" ∈ embedKeys by decide),
    readComment_key lib hlib _ _ _ (show "DESCRIPTION" ∈ embedKeys by decide),
    readComment_key lib hlib _ _ _ (show "LYRICS" ∈ embedKeys by decide)]
  by_cases h1 : m.Title = "" <;> by_cases h2 : m.Artist = "" <;> by_cases h3 : m.Album = "" <;>
    by_cases h4 : m.AlbumArtist = "" <;> by_cases h5 : m.Date = "" <;>
    by_cases h6 : m.TrackNumber > 0 <;> by_cases h7 : m.DiscNumber > 0 <;>
    simp [readField, emptyAudioMetadata, h1, h2, h3, h4, h5, h6, h7, ht, hd]

theorem filter_optField (c : Prop) [Decidable c] (k v key : String) :
    (optField c k v).filter (fun p => decide (p.1 = key))
      = if k = key then optField c k v else [] := by
  by_cases hc : c <;> by_cases hk : k = key <;> simp [optField, hc, hk]

theorem map_snd_optField (c : Prop) [Decidable c] (k v : String) :
    (optField c k v).map Prod.snd = (if c then some v else none).toList := by
  by_cases hc : c <;> simp [optField, hc]

/-- Among the entries `EmbedMetadata` writes, those named `key` are the value the
Metadata sets for `key`, if it sets one. -/
theorem embedFields_filter (m : Metadata) (key : String) (hk : key ∈ embedKeys) :
    ((embedFields m).filter (fun p => decide (p.1 = key))).map Prod.snd
      = (fieldValue m key).toList := by
  simp only [embedKeys, List.mem_cons, List.mem_singleton, List.not_mem_nil, or_false] at hk
  rcases hk with rfl | rfl | rfl | rfl | rfl | rfl | rfl | rfl | rfl | rfl | rfl <;>
    simp [embedFields, fieldValue, List.filter_append, filter_optField, map_snd_optField]

/-- The call `Get(key)` on the comments `EmbedMetadata` writes returns the value
set for `key` when there is one and no value otherwise. -/
theorem vorbisGet_embed (lib : StringsLib) (hlib : lib.Sound) (m : Metadata) (key : String)
    (hk : key ∈ embedKeys) :
    vorbisGet lib key (embedComments m) = some (fieldValue m key).toList := by
  have hkeys : ∀ p ∈ embedFields m, ∀ c ∈ p.1.data, c ≠ '=' :=
    fun p hp => embedKeys_no_eq p.1 (embedFields_keys m p hp)
  have hfilter : (embedFields m).filter (fun p => lib.EqualFold p.1 key)
      = (embedFields m).filter (fun p => decide (p.1 = key)) := by
    apply List.filter_congr
    intro p hp
    exact hlib.equalFold_key p.1 (embedFields_keys m p hp) key hk
  unfold vorbisGet
  rw [embedComments_eq, vorbisGetLoop_entries lib key _ [] hkeys, hfilter,
    embedFields_filter m key hk, List.nil_append]

/-- The loop of `ReadISRCFromFile` on the block `EmbedMetadata` writes returns the
ISRC of the Metadata. -/
theorem readISRC_embed (lib : StringsLib) (hlib : lib.Sound) (m : Metadata) (vendor : String) :
    readISRCLoop lib [.vorbisComment vendor (embedComments m)] = m.ISRC := by
  have hget := vorbisGet_embed lib hlib m "ISRC" (by decide)
  by_cases h : m.ISRC = ""
  · simp [readISRCLoop, hget, fieldValue, h]
  · simp [readISRCLoop, hget, fieldValue, h]

theorem asciiStrings_sound : asciiStrings.Sound where
  equalFold_refl := by
    intro s
    simp [asciiStrings]
  toUpper_key := by
    intro k hk
    simp only [embedKeys, List.mem_cons, List.mem_singleton, List.not_mem_nil, or_false] at hk
    rcases hk with rfl | rfl | rfl | rfl | rfl | rfl | rfl | rfl | rfl | rfl | rfl <;> rfl
  equalFold_key := by
    intro k hk k' hk'
    simp only [embedKeys, List.mem_cons, List.mem_singleton, List.not_mem_nil, or_false] at hk hk'
    rcases hk with rfl | rfl | rfl | rfl | rfl | rfl | rfl | rfl | rfl | rfl | rfl <;>
      rcases hk' with rfl | rfl | rfl | rfl | rfl | rfl | rfl | rfl | rfl | rfl | rfl <;> rfl

/-! ### Lemmas on EmbedMetadata and the readers at the level of the file -/

theorem readBlocksLoop_filter (lib : StringsLib) (md : AudioMetadata) (l : List MetaDataBlock) :
    readBlocksLoop lib md l
      = readBlocksLoop lib md (l.filter (fun b => b.isVorbisComment)) := by
  induction l generalizing md with
  | nil => rfl
  | cons b bs ih =>
    cases b with
    | vorbisComment v cs =>
      simp only [List.filter_cons, MetaDataBlock.isVorbisComment, if_true, readBlocksLoop]
      exact ih _
    | vorbisMalformed d =>
      simp only [List.filter_cons, MetaDataBlock.isVorbisComment, if_true, readBlocksLoop]
      exact ih _
    | picture d =>
      simp only [List.filter_cons, MetaDataBlock.isVorbisComment, readBlocksLoop]
      exact ih _
    | other t d =>
      simp only [List.filter_cons, MetaDataBlock.isVorbisComment, readBlocksLoop]
      exact ih _

theorem readISRCLoop_filter (lib : StringsLib) (l : List MetaDataBlock) :
    readISRCLoop lib l = readISRCLoop lib (l.filter (fun b => b.isVorbisComment)) := by
  induction l with
  | nil => rfl
  | cons b bs ih =>
    cases b with
    | vorbisComment v cs =>
      simp only [List.filter_cons, MetaDataBlock.isVorbisComment, if_true, readISRCLoop, ih]
    | vorbisMalformed d =>
      simp only [List.filter_cons, MetaDataBlock.isVorbisComment, if_true, readISRCLoop, ih]
    | picture d =>
      simp only [List.filter_cons, MetaDataBlock.isVorbisComment, readISRCLoop, ih]
      rfl
    | other t d =>
      simp only [List.filter_cons, MetaDataBlock.isVorbisComment, readISRCLoop, ih]
      rfl

theorem replaceFirstComment_split (B : MetaDataBlock) (pre : List MetaDataBlock)
    (old : MetaDataBlock) (post : List MetaDataBlock)
    (hpre : ∀ b ∈ pre, b.isVorbisComment = false) (hold : old.isVorbisComment = true) :
    replaceFirstComment B (pre ++ old :: post) = some (pre ++ B :: post) := by
  induction pre with
  | nil => simp [replaceFirstComment, hold]
  | cons x xs ih =>
    have hx := hpre x (List.mem_cons_self _ _)
    have hxs : ∀ b ∈ xs, b.isVorbisComment = false :=
      fun b hb => hpre b (List.mem_cons_of_mem _ hb)
    simp [replaceFirstComment, hx, ih hxs]

theorem replaceFirstComment_none (B : MetaDataBlock) (l : List MetaDataBlock)
    (h : ∀ b ∈ l, b.isVorbisComment = false) : replaceFirstComment B l = none := by
  induction l with
  | nil => rfl
  | cons x xs ih =>
    have hx := h x (List.mem_cons_self _ _)
    simp [replaceFirstComment, hx, ih (fun b hb => h b (List.mem_cons_of_mem _ hb))]

/-- A list of blocks either has no block of type VorbisComment or splits at the
first one. -/
theorem firstComment_cases (l : List MetaDataBlock) :
    (∀ b ∈ l, b.isVorbisComment = false) ∨
    ∃ pre old post, l = pre ++ old :: post ∧ (∀ b ∈ pre, b.isVorbisComment = false) ∧
      old.isVorbisComment = true := by
  by_cases h : ∃ b ∈ l, b.isVorbisComment = true
  · right
    obtain ⟨pre, old, post, hl, hpre, hold⟩ :=
      exists_first_split (fun b : MetaDataBlock => b.isVorbisComment = true) l h
    exact ⟨pre, old, post, hl, fun b hb => by simpa using hpre b hb, hold⟩
  · left
    intro b hb
    by_contra hne
    exact h ⟨b, hb, by simpa using hne⟩

/-- In a file with at most one block of type VorbisComment, the blocks of that
type after `putCommentBlock` are the new block alone. -/
theorem putCommentBlock_filter (B : MetaDataBlock) (hB : B.isVorbisComment = true)
    (l : List MetaDataBlock) (hone : (l.filter (fun b => b.isVorbisComment)).length ≤ 1) :
    (putCommentBlock B l).filter (fun b => b.isVorbisComment) = [B] := by
  have hnone : ∀ xs : List MetaDataBlock, (∀ b ∈ xs, b.isVorbisComment = false) →
      xs.filter (fun b => b.isVorbisComment) = [] := by
    intro xs hxs
    exact List.filter_eq_nil_iff.mpr (fun b hb => by simp [hxs b hb])
  rcases firstComment_cases l with hno | ⟨pre, old, post, hl, hpre, hold⟩
  · simp [putCommentBlock, replaceFirstComment_none B l hno, List.filter_append, hnone l hno, hB]
  · have hpost : post.filter (fun b => b.isVorbisComment) = [] := by
      rw [hl] at hone
      simp only [List.filter_append, hnone pre hpre, List.nil_append, List.filter_cons, hold,
        if_true, List.length_cons] at hone
      exact List.length_eq_zero.mp (by omega)
    rw [hl]
    simp [putCommentBlock, replaceFirstComment_split B pre old post hpre hold,
      List.filter_append, hnone pre hpre, List.filter_cons, hB, hpost]

theorem embedCoverArt_filter (l : List MetaDataBlock) (pic : List Nat) :
    (embedCoverArt l pic).filter (fun b => b.isVorbisComment)
      = l.filter (fun b => b.isVorbisComment) := by
  unfold embedCoverArt
  rw [List.filter_append, List.filter_filter]
  have h : (fun b : MetaDataBlock => (b.isVorbisComment && !b.isPicture))
      = (fun b : MetaDataBlock => b.isVorbisComment) := by
    funext b
    cases b <;> rfl
  rw [h]
  have hp : [MetaDataBlock.picture pic].filter (fun b => b.isVorbisComment) = [] := rfl
  rw [hp, List.append_nil]

/-- The blocks of type VorbisComment of the file `EmbedMetadata` saves, for a file
that had at most one. -/
theorem EmbedMetadata_comment_blocks (f r : FlacFile) (m : Metadata) (cover : Option (List Nat))
    (hok : EmbedMetadata (some f) m cover none = .ok r)
    (hone : (f.Meta.filter (fun b => b.isVorbisComment)).length ≤ 1) :
    r.Meta.filter (fun b => b.isVorbisComment)
      = [.vorbisComment flacvorbisVendor (embedComments m)] := by
  have hput := putCommentBlock_filter (.vorbisComment flacvorbisVendor (embedComments m)) rfl
    f.Meta hone
  cases cover with
  | none =>
    simp only [EmbedMetadata, Except.ok.injEq] at hok
    rw [← hok]
    exact hput
  | some pic =>
    simp only [EmbedMetadata, Except.ok.injEq] at hok
    rw [← hok]
    simp only [embedCoverArt_filter]
    exact hput

/-! ### Claims on EmbedMetadata -/

/-- C19: the comment block `EmbedMetadata` writes holds, for each of the eleven
field names, the value the Metadata sets for it when it sets one (a string that
is not empty, the numeral of a number above zero) and no entry otherwise; and
reading the saved file back, for a file with at most one comment block, gives
through `readFlacMetadata` the title, artist, album, album artist and date that
were set, the track and disc numbers that were above zero, the empty string or
zero for the others, and through `ReadISRCFromFile` the ISRC. -/
theorem embed_metadata_round_trip (lib : StringsLib) (hlib : lib.Sound) (m : Metadata)
    (htn : m.TrackNumber ≤ maxInt64) (hdn : m.DiscNumber ≤ maxInt64) :
    (∀ key ∈ embedKeys, vorbisGet lib key (embedComments m) = some (fieldValue m key).toList) ∧
    (∀ (f r : FlacFile) (cover : Option (List Nat)),
      EmbedMetadata (some f) m cover none = .ok r →
      (f.Meta.filter (fun b => b.isVorbisComment)).length ≤ 1 →
      r.Meta.filter (fun b => b.isVorbisComment)
          = [.vorbisComment flacvorbisVendor (embedComments m)] ∧
        readFlacMetadata lib (some r)
          = .ok { Title := m.Title, Artist := m.Artist, Album := m.Album,
                  AlbumArtist := m.AlbumArtist,
                  TrackNumber := if m.TrackNumber > 0 then m.TrackNumber else 0,
                  DiscNumber := if m.DiscNumber > 0 then m.DiscNumber else 0,
                  Year := m.Date } ∧
        ReadISRCFromFile lib (some r) = .ok m.ISRC) := by
  refine ⟨fun key hk => vorbisGet_embed lib hlib m key hk, ?_⟩
  intro f r cover hok hone
  have hblocks := EmbedMetadata_comment_blocks f r m cover hok hone
  refine ⟨hblocks, ?_, ?_⟩
  · have hread := readComments_embed lib hlib m htn hdn
    unfold emptyAudioMetadata at hread
    simp only [readFlacMetadata]
    rw [readBlocksLoop_filter, hblocks]
    simp only [readBlocksLoop, hread]
  · simp only [ReadISRCFromFile]
    rw [readISRCLoop_filter, hblocks, readISRC_embed lib hlib m flacvorbisVendor]

/-- C19, at a Metadata with title, artist, album, date, track 3 of 12, ISRC and a
description containing `=`, embedded into a file that had a comment block. -/
theorem embed_metadata_round_trip_witness :
    (asciiStrings.Sound ∧ sampleMetadata.TrackNumber ≤ maxInt64 ∧
      sampleMetadata.DiscNumber ≤ maxInt64) ∧
    ((∀ key ∈ embedKeys,
        vorbisGet asciiStrings key (embedComments sampleMetadata)
          = some (fieldValue sampleMetadata key).toList) ∧
      (∀ (f r : FlacFile) (cover : Option (List Nat)),
        EmbedMetadata (some f) sampleMetadata cover none = .ok r →
        (f.Meta.filter (fun b => b.isVorbisComment)).length ≤ 1 →
        r.Meta.filter (fun b => b.isVorbisComment)
            = [.vorbisComment flacvorbisVendor (embedComments sampleMetadata)] ∧
          readFlacMetadata asciiStrings (some r)
            = .ok { Title := sampleMetadata.Title, Artist := sampleMetadata.Artist,
                    Album := sampleMetadata.Album, AlbumArtist := sampleMetadata.AlbumArtist,
                    TrackNumber :=
                      if sampleMetadata.TrackNumber > 0 then sampleMetadata.TrackNumber else 0,
                    DiscNumber :=
                      if sampleMetadata.DiscNumber > 0 then sampleMetadata.DiscNumber else 0,
                    Year := sampleMetadata.Date } ∧
          ReadISRCFromFile asciiStrings (some r) = .ok sampleMetadata.ISRC)) :=
  ⟨⟨asciiStrings_sound, by decide, by decide⟩,
   embed_metadata_round_trip asciiStrings asciiStrings_sound sampleMetadata
     (by decide) (by decide)⟩

/-- The comments written for the sample Metadata and what the two readers return
on the saved file, evaluated. -/
theorem embed_metadata_example :
    embedComments sampleMetadata
      = ["TITLE=Song", "ARTIST=Artist", "ALBUM=Album", "DATE=2020-05-01", "TRACKNUMBER=3",
         "TOTALTRACKS=12", "ISRC=US1234567890", "DESCRIPTION=a=b"] ∧
    (EmbedMetadata (some sampleFlac) sampleMetadata none none).toOption.map
        (fun r => readFlacMetadata asciiStrings (some r))
      = some (.ok { Title := "Song", Artist := "Artist", Album := "Album", AlbumArtist := "",
                    TrackNumber := 3, DiscNumber := 0, Year := "2020-05-01" }) ∧
    (EmbedMetadata (some sampleFlac) sampleMetadata none none).toOption.map
        (fun r => ReadISRCFromFile asciiStrings (some r))
      = some (.ok "US1234567890") := by
  refine ⟨by rfl, by rfl, by rfl⟩

/-- C20 fails: the file holds `COMPOSER=x` in its comment block, `EmbedMetadata`
succeeds, and the comment block of the saved file holds the comments of the
Metadata only. -/
theorem embed_metadata_drops_composer :
    MetaDataBlock.vorbisComment "reference libFLAC" ["COMPOSER=x", "TITLE=Old"]
      ∈ sampleFlac.Meta ∧
    EmbedMetadata (some sampleFlac) sampleMetadata none none
      = .ok { Meta := [.other 0 [16, 0],
                       .vorbisComment flacvorbisVendor
                         ["TITLE=Song", "ARTIST=Artist", "ALBUM=Album", "DATE=2020-05-01",
                          "TRACKNUMBER=3", "TOTALTRACKS=12", "ISRC=US1234567890",
                          "DESCRIPTION=a=b"],
                       .other 1 [0, 0]],
              Frames := [255, 248] } ∧
    "COMPOSER=x" ∉ ["TITLE=Song", "ARTIST=Artist", "ALBUM=Album", "DATE=2020-05-01",
                    "TRACKNUMBER=3", "TOTALTRACKS=12", "ISRC=US1234567890",
                    "DESCRIPTION=a=b"] := by
  refine ⟨by decide, by rfl, by decide⟩

/-- C20, amended: when `EmbedMetadata` succeeds on a file whose first comment
block is `old`, that block is replaced by a new block whose comments are those
of the Metadata, each named by one of the eleven field names, so that no
comment of `old` is carried over; the other blocks keep their content and their
order, the picture blocks being removed and the new picture appended when a
cover is embedded; the frames are unchanged. -/
theorem embed_metadata_replaces_block (f r : FlacFile) (m : Metadata)
    (cover : Option (List Nat)) (pre : List MetaDataBlock) (old : MetaDataBlock)
    (post : List MetaDataBlock)
    (hok : EmbedMetadata (some f) m cover none = .ok r)
    (hsplit : f.Meta = pre ++ old :: post)
    (hpre : ∀ b ∈ pre, b.isVorbisComment = false) (hold : old.isVorbisComment = true) :
    (cover = none →
      r.Meta = pre ++ .vorbisComment flacvorbisVendor (embedComments m) :: post) ∧
    (∀ pic, cover = some pic →
      r.Meta = (pre ++ .vorbisComment flacvorbisVendor (embedComments m) :: post).filter
          (fun b => !b.isPicture) ++ [.picture pic]) ∧
    (∀ c ∈ embedComments m, ∃ k ∈ embedKeys, ∃ v, c = k ++ "=" ++ v) ∧
    r.Frames = f.Frames := by
  have hput : putCommentBlock (.vorbisComment flacvorbisVendor (embedComments m)) f.Meta
      = pre ++ .vorbisComment flacvorbisVendor (embedComments m) :: post := by
    rw [hsplit]
    simp [putCommentBlock, replaceFirstComment_split _ pre old post hpre hold]
  refine ⟨?_, ?_, ?_, ?_⟩
  · intro hc
    rw [hc] at hok
    simp only [EmbedMetadata, Except.ok.injEq] at hok
    rw [← hok, hput]
  · intro pic hc
    rw [hc] at hok
    simp only [EmbedMetadata, Except.ok.injEq] at hok
    rw [← hok, hput]
    rfl
  · intro c hc
    rw [embedComments_eq] at hc
    obtain ⟨p, hp, hpc⟩ := List.mem_map.mp hc
    exact ⟨p.1, embedFields_keys m p hp, p.2, hpc.symm⟩
  · cases cover <;>
      (simp only [EmbedMetadata, Except.ok.injEq] at hok
       rw [← hok])

/-- C20, amended, at the sample file, whose comment block is its second block. -/
theorem embed_metadata_replaces_block_witness :
    (EmbedMetadata (some sampleFlac) sampleMetadata none none
        = .ok { sampleFlac with
                Meta := [.other 0 [16, 0],
                         .vorbisComment flacvorbisVendor (embedComments sampleMetadata),
                         .other 1 [0, 0]] } ∧
      sampleFlac.Meta
        = [.other 0 [16, 0]]
            ++ .vorbisComment "reference libFLAC" ["COMPOSER=x", "TITLE=Old"]
              :: [.other 1 [0, 0]] ∧
      (∀ b ∈ [MetaDataBlock.other 0 [16, 0]], b.isVorbisComment = false) ∧
      (MetaDataBlock.vorbisComment "reference libFLAC"
        ["COMPOSER=x", "TITLE=Old"]).isVorbisComment = true) ∧
    ((none = (none : Option (List Nat)) →
        ({ sampleFlac with
            Meta := [.other 0 [16, 0],
                     .vorbisComment flacvorbisVendor (embedComments sampleMetadata),
                     .other 1 [0, 0]] } : FlacFile).Meta
          = [.other 0 [16, 0]]
              ++ .vorbisComment flacvorbisVendor (embedComments sampleMetadata)
                :: [.other 1 [0, 0]]) ∧
      (∀ pic, none = some pic →
        ({ sampleFlac with
            Meta := [.other 0 [16, 0],
                     .vorbisComment flacvorbisVendor (embedComments sampleMetadata),
                     .other 1 [0, 0]] } : FlacFile).Meta
          = ([MetaDataBlock.other 0 [16, 0]]
              ++ MetaDataBlock.vorbisComment flacvorbisVendor (embedComments sampleMetadata)
                :: [MetaDataBlock.other 1 [0, 0]]).filter (fun b => !b.isPicture)
              ++ [.picture pic]) ∧
      (∀ c ∈ embedComments sampleMetadata, ∃ k ∈ embedKeys, ∃ v, c = k ++ "=" ++ v) ∧
      ({ sampleFlac with
          Meta := [.other 0 [16, 0],
                   .vorbisComment flacvorbisVendor (embedComments sampleMetadata),
                   .other 1 [0, 0]] } : FlacFile).Frames = sampleFlac.Frames) :=
  ⟨⟨by rfl, rfl, by decide, rfl⟩,
   embed_metadata_replaces_block sampleFlac _ sampleMetadata none
     [.other 0 [16, 0]] (.vorbisComment "reference libFLAC" ["COMPOSER=x", "TITLE=Old"])
     [.other 1 [0, 0]] (by rfl) rfl (by decide) rfl⟩

/-! ### Lemmas on the existing-file scan -/

theorem checkLoop_error (lib : StringsLib) (remove : String → Bool)
    (outputDir targetISRC filename : String) (content : Option FlacFile) (rest : List FSNode)
    (err : String) (hs : hasFlacSuffix filename = true)
    (hr : ReadISRCFromFile lib content = .error err) :
    checkLoop lib remove outputDir targetISRC (.file filename content :: rest)
      = if remove (outputDir ++ "/" ++ filename) then
          checkLoop lib remove outputDir targetISRC rest
        else (.file filename content :: (checkLoop lib remove outputDir targetISRC rest).1,
              (checkLoop lib remove outputDir targetISRC rest).2) := by
  simp only [checkLoop, hs, if_true, hr]

theorem checkLoop_match (lib : StringsLib) (remove : String → Bool)
    (outputDir targetISRC filename : String) (content : Option FlacFile) (rest : List FSNode)
    (isrc : String) (hs : hasFlacSuffix filename = true)
    (hr : ReadISRCFromFile lib content = .ok isrc)
    (hm : isrc ≠ "" ∧ lib.EqualFold isrc targetISRC = true) :
    checkLoop lib remove outputDir targetISRC (.file filename content :: rest)
      = (.file filename content :: rest, some (outputDir ++ "/" ++ filename)) := by
  simp only [checkLoop, hs, if_true, hr]
  rw [if_pos hm]

theorem checkLoop_other (lib : StringsLib) (remove : String → Bool)
    (outputDir targetISRC filename : String) (content : Option FlacFile) (rest : List FSNode)
    (isrc : String) (hs : hasFlacSuffix filename = true)
    (hr : ReadISRCFromFile lib content = .ok isrc)
    (hm : ¬ (isrc ≠ "" ∧ lib.EqualFold isrc targetISRC = true)) :
    checkLoop lib remove outputDir targetISRC (.file filename content :: rest)
      = (.file filename content :: (checkLoop lib remove outputDir targetISRC rest).1,
          (checkLoop lib remove outputDir targetISRC rest).2) := by
  simp only [checkLoop, hs, if_true, hr]
  rw [if_neg hm]

theorem checkLoop_skip (lib : StringsLib) (remove : String → Bool)
    (outputDir targetISRC filename : String) (content : Option FlacFile) (rest : List FSNode)
    (hs : hasFlacSuffix filename = false) :
    checkLoop lib remove outputDir targetISRC (.file filename content :: rest)
      = (.file filename content :: (checkLoop lib remove outputDir targetISRC rest).1,
          (checkLoop lib remove outputDir targetISRC rest).2) := by
  simp [checkLoop, hs]

/-- The answer of a second run on the entries left by a first run is the answer
of the first run, whatever `os.Remove` does in either run. -/
theorem checkLoop_second_answer (lib : StringsLib) (remove1 remove2 : String → Bool)
    (outputDir targetISRC : String) (l : List FSNode) :
    (checkLoop lib remove2 outputDir targetISRC
        (checkLoop lib remove1 outputDir targetISRC l).1).2
      = (checkLoop lib remove1 outputDir targetISRC l).2 := by
  induction l with
  | nil => rfl
  | cons e rest ih =>
    cases e with
    | dir name children =>
      simp only [checkLoop, ih]
    | file filename content =>
      by_cases hs : hasFlacSuffix filename = true
      · cases hr : ReadISRCFromFile lib content with
        | error err =>
          rw [checkLoop_error lib remove1 _ _ _ _ _ err hs hr]
          by_cases h1 : remove1 (outputDir ++ "/" ++ filename) = true
          · rw [if_pos h1]
            exact ih
          · rw [if_neg h1]
            show (checkLoop lib remove2 outputDir targetISRC (.file filename content :: _)).2 = _
            rw [checkLoop_error lib remove2 _ _ _ _ _ err hs hr]
            by_cases h2 : remove2 (outputDir ++ "/" ++ filename) = true
            · rw [if_pos h2]
              exact ih
            · rw [if_neg h2]
              exact ih
        | ok isrc =>
          by_cases hm : isrc ≠ "" ∧ lib.EqualFold isrc targetISRC = true
          · rw [checkLoop_match lib remove1 _ _ _ _ _ isrc hs hr hm]
            show (checkLoop lib remove2 outputDir targetISRC (.file filename content :: rest)).2 = _
            rw [checkLoop_match lib remove2 _ _ _ _ _ isrc hs hr hm]
          · rw [checkLoop_other lib remove1 _ _ _ _ _ isrc hs hr hm]
            show (checkLoop lib remove2 outputDir targetISRC (.file filename content :: _)).2 = _
            rw [checkLoop_other lib remove2 _ _ _ _ _ isrc hs hr hm]
            exact ih
      · have hs2 : hasFlacSuffix filename = false := by simpa using hs
        rw [checkLoop_skip lib remove1 _ _ _ _ _ hs2]
        show (checkLoop lib remove2 outputDir targetISRC (.file filename content :: _)).2 = _
        rw [checkLoop_skip lib remove2 _ _ _ _ _ hs2]
        exact ih

/-- A second run removes nothing from the entries left by a first run when
`os.Remove` fails in the second run wherever it failed in the first. -/
theorem checkLoop_second_dir (lib : StringsLib) (remove1 remove2 : String → Bool)
    (outputDir targetISRC : String)
    (hmono : ∀ path, remove1 path = false → remove2 path = false) (l : List FSNode) :
    (checkLoop lib remove2 outputDir targetISRC
        (checkLoop lib remove1 outputDir targetISRC l).1).1
      = (checkLoop lib remove1 outputDir targetISRC l).1 := by
  induction l with
  | nil => rfl
  | cons e rest ih =>
    cases e with
    | dir name children =>
      simp only [checkLoop, ih]
    | file filename content =>
      by_cases hs : hasFlacSuffix filename = true
      · cases hr : ReadISRCFromFile lib content with
        | error err =>
          rw [checkLoop_error lib remove1 _ _ _ _ _ err hs hr]
          by_cases h1 : remove1 (outputDir ++ "/" ++ filename) = true
          · rw [if_pos h1]
            exact ih
          · rw [if_neg h1]
            have h2 : ¬ remove2 (outputDir ++ "/" ++ filename) = true := by
              rw [hmono _ (by simpa using h1)]
              simp
            show (checkLoop lib remove2 outputDir targetISRC (.file filename content :: _)).1 = _
            rw [checkLoop_error lib remove2 _ _ _ _ _ err hs hr, if_neg h2]
            show _ :: _ = _ :: _
            rw [ih]
        | ok isrc =>
          by_cases hm : isrc ≠ "" ∧ lib.EqualFold isrc targetISRC = true
          · rw [checkLoop_match lib remove1 _ _ _ _ _ isrc hs hr hm]
            show (checkLoop lib remove2 outputDir targetISRC (.file filename content :: rest)).1 = _
            rw [checkLoop_match lib remove2 _ _ _ _ _ isrc hs hr hm]
          · rw [checkLoop_other lib remove1 _ _ _ _ _ isrc hs hr hm]
            show (checkLoop lib remove2 outputDir targetISRC (.file filename content :: _)).1 = _
            rw [checkLoop_other lib remove2 _ _ _ _ _ isrc hs hr hm]
            show _ :: _ = _ :: _
            rw [ih]
      · have hs2 : hasFlacSuffix filename = false := by simpa using hs
        rw [checkLoop_skip lib remove1 _ _ _ _ _ hs2]
        show (checkLoop lib remove2 outputDir targetISRC (.file filename content :: _)).1 = _
        rw [checkLoop_skip lib remove2 _ _ _ _ _ hs2]
        show _ :: _ = _ :: _
        rw [ih]

theorem checkLoop_no_match (lib : StringsLib) (remove : String → Bool)
    (outputDir targetISRC : String) (l : List FSNode)
    (h : (checkLoop lib remove outputDir targetISRC l).2 = none) :
    (checkLoop lib remove outputDir targetISRC l).1
      = l.filter (fun e => !isRemovedFlac remove outputDir e) := by
  induction l with
  | nil => rfl
  | cons e rest ih =>
    cases e with
    | dir name children =>
      simp only [checkLoop] at h
      simp [checkLoop, isRemovedFlac, ih h]
    | file filename content =>
      by_cases hs : hasFlacSuffix filename = true
      · cases hr : ReadISRCFromFile lib content with
        | error err =>
          have hc : content = none := by
            cases content with
            | none => rfl
            | some f => simp [ReadISRCFromFile] at hr
          subst hc
          rw [checkLoop_error lib remove _ _ _ _ _ err hs hr] at h ⊢
          by_cases h1 : remove (outputDir ++ "/" ++ filename) = true
          · rw [if_pos h1] at h ⊢
            simp [isRemovedFlac, hs, h1, ih h]
          · rw [if_neg h1] at h ⊢
            simp [isRemovedFlac, hs, h1, ih h]
        | ok isrc =>
          have hc : ∃ f, content = some f := by
            cases content with
            | none => simp [ReadISRCFromFile] at hr
            | some f => exact ⟨f, rfl⟩
          obtain ⟨f, rfl⟩ := hc
          by_cases hm : isrc ≠ "" ∧ lib.EqualFold isrc targetISRC = true
          · rw [checkLoop_match lib remove _ _ _ _ _ isrc hs hr hm] at h
            simp at h
          · rw [checkLoop_other lib remove _ _ _ _ _ isrc hs hr hm] at h ⊢
            simp [isRemovedFlac, ih h]
      · have hs2 : hasFlacSuffix filename = false := by simpa using hs
        rw [checkLoop_skip lib remove _ _ _ _ _ hs2] at h ⊢
        cases content with
        | none => simp [isRemovedFlac, hs2, ih h]
        | some f => simp [isRemovedFlac, ih h]

/-! ### Claims on the existing-file scan -/

/-- C16 fails when the valid file is listed first, and when `os.Remove` fails.
In a directory where every removal succeeds, with the valid file listed first,
`CheckISRCExists` returns at the match, the file that `flac.ParseFile` rejects
is not visited and is still in the directory afterwards. With the rejected file
listed first and a removal that fails, the loop goes on to the match and the
rejected file is still in the directory afterwards. -/
theorem unreadable_file_after_match_is_kept :
    ReadISRCFromFile asciiStrings (some (taggedFlac "USRC17607839")) = .ok "USRC17607839" ∧
    ReadISRCFromFile asciiStrings none = .error "failed to parse FLAC file" ∧
    CheckISRCExists asciiStrings removeSucceeds "/music"
        (some [.file "a-song.flac" (some (taggedFlac "USRC17607839")),
               .file "b-broken.flac" none]) "USRC17607839"
      = (some [.file "a-song.flac" (some (taggedFlac "USRC17607839")),
               .file "b-broken.flac" none],
         ("/music/a-song.flac", true)) ∧
    CheckISRCExists asciiStrings removeFails "/music"
        (some [.file "broken.flac" none,
               .file "song.flac" (some (taggedFlac "USRC17607839"))]) "USRC17607839"
      = (some [.file "broken.flac" none,
               .file "song.flac" (some (taggedFlac "USRC17607839"))],
         ("/music/song.flac", true)) := by
  refine ⟨by rfl, by rfl, by rfl, by rfl⟩

/-- C16, amended: for a directory holding a `.flac` file that `flac.ParseFile`
rejects and a valid `.flac` file whose ISRC is X (X not empty), in either
listing order and whatever `os.Remove` does, `CheckISRCExists(dir, X)` returns
the path of the valid file with found = true and the valid file is still there
afterwards; the rejected file is gone afterwards when it is listed before the
valid file and `os.Remove` succeeds on it, and it is left in place when
`os.Remove` fails on it or when it is listed after the valid file. -/
theorem check_isrc_exists_two_files (lib : StringsLib) (remove : String → Bool)
    (outputDir X : String) (validName brokenName : String) (valid : FlacFile)
    (hX : X ≠ "") (hfold : lib.EqualFold X X = true)
    (hv : hasFlacSuffix validName = true) (hb : hasFlacSuffix brokenName = true)
    (hisrc : ReadISRCFromFile lib (some valid) = .ok X) :
    CheckISRCExists lib remove outputDir
        (some [.file brokenName none, .file validName (some valid)]) X
      = (some (if remove (outputDir ++ "/" ++ brokenName) = true then
                 [.file validName (some valid)]
               else [.file brokenName none, .file validName (some valid)]),
         (outputDir ++ "/" ++ validName, true)) ∧
    CheckISRCExists lib remove outputDir
        (some [.file validName (some valid), .file brokenName none]) X
      = (some [.file validName (some valid), .file brokenName none],
         (outputDir ++ "/" ++ validName, true)) := by
  have hm : X ≠ "" ∧ lib.EqualFold X X = true := ⟨hX, hfold⟩
  have hnone : ReadISRCFromFile lib none = .error "failed to parse FLAC file" := rfl
  have hvalid : ∀ rest, checkLoop lib remove outputDir X (.file validName (some valid) :: rest)
      = (.file validName (some valid) :: rest, some (outputDir ++ "/" ++ validName)) :=
    fun rest => checkLoop_match lib remove _ _ _ _ rest X hv hisrc hm
  constructor
  · simp only [CheckISRCExists, hX, if_false]
    rw [checkLoop_error lib remove _ _ _ _ _ _ hb hnone, hvalid]
    by_cases h1 : remove (outputDir ++ "/" ++ brokenName) = true
    · rw [if_pos h1, if_pos h1]
    · rw [if_neg h1, if_neg h1]
  · simp only [CheckISRCExists, hX, if_false]
    rw [hvalid]

/-- C16, amended, at the two files of the scenario, in a directory where the
removal succeeds. -/
theorem check_isrc_exists_two_files_witness :
    (("USRC17607839" : String) ≠ "" ∧
      asciiStrings.EqualFold "USRC17607839" "USRC17607839" = true ∧
      hasFlacSuffix "song.flac" = true ∧ hasFlacSuffix "broken.flac" = true ∧
      ReadISRCFromFile asciiStrings (some (taggedFlac "USRC17607839")) = .ok "USRC17607839") ∧
    (CheckISRCExists asciiStrings removeSucceeds "/music"
        (some [.file "broken.flac" none, .file "song.flac" (some (taggedFlac "USRC17607839"))])
        "USRC17607839"
      = (some (if removeSucceeds ("/music" ++ "/" ++ "broken.flac") = true then
                 [.file "song.flac" (some (taggedFlac "USRC17607839"))]
               else [.file "broken.flac" none,
                     .file "song.flac" (some (taggedFlac "USRC17607839"))]),
         ("/music" ++ "/" ++ "song.flac", true)) ∧
    CheckISRCExists asciiStrings removeSucceeds "/music"
        (some [.file "song.flac" (some (taggedFlac "USRC17607839")), .file "broken.flac" none])
        "USRC17607839"
      = (some [.file "song.flac" (some (taggedFlac "USRC17607839")), .file "broken.flac" none],
         ("/music" ++ "/" ++ "song.flac", true))) :=
  ⟨⟨by decide, by rfl, by rfl, by rfl, by rfl⟩,
   check_isrc_exists_two_files asciiStrings removeSucceeds "/music" "USRC17607839" "song.flac"
     "broken.flac" (taggedFlac "USRC17607839") (by decide) (by rfl) (by rfl) (by rfl) (by rfl)⟩

/-- C17 fails twice, in a directory where every removal succeeds:
`buildISRCIndex` leaves in the directory the file that `flac.ParseFile` rejects,
and `CheckISRCExists`, which finds no match and removes that file, leaves the
file that parses but holds no ISRC. -/
theorem scan_keeps_files :
    buildISRCIndex asciiStrings "/music"
        (some [.file "broken.flac" none, .file "untagged.flac" (some untaggedFlac)])
      = (some [.file "broken.flac" none, .file "untagged.flac" (some untaggedFlac)], []) ∧
    ReadISRCFromFile asciiStrings (some untaggedFlac) = .ok "" ∧
    CheckISRCExists asciiStrings removeSucceeds "/music"
        (some [.file "broken.flac" none, .file "untagged.flac" (some untaggedFlac)])
        "USRC17607839"
      = (some [.file "untagged.flac" (some untaggedFlac)], ("", false)) := by
  refine ⟨by rfl, by rfl, by rfl⟩

/-- C17, amended: after `CheckISRCExists(dir, isrc)` with an ISRC that is not
empty has run without finding a match, the directory holds its former entries
in their order except the files whose name ends in `.flac`, that
`flac.ParseFile` rejects and on which `os.Remove` succeeds, which are all
deleted; a rejected file on which `os.Remove` fails is kept, and so is a file
that parses and holds no ISRC. `buildISRCIndex` leaves the directory as it
is. -/
theorem scan_deletes_unreadable (lib : StringsLib) (remove : String → Bool)
    (outputDir targetISRC : String)
    (entries : List FSNode) (htarget : targetISRC ≠ "")
    (hmiss : (CheckISRCExists lib remove outputDir (some entries) targetISRC).2.2 = false) :
    (CheckISRCExists lib remove outputDir (some entries) targetISRC).1
      = some (entries.filter (fun e => !isRemovedFlac remove outputDir e)) ∧
    (∀ dir, (buildISRCIndex lib outputDir dir).1 = dir) := by
  constructor
  · simp only [CheckISRCExists, htarget, if_false] at hmiss ⊢
    cases hr : (checkLoop lib remove outputDir targetISRC entries).2 with
    | some path =>
      rw [hr] at hmiss
      simp at hmiss
    | none =>
      simp only [hr]
      rw [checkLoop_no_match lib remove outputDir targetISRC entries hr]
  · intro dir
    cases dir <;> rfl

/-- C17, amended, at a directory with two rejected files, one of which cannot be
removed, an untagged file, a text file and a sub-directory. -/
theorem scan_deletes_unreadable_witness :
    (("USRC17607839" : String) ≠ "" ∧
      (CheckISRCExists asciiStrings (fun path => path != "/music/locked.flac") "/music"
        (some [.file "broken.flac" none, .file "locked.flac" none, .file "notes.txt" none,
               .dir "sub" [], .file "untagged.flac" (some untaggedFlac)])
        "USRC17607839").2.2 = false) ∧
    ((CheckISRCExists asciiStrings (fun path => path != "/music/locked.flac") "/music"
        (some [.file "broken.flac" none, .file "locked.flac" none, .file "notes.txt" none,
               .dir "sub" [], .file "untagged.flac" (some untaggedFlac)]) "USRC17607839").1
      = some ([FSNode.file "broken.flac" none, .file "locked.flac" none, .file "notes.txt" none,
               .dir "sub" [], .file "untagged.flac" (some untaggedFlac)].filter
                (fun e => !isRemovedFlac (fun path => path != "/music/locked.flac") "/music" e)) ∧
    (∀ dir, (buildISRCIndex asciiStrings "/music" dir).1 = dir)) :=
  ⟨⟨by decide, by rfl⟩,
   scan_deletes_unreadable asciiStrings (fun path => path != "/music/locked.flac") "/music"
     "USRC17607839"
     [.file "broken.flac" none, .file "locked.flac" none, .file "notes.txt" none, .dir "sub" [],
      .file "untagged.flac" (some untaggedFlac)] (by decide) (by rfl)⟩

/-- The directory of the witness above after the scan: the rejected file that
can be removed is gone, the one that cannot be removed and the other entries
are still there. -/
theorem scan_deletes_unreadable_example :
    (CheckISRCExists asciiStrings (fun path => path != "/music/locked.flac") "/music"
        (some [.file "broken.flac" none, .file "locked.flac" none, .file "notes.txt" none,
               .dir "sub" [], .file "untagged.flac" (some untaggedFlac)]) "USRC17607839")
      = (some [.file "locked.flac" none, .file "notes.txt" none, .dir "sub" [],
               .file "untagged.flac" (some untaggedFlac)], ("", false)) := by
  rfl

/-- C18 fails when a removal that failed in the first run succeeds in the
second: the first run leaves the rejected file in the directory, and the second
run, on the directory left by the first, deletes it. -/
theorem second_run_deletes_a_file :
    CheckISRCExists asciiStrings removeFails "/music"
        (some [.file "broken.flac" none]) "USRC17607839"
      = (some [.file "broken.flac" none], ("", false)) ∧
    CheckISRCExists asciiStrings removeSucceeds "/music"
        (CheckISRCExists asciiStrings removeFails "/music"
          (some [.file "broken.flac" none]) "USRC17607839").1 "USRC17607839"
      = (some [], ("", false)) := by
  refine ⟨by rfl, by rfl⟩

/-- C18, amended: a second run of `buildISRCIndex` on the directory left by the
first returns the same map and the same directory. A second run of
`CheckISRCExists` on the directory left by the first returns the same path and
flag, whatever `os.Remove` does in the two runs; it leaves the directory as the
first run left it when `os.Remove` fails in the second run on every path on
which it failed in the first, which is so when every removal of the first run
succeeded. -/
theorem scan_second_run (lib : StringsLib) (remove1 remove2 : String → Bool)
    (outputDir targetISRC : String) (dir : Option (List FSNode)) :
    buildISRCIndex lib outputDir (buildISRCIndex lib outputDir dir).1
      = buildISRCIndex lib outputDir dir ∧
    (CheckISRCExists lib remove2 outputDir
        (CheckISRCExists lib remove1 outputDir dir targetISRC).1 targetISRC).2
      = (CheckISRCExists lib remove1 outputDir dir targetISRC).2 ∧
    ((∀ path, remove1 path = false → remove2 path = false) →
      (CheckISRCExists lib remove2 outputDir
          (CheckISRCExists lib remove1 outputDir dir targetISRC).1 targetISRC).1
        = (CheckISRCExists lib remove1 outputDir dir targetISRC).1) := by
  refine ⟨?_, ?_, ?_⟩
  · cases dir <;> rfl
  · by_cases ht : targetISRC = ""
    · simp [CheckISRCExists, ht]
    · cases dir with
      | none => simp [CheckISRCExists, ht]
      | some entries =>
        have hans := checkLoop_second_answer lib remove1 remove2 outputDir targetISRC entries
        cases hr : (checkLoop lib remove1 outputDir targetISRC entries).2 with
        | some path =>
          rw [hr] at hans
          simp only [CheckISRCExists, ht, if_false, hr, hans]
        | none =>
          rw [hr] at hans
          simp only [CheckISRCExists, ht, if_false, hr, hans]
  · intro hmono
    by_cases ht : targetISRC = ""
    · simp [CheckISRCExists, ht]
    · cases dir with
      | none => simp [CheckISRCExists, ht]
      | some entries =>
        have hdir := checkLoop_second_dir lib remove1 remove2 outputDir targetISRC hmono entries
        have hans := checkLoop_second_answer lib remove1 remove2 outputDir targetISRC entries
        cases hr : (checkLoop lib remove1 outputDir targetISRC entries).2 with
        | some path =>
          rw [hr] at hans
          simp only [CheckISRCExists, ht, if_false, hr, hans, hdir]
        | none =>
          rw [hr] at hans
          simp only [CheckISRCExists, ht, if_false, hr, hans, hdir]

/-- C18, amended, at a directory with a rejected file that cannot be removed in
either run, a rejected file that is removed in the first run, and a valid
file. -/
theorem scan_second_run_witness :
    (∀ path, (fun p => p != "/music/locked.flac") path = false →
      (fun p => p != "/music/locked.flac") path = false) ∧
    (CheckISRCExists asciiStrings (fun p => p != "/music/locked.flac") "/music"
        (CheckISRCExists asciiStrings (fun p => p != "/music/locked.flac") "/music"
          (some [.file "broken.flac" none, .file "locked.flac" none,
                 .file "song.flac" (some (taggedFlac "USRC17607839"))]) "USRC17607839").1
        "USRC17607839").2
      = (CheckISRCExists asciiStrings (fun p => p != "/music/locked.flac") "/music"
          (some [.file "broken.flac" none, .file "locked.flac" none,
                 .file "song.flac" (some (taggedFlac "USRC17607839"))]) "USRC17607839").2 ∧
    (CheckISRCExists asciiStrings (fun p => p != "/music/locked.flac") "/music"
        (CheckISRCExists asciiStrings (fun p => p != "/music/locked.flac") "/music"
          (some [.file "broken.flac" none, .file "locked.flac" none,
                 .file "song.flac" (some (taggedFlac "USRC17607839"))]) "USRC17607839").1
        "USRC17607839").1
      = (CheckISRCExists asciiStrings (fun p => p != "/music/locked.flac") "/music"
          (some [.file "broken.flac" none, .file "locked.flac" none,
                 .file "song.flac" (some (taggedFlac "USRC17607839"))]) "USRC17607839").1 :=
  ⟨fun _ h => h,
   (scan_second_run asciiStrings (fun p => p != "/music/locked.flac")
     (fun p => p != "/music/locked.flac") "/music" "USRC17607839"
     (some [.file "broken.flac" none, .file "locked.flac" none,
            .file "song.flac" (some (taggedFlac "USRC17607839"))])).2.1,
   (scan_second_run asciiStrings (fun p => p != "/music/locked.flac")
     (fun p => p != "/music/locked.flac") "/music" "USRC17607839"
     (some [.file "broken.flac" none, .file "locked.flac" none,
            .file "song.flac" (some (taggedFlac "USRC17607839"))])).2.2 (fun _ h => h)⟩

/-- The two runs of the witness above: the first removes `broken.flac` and
returns the path of the valid file, the second returns the same path and
removes nothing. -/
theorem scan_second_run_example :
    CheckISRCExists asciiStrings (fun p => p != "/music/locked.flac") "/music"
        (some [.file "broken.flac" none, .file "locked.flac" none,
               .file "song.flac" (some (taggedFlac "USRC17607839"))]) "USRC17607839"
      = (some [.file "locked.flac" none,
               .file "song.flac" (some (taggedFlac "USRC17607839"))],
         ("/music/song.flac", true)) ∧
    CheckISRCExists asciiStrings (fun p => p != "/music/locked.flac") "/music"
        (some [.file "locked.flac" none,
               .file "song.flac" (some (taggedFlac "USRC17607839"))]) "USRC17607839"
      = (some [.file "locked.flac" none,
               .file "song.flac" (some (taggedFlac "USRC17607839"))],
         ("/music/song.flac", true)) := by
  refine ⟨by rfl, by rfl⟩

/-! ### Lemmas on the lookup client -/

theorem requestTimes_append (a b : List Event) :
    requestTimes (a ++ b) = requestTimes a ++ requestTimes b := by
  induction a with
  | nil => rfl
  | cons e es ih =>
    cases e with
    | request t => simp [requestTimes, ih]
    | sleep d => simp [requestTimes, ih]

theorem resetWindow_facts (now : Int) (w : LookupWorld) :
    (resetWindow now w).clock = w.clock ∧ (resetWindow now w).log = w.log ∧
    (resetWindow now w).client.lastAPICallTime = w.client.lastAPICallTime := by
  unfold resetWindow
  split <;> exact ⟨rfl, rfl, rfl⟩

theorem waitForWindow_facts (now : Int) (w : LookupWorld) (env : CallEnv) :
    w.clock ≤ (waitForWindow now w env).clock ∧
    requestTimes (waitForWindow now w env).log = requestTimes w.log ∧
    (waitForWindow now w env).client.lastAPICallTime = w.client.lastAPICallTime := by
  unfold waitForWindow
  split
  · dsimp only
    split
    · rename_i hw
      refine ⟨?_, ?_, ?_⟩
      · simp only [doSleep]
        have := Int.ofNat_nonneg (env.oversleep 0)
        omega
      · simp [doSleep, requestTimes_append, requestTimes]
      · simp [doSleep]
    · exact ⟨le_refl _, rfl, rfl⟩
  · exact ⟨le_refl _, rfl, rfl⟩

theorem spaceRequests_facts (now : Int) (w : LookupWorld) (env : CallEnv) (hnow : now ≤ w.clock) :
    w.clock ≤ (spaceRequests now w env).clock ∧
    requestTimes (spaceRequests now w env).log = requestTimes w.log ∧
    (spaceRequests now w env).client.lastAPICallTime = w.client.lastAPICallTime ∧
    (∀ last, w.client.lastAPICallTime = some last →
      last + 7 * second ≤ (spaceRequests now w env).clock) := by
  unfold spaceRequests
  split
  · rename_i l hl
    dsimp only
    split
    · rename_i ht
      have hover := Int.ofNat_nonneg (env.oversleep 1)
      refine ⟨?_, ?_, ?_, ?_⟩
      · simp only [doSleep]
        omega
      · simp [doSleep, requestTimes_append, requestTimes]
      · simp [doSleep]
      · intro last h
        rw [hl, Option.some.injEq] at h
        subst h
        simp only [doSleep]
        omega
    · rename_i ht
      refine ⟨le_refl _, rfl, rfl, ?_⟩
      intro last h
      rw [hl, Option.some.injEq] at h
      subst h
      omega
  · rename_i hl
    refine ⟨le_refl _, rfl, rfl, ?_⟩
    intro last h
    rw [hl] at h
    exact absurd h (by simp)

/-- The rate limiting issues no request, keeps the time of the last answer, and
ends at least 7 seconds after it. -/
theorem rateLimit_facts (w : LookupWorld) (env : CallEnv) :
    w.clock ≤ (rateLimit w env).clock ∧
    requestTimes (rateLimit w env).log = requestTimes w.log ∧
    (rateLimit w env).client.lastAPICallTime = w.client.lastAPICallTime ∧
    (∀ last, w.client.lastAPICallTime = some last →
      last + 7 * second ≤ (rateLimit w env).clock) := by
  obtain ⟨r1, r2, r3⟩ := resetWindow_facts w.clock w
  obtain ⟨v1, v2, v3⟩ := waitForWindow_facts w.clock (resetWindow w.clock w) env
  obtain ⟨s1, s2, s3, s4⟩ := spaceRequests_facts w.clock
    (waitForWindow w.clock (resetWindow w.clock w) env) env (by omega)
  simp only [rateLimit]
  refine ⟨by omega, ?_, ?_, ?_⟩
  · rw [s2, v2, r2]
  · rw [s3, v3, r3]
  · intro last h
    exact s4 last (by rw [v3, r3]; exact h)

/-- Members of a list in which each element is at least `g` after every earlier
one, all at or after `lo`: some member is at least `(length - 1) * g` after
`lo`. -/
theorem pairwise_span (g lo : Int) (l : List Int) (hne : l ≠ [])
    (hp : l.Pairwise (fun a b => a + g ≤ b)) (hlo : ∀ x ∈ l, lo ≤ x) :
    ∃ x ∈ l, lo + ((l.length : Int) - 1) * g ≤ x := by
  induction l generalizing lo with
  | nil => exact absurd rfl hne
  | cons a rest ih =>
    have ha := hlo a (List.mem_cons_self _ _)
    rw [List.pairwise_cons] at hp
    by_cases hr : rest = []
    · subst hr
      exact ⟨a, List.mem_cons_self _ _, by simp; exact ha⟩
    · obtain ⟨x, hx, hxb⟩ := ih (a + g) hr hp.2 (fun y hy => hp.1 y hy)
      refine ⟨x, List.mem_cons_of_mem _ hx, ?_⟩
      have hlen : ((a :: rest).length : Int) = (rest.length : Int) + 1 := by simp
      rw [hlen]
      have e : lo + ((rest.length : Int) + 1 - 1) * g
          = lo + g + ((rest.length : Int) - 1) * g := by ring
      rw [e]
      omega

/-- Requests at least 7 seconds apart: at most nine of them in a window of one
minute, both ends included. -/
theorem window_bound (ts : List Int) (hp : ts.Pairwise (fun a b => a + 7 * second ≤ b))
    (start : Int) :
    (ts.filter (fun t => decide (start ≤ t ∧ t ≤ start + minute))).length ≤ 9 := by
  have hsub : (ts.filter (fun t => decide (start ≤ t ∧ t ≤ start + minute))).Pairwise
      (fun a b => a + 7 * second ≤ b) := hp.sublist (List.filter_sublist _)
  by_cases hne : ts.filter (fun t => decide (start ≤ t ∧ t ≤ start + minute)) = []
  · rw [hne]
    simp
  · have hin : ∀ x ∈ ts.filter (fun t => decide (start ≤ t ∧ t ≤ start + minute)),
        start ≤ x ∧ x ≤ start + minute := by
      intro x hx
      have := (List.mem_filter.mp hx).2
      simpa using this
    obtain ⟨x, hx, hxb⟩ := pairwise_span (7 * second) start _ hne hsub (fun y hy => (hin y hy).1)
    have hup := (hin x hx).2
    unfold minute second at *
    omega

theorem retryLoop_answered (env : CallEnv) (w : LookupWorld)
    (h200 : (env.answers 0).status = some 200) :
    retryLoop env maxRetries 0 w
      = ({ client := { w.client with
             lastAPICallTime := some (w.clock + (env.answers 0).took)
             apiCallCount := wrapInt64 (w.client.apiCallCount + 1) },
           clock := w.clock + (env.answers 0).took,
           log := w.log ++ [.request w.clock] }, .answered) := by
  simp [retryLoop, maxRetries, h200]

/-- One call answered 200 at once issues one request, at least 7 seconds after
every earlier one, and keeps the invariant. -/
theorem rateLimitedRequest_step (w : LookupWorld) (env : CallEnv)
    (h200 : (env.answers 0).status = some 200) (hinv : LookupInv w) :
    LookupInv (rateLimitedRequest w env).1 ∧
    (requestTimes (rateLimitedRequest w env).1.log).length
      = (requestTimes w.log).length + 1 := by
  obtain ⟨_, hb, hc⟩ := hinv
  obtain ⟨f1, f2, f3, f4⟩ := rateLimit_facts { w with clock := w.clock + env.gap } env
  have htook := Int.ofNat_nonneg (env.answers 0).took
  have hafter := Int.ofNat_nonneg env.after
  have hlog : requestTimes (rateLimitedRequest w env).1.log
      = requestTimes w.log ++ [(rateLimit { w with clock := w.clock + env.gap } env).clock] := by
    simp only [rateLimitedRequest, retryLoop_answered env _ h200, requestTimes_append, f2]
    rfl
  have hlast : (rateLimitedRequest w env).1.client.lastAPICallTime
      = some ((rateLimit { w with clock := w.clock + env.gap } env).clock
          + (env.answers 0).took) := by
    simp only [rateLimitedRequest, retryLoop_answered env _ h200]
  have hclock : (rateLimitedRequest w env).1.clock
      = (rateLimit { w with clock := w.clock + env.gap } env).clock
          + (env.answers 0).took + env.after := by
    simp only [rateLimitedRequest, retryLoop_answered env _ h200]
  have hold : ∀ t ∈ requestTimes w.log,
      t + 7 * second ≤ (rateLimit { w with clock := w.clock + env.gap } env).clock := by
    intro t ht
    obtain ⟨l, hl, htl⟩ := hb t ht
    have := f4 l hl
    omega
  refine ⟨⟨?_, ?_, ?_⟩, ?_⟩
  · intro l hl
    rw [hlast, Option.some.injEq] at hl
    rw [hclock]
    omega
  · intro t ht
    rw [hlog, List.mem_append, List.mem_singleton] at ht
    refine ⟨_, hlast, ?_⟩
    rcases ht with ht | ht
    · have := hold t ht
      unfold second at this
      omega
    · omega
  · rw [hlog, List.pairwise_append]
    refine ⟨hc, List.pairwise_singleton _ _, ?_⟩
    intro a ha b hb2
    rw [List.mem_singleton] at hb2
    rw [hb2]
    exact hold a ha
  · rw [hlog]
    simp

theorem crossReference_step (w : LookupWorld) (call : CallKind × CallEnv)
    (h200 : (call.2.answers 0).status = some 200) (hinv : LookupInv w) :
    LookupInv (crossReference w call) ∧
    (requestTimes (crossReference w call).log).length = (requestTimes w.log).length + 1 := by
  unfold crossReference
  cases call.1
  · exact rateLimitedRequest_step w call.2 h200 hinv
  · exact rateLimitedRequest_step w call.2 h200 hinv

theorem foldl_crossReference_inv (calls : List (CallKind × CallEnv)) (w : LookupWorld)
    (h200 : ∀ c ∈ calls, (c.2.answers 0).status = some 200) (hinv : LookupInv w) :
    LookupInv (calls.foldl crossReference w) ∧
    (requestTimes (calls.foldl crossReference w).log).length
      = (requestTimes w.log).length + calls.length := by
  induction calls generalizing w with
  | nil => exact ⟨hinv, by simp⟩
  | cons c cs ih =>
    obtain ⟨hstep, hlen⟩ := crossReference_step w c (h200 c (List.mem_cons_self _ _)) hinv
    obtain ⟨hfin, hlen2⟩ := ih (crossReference w c)
      (fun d hd => h200 d (List.mem_cons_of_mem _ hd)) hstep
    refine ⟨hfin, ?_⟩
    rw [List.foldl_cons, hlen2, hlen, List.length_cons]
    omega

/-! ### Claims on the lookup client -/

/-- C14: on a client created at any clock reading, for every sequence of calls
of `GetAllURLsFromSpotify` and `CheckTrackAvailability` whose attempts are all
answered 200, whatever the times between the calls, the extra time of the
sleeps and the time of the answers: each call issues one request, every request
is at least 7 seconds after every earlier one, and no window of one minute,
both ends included, holds more than 9 requests. -/
theorem requests_spaced_and_bounded (t0 : Int) (calls : List (CallKind × CallEnv))
    (h200 : ∀ c ∈ calls, ∀ i, (c.2.answers i).status = some 200) :
    (requestTimes (runCalls t0 calls).log).length = calls.length ∧
    (requestTimes (runCalls t0 calls).log).Pairwise (fun a b => a + 7 * second ≤ b) ∧
    ∀ start : Int,
      ((requestTimes (runCalls t0 calls).log).filter
        (fun t => decide (start ≤ t ∧ t ≤ start + minute))).length ≤ 9 := by
  have hinit : LookupInv { client := NewSongLinkClient t0, clock := t0, log := [] } := by
    refine ⟨?_, ?_, ?_⟩
    · intro l hl
      simp [NewSongLinkClient] at hl
    · intro t ht
      simp [requestTimes] at ht
    · simp [requestTimes]
  obtain ⟨⟨_, _, hp⟩, hlen⟩ := foldl_crossReference_inv calls _
    (fun c hc => h200 c hc 0) hinit
  refine ⟨?_, hp, fun start => window_bound _ hp start⟩
  unfold runCalls
  rw [hlen]
  simp [requestTimes]

/-- C14, at ten calls in a row, each answered 200 after 0.2 seconds. -/
theorem requests_spaced_and_bounded_witness :
    (∀ c ∈ List.replicate 10 (CallKind.getAllURLs, steadyEnv 200000000 200),
      ∀ i, (c.2.answers i).status = some 200) ∧
    ((requestTimes (runCalls 0
        (List.replicate 10 (CallKind.getAllURLs, steadyEnv 200000000 200))).log).length
      = (List.replicate 10 (CallKind.getAllURLs, steadyEnv 200000000 200)).length ∧
    (requestTimes (runCalls 0
        (List.replicate 10 (CallKind.getAllURLs, steadyEnv 200000000 200))).log).Pairwise
      (fun a b => a + 7 * second ≤ b) ∧
    ∀ start : Int,
      ((requestTimes (runCalls 0
          (List.replicate 10 (CallKind.getAllURLs, steadyEnv 200000000 200))).log).filter
        (fun t => decide (start ≤ t ∧ t ≤ start + minute))).length ≤ 9) :=
  ⟨fun c hc i => by rw [(List.mem_replicate.mp hc).2]; rfl,
   requests_spaced_and_bounded 0 (List.replicate 10 (CallKind.getAllURLs, steadyEnv 200000000 200))
     (fun c hc i => by rw [(List.mem_replicate.mp hc).2]; rfl)⟩

set_option maxRecDepth 100000 in
/-- The requests of the ten calls of the example: the tenth waits for the next
minute and then for the 7 seconds. -/
theorem ten_calls_example :
    requestTimes (runCalls 0
        (List.replicate 10 (CallKind.getAllURLs, steadyEnv 200000000 200))).log
      = [0, 7200000000, 14400000000, 21600000000, 28800000000, 36000000000, 43200000000,
         50400000000, 57600000000, 67000000000] := by
  rfl

/-- The retry loop ends with the rate-limit error exactly when its three attempts
are all answered 429. -/
theorem rateLimitExceeded_iff (w : LookupWorld) (env : CallEnv) :
    (rateLimitedRequest w env).2 = .rateLimitExceeded ↔
      (env.answers 0).status = some 429 ∧ (env.answers 1).status = some 429 ∧
        (env.answers 2).status = some 429 := by
  simp only [rateLimitedRequest, retryLoop, maxRetries]
  cases h0 : (env.answers 0).status with
  | none => simp
  | some c0 =>
    by_cases e0 : c0 = 429
    · subst e0
      cases h1 : (env.answers 1).status with
      | none => simp
      | some c1 =>
        by_cases e1 : c1 = 429
        · subst e1
          cases h2 : (env.answers 2).status with
          | none => simp
          | some c2 =>
            by_cases e2 : c2 = 429
            · subst e2
              simp
            · by_cases f2 : c2 = 200 <;> simp [e2, f2]
        · by_cases f1 : c1 = 200 <;> simp [e1, f1]
    · by_cases f0 : c0 = 200 <;> simp [e0, f0]

/-- The events of a call whose three attempts are all answered 429. -/
theorem retryLoop_all_429 (env : CallEnv) (w : LookupWorld)
    (h0 : (env.answers 0).status = some 429) (h1 : (env.answers 1).status = some 429)
    (h2 : (env.answers 2).status = some 429) :
    (retryLoop env maxRetries 0 w).1.log
      = w.log ++
        [.request w.clock, .sleep (15 * second),
         .request (w.clock + (env.answers 0).took + 15 * second + env.oversleep 2),
         .sleep (15 * second),
         .request (w.clock + (env.answers 0).took + 15 * second + env.oversleep 2
            + (env.answers 1).took + 15 * second + env.oversleep 3)] := by
  simp [retryLoop, maxRetries, h0, h1, h2, doSleep]

/-- C15 fails on the count: with every attempt answered 429 the call issues 3
requests, the first attempt and 2 retries, and sleeps 15 seconds twice, then
returns the rate-limit error; 3 retries would be 4 requests and 3 sleeps. -/
theorem all_429_makes_two_retries :
    (GetAllURLsFromSpotify { client := NewSongLinkClient 5, clock := 5, log := [] }
        (steadyEnv 1 429)).2 = .rateLimitExceeded ∧
    (GetAllURLsFromSpotify { client := NewSongLinkClient 5, clock := 5, log := [] }
        (steadyEnv 1 429)).1.log
      = [.request 5, .sleep 15000000000, .request 15000000006, .sleep 15000000000,
         .request 30000000007] ∧
    (requestTimes (GetAllURLsFromSpotify { client := NewSongLinkClient 5, clock := 5, log := [] }
        (steadyEnv 1 429)).1.log).length = 1 + 2 ∧
    sleepDurations (GetAllURLsFromSpotify { client := NewSongLinkClient 5, clock := 5, log := [] }
        (steadyEnv 1 429)).1.log = [15 * second, 15 * second] := by
  refine ⟨by rfl, by rfl, by rfl, by rfl⟩

/-- C15, amended: when the three attempts of a call are all answered 429, the
call issues exactly these 3 requests, the first attempt and 2 retries, sleeps a
fixed 15 seconds before each of the 2 retries, and returns the rate-limit error
right after the third answer; the rate-limit error is returned in no other
case, so not when one of the three attempts is answered 200. The same holds
for `CheckTrackAvailability`. -/
theorem rate_limit_retries (w : LookupWorld) (env : CallEnv) :
    ((env.answers 0).status = some 429 ∧ (env.answers 1).status = some 429 ∧
        (env.answers 2).status = some 429 →
      (GetAllURLsFromSpotify w env).2 = .rateLimitExceeded ∧
      (GetAllURLsFromSpotify w env).1.log
        = (rateLimit { w with clock := w.clock + env.gap } env).log ++
          [.request (rateLimit { w with clock := w.clock + env.gap } env).clock,
           .sleep (15 * second),
           .request ((rateLimit { w with clock := w.clock + env.gap } env).clock
              + (env.answers 0).took + 15 * second + env.oversleep 2),
           .sleep (15 * second),
           .request ((rateLimit { w with clock := w.clock + env.gap } env).clock
              + (env.answers 0).took + 15 * second + env.oversleep 2
              + (env.answers 1).took + 15 * second + env.oversleep 3)]) ∧
    ((∃ k, k < 3 ∧ (env.answers k).status = some 200) →
      (GetAllURLsFromSpotify w env).2 ≠ .rateLimitExceeded) ∧
    CheckTrackAvailability w env = GetAllURLsFromSpotify w env := by
  refine ⟨?_, ?_, rfl⟩
  · intro h
    refine ⟨(rateLimitExceeded_iff w env).mpr h, ?_⟩
    simp only [GetAllURLsFromSpotify, rateLimitedRequest]
    exact retryLoop_all_429 env _ h.1 h.2.1 h.2.2
  · rintro ⟨k, hk, h200⟩ hrate
    obtain ⟨a0, a1, a2⟩ := (rateLimitExceeded_iff w env).mp hrate
    have hcases : k = 0 ∨ k = 1 ∨ k = 2 := by omega
    rcases hcases with rfl | rfl | rfl
    · rw [a0] at h200
      exact absurd h200 (by decide)
    · rw [a1] at h200
      exact absurd h200 (by decide)
    · rw [a2] at h200
      exact absurd h200 (by decide)

/-! ### Lemmas on EmbedLyricsOnly -/

theorem splitAtEq_join (l a b : List Char) (h : splitAtEq l = some (a, b)) :
    a ++ '=' :: b = l := by
  induction l generalizing a b with
  | nil => simp [splitAtEq] at h
  | cons c cs ih =>
    by_cases hc : c = '='
    · simp only [splitAtEq, hc, if_true, Option.some.injEq, Prod.mk.injEq] at h
      obtain ⟨ha, hb⟩ := h
      rw [← ha, ← hb, hc]
      rfl
    · simp only [splitAtEq, hc, if_false, Option.map_eq_some', Prod.mk.injEq] at h
      obtain ⟨p, hp, ha, hb⟩ := h
      have := ih p.1 p.2 hp
      rw [← ha, ← hb, List.cons_append, this]

theorem splitField_join (comment name value : String)
    (h : splitField comment = some (name, value)) : name ++ "=" ++ value = comment := by
  unfold splitField at h
  simp only [Option.map_eq_some', Prod.mk.injEq] at h
  obtain ⟨p, hp, hn, hv⟩ := h
  have hj := splitAtEq_join comment.data p.1 p.2 hp
  apply String.ext
  rw [← hn, ← hv]
  simp only [String.data_append]
  rw [← hj]
  simp

theorem copyCommentsLoop_filter (lib : StringsLib) (comments cmt : List String) :
    copyCommentsLoop lib comments cmt = cmt ++ comments.filter (isCarriedOver lib) := by
  induction comments generalizing cmt with
  | nil => simp [copyCommentsLoop]
  | cons c cs ih =>
    cases hs : splitField c with
    | none => simp [copyCommentsLoop, isCarriedOver, hs, ih]
    | some p =>
      obtain ⟨name, value⟩ := p
      have hj := splitField_join c name value hs
      by_cases hl : lib.ToUpper name ≠ "LYRICS" ∧ lib.ToUpper name ≠ "UNSYNCEDLYRICS" ∧
          lib.ToUpper name ≠ "SYNCEDLYRICS"
      · by_cases hv : validFieldName name = true
        · simp [copyCommentsLoop, isCarriedOver, hs, hl, hv, vorbisAdd, ih, hj]
        · simp [copyCommentsLoop, isCarriedOver, hs, hl, hv, vorbisAdd, ih]
      · simp only [copyCommentsLoop, hs, hl, if_false, ih]
        simp [isCarriedOver, hs, hl]

theorem existingComments_split (pre : List MetaDataBlock) (vendor : String)
    (comments : List String) (post : List MetaDataBlock)
    (hpre : ∀ b ∈ pre, b.isVorbisComment = false) :
    existingComments (pre ++ .vorbisComment vendor comments :: post) = some comments := by
  induction pre with
  | nil => rfl
  | cons x xs ih =>
    have hx := hpre x (List.mem_cons_self _ _)
    have hxs : ∀ b ∈ xs, b.isVorbisComment = false :=
      fun b hb => hpre b (List.mem_cons_of_mem _ hb)
    simp only [List.cons_append, existingComments, hx]
    exact ih hxs

/-! ### Claims on EmbedLyricsOnly -/

/-- C21 fails: the comment block holds `KÜNSTLER=Band`, whose name is none of the
lyrics names but has a letter that `Add` rejects, and `remastered`, which has
no `=`; `EmbedLyricsOnly` succeeds and the new block holds neither, although
the function is written to copy the existing comments except the lyrics. -/
theorem embed_lyrics_drops_comments :
    EmbedLyricsOnly asciiStrings (some lyricsFlac) "la la" none
      = .ok (some { Meta := [.other 0 [16, 0],
                            .vorbisComment flacvorbisVendor ["TITLE=Song", "LYRICS=la la"],
                            .other 1 [0, 0]],
                    Frames := [255, 248] }) ∧
    MetaDataBlock.vorbisComment "reference libFLAC"
        ["TITLE=Song", "KÜNSTLER=Band", "remastered", "Lyrics=old"] ∈ lyricsFlac.Meta ∧
    splitField "KÜNSTLER=Band" = some ("KÜNSTLER", "Band") ∧
    asciiStrings.ToUpper "KÜNSTLER" ∉ ["LYRICS", "UNSYNCEDLYRICS", "SYNCEDLYRICS"] := by
  refine ⟨by rfl, by decide, by rfl, by decide⟩

/-- What `EmbedLyricsOnly` does in general: for a file whose first comment block
parses to the comments `old` and a non-empty lyrics text, `EmbedLyricsOnly`
(when the save succeeds)
puts in the place of that block a block whose comments are the comments of
`old` that have a `=`, a name that `Add` accepts and that is in upper case none
of LYRICS, UNSYNCEDLYRICS, SYNCEDLYRICS, unchanged and in their order, followed
by `LYRICS=` and the new text as the last comment; none of the comments kept is
a lyrics comment; the other blocks and the frames are unchanged. -/
theorem embed_lyrics_only_effect (lib : StringsLib) (f : FlacFile) (lyrics : String)
    (pre : List MetaDataBlock) (vendor : String) (old : List String)
    (post : List MetaDataBlock) (hlyrics : lyrics ≠ "")
    (hsplit : f.Meta = pre ++ .vorbisComment vendor old :: post)
    (hpre : ∀ b ∈ pre, b.isVorbisComment = false) :
    EmbedLyricsOnly lib (some f) lyrics none
      = .ok (some { Meta := pre ++ .vorbisComment flacvorbisVendor
                        (old.filter (isCarriedOver lib) ++ ["LYRICS=" ++ lyrics]) :: post,
                    Frames := f.Frames }) ∧
    (∀ c ∈ old.filter (isCarriedOver lib), ∃ name value,
        splitField c = some (name, value) ∧ c = name ++ "=" ++ value ∧
        lib.ToUpper name ≠ "LYRICS") := by
  constructor
  · have hex : existingComments f.Meta = some old := by
      rw [hsplit, existingComments_split pre vendor old post hpre]
    have hput : ∀ B, putCommentBlock B f.Meta = pre ++ B :: post := by
      intro B
      rw [hsplit]
      simp [putCommentBlock,
        replaceFirstComment_split B pre (.vorbisComment vendor old) post hpre rfl]
    have hadd : ∀ cmt : List String, vorbisAdd cmt "LYRICS" lyrics
        = cmt ++ ["LYRICS=" ++ lyrics] := by
      intro cmt
      have hv : validFieldName "LYRICS" = true := by decide
      simp [vorbisAdd, hv]
    simp only [EmbedLyricsOnly, hlyrics, if_false, hex, hput, hadd, copyCommentsLoop_filter,
      List.nil_append]
  · intro c hc
    have hk := (List.mem_filter.mp hc).2
    unfold isCarriedOver at hk
    cases hs : splitField c with
    | none => simp [hs] at hk
    | some p =>
      obtain ⟨name, value⟩ := p
      simp only [hs, Bool.and_eq_true, decide_eq_true_eq] at hk
      exact ⟨name, value, rfl, (splitField_join c name value hs).symm, hk.2.1⟩

/-- The general effect of `EmbedLyricsOnly` at the sample file: the title is
kept, the field with a name outside ASCII, the comment without `=` and the old
lyrics are not. -/
theorem embed_lyrics_only_effect_witness :
    ("la la" ≠ "" ∧
      lyricsFlac.Meta = [.other 0 [16, 0]]
        ++ .vorbisComment "reference libFLAC"
            ["TITLE=Song", "KÜNSTLER=Band", "remastered", "Lyrics=old"]
          :: [.other 1 [0, 0]] ∧
      (∀ b ∈ [MetaDataBlock.other 0 [16, 0]], b.isVorbisComment = false)) ∧
    (EmbedLyricsOnly asciiStrings (some lyricsFlac) "la la" none
      = .ok (some { Meta := [.other 0 [16, 0]] ++ .vorbisComment flacvorbisVendor
                        (["TITLE=Song", "KÜNSTLER=Band", "remastered", "Lyrics=old"].filter
                          (isCarriedOver asciiStrings) ++ ["LYRICS=" ++ "la la"])
                        :: [.other 1 [0, 0]],
                    Frames := lyricsFlac.Frames }) ∧
    (∀ c ∈ ["TITLE=Song", "KÜNSTLER=Band", "remastered", "Lyrics=old"].filter
          (isCarriedOver asciiStrings), ∃ name value,
        splitField c = some (name, value) ∧ c = name ++ "=" ++ value ∧
        asciiStrings.ToUpper name ≠ "LYRICS")) :=
  ⟨⟨by decide, rfl, by decide⟩,
   embed_lyrics_only_effect asciiStrings lyricsFlac "la la" [.other 0 [16, 0]]
     "reference libFLAC" ["TITLE=Song", "KÜNSTLER=Band", "remastered", "Lyrics=old"]
     [.other 1 [0, 0]] (by decide) rfl (by decide)⟩

/-! ### Claims on the download entry points -/

theorem osRemove_cover (file : String) :
    [file ++ ".cover.jpg"].foldl osRemove (some file) = some file := by
  have hne : file ≠ file ++ ".cover.jpg" := by
    intro h
    have hl := congrArg String.length h
    simp only [String.length_append] at hl
    have : ".cover.jpg".length = 10 := by decide
    omega
  simp [osRemove, hne]

theorem downloadCover_fileAt (env : DownloadEnv) (file spotifyCoverURL : String) :
    (downloadCover env file spotifyCoverURL).2.1.foldl osRemove (some file) = some file := by
  unfold downloadCover
  split
  · split
    · rfl
    · exact osRemove_cover file
  · rfl

/-- In the four Tidal entry points and in Amazon `DownloadByURL`, when the
transfer has succeeded and `EmbedMetadata` fails, the entry point returns the
path of the file with no error, the file is at that path on return, and the
failure is printed as a warning. -/
theorem embed_failure_is_a_warning (env : DownloadEnv)
    (outputDir spotifyTrackName spotifyArtistName spotifyCoverURL e : String)
    (hembed : env.embedMetadata = some e) :
    (∀ r ∈ [TidalDownloader.DownloadByURL env outputDir spotifyCoverURL,
            TidalDownloader.DownloadByURLWithFallback env outputDir spotifyCoverURL,
            TidalDownloader.DownloadBySearchWithISRC env outputDir spotifyCoverURL,
            TidalDownloader.DownloadBySearchWithFallback env outputDir spotifyCoverURL],
      r.transferred = true →
        r.err = none ∧ r.path = env.outputFilename ∧ r.fileAt = some r.path ∧
        "Tagging failed: " ++ e ∈ r.warnings) ∧
    (∀ r, r = AmazonDownloader.DownloadByURL env outputDir spotifyTrackName spotifyArtistName
        spotifyCoverURL → r.transferred = true →
        r.err = none ∧ r.fileAt = some r.path ∧
        "Warning: Failed to embed metadata: " ++ e ∈ r.warnings) := by
  have htail : ∀ file, (tidalEmbedAndReturn env file spotifyCoverURL).err = none ∧
      (tidalEmbedAndReturn env file spotifyCoverURL).path = file ∧
      (tidalEmbedAndReturn env file spotifyCoverURL).fileAt
        = some (tidalEmbedAndReturn env file spotifyCoverURL).path ∧
      "Tagging failed: " ++ e ∈ (tidalEmbedAndReturn env file spotifyCoverURL).warnings := by
    intro file
    refine ⟨rfl, rfl, ?_, ?_⟩
    · exact downloadCover_fileAt env file spotifyCoverURL
    · simp [tidalEmbedAndReturn, hembed]
  constructor
  · intro r hr ht
    simp only [List.mem_cons, List.mem_singleton, List.not_mem_nil, or_false] at hr
    rcases hr with hr | hr | hr | hr
    · rw [hr] at ht ⊢
      unfold TidalDownloader.DownloadByURL at ht ⊢
      repeat' split at ht
      all_goals first
        | (simp [failBefore, alreadyExists] at ht)
        | (simp_all only []; exact htail _)
    · rw [hr] at ht ⊢
      unfold TidalDownloader.DownloadByURLWithFallback at ht ⊢
      repeat' split at ht
      all_goals first
        | (simp [failBefore, alreadyExists] at ht)
        | (simp_all only []; exact htail _)
    · rw [hr] at ht ⊢
      unfold TidalDownloader.DownloadBySearchWithISRC at ht ⊢
      repeat' split at ht
      all_goals first
        | (simp [failBefore, alreadyExists] at ht)
        | (simp_all only []; exact htail _)
    · rw [hr] at ht ⊢
      unfold TidalDownloader.DownloadBySearchWithFallback at ht ⊢
      repeat' split at ht
      all_goals first
        | (simp [failBefore, alreadyExists] at ht)
        | (simp_all only []; exact htail _)
  · intro r hr
    rw [hr]
    unfold AmazonDownloader.DownloadByURL
    simp only [hembed]
    repeat' split
    all_goals intro ht
    all_goals first
      | (simp [failBefore, alreadyExists] at ht; done)
      | (refine ⟨rfl, downloadCover_fileAt env _ spotifyCoverURL, ?_⟩
         simp)

/-- C22 fails at Qobuz `DownloadByISRC`: every call up to the transfer succeeds,
`EmbedMetadata` fails, and the entry point returns the empty path with the
error `failed to embed metadata`, the transferred file staying on disk; Tidal
`DownloadByURL` and Amazon `DownloadByURL` return the path with no error in the
same environment. -/
theorem qobuz_embed_failure_is_an_error :
    QobuzDownloader.DownloadByISRC embedFailsEnv "out" "https://cover"
      = { path := "", err := some "failed to embed metadata: failed to save FLAC file",
          transferred := true, fileAt := some "out/Artist - Song.flac", warnings := [] } ∧
    TidalDownloader.DownloadByURL embedFailsEnv "out" "https://cover"
      = { path := "out/Artist - Song.flac", err := none, transferred := true,
          fileAt := some "out/Artist - Song.flac",
          warnings := ["Tagging failed: failed to save FLAC file"] } ∧
    AmazonDownloader.DownloadByURL embedFailsEnv "out" "Song" "Artist" "https://cover"
      = { path := "out/Artist - Song.flac", err := none, transferred := true,
          fileAt := some "out/Artist - Song.flac",
          warnings := ["Warning: Failed to embed metadata: failed to save FLAC file"] } := by
  refine ⟨by decide, by decide, by decide⟩

/-- In Qobuz `DownloadByISRC`, whenever the transfer has succeeded and
`EmbedMetadata` fails, the entry point returns the empty path and the error
`failed to embed metadata`, and the transferred file stays where it was
written. -/
theorem qobuz_embed_failure_general (env : DownloadEnv) (outputDir spotifyCoverURL e : String)
    (hembed : env.embedMetadata = some e)
    (ht : (QobuzDownloader.DownloadByISRC env outputDir spotifyCoverURL).transferred = true) :
    QobuzDownloader.DownloadByISRC env outputDir spotifyCoverURL
      = { path := "", err := some ("failed to embed metadata: " ++ e), transferred := true,
          fileAt := some env.outputFilename,
          warnings := (downloadCover env env.outputFilename spotifyCoverURL).2.2 } := by
  revert ht
  unfold QobuzDownloader.DownloadByISRC
  simp only [hembed]
  repeat' split
  all_goals intro ht
  all_goals first
    | (simp [failBefore, alreadyExists] at ht; done)
    | (simp only [downloadCover_fileAt])

/-! ### Lemmas on getDownloadURLParallel -/

theorem firstOriginalTrackURL_eq_find (urls : List String) :
    firstOriginalTrackURL urls = urls.find? (fun url => decide (url ≠ "")) := by
  induction urls with
  | nil => rfl
  | cons u us ih =>
    by_cases hu : u = ""
    · simp [firstOriginalTrackURL, hu, ih]
    · simp [firstOriginalTrackURL, hu]

theorem HasPrefix_append (pre s : String) : HasPrefix (pre ++ s) pre = true := by
  simp [HasPrefix, String.data_append]

theorem TrimPrefix_append (pre s : String) : TrimPrefix (pre ++ s) pre = s := by
  simp [TrimPrefix, HasPrefix_append, String.data_append]

/-- The v1 part of the goroutine, by the direct URLs of the body. -/
theorem firstURL_cases (v1 : Option (List String)) :
    (v1.bind firstOriginalTrackURL = none ∧
      (match v1 with
        | some urls => urls.any (fun url => decide (url ≠ ""))
        | none => false) = false) ∨
    (∃ u, u ≠ "" ∧ v1.bind firstOriginalTrackURL = some u ∧
      ((v1.getD []).find? (fun url => decide (url ≠ ""))).getD "" = u ∧
      (match v1 with
        | some urls => urls.any (fun url => decide (url ≠ ""))
        | none => false) = true) := by
  cases v1 with
  | none => left; simp
  | some urls =>
    simp only [Option.some_bind, Option.getD_some, firstOriginalTrackURL_eq_find]
    cases hf : urls.find? (fun url => decide (url ≠ "")) with
    | none =>
      left
      refine ⟨rfl, ?_⟩
      rw [List.find?_eq_none] at hf
      simpa [List.any_eq_false] using hf
    | some u =>
      right
      have hu := List.find?_some hf
      have hm := List.mem_of_find?_eq_some hf
      refine ⟨u, by simpa using hu, rfl, rfl, ?_⟩
      rw [List.any_eq_true]
      exact ⟨u, hm, hu⟩

/-- The result a goroutine sends for an answer that is not structurally valid
carries an error. -/
theorem requestMirror_invalid (api : String) (a : MirrorAnswer)
    (h : structurallyValid a = false) : ∃ e, (requestMirror api a).err = some e := by
  cases a with
  | transportError err => exact ⟨err, rfl⟩
  | response code body =>
    by_cases hc : code = 200
    · subst hc
      cases body with
      | error err => exact ⟨err, rfl⟩
      | ok parsed =>
        simp only [structurallyValid, Bool.or_eq_false_iff] at h
        obtain ⟨h2, h1⟩ := h
        rcases firstURL_cases parsed.v1 with ⟨hb, _⟩ | ⟨u, _, _, _, hany⟩
        · cases hv2 : parsed.v2 with
          | none => simp [requestMirror, hv2, hb]
          | some m =>
            rw [hv2] at h2
            have hm : m = "" := by simpa using h2
            simp [requestMirror, hv2, hb, hm]
        · rw [hany] at h1
          exact absurd h1 (by simp)
    · exact ⟨"HTTP " ++ Itoa code, by simp [requestMirror, hc]⟩

/-- The result a goroutine sends for a structurally valid answer: the v2
manifest, or the first direct URL marked `DIRECT:`. -/
theorem requestMirror_valid (api : String) (a : MirrorAnswer)
    (h : structurallyValid a = true) :
    (∃ m, m ≠ "" ∧ v2Manifest a = some m ∧ locatorOf a = "MANIFEST:" ++ m ∧
      requestMirror api a = { apiURL := api, manifest := m, err := none }) ∨
    (∃ u, u ≠ "" ∧ locatorOf a = u ∧
      requestMirror api a = { apiURL := api, manifest := "DIRECT:" ++ u, err := none }) := by
  cases a with
  | transportError err => simp [structurallyValid] at h
  | response code body =>
    by_cases hc : code = 200
    · subst hc
      cases body with
      | error err => simp [structurallyValid] at h
      | ok parsed =>
        simp only [structurallyValid, Bool.or_eq_true] at h
        cases hv2 : parsed.v2 with
        | none =>
          rw [hv2] at h
          rcases firstURL_cases parsed.v1 with ⟨_, hany⟩ | ⟨u, hu, hb, hfind, _⟩
          · rw [hany] at h
            simp at h
          · right
            exact ⟨u, hu, by simp only [locatorOf, hv2]; exact hfind,
              by simp [requestMirror, hv2, hb]⟩
        | some m =>
          by_cases hm : m = ""
          · rw [hv2] at h
            rcases firstURL_cases parsed.v1 with ⟨_, hany⟩ | ⟨u, hu, hb, hfind, _⟩
            · rw [hany] at h
              simp [hm] at h
            · right
              refine ⟨u, hu, ?_, by simp [requestMirror, hv2, hm, hb]⟩
              simp only [locatorOf, hv2]
              rw [if_neg (by simp [hm])]
              exact hfind
          · left
            exact ⟨m, hm, by simp [v2Manifest, hv2], by simp [locatorOf, hv2, hm],
              by simp [requestMirror, hv2, hm]⟩
    · have : structurallyValid (.response code body) = false := by
        unfold structurallyValid
        split
        · rename_i heq
          simp only [MirrorAnswer.response.injEq] at heq
          exact absurd heq.1 hc
        · rfl
      rw [this] at h
      exact absurd h (by simp)

theorem append_ne_empty_left (a b : String) (ha : a ≠ "") : a ++ b ≠ "" := by
  intro h
  have hd := congrArg String.data h
  rw [String.data_append] at hd
  have hnil : a.data = [] := (List.append_eq_nil.mp hd).1
  exact ha (String.ext hnil)

/-- The collecting loop at a structurally valid answer whose v2 manifest, if it
has one, does not begin with `DIRECT:`. -/
theorem collectLoop_valid (n : Nat) (api : String) (a : MirrorAnswer)
    (rest : List manifestResult) (last : Option String)
    (h : structurallyValid a = true)
    (hv2 : ∀ m, v2Manifest a = some m → HasPrefix m "DIRECT:" = false) :
    collectLoop n (requestMirror api a :: rest) last = .found api (locatorOf a) ∧
    locatorOf a ≠ "" := by
  rcases requestMirror_valid api a h with ⟨m, hm, hvm, hloc, hreq⟩ | ⟨u, hu, hloc, hreq⟩
  · rw [hreq, hloc]
    refine ⟨?_, append_ne_empty_left _ _ (by decide)⟩
    simp [collectLoop, hm, hv2 m hvm]
  · rw [hreq, hloc]
    refine ⟨?_, hu⟩
    have hne : "DIRECT:" ++ u ≠ "" := append_ne_empty_left _ _ (by decide)
    simp [collectLoop, hne, HasPrefix_append, TrimPrefix_append]

theorem collectLoop_invalid (n : Nat) (api : String) (a : MirrorAnswer)
    (rest : List manifestResult) (last : Option String)
    (h : structurallyValid a = false) :
    ∃ e, collectLoop n (requestMirror api a :: rest) last = collectLoop n rest (some e) := by
  obtain ⟨e, he⟩ := requestMirror_invalid api a h
  exact ⟨e, by simp [collectLoop, he]⟩

/-- The collecting loop over answers of which none is structurally valid ends
with the error. -/
theorem collectLoop_all_invalid (n : Nat) (answers : List (String × MirrorAnswer))
    (last : Option String) (h : ∀ p ∈ answers, structurallyValid p.2 = false) :
    ∃ msg, collectLoop n (answers.map (fun p => requestMirror p.1 p.2)) last = .failed msg := by
  induction answers generalizing last with
  | nil => exact ⟨_, rfl⟩
  | cons p ps ih =>
    obtain ⟨e, he⟩ := collectLoop_invalid n p.1 p.2 (ps.map (fun p => requestMirror p.1 p.2))
      last (h p (List.mem_cons_self _ _))
    rw [List.map_cons, he]
    exact ih (some e) (fun q hq => h q (List.mem_cons_of_mem _ hq))

/-- The collecting loop stops at the first structurally valid answer. -/
theorem collectLoop_first_valid (n : Nat) (pre : List (String × MirrorAnswer))
    (p : String × MirrorAnswer) (post : List (String × MirrorAnswer)) (last : Option String)
    (hpre : ∀ q ∈ pre, structurallyValid q.2 = false) (hp : structurallyValid p.2 = true)
    (hv2 : ∀ m, v2Manifest p.2 = some m → HasPrefix m "DIRECT:" = false) :
    collectLoop n ((pre ++ p :: post).map (fun p => requestMirror p.1 p.2)) last
      = .found p.1 (locatorOf p.2) := by
  induction pre generalizing last with
  | nil =>
    rw [List.nil_append, List.map_cons]
    exact (collectLoop_valid n p.1 p.2 _ last hp hv2).1
  | cons q qs ih =>
    obtain ⟨e, he⟩ := collectLoop_invalid n q.1 q.2
      ((qs ++ p :: post).map (fun p => requestMirror p.1 p.2)) last
      (hpre q (List.mem_cons_self _ _))
    rw [List.cons_append, List.map_cons, he]
    exact ih (some e) (fun r hr => hpre r (List.mem_cons_of_mem _ hr))


theorem getDownloadURLParallel_eq (apis : List String) (answers : List (String × MirrorAnswer))
    (hne : apis ≠ []) (hperm : (answers.map Prod.fst).Perm apis) :
    getDownloadURLParallel apis answers
      = collectLoop apis.length (answers.map (fun p => requestMirror p.1 p.2)) none := by
  have hlen : answers.length = apis.length := by
    simpa using hperm.length_eq
  have h0 : apis.length ≠ 0 := fun h => hne (List.length_eq_zero.mp h)
  unfold getDownloadURLParallel
  rw [if_neg h0, List.take_of_length_le (by simp [hlen])]

theorem raceAnswers_manifests :
    ∀ p ∈ raceAnswers, ∀ m, v2Manifest p.2 = some m → HasPrefix m "DIRECT:" = false := by
  intro p hp m hm
  simp only [raceAnswers, List.mem_cons, List.mem_singleton, List.not_mem_nil, or_false] at hp
  rcases hp with hp | hp | hp
  · subst hp
    simp only [v2Manifest, Option.some.injEq] at hm
    subst hm
    rfl
  · subst hp
    simp [v2Manifest] at hm
  · subst hp
    simp only [v2Manifest, Option.some.injEq] at hm
    subst hm
    rfl

/-! ### Claims on getDownloadURLParallel -/

/-- C23 fails: the only mirror answers with status 200 and a v2 manifest that
begins with `DIRECT:`, the mark that the goroutine puts before a v1 URL.
`getDownloadURLParallel` takes the manifest `DIRECT:abc` for a marked direct URL
and returns the locator `abc`, where `GetDownloadURL` returns the manifest
marked `MANIFEST:` for the same answer; for the manifest `DIRECT:`, which is not
empty, it returns that mirror with the empty locator. -/
theorem direct_marked_manifest_is_taken_for_url :
    structurallyValid (.response 200 (.ok { v2 := some "DIRECT:abc", v1 := none })) = true ∧
    getDownloadURLParallel ["https://mirror.one"]
        [("https://mirror.one", .response 200 (.ok { v2 := some "DIRECT:abc", v1 := none }))]
      = .found "https://mirror.one" "abc" ∧
    GetDownloadURL (.response 200 (.ok { v2 := some "DIRECT:abc", v1 := none }))
      = some "MANIFEST:DIRECT:abc" ∧
    structurallyValid (.response 200 (.ok { v2 := some "DIRECT:", v1 := none })) = true ∧
    getDownloadURLParallel ["https://mirror.one"]
        [("https://mirror.one", .response 200 (.ok { v2 := some "DIRECT:", v1 := none }))]
      = .found "https://mirror.one" "" ∧
    GetDownloadURL (.response 200 (.ok { v2 := some "DIRECT:", v1 := none }))
      = some "MANIFEST:DIRECT:" := by
  refine ⟨by rfl, by rfl, by rfl, by rfl, by rfl, by rfl⟩

/-- What `getDownloadURLParallel` does on the other answers: for a non-empty
mirror list, one answer per mirror in any order of arrival, and no v2 manifest
beginning with `DIRECT:`,
`getDownloadURLParallel` succeeds exactly when some answer is structurally
valid; it then returns the mirror and the locator of the first structurally
valid answer in the order of arrival, and that locator is not empty; whatever
it returns comes from a structurally valid answer, so a mirror that answered
without manifest or URL never wins; when no answer is structurally valid it
returns an error. -/
theorem first_valid_mirror_wins (apis : List String) (answers : List (String × MirrorAnswer))
    (hne : apis ≠ []) (hperm : (answers.map Prod.fst).Perm apis)
    (hv2 : ∀ p ∈ answers, ∀ m, v2Manifest p.2 = some m → HasPrefix m "DIRECT:" = false) :
    ((∃ api loc, getDownloadURLParallel apis answers = .found api loc) ↔
      ∃ p ∈ answers, structurallyValid p.2 = true) ∧
    (∀ pre p post, answers = pre ++ p :: post →
      (∀ q ∈ pre, structurallyValid q.2 = false) → structurallyValid p.2 = true →
      getDownloadURLParallel apis answers = .found p.1 (locatorOf p.2) ∧
        locatorOf p.2 ≠ "") ∧
    (∀ api loc, getDownloadURLParallel apis answers = .found api loc →
      loc ≠ "" ∧
      ∃ p ∈ answers, p.1 = api ∧ structurallyValid p.2 = true ∧ loc = locatorOf p.2) ∧
    ((∀ p ∈ answers, structurallyValid p.2 = false) →
      ∃ msg, getDownloadURLParallel apis answers = .failed msg) := by
  have heq := getDownloadURLParallel_eq apis answers hne hperm
  have hfirst : ∀ pre p post, answers = pre ++ p :: post →
      (∀ q ∈ pre, structurallyValid q.2 = false) → structurallyValid p.2 = true →
      getDownloadURLParallel apis answers = .found p.1 (locatorOf p.2) ∧
        locatorOf p.2 ≠ "" := by
    intro pre p post hsplit hpre hp
    have hmem : p ∈ answers := by rw [hsplit]; simp
    refine ⟨?_, (collectLoop_valid apis.length p.1 p.2 [] none hp (hv2 p hmem)).2⟩
    rw [heq, hsplit]
    exact collectLoop_first_valid apis.length pre p post none hpre hp (hv2 p hmem)
  have hnone : (∀ p ∈ answers, structurallyValid p.2 = false) →
      ∃ msg, getDownloadURLParallel apis answers = .failed msg := by
    intro hall
    rw [heq]
    exact collectLoop_all_invalid apis.length answers none hall
  have hfound : ∀ api loc, getDownloadURLParallel apis answers = .found api loc →
      loc ≠ "" ∧
      ∃ p ∈ answers, p.1 = api ∧ structurallyValid p.2 = true ∧ loc = locatorOf p.2 := by
    intro api loc hres
    by_cases hex : ∃ p ∈ answers, structurallyValid p.2 = true
    · obtain ⟨pre, p, post, hsplit, hpre, hp⟩ :=
        exists_first_split (fun p : String × MirrorAnswer => structurallyValid p.2 = true)
          answers hex
      obtain ⟨hr, hl⟩ := hfirst pre p post hsplit (fun q hq => by simpa using hpre q hq) hp
      rw [hr] at hres
      simp only [URLResult.found.injEq] at hres
      have hmem : p ∈ answers := by rw [hsplit]; simp
      exact ⟨hres.2 ▸ hl, p, hmem, hres.1, hp, hres.2.symm⟩
    · obtain ⟨msg, hmsg⟩ := hnone (fun p hp => by
        by_contra hv
        exact hex ⟨p, hp, by simpa using hv⟩)
      rw [hmsg] at hres
      exact absurd hres (by simp)
  refine ⟨⟨?_, ?_⟩, hfirst, hfound, hnone⟩
  · rintro ⟨api, loc, hres⟩
    obtain ⟨_, p, hp, _, hv, _⟩ := hfound api loc hres
    exact ⟨p, hp, hv⟩
  · intro hex
    obtain ⟨pre, p, post, hsplit, hpre, hp⟩ :=
      exists_first_split (fun p : String × MirrorAnswer => structurallyValid p.2 = true)
        answers hex
    exact ⟨p.1, locatorOf p.2,
      (hfirst pre p post hsplit (fun q hq => by simpa using hpre q hq) hp).1⟩

/-- The race at three mirrors: the first to answer sends status 200 with
neither manifest nor URL, the second a direct URL, the third a manifest; the
second wins. -/
theorem first_valid_mirror_wins_witness :
    (raceMirrors ≠ [] ∧
      (raceAnswers.map Prod.fst).Perm raceMirrors ∧
      (∀ p ∈ raceAnswers, ∀ m, v2Manifest p.2 = some m → HasPrefix m "DIRECT:" = false)) ∧
    (((∃ api loc, getDownloadURLParallel raceMirrors raceAnswers = .found api loc) ↔
        ∃ p ∈ raceAnswers, structurallyValid p.2 = true) ∧
      (∀ pre p post, raceAnswers = pre ++ p :: post →
        (∀ q ∈ pre, structurallyValid q.2 = false) → structurallyValid p.2 = true →
        getDownloadURLParallel raceMirrors raceAnswers = .found p.1 (locatorOf p.2) ∧
          locatorOf p.2 ≠ "") ∧
      (∀ api loc, getDownloadURLParallel raceMirrors raceAnswers = .found api loc →
        loc ≠ "" ∧
        ∃ p ∈ raceAnswers, p.1 = api ∧ structurallyValid p.2 = true ∧ loc = locatorOf p.2) ∧
      ((∀ p ∈ raceAnswers, structurallyValid p.2 = false) →
        ∃ msg, getDownloadURLParallel raceMirrors raceAnswers = .failed msg)) :=
  ⟨⟨by decide, by decide, raceAnswers_manifests⟩,
   first_valid_mirror_wins raceMirrors raceAnswers (by decide) (by decide)
     raceAnswers_manifests⟩

/-- The race of the three mirrors returns the second mirror to answer and its
direct URL. -/
theorem race_example :
    getDownloadURLParallel raceMirrors raceAnswers = .found "https://m3" "https://cdn/a.flac" := by
  rfl

/-! ### Lemmas on the STREAMINFO block -/

theorem or_of_shifted (a b k : Nat) (hb : b < 2 ^ k) : a * 2 ^ k ||| b = a * 2 ^ k + b := by
  rw [Nat.mul_comm a (2 ^ k)]
  exact (Nat.mul_add_lt_is_or hb a).symm

theorem and_low_bits (x : Nat) :
    x &&& 0x07 = x % 8 ∧ x &&& 0x01 = x % 2 ∧ x &&& 0x0F = x % 16 :=
  ⟨Nat.and_pow_two_sub_one_eq_mod x 3, Nat.and_pow_two_sub_one_eq_mod x 1,
    Nat.and_pow_two_sub_one_eq_mod x 4⟩

/-- The four fields by arithmetic on the eight bytes they are read from. -/
theorem decodeStreamInfo_arith (pre : List Nat) (b10 b11 b12 b13 b14 b15 b16 b17 : Nat)
    (rest : List Nat) (hpre : pre.length = 10)
    (h10 : b10 < 256) (h11 : b11 < 256) (h12 : b12 < 256) (h13 : b13 < 256)
    (h14 : b14 < 256) (h15 : b15 < 256) (h16 : b16 < 256) (h17 : b17 < 256) :
    decodeStreamInfo (pre ++ b10 :: b11 :: b12 :: b13 :: b14 :: b15 :: b16 :: b17 :: rest)
      = { SampleRate := b10 * 4096 + b11 * 16 + b12 / 16
          Channels := b12 / 2 % 8 + 1
          BitsPerSample := b12 % 2 * 16 + b13 / 16 + 1
          TotalSamples :=
            b13 % 16 * 4294967296 + b14 * 16777216 + b15 * 65536 + b16 * 256 + b17 } := by
  have hget : ∀ i x, (pre ++ b10 :: b11 :: b12 :: b13 :: b14 :: b15 :: b16 :: b17 :: rest).getD
      (10 + i) x = (b10 :: b11 :: b12 :: b13 :: b14 :: b15 :: b16 :: b17 :: rest).getD i x := by
    intro i x
    rw [← hpre, List.getD_append_right _ _ _ _ (by omega)]
    congr 1
    omega
  have hlen : (pre ++ b10 :: b11 :: b12 :: b13 :: b14 :: b15 :: b16 :: b17 :: rest).length
      ≥ 18 := by
    simp only [List.length_append, List.length_cons, hpre]
    omega
  unfold decodeStreamInfo
  rw [if_pos hlen]
  have e10 := hget 0 0
  have e11 := hget 1 0
  have e12 := hget 2 0
  have e13 := hget 3 0
  have e14 := hget 4 0
  have e15 := hget 5 0
  have e16 := hget 6 0
  have e17 := hget 7 0
  simp only [Nat.reduceAdd, List.getD_cons_zero, List.getD_cons_succ] at e10 e11 e12 e13
  simp only [Nat.reduceAdd, List.getD_cons_zero, List.getD_cons_succ] at e14 e15 e16 e17
  simp only [e10, e11, e12, e13, e14, e15, e16, e17, shiftLeftBits, Nat.shiftLeft_eq,
    Nat.shiftRight_eq_div_pow, (and_low_bits _).1, (and_low_bits _).2.1, (and_low_bits _).2.2]
  have m1 : b10 * 2 ^ 12 % 2 ^ 32 = b10 * 2 ^ 12 := Nat.mod_eq_of_lt (by omega)
  have m2 : b11 * 2 ^ 4 % 2 ^ 32 = b11 * 2 ^ 4 := Nat.mod_eq_of_lt (by omega)
  have m3 : b12 % 2 * 2 ^ 4 % 2 ^ 8 = b12 % 2 * 2 ^ 4 := Nat.mod_eq_of_lt (by omega)
  have m4 : b13 % 16 * 2 ^ 32 % 2 ^ 64 = b13 % 16 * 2 ^ 32 := Nat.mod_eq_of_lt (by omega)
  have m5 : b14 * 2 ^ 24 % 2 ^ 64 = b14 * 2 ^ 24 := Nat.mod_eq_of_lt (by omega)
  have m6 : b15 * 2 ^ 16 % 2 ^ 64 = b15 * 2 ^ 16 := Nat.mod_eq_of_lt (by omega)
  have m7 : b16 * 2 ^ 8 % 2 ^ 64 = b16 * 2 ^ 8 := Nat.mod_eq_of_lt (by omega)
  rw [m1, m2, m3, m4, m5, m6, m7]
  have s1 : b10 * 2 ^ 12 ||| b11 * 2 ^ 4 ||| b12 / 2 ^ 4
      = b10 * 4096 + b11 * 16 + b12 / 16 := by
    rw [Nat.or_assoc, or_of_shifted b11 (b12 / 2 ^ 4) 4 (by omega),
      or_of_shifted b10 (b11 * 2 ^ 4 + b12 / 2 ^ 4) 12 (by omega)]
    omega
  have s2 : b12 % 2 * 2 ^ 4 ||| b13 / 2 ^ 4 = b12 % 2 * 16 + b13 / 16 := by
    rw [or_of_shifted (b12 % 2) (b13 / 2 ^ 4) 4 (by omega)]
    omega
  have s3 : b13 % 16 * 2 ^ 32 ||| b14 * 2 ^ 24 ||| b15 * 2 ^ 16 ||| b16 * 2 ^ 8 ||| b17
      = b13 % 16 * 4294967296 + b14 * 16777216 + b15 * 65536 + b16 * 256 + b17 := by
    rw [Nat.or_assoc, Nat.or_assoc, Nat.or_assoc,
      or_of_shifted b16 b17 8 (by omega),
      or_of_shifted b15 (b16 * 2 ^ 8 + b17) 16 (by omega),
      or_of_shifted b14 (b15 * 2 ^ 16 + (b16 * 2 ^ 8 + b17)) 24 (by omega),
      or_of_shifted (b13 % 16) (b14 * 2 ^ 24 + (b15 * 2 ^ 16 + (b16 * 2 ^ 8 + b17))) 32
        (by omega)]
    omega
  rw [s1, s2, s3]
  have c1 : (b12 / 2 ^ 1 % 8 + 1) % 2 ^ 8 = b12 / 2 % 8 + 1 := by omega
  have c2 : (b12 % 2 * 16 + b13 / 16 + 1) % 2 ^ 8 = b12 % 2 * 16 + b13 / 16 + 1 := by omega
  rw [c1, c2]


/-- A block of at least 18 bytes splits around its bytes 10 to 17. -/
theorem split_at_bytes (data : List Nat) (hlen : 18 ≤ data.length) :
    ∃ pre b10 b11 b12 b13 b14 b15 b16 b17 rest, pre.length = 10 ∧
      data = pre ++ b10 :: b11 :: b12 :: b13 :: b14 :: b15 :: b16 :: b17 :: rest := by
  have hsplit : data = data.take 10 ++ data.drop 10 := (List.take_append_drop 10 data).symm
  have hpre : (data.take 10).length = 10 := by
    rw [List.length_take]
    omega
  have hd : 8 ≤ (data.drop 10).length := by
    rw [List.length_drop]
    omega
  rcases hl : data.drop 10 with _ | ⟨b10, _ | ⟨b11, _ | ⟨b12, _ | ⟨b13, _ | ⟨b14, _ | ⟨b15,
    _ | ⟨b16, _ | ⟨b17, rest⟩⟩⟩⟩⟩⟩⟩⟩
  all_goals rw [hl] at hd
  all_goals try (simp at hd; done)
  exact ⟨data.take 10, b10, b11, b12, b13, b14, b15, b16, b17, rest, hpre, by rw [← hl]; exact hsplit⟩

/-! ### Claim on the STREAMINFO block -/

/-- C27: for a block of at least 18 bytes, if bytes 10 to 17 write, most
significant bit first, the sample rate on 20 bits, the channel count less one
on 3 bits, the bit depth less one on 5 bits and the total sample count on 36
bits, then `AnalyzeTrack` decodes these four values; and whatever the bytes
are, the decoded sample rate is below `2 ^ 20`, the channel count is between 1
and 8, the bit depth between 1 and 32 and the total sample count below
`2 ^ 36`. -/
theorem streaminfo_decoding (data : List Nat) (hlen : 18 ≤ data.length)
    (hbytes : ∀ x ∈ data, x < 256) :
    (∀ sr ch b t, sr < 2 ^ 20 → 1 ≤ ch → ch ≤ 8 → 1 ≤ b → b ≤ 32 → t < 2 ^ 36 →
      bigEndian ((data.drop 10).take 8) = streamInfoBits sr ch b t →
      decodeStreamInfo data
        = { SampleRate := sr, Channels := ch, BitsPerSample := b, TotalSamples := t }) ∧
    (decodeStreamInfo data).SampleRate < 2 ^ 20 ∧
    1 ≤ (decodeStreamInfo data).Channels ∧ (decodeStreamInfo data).Channels ≤ 8 ∧
    1 ≤ (decodeStreamInfo data).BitsPerSample ∧ (decodeStreamInfo data).BitsPerSample ≤ 32 ∧
    (decodeStreamInfo data).TotalSamples < 2 ^ 36 := by
  obtain ⟨pre, b10, b11, b12, b13, b14, b15, b16, b17, rest, hpre, hdata⟩ :=
    split_at_bytes data hlen
  have hb : ∀ x ∈ [b10, b11, b12, b13, b14, b15, b16, b17], x < 256 := by
    intro x hx
    apply hbytes x
    rw [hdata]
    simp only [List.mem_cons, List.mem_singleton, List.not_mem_nil, or_false] at hx
    simp only [List.mem_append, List.mem_cons]
    tauto
  have h10 := hb b10 (by simp)
  have h11 := hb b11 (by simp)
  have h12 := hb b12 (by simp)
  have h13 := hb b13 (by simp)
  have h14 := hb b14 (by simp)
  have h15 := hb b15 (by simp)
  have h16 := hb b16 (by simp)
  have h17 := hb b17 (by simp)
  have hdec := decodeStreamInfo_arith pre b10 b11 b12 b13 b14 b15 b16 b17 rest hpre
    h10 h11 h12 h13 h14 h15 h16 h17
  rw [← hdata] at hdec
  have hbig : bigEndian ((data.drop 10).take 8)
      = ((((((b10 * 256 + b11) * 256 + b12) * 256 + b13) * 256 + b14) * 256 + b15) * 256
          + b16) * 256 + b17 := by
    rw [hdata, List.drop_append_of_le_length (by omega), List.drop_eq_nil_of_le (by omega)]
    simp [bigEndian]
  rw [hdec]
  refine ⟨?_, ?_, ?_, ?_, ?_, ?_, ?_⟩
  · intro sr ch b t hsr hch1 hch8 hb1 hb32 ht hbits
    rw [hbig] at hbits
    simp only [streamInfoBits, Nat.reducePow] at hbits hsr ht
    have e1 : b10 * 4096 + b11 * 16 + b12 / 16 = sr := by omega
    have e2 : b12 / 2 % 8 + 1 = ch := by omega
    have e3 : b12 % 2 * 16 + b13 / 16 + 1 = b := by omega
    have e4 : b13 % 16 * 4294967296 + b14 * 16777216 + b15 * 65536 + b16 * 256 + b17 = t := by
      omega
    rw [e1, e2, e3, e4]
  · show b10 * 4096 + b11 * 16 + b12 / 16 < 2 ^ 20
    omega
  · show 1 ≤ b12 / 2 % 8 + 1
    omega
  · show b12 / 2 % 8 + 1 ≤ 8
    omega
  · show 1 ≤ b12 % 2 * 16 + b13 / 16 + 1
    omega
  · show b12 % 2 * 16 + b13 / 16 + 1 ≤ 32
    omega
  · show b13 % 16 * 4294967296 + b14 * 16777216 + b15 * 65536 + b16 * 256 + b17 < 2 ^ 36
    omega

/-- C27 at a block written by an encoder: 44100 Hz, 2 channels, 16 bits, 441000
samples. -/
theorem streaminfo_decoding_witness :
    (18 ≤ sampleStreamInfo.length ∧ ∀ x ∈ sampleStreamInfo, x < 256) ∧
    ((∀ sr ch b t, sr < 2 ^ 20 → 1 ≤ ch → ch ≤ 8 → 1 ≤ b → b ≤ 32 → t < 2 ^ 36 →
        bigEndian ((sampleStreamInfo.drop 10).take 8) = streamInfoBits sr ch b t →
        decodeStreamInfo sampleStreamInfo
          = { SampleRate := sr, Channels := ch, BitsPerSample := b, TotalSamples := t }) ∧
      (decodeStreamInfo sampleStreamInfo).SampleRate < 2 ^ 20 ∧
      1 ≤ (decodeStreamInfo sampleStreamInfo).Channels ∧
      (decodeStreamInfo sampleStreamInfo).Channels ≤ 8 ∧
      1 ≤ (decodeStreamInfo sampleStreamInfo).BitsPerSample ∧
      (decodeStreamInfo sampleStreamInfo).BitsPerSample ≤ 32 ∧
      (decodeStreamInfo sampleStreamInfo).TotalSamples < 2 ^ 36) :=
  ⟨⟨by decide, by decide⟩, streaminfo_decoding sampleStreamInfo (by decide) (by decide)⟩

/-- The sample block decodes to 44100 Hz, 2 channels, 16 bits and 441000 samples,
and its bytes 10 to 17 write these values in the layout. -/
theorem streaminfo_example :
    decodeStreamInfo sampleStreamInfo
      = { SampleRate := 44100, Channels := 2, BitsPerSample := 16, TotalSamples := 441000 } ∧
    bigEndian ((sampleStreamInfo.drop 10).take 8) = streamInfoBits 44100 2 16 441000 := by
  refine ⟨by decide, by decide⟩

/-! ### Lemmas on sanitizeFilename -/

theorem replaceAllChars_slash (k : Nat) (s : List Char) :
    ∀ c ∈ replaceAllChars ['/'] [' '] k s, c ≠ '/' := by
  induction s generalizing k with
  | nil => simp [replaceAllChars]
  | cons x xs ih =>
    cases k with
    | succ k =>
      simp only [replaceAllChars]
      exact ih k
    | zero =>
      intro c hc
      by_cases hx : x = '/'
      · subst hx
        simp only [replaceAllChars, List.isPrefixOf, beq_self_eq_true, Bool.and_self, if_true,
          List.length_singleton, Nat.sub_self, List.singleton_append, List.mem_cons] at hc
        rcases hc with hc | hc
        · rw [hc]
          decide
        · exact ih 0 c hc
      · have hp : List.isPrefixOf ['/'] (x :: xs) = false := by
          simp only [List.isPrefixOf, Bool.and_true, beq_eq_false_iff_ne, ne_eq]
          exact fun h => hx h.symm
        simp only [replaceAllChars, hp, Bool.false_eq_true, if_false, List.mem_cons] at hc
        rcases hc with hc | hc
        · rw [hc]
          exact hx
        · exact ih 0 c hc

theorem mem_trimChars (p : Char → Bool) (s : List Char) (c : Char)
    (h : c ∈ trimChars p s) : c ∈ s := by
  unfold trimChars at h
  rw [List.mem_reverse] at h
  have h1 := (List.dropWhile_sublist p).mem h
  rw [List.mem_reverse] at h1
  exact (List.dropWhile_sublist p).mem h1

theorem mem_replaceRuns (p : Char → Bool) (repl : Char) (inRun : Bool) (s : List Char)
    (c : Char) (h : c ∈ replaceRuns p repl inRun s) : c = repl ∨ c ∈ s := by
  induction s generalizing inRun with
  | nil => simp [replaceRuns] at h
  | cons x xs ih =>
    unfold replaceRuns at h
    split at h
    · split at h
      · rcases ih true h with h | h
        · exact Or.inl h
        · exact Or.inr (List.mem_cons_of_mem _ h)
      · rcases List.mem_cons.mp h with h | h
        · exact Or.inl h
        · rcases ih true h with h | h
          · exact Or.inl h
          · exact Or.inr (List.mem_cons_of_mem _ h)
    · rcases List.mem_cons.mp h with h | h
      · exact Or.inr (h ▸ List.mem_cons_self _ _)
      · rcases ih false h with h | h
        · exact Or.inl h
        · exact Or.inr (List.mem_cons_of_mem _ h)

/-- The part of C29 that holds: for every name the result of `sanitizeFilename`
is not empty and holds none of the characters `< > : " / \ | ? *`. -/
theorem sanitize_not_empty_no_forbidden (name : String) :
    sanitizeFilename name ≠ "" ∧
    ∀ c ∈ (sanitizeFilename name).data, isForbiddenInName c = false := by
  have hspace : isForbiddenInName ' ' = false := by decide
  have hunder : isForbiddenInName '_' = false := by decide
  have h2 : ∀ c ∈ (ReplaceAll name "/" " ").data.map
      (fun c => if isInvalidFilesystemChar c then ' ' else c), isForbiddenInName c = false := by
    intro c hc
    obtain ⟨x, hx, hxc⟩ := List.mem_map.mp hc
    have hslash : x ≠ '/' := replaceAllChars_slash 0 name.data x hx
    by_cases hi : isInvalidFilesystemChar x = true
    · rw [if_pos hi] at hxc
      rw [← hxc]
      exact hspace
    · rw [if_neg hi] at hxc
      rw [← hxc]
      simp only [isForbiddenInName, Bool.or_eq_false_iff, beq_eq_false_iff_ne, ne_eq]
      exact ⟨hslash, by simpa using hi⟩
  have h8 : ∀ c ∈ (Trim (String.mk (replaceRuns (fun c => c == '_') '_' false
      (String.mk (replaceRuns isRegexSpace ' ' false
        (Trim (TrimSpace (String.mk (((ReplaceAll name "/" " ").data.map
          (fun c => if isInvalidFilesystemChar c then ' ' else c)).filter keepsRune)))
          ". ").data)).data)) "_ ").data, isForbiddenInName c = false := by
    intro c hc
    have h7 := mem_trimChars _ _ c hc
    rcases mem_replaceRuns _ _ _ _ c h7 with h | h6
    · rw [h]
      exact hunder
    · rcases mem_replaceRuns _ _ _ _ c h6 with h | h5
      · rw [h]
        exact hspace
      · have h4 := mem_trimChars _ _ c h5
        have h3 := mem_trimChars _ _ c h4
        exact h2 c (List.mem_filter.mp h3).1
  unfold sanitizeFilename
  simp only []
  split
  · exact ⟨by decide, by decide⟩
  · rename_i hne
    exact ⟨hne, h8⟩

/-! ### Claims on sanitizeFilename -/

/-- C29 fails: `sanitizeFilename("_.abc")` is `.abc` and
`sanitizeFilename("abc._")` is `abc.`; the dots are covered by an underscore
when dots and spaces are trimmed, and the later trim of underscores uncovers
them. -/
theorem sanitize_leaves_a_dot :
    sanitizeFilename "_.abc" = ".abc" ∧ sanitizeFilename "abc._" = "abc." ∧
    (sanitizeFilename "_.abc").data.head? = some '.' ∧
    (sanitizeFilename "abc._").data.getLast? = some '.' := by
  refine ⟨by rfl, by rfl, by rfl, by rfl⟩

/-! ### Lemmas on templates made of texts and tags -/

theorem braceFree_iff (s : List Char) :
    braceFree s = true ↔ ∀ c ∈ s, c ≠ lbrace ∧ c ≠ rbrace := by
  simp [braceFree, List.all_eq_true]

theorem braceFree_append (a b : List Char) :
    braceFree (a ++ b) = (braceFree a && braceFree b) := by
  simp [braceFree, List.all_append]

theorem replaceMatches_none (m : List Char → Option (List Char × Nat)) (c : Char)
    (cs : List Char) (h : m (c :: cs) = none) :
    replaceMatches m 0 (c :: cs) = c :: replaceMatches m 0 cs := by
  rw [replaceMatches, h]

theorem replaceMatches_some (m : List Char → Option (List Char × Nat)) (c : Char)
    (cs repl : List Char) (len : Nat) (h : m (c :: cs) = some (repl, len)) :
    replaceMatches m 0 (c :: cs) = repl ++ replaceMatches m (len - 1) cs := by
  rw [replaceMatches, h]

theorem replaceMatches_skip (m : List Char → Option (List Char × Nat)) (xs rest : List Char) :
    replaceMatches m xs.length (xs ++ rest) = replaceMatches m 0 rest := by
  induction xs with
  | nil => rfl
  | cons x xs ih =>
    rw [List.length_cons, List.cons_append, replaceMatches]
    exact ih

/-- A text without left brace is copied by a scan that matches at left braces
only. -/
theorem replaceMatches_text (m : List Char → Option (List Char × Nat))
    (hother : ∀ c s, c ≠ lbrace → m (c :: s) = none) (s rest : List Char)
    (hs : ∀ c ∈ s, c ≠ lbrace) :
    replaceMatches m 0 (s ++ rest) = s ++ replaceMatches m 0 rest := by
  induction s with
  | nil => rfl
  | cons x xs ih =>
    have hx := hother x (xs ++ rest) (hs x (List.mem_cons_self _ _))
    rw [List.cons_append, replaceMatches_none m x _ hx,
      ih (fun c hc => hs c (List.mem_cons_of_mem _ hc)), List.cons_append]

/-- The scan of a regular expression that matches at a left brace only and, at a
tag, matches the whole tag or nothing whatever follows: it rewrites the tags
one by one. -/
theorem replaceMatches_tiles (m : List Char → Option (List Char × Nat))
    (f : List Char → Option (List Char))
    (hother : ∀ c s, c ≠ lbrace → m (c :: s) = none)
    (htag : ∀ body rest, braceFree body = true →
      m (lbrace :: body ++ rbrace :: rest) = (f body).map (fun r => (r, body.length + 2)))
    (tiles : List Tile) (hwf : ∀ t ∈ tiles, t.wellFormed = true) :
    replaceMatches m 0 (tilesText tiles) = tilesText (tiles.map (Tile.rewrite f)) := by
  induction tiles with
  | nil => rfl
  | cons t ts ih =>
    have hts := ih (fun t ht => hwf t (List.mem_cons_of_mem _ ht))
    have ht := hwf t (List.mem_cons_self _ _)
    cases t with
    | text s =>
      have hs : ∀ c ∈ s, c ≠ lbrace := fun c hc => ((braceFree_iff s).mp ht c hc).1
      show replaceMatches m 0 (s ++ tilesText ts) = s ++ tilesText (ts.map (Tile.rewrite f))
      rw [replaceMatches_text m hother s _ hs, hts]
    | tag body =>
      have hb : ∀ c ∈ body, c ≠ lbrace := fun c hc => ((braceFree_iff body).mp ht c hc).1
      have hm := htag body (tilesText ts) ht
      have hr : rbrace ≠ lbrace := by decide
      show replaceMatches m 0 ((lbrace :: body ++ [rbrace]) ++ tilesText ts)
        = (Tile.rewrite f (.tag body)).chars ++ tilesText (ts.map (Tile.rewrite f))
      have hshape : (lbrace :: body ++ [rbrace]) ++ tilesText ts
          = lbrace :: (body ++ rbrace :: tilesText ts) := by simp
      rw [hshape]
      have hm' : m (lbrace :: (body ++ rbrace :: tilesText ts))
          = (f body).map (fun r => (r, body.length + 2)) := by
        simpa using hm
      cases hf : f body with
      | none =>
        rw [hf] at hm'
        simp only [Option.map_none'] at hm'
        have hx := hother rbrace (tilesText ts) hr
        rw [replaceMatches_none m _ _ hm', replaceMatches_text m hother body _ hb,
          replaceMatches_none m _ _ hx, hts]
        simp [Tile.rewrite, hf, Tile.chars]
      | some r =>
        rw [hf] at hm'
        simp only [Option.map_some'] at hm'
        have hskip := replaceMatches_skip m (body ++ [rbrace]) (tilesText ts)
        simp only [List.length_append, List.length_singleton, List.append_assoc,
          List.singleton_append] at hskip
        rw [replaceMatches_some m _ _ _ _ hm',
          show body.length + 2 - 1 = body.length + 1 by omega, hskip, hts]
        simp [Tile.rewrite, hf, Tile.chars]

theorem Tile.rewrite_wellFormed (f : List Char → Option (List Char)) (t : Tile)
    (ht : t.wellFormed = true) (hf : ∀ body r, t = .tag body → f body = some r →
      braceFree r = true) : (t.rewrite f).wellFormed = true := by
  cases t with
  | text s => exact ht
  | tag body =>
    cases hfb : f body with
    | none => simpa [Tile.rewrite, hfb] using ht
    | some r => simpa [Tile.rewrite, hfb, Tile.wellFormed] using hf body r rfl hfb

theorem Tile.rewrite_rewrite (f g : List Char → Option (List Char)) (t : Tile) :
    (t.rewrite f).rewrite g = t.rewrite (firstOf f g) := by
  cases t with
  | text s => rfl
  | tag body =>
    cases hfb : f body with
    | none => simp [Tile.rewrite, firstOf, hfb]
    | some r => simp [Tile.rewrite, firstOf, hfb]


/-! ### The three scans of buildFilenameFromTemplate on a tag -/

theorem isPrefixOf_before_rbrace (lit v rest : List Char) (hlit : ∀ c ∈ lit, c ≠ rbrace) :
    lit.isPrefixOf (v ++ rbrace :: rest) = lit.isPrefixOf v := by
  induction lit generalizing v with
  | nil => simp
  | cons l ls ih =>
    have hl : l ≠ rbrace := hlit l (List.mem_cons_self _ _)
    have hls : ∀ c ∈ ls, c ≠ rbrace := fun c hc => hlit c (List.mem_cons_of_mem _ hc)
    cases v with
    | nil => simp [List.isPrefixOf, hl]
    | cons x xs =>
      show (l == x && ls.isPrefixOf (xs ++ rbrace :: rest)) = (l == x && ls.isPrefixOf xs)
      rw [ih xs hls]

theorem takeWhile_before_rbrace (P : Char → Bool) (hP : P rbrace = false) (v rest : List Char) :
    (v ++ rbrace :: rest).takeWhile P = v.takeWhile P := by
  induction v with
  | nil => simp [List.takeWhile, hP]
  | cons x xs ih =>
    by_cases hx : P x = true
    · simp [List.takeWhile, hx, ih]
    · simp [List.takeWhile, hx]

theorem head_after_takeWhile (P : Char → Bool) (v rest : List Char)
    (hv : ∀ c ∈ v, c ≠ rbrace) :
    ((v ++ rbrace :: rest).drop (v.takeWhile P).length).head? = some rbrace ↔
      v.all P = true := by
  induction v with
  | nil => simp
  | cons x xs ih =>
    have hx : x ≠ rbrace := hv x (List.mem_cons_self _ _)
    have hxs : ∀ c ∈ xs, c ≠ rbrace := fun c hc => hv c (List.mem_cons_of_mem _ hc)
    by_cases hp : P x = true
    · simp only [List.takeWhile, hp, List.length_cons, List.cons_append, List.drop_succ_cons,
        List.all_cons, Bool.true_and]
      exact ih hxs
    · simp [List.takeWhile, hp, hx]

theorem takeWhile_of_all (P : Char → Bool) (v : List Char) (h : v.all P = true) :
    v.takeWhile P = v := by
  induction v with
  | nil => rfl
  | cons x xs ih =>
    simp only [List.all_cons, Bool.and_eq_true] at h
    simp [List.takeWhile, h.1, ih h.2]

theorem isDigit_rbrace : Char.isDigit rbrace = false := by decide

/-- The part of a match that follows the name: the digits, or the pattern, up to
the right brace of the tag. -/
theorem capture_before_rbrace (P : Char → Bool) (hP : P rbrace = false) (v rest : List Char)
    (hv : ∀ c ∈ v, c ≠ rbrace) :
    (if (v ++ rbrace :: rest).takeWhile P ≠ [] ∧
        ((v ++ rbrace :: rest).drop ((v ++ rbrace :: rest).takeWhile P).length).head?
          = some rbrace
      then some ((v ++ rbrace :: rest).takeWhile P) else none)
      = if v ≠ [] ∧ v.all P = true then some v else none := by
  rw [takeWhile_before_rbrace P hP]
  by_cases ha : v.all P = true
  · have ht := takeWhile_of_all P v ha
    have hh := (head_after_takeWhile P v rest hv).mpr ha
    rw [ht] at hh ⊢
    by_cases hv0 : v = []
    · rw [if_neg (fun h => h.1 hv0), if_neg (fun h => h.1 hv0)]
    · rw [if_pos ⟨hv0, hh⟩, if_pos ⟨hv0, ha⟩]
  · have hh : ¬ ((v ++ rbrace :: rest).drop (v.takeWhile P).length).head? = some rbrace :=
      fun h => ha ((head_after_takeWhile P v rest hv).mp h)
    rw [if_neg (fun h => hh h.2), if_neg (fun h => ha h.2)]

theorem prefix_length_le (lit body : List Char) (h : lit.isPrefixOf body = true) :
    lit.length ≤ body.length :=
  (List.isPrefixOf_iff_prefix.mp h).length_le

/-- The regular expression of the numbered placeholders at a tag: the closed
form, whatever follows the tag. -/
theorem matchNumberPlaceholder_tag (body rest : List Char) (hb : braceFree body = true) :
    matchNumberPlaceholder (lbrace :: body ++ rbrace :: rest) = numberTag body := by
  have hbody : ∀ c ∈ body, c ≠ rbrace := fun c hc => ((braceFree_iff body).mp hb c hc).2
  have hdrop : ∀ n, ∀ c ∈ body.drop n, c ≠ rbrace :=
    fun n c hc => hbody c (List.mem_of_mem_drop hc)
  have ht : ∀ c ∈ "track:".data, c ≠ rbrace := by decide
  have hd : ∀ c ∈ "disc:".data, c ≠ rbrace := by decide
  have key : ∀ (lit : List Char) (name : String), lit.isPrefixOf body = true →
      (match (some (name, (body ++ rbrace :: rest).drop lit.length) :
          Option (String × List Char)) with
        | some (name, tail) =>
          if tail.takeWhile Char.isDigit ≠ [] ∧
              (tail.drop (tail.takeWhile Char.isDigit).length).head? = some rbrace
          then some (name, tail.takeWhile Char.isDigit) else none
        | none => none)
      = if body.drop lit.length ≠ [] ∧ (body.drop lit.length).all Char.isDigit = true
        then some (name, body.drop lit.length) else none := by
    intro lit name hp
    have hdr : (body ++ rbrace :: rest).drop lit.length
        = body.drop lit.length ++ rbrace :: rest :=
      List.drop_append_of_le_length (prefix_length_le lit body hp)
    simp only [hdr]
    have hc := capture_before_rbrace Char.isDigit isDigit_rbrace (body.drop lit.length) rest
      (hdrop lit.length)
    by_cases hcond : (body.drop lit.length ++ rbrace :: rest).takeWhile Char.isDigit ≠ [] ∧
        ((body.drop lit.length ++ rbrace :: rest).drop
          ((body.drop lit.length ++ rbrace :: rest).takeWhile Char.isDigit).length).head?
          = some rbrace
    · rw [if_pos hcond] at hc ⊢
      by_cases hc2 : body.drop lit.length ≠ [] ∧ (body.drop lit.length).all Char.isDigit = true
      · rw [if_pos hc2] at hc ⊢
        simp only [Option.some.injEq] at hc
        rw [hc]
      · rw [if_neg hc2] at hc
        exact absurd hc (by simp)
    · rw [if_neg hcond] at hc ⊢
      by_cases hc2 : body.drop lit.length ≠ [] ∧ (body.drop lit.length).all Char.isDigit = true
      · rw [if_pos hc2] at hc
        exact absurd hc (by simp)
      · rw [if_neg hc2]
  unfold matchNumberPlaceholder numberTag
  simp only [List.cons_append, if_true]
  rw [isPrefixOf_before_rbrace _ body rest ht, isPrefixOf_before_rbrace _ body rest hd]
  by_cases h1 : "track:".data.isPrefixOf body = true
  · simp only [h1, if_true]
    exact key "track:".data "track" h1
  · by_cases h2 : "disc:".data.isPrefixOf body = true
    · simp only [h1, h2, if_true, Bool.false_eq_true, if_false]
      exact key "disc:".data "disc" h2
    · simp only [h1, h2, Bool.false_eq_true, if_false]

/-- The regular expression of the date placeholders at a tag: the closed form,
whatever follows the tag. -/
theorem matchDatePlaceholder_tag (body rest : List Char) (hb : braceFree body = true) :
    matchDatePlaceholder (lbrace :: body ++ rbrace :: rest) = dateTag body := by
  have hbody : ∀ c ∈ body, c ≠ rbrace := fun c hc => ((braceFree_iff body).mp hb c hc).2
  have hd : ∀ c ∈ "date:".data, c ≠ rbrace := by decide
  have hP : (fun x : Char => decide (x ≠ lbrace ∧ x ≠ rbrace)) rbrace = false := by decide
  unfold matchDatePlaceholder dateTag
  simp only [List.cons_append, true_and]
  rw [isPrefixOf_before_rbrace _ body rest hd]
  by_cases h1 : "date:".data.isPrefixOf body = true
  · have hdr : (body ++ rbrace :: rest).drop 5 = body.drop 5 ++ rbrace :: rest :=
      List.drop_append_of_le_length (prefix_length_le "date:".data body h1)
    have hall : (body.drop 5).all (fun x : Char => decide (x ≠ lbrace ∧ x ≠ rbrace)) = true := by
      rw [List.all_eq_true]
      intro c hc
      have := (braceFree_iff body).mp hb c (List.mem_of_mem_drop hc)
      simpa using this
    have hc := capture_before_rbrace (fun x : Char => decide (x ≠ lbrace ∧ x ≠ rbrace)) hP
      (body.drop 5) rest (fun c hc => hbody c (List.mem_of_mem_drop hc))
    simp only [h1, if_true, hdr, true_and]
    rw [hc]
    by_cases hne : body.drop 5 = []
    · rw [if_neg (fun h => h.1 hne), if_neg (fun h => h hne)]
    · rw [if_pos ⟨hne, hall⟩, if_pos hne]
  · simp only [h1, Bool.false_eq_true, if_false, false_and]


/-! ### buildFilenameFromTemplate on a template made of texts and tags -/

theorem mem_map_rewrite_tag (f : List Char → Option (List Char)) (tiles : List Tile)
    (body : List Char) (h : Tile.tag body ∈ tiles.map (Tile.rewrite f)) :
    Tile.tag body ∈ tiles ∧ f body = none := by
  obtain ⟨t, ht, hrt⟩ := List.mem_map.mp h
  cases t with
  | text s => simp [Tile.rewrite] at hrt
  | tag b =>
    cases hfb : f b with
    | none =>
      simp only [Tile.rewrite, hfb, Tile.tag.injEq] at hrt
      rw [← hrt]
      exact ⟨ht, hfb⟩
    | some r => simp [Tile.rewrite, hfb] at hrt

theorem map_rewrite_wellFormed (f : List Char → Option (List Char)) (tiles : List Tile)
    (hwf : ∀ t ∈ tiles, t.wellFormed = true)
    (hf : ∀ body, Tile.tag body ∈ tiles → ∀ r, f body = some r → braceFree r = true) :
    ∀ t ∈ tiles.map (Tile.rewrite f), t.wellFormed = true := by
  intro t ht
  obtain ⟨t0, ht0, hrt⟩ := List.mem_map.mp ht
  rw [← hrt]
  exact Tile.rewrite_wellFormed f t0 (hwf t0 ht0)
    (fun body r hb hfb => hf body (hb ▸ ht0) r hfb)

theorem map_rewrite_congr (f g : List Char → Option (List Char)) (tiles : List Tile)
    (h : ∀ body, Tile.tag body ∈ tiles → f body = g body) :
    tiles.map (Tile.rewrite f) = tiles.map (Tile.rewrite g) := by
  apply List.map_congr_left
  intro t ht
  cases t with
  | text s => rfl
  | tag body => simp [Tile.rewrite, h body ht]

theorem map_rewrite_none (tiles : List Tile) :
    tiles.map (Tile.rewrite (fun _ => none)) = tiles := by
  conv_rhs => rw [← List.map_id tiles]
  apply List.map_congr_left
  intro t _
  cases t <;> rfl

theorem numberTag_length (body : List Char) (name : String) (digits : List Char)
    (h : numberTag body = some (name, digits)) :
    name.length + digits.length + 3 = body.length + 2 := by
  unfold numberTag at h
  split at h
  · rename_i hp
    have hl := prefix_length_le _ _ hp
    have h6 : "track:".data.length = 6 := rfl
    split at h
    · simp only [Option.some.injEq, Prod.mk.injEq] at h
      rw [← h.1, ← h.2, List.length_drop]
      have : "track".length = 5 := rfl
      omega
    · exact absurd h (by simp)
  · split at h
    · rename_i hp
      have hl := prefix_length_le _ _ hp
      have h5 : "disc:".data.length = 5 := rfl
      split at h
      · simp only [Option.some.injEq, Prod.mk.injEq] at h
        rw [← h.1, ← h.2, List.length_drop]
        have : "disc".length = 4 := rfl
        omega
      · exact absurd h (by simp)
    · exact absurd h (by simp)

theorem dateTag_length (body pattern : List Char) (h : dateTag body = some pattern) :
    pattern.length + 7 = body.length + 2 := by
  unfold dateTag at h
  split at h
  · rename_i hp
    have hl := prefix_length_le _ _ hp.1
    have h5 : "date:".data.length = 5 := rfl
    simp only [Option.some.injEq] at h
    rw [← h, List.length_drop]
    omega
  · exact absurd h (by simp)

/-- The scan of the numbered placeholders rewrites the tags one by one. -/
theorem replaceFormattedNumberPlaceholders_tiles (metadata : MetadataMap) (tiles : List Tile)
    (hwf : ∀ t ∈ tiles, t.wellFormed = true) :
    replaceFormattedNumberPlaceholders (String.mk (tilesText tiles)) metadata
      = String.mk (tilesText (tiles.map (Tile.rewrite (numberRewrite metadata)))) := by
  unfold replaceFormattedNumberPlaceholders
  congr 1
  apply replaceMatches_tiles _ _ _ _ tiles hwf
  · intro c s hc
    simp [matchNumberPlaceholder, hc]
  · intro body rest hb
    show (matchNumberPlaceholder (lbrace :: body ++ rbrace :: rest)).map _ = _
    rw [matchNumberPlaceholder_tag body rest hb]
    cases hn : numberTag body with
    | none => simp [numberRewrite, hn]
    | some p =>
      simp only [numberRewrite, hn, Option.map_some', Option.some.injEq, Prod.mk.injEq,
        true_and]
      exact numberTag_length body p.1 p.2 hn

/-- The scan of the date placeholders rewrites the tags one by one. -/
theorem replaceDateFormatPlaceholders_tiles {T : Type} (lib : TimeLib T)
    (metadata : MetadataMap) (tiles : List Tile) (hwf : ∀ t ∈ tiles, t.wellFormed = true) :
    replaceDateFormatPlaceholders lib (String.mk (tilesText tiles)) metadata
      = String.mk (tilesText (tiles.map (Tile.rewrite (dateRewrite lib metadata)))) := by
  unfold replaceDateFormatPlaceholders
  congr 1
  apply replaceMatches_tiles _ _ _ _ tiles hwf
  · intro c s hc
    simp [matchDatePlaceholder, hc]
  · intro body rest hb
    show (matchDatePlaceholder (lbrace :: body ++ rbrace :: rest)).map _ = _
    rw [matchDatePlaceholder_tag body rest hb]
    cases hn : dateTag body with
    | none => simp [dateRewrite, hn]
    | some p =>
      simp only [dateRewrite, hn, Option.map_some', Option.some.injEq, Prod.mk.injEq,
        true_and]
      exact dateTag_length body p hn

theorem replaceAllChars_eq_replaceMatches (old new : List Char) (k : Nat) (s : List Char) :
    replaceAllChars old new k s
      = replaceMatches (fun s => if old.isPrefixOf s then some (new, old.length) else none)
          k s := by
  induction s generalizing k with
  | nil => cases k <;> rfl
  | cons c cs ih =>
    cases k with
    | succ k =>
      rw [replaceAllChars, replaceMatches]
      exact ih k
    | zero =>
      rw [replaceAllChars, replaceMatches]
      by_cases hp : old.isPrefixOf (c :: cs) = true
      · simp only [hp, if_true]
        rw [ih]
      · simp only [hp, Bool.false_eq_true, if_false]
        rw [ih]

theorem key_isPrefixOf_tag (name body rest : List Char)
    (hname : ∀ c ∈ name, c ≠ rbrace) (hbody : ∀ c ∈ body, c ≠ rbrace) :
    (name ++ [rbrace]).isPrefixOf (body ++ rbrace :: rest) = decide (name = body) := by
  induction name generalizing body with
  | nil =>
    cases body with
    | nil => simp [List.isPrefixOf]
    | cons x xs =>
      have hx : x ≠ rbrace := hbody x (List.mem_cons_self _ _)
      simp [List.isPrefixOf, Ne.symm hx]
  | cons n ns ih =>
    have hn : n ≠ rbrace := hname n (List.mem_cons_self _ _)
    cases body with
    | nil => simp [List.isPrefixOf, hn]
    | cons x xs =>
      have h := ih xs (fun c hc => hname c (List.mem_cons_of_mem _ hc))
        (fun c hc => hbody c (List.mem_cons_of_mem _ hc))
      show (n == x && (ns ++ [rbrace]).isPrefixOf (xs ++ rbrace :: rest))
        = decide (n :: ns = x :: xs)
      rw [h]
      by_cases hnx : n = x
      · subst hnx
        simp
      · simp [hnx]

/-- One step of the loop over the placeholder table rewrites the tags that are
the key. -/
theorem ReplaceAll_tiles (key value : String) (name : List Char)
    (hkey : key.data = lbrace :: name ++ [rbrace]) (hname : braceFree name = true)
    (tiles : List Tile) (hwf : ∀ t ∈ tiles, t.wellFormed = true) :
    ReplaceAll (String.mk (tilesText tiles)) key value
      = String.mk (tilesText (tiles.map
          (Tile.rewrite (fun body => if body = name then some value.data else none)))) := by
  unfold ReplaceAll
  congr 1
  rw [replaceAllChars_eq_replaceMatches]
  apply replaceMatches_tiles _ _ _ _ tiles hwf
  · intro c s hc
    rw [hkey]
    have : (lbrace == c) = false := by simpa using Ne.symm hc
    simp [List.isPrefixOf, this]
  · intro body rest hb
    have hk := key_isPrefixOf_tag name body rest
      (fun c hc => ((braceFree_iff name).mp hname c hc).2)
      (fun c hc => ((braceFree_iff body).mp hb c hc).2)
    have hp : key.data.isPrefixOf (lbrace :: body ++ rbrace :: rest) = decide (name = body) := by
      rw [hkey]
      show (lbrace == lbrace && (name ++ [rbrace]).isPrefixOf (body ++ rbrace :: rest)) = _
      rw [hk]
      simp
    simp only [hp, decide_eq_true_eq]
    have hlen : key.data.length = body.length + 2 ∨ name ≠ body := by
      by_cases hnb : name = body
      · left
        rw [hkey, hnb]
        simp
      · exact Or.inr hnb
    by_cases hnb : name = body
    · rcases hlen with hl | hl
      · simp [hnb, hl]
      · exact absurd hnb hl
    · have hbn : ¬ body = name := fun h => hnb h.symm
      simp [hnb, hbn]


theorem lookup_mem_keys (table : List (String × String)) (key value : String)
    (h : table.lookup key = some value) : key ∈ table.map Prod.fst := by
  induction table with
  | nil => simp [List.lookup] at h
  | cons p ps ih =>
    obtain ⟨k, v⟩ := p
    by_cases hk : key = k
    · simp [hk]
    · have hb : (key == k) = false := by simpa using hk
      simp only [List.lookup, hb] at h
      exact List.mem_cons_of_mem _ (ih h)

theorem placeholderKeys_shape : ∀ key ∈ placeholderKeys,
    key.data = lbrace :: keyName key ++ [rbrace] ∧ braceFree (keyName key) = true := by
  decide

theorem placeholderTable_shape (metadata : MetadataMap) (key value : String)
    (h : (placeholderTable metadata).lookup key = some value) :
    key.data = lbrace :: keyName key ++ [rbrace] ∧ braceFree (keyName key) = true :=
  placeholderKeys_shape key (lookup_mem_keys _ key value h)

theorem tag_chars_injective (a b : List Char) (h : lbrace :: a ++ [rbrace] = lbrace :: b ++ [rbrace]) :
    a = b := by
  simp only [List.cons_append, List.cons.injEq, true_and] at h
  exact List.append_cancel_right h

/-- The loop over the placeholder table rewrites each tag by the first key
visited that is the tag, as long as the values written hold no brace. -/
theorem replacePlaceholdersLoop_tiles (metadata : MetadataMap) (order : List String)
    (tiles : List Tile) (hwf : ∀ t ∈ tiles, t.wellFormed = true)
    (hfree : ∀ body, Tile.tag body ∈ tiles → ∀ r,
      orderRewrite (placeholderTable metadata) order body = some r → braceFree r = true) :
    replacePlaceholdersLoop (placeholderTable metadata) (String.mk (tilesText tiles)) order
      = String.mk (tilesText (tiles.map
          (Tile.rewrite (orderRewrite (placeholderTable metadata) order)))) := by
  induction order generalizing tiles with
  | nil =>
    have : orderRewrite (placeholderTable metadata) [] = fun _ => none := by
      funext body
      rfl
    rw [this, map_rewrite_none]
    rfl
  | cons key ks ih =>
    cases hl : (placeholderTable metadata).lookup key with
    | none =>
      have hfun : orderRewrite (placeholderTable metadata) (key :: ks)
          = orderRewrite (placeholderTable metadata) ks := by
        funext body
        simp [orderRewrite, hl]
      rw [hfun] at hfree ⊢
      simp only [replacePlaceholdersLoop, hl]
      exact ih tiles hwf hfree
    | some value =>
      obtain ⟨hkey, hname⟩ := placeholderTable_shape metadata key value hl
      have hstep : ∀ body, orderRewrite (placeholderTable metadata) (key :: ks) body
          = firstOf (fun body => if body = keyName key then some value.data else none)
              (orderRewrite (placeholderTable metadata) ks) body := by
        intro body
        by_cases hb : body = keyName key
        · have : key.data = lbrace :: body ++ [rbrace] := by rw [hb]; exact hkey
          simp only [orderRewrite, hl, firstOf]
          rw [if_pos this, if_pos hb]
        · have : ¬ key.data = lbrace :: body ++ [rbrace] := by
            intro h
            rw [hkey] at h
            exact hb (tag_chars_injective _ _ h).symm
          simp only [orderRewrite, hl, firstOf]
          rw [if_neg this, if_neg hb]
      simp only [replacePlaceholdersLoop, hl]
      rw [ReplaceAll_tiles key value (keyName key) hkey hname tiles hwf]
      have hwf' := map_rewrite_wellFormed
        (fun body => if body = keyName key then some value.data else none) tiles hwf
        (fun body hb r hr => by
          have hr' : (if body = keyName key then some value.data else none) = some r := hr
          apply hfree body hb r
          rw [hstep body]
          simp only [firstOf]
          rw [hr'])
      rw [ih _ hwf' (fun body hb r hr => by
        obtain ⟨hb0, hnone⟩ := mem_map_rewrite_tag _ tiles body hb
        have hnone' : (if body = keyName key then some value.data else none) = none := hnone
        apply hfree body hb0 r
        rw [hstep body]
        simp only [firstOf]
        rw [hnone']
        exact hr)]
      rw [List.map_map]
      congr 2
      apply List.map_congr_left
      intro t _
      rw [Function.comp, Tile.rewrite_rewrite]
      cases t with
      | text s => rfl
      | tag body => simp only [Tile.rewrite, hstep body]

/-- On a template made of texts and tags, not empty, `buildFilenameFromTemplate`
writes each text as it is and each tag by `renderTag`, as long as what is
written for the tags holds no brace. -/
theorem buildFilenameFromTemplate_tiles {T : Type} (lib : TimeLib T) (order : List String)
    (metadata : MetadataMap) (tiles : List Tile) (hwf : ∀ t ∈ tiles, t.wellFormed = true)
    (hne : tilesText tiles ≠ [])
    (hfree : ∀ body, Tile.tag body ∈ tiles → ∀ r,
      renderTag lib order metadata body = some r → braceFree r = true) :
    buildFilenameFromTemplate lib order (String.mk (tilesText tiles)) metadata
      = String.mk (tilesText (tiles.map (Tile.rewrite (renderTag lib order metadata)))) := by
  have hne' : (String.mk (tilesText tiles)) ≠ "" := by
    intro h
    exact hne (congrArg String.data h)
  unfold buildFilenameFromTemplate
  simp only [hne', if_false]
  rw [replaceFormattedNumberPlaceholders_tiles metadata tiles hwf]
  have hwf1 := map_rewrite_wellFormed (numberRewrite metadata) tiles hwf
    (fun body hb r hr => hfree body hb r (by simp [renderTag, firstOf, hr]))
  rw [replaceDateFormatPlaceholders_tiles lib metadata _ hwf1]
  have hwf2 := map_rewrite_wellFormed (dateRewrite lib metadata) _ hwf1
    (fun body hb r hr => by
      obtain ⟨hb0, hnone⟩ := mem_map_rewrite_tag _ tiles body hb
      exact hfree body hb0 r (by simp [renderTag, firstOf, hnone, hr]))
  rw [replacePlaceholdersLoop_tiles metadata order _ hwf2 (fun body hb r hr => by
    obtain ⟨hb1, hnone1⟩ := mem_map_rewrite_tag _ _ body hb
    obtain ⟨hb0, hnone0⟩ := mem_map_rewrite_tag _ tiles body hb1
    exact hfree body hb0 r (by simp [renderTag, firstOf, hnone0, hnone1, hr]))]
  rw [List.map_map, List.map_map]
  congr 2
  apply List.map_congr_left
  intro t _
  simp only [Function.comp, Tile.rewrite_rewrite]
  cases t with
  | text s => rfl
  | tag body =>
    simp only [Tile.rewrite, renderTag, firstOf]
    cases numberRewrite metadata body <;> rfl

/-! ### Lemmas on the values of the placeholders -/

theorem toDigits_lt_ten (n : Nat) (h : n < 10) : Nat.toDigits 10 n = [Nat.digitChar n] := by
  unfold Nat.toDigits
  simp only [Nat.toDigitsCore]
  have h0 : n / 10 = 0 := by omega
  have h1 : n % 10 = n := by omega
  simp [h0, h1]

theorem toDigitsCore_ne_nil (fuel n : Nat) (h : 0 < fuel) :
    Nat.toDigitsCore 10 fuel n [] ≠ [] := by
  cases fuel with
  | zero => omega
  | succ fuel =>
    simp only [Nat.toDigitsCore]
    by_cases h0 : n / 10 = 0
    · simp [h0]
    · simp only [h0, if_false]
      rw [toDigitsCore_append]
      simp

theorem toDigits_ge_ten (n : Nat) (h : 10 ≤ n) : 2 ≤ (Nat.toDigits 10 n).length := by
  unfold Nat.toDigits
  simp only [Nat.toDigitsCore]
  have h0 : ¬ n / 10 = 0 := by omega
  simp only [h0, if_false]
  rw [toDigitsCore_append, List.length_append, List.length_singleton]
  have := toDigitsCore_ne_nil n (n / 10) (by omega)
  have : 0 < (Nat.toDigitsCore 10 n (n / 10) []).length := List.length_pos.mpr this
  omega

theorem Itoa_data (n : Int) (h : 0 ≤ n) : (Itoa n).data = Nat.toDigits 10 n.toNat := by
  have hnn : ¬ n < 0 := by omega
  simp [Itoa, hnn, Nat.repr, List.asString]

theorem Itoa_isDigit (n : Int) (h : 0 ≤ n) : ∀ c ∈ (Itoa n).data, c.isDigit = true := by
  rw [Itoa_data n h]
  exact toDigitsCore_isDigit _ _ [] (by simp)

theorem isDigit_not_brace (c : Char) (h : c.isDigit = true) : c ≠ lbrace ∧ c ≠ rbrace := by
  constructor <;> (intro hc; rw [hc] at h; exact absurd h (by decide))

theorem braceFree_of_digits (s : List Char) (h : ∀ c ∈ s, c.isDigit = true) :
    braceFree s = true :=
  (braceFree_iff s).mpr (fun c hc => isDigit_not_brace c (h c hc))

/-- The verb `%02d` writes a number above zero on two digits at least. -/
theorem sprintfZeroPadded_two (n : Int) (h : 0 < n) : sprintfZeroPadded 2 n = twoDigits n := by
  have hnn : ¬ n < 0 := by omega
  have hd : (Nat.repr n.toNat).data = Nat.toDigits 10 n.toNat := by
    simp [Nat.repr, List.asString]
  have hi : Itoa n = Nat.repr n.toNat := by simp [Itoa, hnn]
  unfold sprintfZeroPadded twoDigits
  rw [if_neg hnn, hi]
  by_cases h10 : n < 10
  · have hl : (Nat.repr n.toNat).length = 1 := by
      show (Nat.repr n.toNat).data.length = 1
      rw [hd, toDigits_lt_ten n.toNat (by omega)]
      rfl
    rw [if_pos h10, hl]
    rfl
  · have hl : 2 ≤ (Nat.repr n.toNat).length := by
      show 2 ≤ (Nat.repr n.toNat).data.length
      rw [hd]
      exact toDigits_ge_ten n.toNat (by omega)
    rw [if_neg h10, show 2 - (Nat.repr n.toNat).length = 0 by omega]
    apply String.ext
    simp

/-- The loop over the table writes, for a tag that is a key visited, the value
of that key. -/
theorem orderRewrite_of_mem (table : List (String × String)) (order : List String)
    (key value : String) (body : List Char) (hmem : key ∈ order)
    (hl : table.lookup key = some value) (hkey : key.data = lbrace :: body ++ [rbrace]) :
    orderRewrite table order body = some value.data := by
  induction order with
  | nil => simp at hmem
  | cons k ks ih =>
    by_cases hk : k = key
    · subst hk
      simp only [orderRewrite, hl]
      rw [if_pos hkey]
    · have hne : ¬ k.data = lbrace :: body ++ [rbrace] := by
        intro h
        exact hk (String.ext (h.trans hkey.symm))
      have hrest : key ∈ ks := by
        rcases List.mem_cons.mp hmem with h | h
        · exact absurd h.symm hk
        · exact h
      cases hlk : table.lookup k with
      | none =>
        simp only [orderRewrite, hlk]
        exact ih hrest
      | some v =>
        simp only [orderRewrite, hlk]
        rw [if_neg hne]
        exact ih hrest

theorem getInt_of_int (m : MetadataMap) (key : String) (n : Int)
    (h : m.lookup key = some (.int n)) : getInt m key = n := by
  have hloop : ∀ rest, getIntLoop m (key :: rest) = n := by
    intro rest
    simp only [getIntLoop, h]
  unfold getInt
  by_cases h1 : key = "track"
  · rw [if_pos h1]
    exact hloop _
  · rw [if_neg h1]
    by_cases h2 : key = "disc"
    · rw [if_pos h2]
      exact hloop _
    · rw [if_neg h2]
      exact hloop _


/-! ### Claim on the placeholders of the track and disc numbers -/

theorem placeholderKeys_mem_of_perm (order : List String) (hperm : order.Perm placeholderKeys)
    (key : String) (h : key ∈ placeholderKeys) : key ∈ order :=
  hperm.symm.subset h

/-- What `buildFilenameFromTemplate` writes for the four placeholders of the
track and disc numbers, whatever the order of the loop. -/
theorem renderTag_numbered {T : Type} (lib : TimeLib T) (order : List String)
    (metadata : MetadataMap) (hperm : order.Perm placeholderKeys) (body : List Char)
    (hbody : body ∈ numberedBodies) :
    renderTag lib order metadata body
      = numberedText (getInt metadata "track") (getInt metadata "disc") body := by
  have hmem := placeholderKeys_mem_of_perm order hperm
  have hfmt : ∀ n : Int, formatTrackNumber n = if n > 0 then twoDigits n else "" := by
    intro n
    unfold formatTrackNumber
    by_cases hn : n ≤ 0
    · rw [if_pos hn, if_neg (by omega)]
    · rw [if_neg hn, if_pos (by omega), sprintfZeroPadded_two n (by omega)]
  have hraw : ∀ n : Int, formatRawNumber n = if n > 0 then Itoa n else "" := by
    intro n
    unfold formatRawNumber
    by_cases hn : n ≤ 0
    · rw [if_pos hn, if_neg (by omega)]
    · rw [if_neg hn, if_pos (by omega)]
  have hdisc : ∀ n : Int, formatDiscNumber n = if n > 0 then Itoa n else "" := by
    intro n
    unfold formatDiscNumber
    by_cases hn : n ≤ 0
    · rw [if_pos hn, if_neg (by omega)]
    · rw [if_neg hn, if_pos (by omega)]
  simp only [numberedBodies, List.mem_cons, List.mem_singleton, List.not_mem_nil,
    or_false] at hbody
  rcases hbody with hb | hb | hb | hb
  · subst hb
    have h1 : numberRewrite metadata "track".data = none := rfl
    have h2 : dateRewrite lib metadata "track".data = none := rfl
    have h3 := orderRewrite_of_mem (placeholderTable metadata) order "\x7btrack\x7d"
      (formatTrackNumber (getInt metadata "track")) "track".data
      (hmem _ (by decide)) rfl rfl
    simp only [renderTag, firstOf, h1, h2, h3, hfmt]
    rfl
  · subst hb
    have h1 : numberRewrite metadata "track_raw".data = none := rfl
    have h2 : dateRewrite lib metadata "track_raw".data = none := rfl
    have h3 := orderRewrite_of_mem (placeholderTable metadata) order "\x7btrack_raw\x7d"
      (formatRawNumber (getInt metadata "track")) "track_raw".data
      (hmem _ (by decide)) rfl rfl
    simp only [renderTag, firstOf, h1, h2, h3, hraw]
    rfl
  · subst hb
    have h1 : numberRewrite metadata "disc".data = none := rfl
    have h2 : dateRewrite lib metadata "disc".data = none := rfl
    have h3 := orderRewrite_of_mem (placeholderTable metadata) order "\x7bdisc\x7d"
      (formatDiscNumber (getInt metadata "disc")) "disc".data
      (hmem _ (by decide)) rfl rfl
    simp only [renderTag, firstOf, h1, h2, h3, hdisc]
    rfl
  · subst hb
    have h1 : numberRewrite metadata "disc_raw".data = none := rfl
    have h2 : dateRewrite lib metadata "disc_raw".data = none := rfl
    have h3 := orderRewrite_of_mem (placeholderTable metadata) order "\x7bdisc_raw\x7d"
      (formatRawNumber (getInt metadata "disc")) "disc_raw".data
      (hmem _ (by decide)) rfl rfl
    simp only [renderTag, firstOf, h1, h2, h3, hraw]
    rfl

theorem numberedText_braceFree (n d : Int) (body r : List Char)
    (h : numberedText n d body = some r) : braceFree r = true := by
  have hdig : ∀ k : Int, braceFree (if k > 0 then Itoa k else "").data = true := by
    intro k
    by_cases hk : k > 0
    · rw [if_pos hk]
      exact braceFree_of_digits _ (Itoa_isDigit k (by omega))
    · rw [if_neg hk]
      rfl
  have htwo : braceFree (if n > 0 then twoDigits n else "").data = true := by
    by_cases hn : n > 0
    · rw [if_pos hn]
      unfold twoDigits
      by_cases h10 : n < 10
      · rw [if_pos h10]
        apply braceFree_of_digits
        intro c hc
        simp only [String.data_append, List.mem_append] at hc
        rcases hc with hc | hc
        · have : c = '0' := by simpa using hc
          rw [this]
          decide
        · exact Itoa_isDigit n (by omega) c hc
      · rw [if_neg h10]
        exact braceFree_of_digits _ (Itoa_isDigit n (by omega))
    · rw [if_neg hn]
      rfl
  unfold numberedText at h
  split at h
  · simp only [Option.some.injEq] at h
    rw [← h]
    exact htwo
  · split at h
    · simp only [Option.some.injEq] at h
      rw [← h]
      exact hdig n
    · split at h
      · simp only [Option.some.injEq] at h
        rw [← h]
        exact hdig d
      · exact absurd h (by simp)

/-- C24: for every metadata map, every order of the loop over the placeholder
table and every template made of texts without braces and of the placeholders
`{track}`, `{track_raw}`, `{disc}` and `{disc_raw}`, with `n` and `d` the track
and disc numbers that `getInt` reads (the integer stored under the key when
there is one), `buildFilenameFromTemplate` writes the texts as they are,
`{track}` as `n` on two digits at least, `{track_raw}` as the decimal `n`,
`{disc}` and `{disc_raw}` as the decimal `d`, and each of the four as the empty
text when its number is zero or below. -/
theorem numbered_placeholders {T : Type} (lib : TimeLib T) (order : List String)
    (metadata : MetadataMap) (tiles : List Tile) (hperm : order.Perm placeholderKeys)
    (hwf : ∀ t ∈ tiles, t.wellFormed = true) (hne : tilesText tiles ≠ [])
    (htags : ∀ t ∈ tiles, t.tagSatisfies (fun body => numberedBodies.contains body) = true) :
    buildFilenameFromTemplate lib order (String.mk (tilesText tiles)) metadata
      = String.mk (tilesText (tiles.map (Tile.rewrite
          (numberedText (getInt metadata "track") (getInt metadata "disc"))))) ∧
    (∀ n, metadata.lookup "track" = some (.int n) → getInt metadata "track" = n) ∧
    (∀ d, metadata.lookup "disc" = some (.int d) → getInt metadata "disc" = d) := by
  refine ⟨?_, fun n h => getInt_of_int metadata "track" n h,
    fun d h => getInt_of_int metadata "disc" d h⟩
  have hrender : ∀ body, Tile.tag body ∈ tiles → renderTag lib order metadata body
      = numberedText (getInt metadata "track") (getInt metadata "disc") body :=
    fun body hb => renderTag_numbered lib order metadata hperm body
      (by simpa [Tile.tagSatisfies] using htags _ hb)
  rw [buildFilenameFromTemplate_tiles lib order metadata tiles hwf hne
    (fun body hb r hr => numberedText_braceFree _ _ body r ((hrender body hb) ▸ hr)),
    map_rewrite_congr _ _ tiles hrender]

/-- C24 at the first test of `filename_test.go`: track 1 and disc 2 give `01`,
`1`, `2`, `2`. -/
theorem numbered_placeholders_witness :
    (placeholderKeys.reverse.Perm placeholderKeys ∧
      (∀ t ∈ rawTrackTiles, t.wellFormed = true) ∧ tilesText rawTrackTiles ≠ [] ∧
      (∀ t ∈ rawTrackTiles,
        t.tagSatisfies (fun body => numberedBodies.contains body) = true)) ∧
    (buildFilenameFromTemplate dateOnlyTime placeholderKeys.reverse
        (String.mk (tilesText rawTrackTiles)) rawTrackMetadata
      = String.mk (tilesText (rawTrackTiles.map (Tile.rewrite
          (numberedText (getInt rawTrackMetadata "track") (getInt rawTrackMetadata "disc"))))) ∧
      (∀ n, rawTrackMetadata.lookup "track" = some (.int n) →
        getInt rawTrackMetadata "track" = n) ∧
      (∀ d, rawTrackMetadata.lookup "disc" = some (.int d) →
        getInt rawTrackMetadata "disc" = d)) :=
  ⟨⟨by decide, by decide, by decide, by decide⟩,
   numbered_placeholders dateOnlyTime placeholderKeys.reverse rawTrackMetadata rawTrackTiles
     (by decide) (by decide) (by decide) (by decide)⟩

/-- The two tests of `filename_test.go` on these placeholders, in the order of
the source text and in the reverse order. -/
theorem numbered_placeholders_tests :
    (∀ order ∈ [placeholderKeys, placeholderKeys.reverse],
      buildFilenameFromTemplate dateOnlyTime order
          "\x7bartist\x7d - \x7btrack\x7d - \x7btrack_raw\x7d - d\x7bdisc\x7d - d\x7bdisc_raw\x7d - \x7btitle\x7d"
          rawTrackMetadata
        = "Artist Name - 01 - 1 - d2 - d2 - Song Name") ∧
    (∀ order ∈ [placeholderKeys, placeholderKeys.reverse],
      buildFilenameFromTemplate dateOnlyTime order
          "\x7btrack_raw\x7d-\x7bdisc_raw\x7d-\x7btitle\x7d"
          [("title", .str "Song Name"), ("artist", .str "Artist Name"), ("track", .int 0),
           ("disc", .int 0)]
        = "--Song Name") := by
  refine ⟨by decide, by decide⟩

/-! ### Lemmas on the inline placeholders -/

theorem isDigit_not_sign (c : Char) (h : c.isDigit = true) : c ≠ '-' ∧ c ≠ '+' := by
  constructor <;> (intro hc; rw [hc] at h; exact absurd h (by decide))

/-- `strconv.Atoi` on digits: the value when it fits a Go `int`. -/
theorem Atoi_digits (W : List Char) (hne : W ≠ []) (hd : W.all Char.isDigit = true) :
    Atoi (String.mk W)
      = if (decimalValue W : Int) ≤ maxInt64 then some (decimalValue W : Int) else none := by
  cases W with
  | nil => exact absurd rfl hne
  | cons c cs =>
    have hc : c.isDigit = true := by
      simp only [List.all_cons, Bool.and_eq_true] at hd
      exact hd.1
    obtain ⟨hm, hp⟩ := isDigit_not_sign c hc
    have hok : (!(c :: cs).isEmpty && (c :: cs).all Char.isDigit) = true := by
      rw [hd]
      rfl
    unfold Atoi
    simp only []
    split
    · rename_i ds heq
      simp only [List.cons.injEq] at heq
      exact absurd heq.1 hm
    · rename_i ds heq
      simp only [List.cons.injEq] at heq
      exact absurd heq.1 hp
    · by_cases hle : (decimalValue (c :: cs) : Int) ≤ maxInt64
      · rw [if_pos ⟨hok, hle⟩, if_pos hle]
      · rw [if_neg (fun h => hle h.2), if_neg hle]

theorem Itoa_length_pos (n : Int) (h : 0 ≤ n) : 1 ≤ (Itoa n).length := by
  show 1 ≤ (Itoa n).data.length
  rw [Itoa_data n h]
  exact List.length_pos.mpr (toDigits_ne_nil _)

/-- The function of the scan of the numbered placeholders, on a width numeral. -/
theorem formattedNumber_eq (metadata : MetadataMap) (name : String) (W : List Char)
    (hne : W ≠ []) (hd : W.all Char.isDigit = true) :
    formattedNumber metadata name W = inlineText (getInt metadata name) W := by
  unfold formattedNumber inlineText
  simp only [Atoi_digits W hne hd]
  generalize getInt metadata name = n
  generalize hw : decimalValue W = w
  by_cases hmax : (w : Int) ≤ maxInt64
  · rw [if_pos hmax]
    simp only []
    unfold formatNumberWithWidth
    by_cases hn : n ≤ 0
    · have c1 : n ≤ 0 ∨ (w : Int) ≤ 0 := Or.inl hn
      have c2 : n ≤ 0 ∨ w = 0 ∨ (w : Int) > maxInt64 := Or.inl hn
      rw [if_pos c1, if_pos c2]
    · by_cases hw0 : w = 0
      · have c1 : n ≤ 0 ∨ (w : Int) ≤ 0 := Or.inr (by omega)
        have c2 : n ≤ 0 ∨ w = 0 ∨ (w : Int) > maxInt64 := Or.inr (Or.inl hw0)
        rw [if_pos c1, if_pos c2]
      · have c1 : ¬ (n ≤ 0 ∨ (w : Int) ≤ 0) := by omega
        have c2 : ¬ (n ≤ 0 ∨ w = 0 ∨ (w : Int) > maxInt64) := by omega
        rw [if_neg c1, if_neg c2]
        by_cases hw1 : w = 1
        · have c3 : (w : Int) ≤ 1 := by omega
          have c4 : ¬ w > 1000000 := by omega
          rw [if_pos c3, if_neg c4]
          unfold formatRawNumber zeroPadded
          rw [if_neg hn]
          have := Itoa_length_pos n (by omega)
          rw [hw1, show 1 - (Itoa n).length = 0 by omega]
          apply String.ext
          simp
        · have c3 : ¬ (w : Int) ≤ 1 := by omega
          rw [if_neg c3]
          unfold sprintfZeroStar
          by_cases hbig : w > 1000000
          · have c4 : (w : Int) > 1000000 := by omega
            rw [if_pos c4, if_pos hbig]
          · have c4 : ¬ (w : Int) > 1000000 := by omega
            rw [if_neg c4, if_neg hbig]
            unfold sprintfZeroPadded zeroPadded
            have hnn : ¬ n < 0 := by omega
            have hi : Itoa n = Nat.repr n.toNat := by simp [Itoa, hnn]
            rw [if_neg hnn, hi]
            simp
  · rw [if_neg hmax]
    simp only []
    have c2 : n ≤ 0 ∨ w = 0 ∨ (w : Int) > maxInt64 := Or.inr (Or.inr (by omega))
    rw [if_pos c2]

theorem numberTag_digits (body : List Char) (name : String) (W : List Char)
    (h : numberTag body = some (name, W)) : W ≠ [] ∧ W.all Char.isDigit = true := by
  unfold numberTag at h
  split at h
  · split at h
    · rename_i hc
      simp only [Option.some.injEq, Prod.mk.injEq] at h
      rw [← h.2]
      exact hc
    · exact absurd h (by simp)
  · split at h
    · split at h
      · rename_i hc
        simp only [Option.some.injEq, Prod.mk.injEq] at h
        rw [← h.2]
        exact hc
      · exact absurd h (by simp)
    · exact absurd h (by simp)

theorem numberRewrite_eq (metadata : MetadataMap) (body : List Char) :
    numberRewrite metadata body = inlineTagText metadata body := by
  unfold numberRewrite inlineTagText
  cases hn : numberTag body with
  | none => rfl
  | some p =>
    obtain ⟨hne, hd⟩ := numberTag_digits body p.1 p.2 hn
    simp only [Option.map_some', formattedNumber_eq metadata p.1 p.2 hne hd]

theorem inlineText_braceFree (n : Int) (W : List Char) : braceFree (inlineText n W).data = true := by
  unfold inlineText
  split
  · rfl
  · rename_i hcond
    have hn : 0 ≤ n := by
      by_contra h
      exact hcond (Or.inl (by omega))
    have hdig := Itoa_isDigit n hn
    split
    · rw [String.data_append, braceFree_append, braceFree_of_digits _ hdig]
      rfl
    · unfold zeroPadded
      rw [String.data_append, braceFree_append, braceFree_of_digits _ hdig, Bool.and_true]
      apply braceFree_of_digits
      intro c hc
      have : c = '0' := (List.mem_replicate.mp hc).2
      rw [this]
      decide

theorem decimalValue_zeros (k : Nat) (ds : List Char) :
    decimalValue (List.replicate k '0' ++ ds) = decimalValue ds := by
  induction k with
  | zero => rfl
  | succ k ih =>
    have : decimalValue (List.replicate (k + 1) '0' ++ ds)
        = decimalValue (List.replicate k '0' ++ ds) := by
      simp only [decimalValue, List.replicate_succ, List.cons_append, List.foldl_cons]
      rfl
    rw [this, ih]

/-- A number above zero filled with zeros has the width, or its own length when
that is more, is made of digits, and writes the number. -/
theorem zeroPadded_facts (width : Nat) (n : Int) (h : 0 < n) :
    (zeroPadded width n).length = max width (Itoa n).length ∧
    (∀ c ∈ (zeroPadded width n).data, c.isDigit = true) ∧
    (decimalValue (zeroPadded width n).data : Int) = n := by
  have hdig := Itoa_isDigit n (by omega)
  have hdata : (zeroPadded width n).data
      = List.replicate (width - (Itoa n).length) '0' ++ (Itoa n).data := by
    simp [zeroPadded]
  refine ⟨?_, ?_, ?_⟩
  · show (zeroPadded width n).data.length = _
    rw [hdata, List.length_append, List.length_replicate]
    show _ + (Itoa n).length = _
    omega
  · intro c hc
    rw [hdata, List.mem_append] at hc
    rcases hc with hc | hc
    · rw [(List.mem_replicate.mp hc).2]
      decide
    · exact hdig c hc
  · rw [hdata, decimalValue_zeros, Itoa_data n (by omega)]
    have := decimalValue_toDigitsCore (n.toNat + 1) n.toNat (by omega)
    unfold Nat.toDigits
    rw [this]
    omega

/-! ### Claims on the inline placeholders -/

/-- C25 fails: for track 3 the placeholder `{track:1000001}` is replaced by
`%!(BADWIDTH)3`, not by 3 on 1000001 digits, and the placeholder
`{track:9223372036854775808}`, whose width does not fit a Go `int`, by the
empty text. -/
theorem inline_width_out_of_range :
    buildFilenameFromTemplate dateOnlyTime placeholderKeys "\x7btrack:1000001\x7d"
        inlineMetadata = "%!(BADWIDTH)3" ∧
    buildFilenameFromTemplate dateOnlyTime placeholderKeys
        "\x7btrack:9223372036854775808\x7d" inlineMetadata = "" ∧
    getInt inlineMetadata "track" = 3 := by
  refine ⟨by decide, by decide, by decide⟩

/-- C25, amended: for every metadata map, every order of the loop over the
placeholder table and every template made of texts without braces and of
inline placeholders `{track:W}` and `{disc:W}`, `W` being digits,
`buildFilenameFromTemplate` writes the texts as they are and each placeholder
as `inlineText` says: the number `n` that `getInt` reads, in decimal, filled
with zeros on the left up to the width when `n` is above zero and the width is
between 1 and one million; nothing when `n` is zero or below, when the width is
zero or when it does not fit a Go `int`; `%!(BADWIDTH)` and `n` for the
widths in between. -/
theorem inline_placeholders {T : Type} (lib : TimeLib T) (order : List String)
    (metadata : MetadataMap) (tiles : List Tile)
    (hwf : ∀ t ∈ tiles, t.wellFormed = true) (hne : tilesText tiles ≠ [])
    (htags : ∀ t ∈ tiles, t.tagSatisfies (fun body => (numberTag body).isSome) = true) :
    buildFilenameFromTemplate lib order (String.mk (tilesText tiles)) metadata
      = String.mk (tilesText (tiles.map (Tile.rewrite (inlineTagText metadata)))) := by
  have hrender : ∀ body, Tile.tag body ∈ tiles →
      renderTag lib order metadata body = inlineTagText metadata body := by
    intro body hb
    have hsome : (numberTag body).isSome = true := by
      simpa [Tile.tagSatisfies] using htags _ hb
    rw [← numberRewrite_eq]
    unfold renderTag firstOf
    cases hn : numberRewrite metadata body with
    | some r => rfl
    | none =>
      simp only [numberRewrite, Option.map_eq_none'] at hn
      rw [hn] at hsome
      exact absurd hsome (by simp)
  have hfree : ∀ body, Tile.tag body ∈ tiles → ∀ r,
      renderTag lib order metadata body = some r → braceFree r = true := by
    intro body hb r hr
    rw [hrender body hb] at hr
    unfold inlineTagText at hr
    simp only [Option.map_eq_some'] at hr
    obtain ⟨p, _, hp⟩ := hr
    rw [← hp]
    exact inlineText_braceFree _ _
  rw [buildFilenameFromTemplate_tiles lib order metadata tiles hwf hne hfree,
    map_rewrite_congr _ _ tiles hrender]

/-- C25, amended, at the third test of `filename_test.go`. -/
theorem inline_placeholders_witness :
    ((∀ t ∈ inlineTiles, t.wellFormed = true) ∧ tilesText inlineTiles ≠ [] ∧
      (∀ t ∈ inlineTiles, t.tagSatisfies (fun body => (numberTag body).isSome) = true)) ∧
    buildFilenameFromTemplate dateOnlyTime placeholderKeys
        (String.mk (tilesText inlineTiles)) inlineMetadata
      = String.mk (tilesText (inlineTiles.map (Tile.rewrite (inlineTagText inlineMetadata)))) :=
  ⟨⟨by decide, by decide, by decide⟩,
   inline_placeholders dateOnlyTime placeholderKeys inlineMetadata inlineTiles
     (by decide) (by decide) (by decide)⟩

/-- The third test of `filename_test.go`: track 3 and disc 2 give `3`, `03` and
`002`. -/
theorem inline_placeholders_test :
    buildFilenameFromTemplate dateOnlyTime placeholderKeys
        "\x7btrack:1\x7d-\x7btrack:02\x7d-\x7bdisc:03\x7d" inlineMetadata = "3-03-002" ∧
    String.mk (tilesText (inlineTiles.map (Tile.rewrite (inlineTagText inlineMetadata))))
      = "3-03-002" := by
  refine ⟨by decide, by decide⟩

/-! ### Lemmas on the date placeholders -/

theorem isDigit_not_space (c : Char) (h : c.isDigit = true) : IsSpace c = false := by
  simp only [Char.isDigit, Bool.and_eq_true, decide_eq_true_eq] at h
  have h1 : 48 ≤ c.toNat := h.1
  have h2 : c.toNat ≤ 57 := h.2
  simp only [IsSpace, decide_eq_false_iff_not]
  omega

theorem calendarDate_shape (s : String) (h : isCalendarDate s = true) :
    ∃ y1 y2 y3 y4 m1 m2 d1 d2, s.data = [y1, y2, y3, y4, '-', m1, m2, '-', d1, d2] ∧
      ∀ c ∈ [y1, y2, y3, y4, m1, m2, d1, d2], c.isDigit = true := by
  unfold isCalendarDate at h
  split at h
  · rename_i y1 y2 y3 y4 s1 m1 m2 s2 d1 d2 heq
    simp only [Bool.and_eq_true, beq_iff_eq, List.all_eq_true] at h
    obtain ⟨⟨⟨⟨⟨⟨hdig, hs1⟩, hs2⟩, _⟩, _⟩, _⟩, _⟩ := h
    exact ⟨y1, y2, y3, y4, m1, m2, d1, d2, by rw [heq, hs1, hs2], hdig⟩
  · exact absurd h (by simp)

theorem yearText_shape (s : String) (h : isYearText s = true) :
    ∃ y1 y2 y3 y4, s.data = [y1, y2, y3, y4] ∧ ∀ c ∈ [y1, y2, y3, y4], c.isDigit = true := by
  unfold isYearText at h
  simp only [Bool.and_eq_true, decide_eq_true_eq, List.all_eq_true] at h
  obtain ⟨hlen, hdig⟩ := h
  rcases hd : s.data with _ | ⟨y1, _ | ⟨y2, _ | ⟨y3, _ | ⟨y4, _ | ⟨y5, rest⟩⟩⟩⟩⟩
  all_goals rw [hd] at hlen
  all_goals try (simp at hlen; done)
  exact ⟨y1, y2, y3, y4, rfl, by rw [hd] at hdig; exact hdig⟩

theorem TrimSpace_calendarDate (s : String) (h : isCalendarDate s = true) : TrimSpace s = s := by
  obtain ⟨y1, y2, y3, y4, m1, m2, d1, d2, hs, hdig⟩ := calendarDate_shape s h
  have h1 := isDigit_not_space y1 (hdig y1 (by simp))
  have h2 := isDigit_not_space d2 (hdig d2 (by simp))
  apply String.ext
  simp [TrimSpace, trimChars, hs, List.dropWhile, h1, h2]

theorem TrimSpace_yearText (s : String) (h : isYearText s = true) : TrimSpace s = s := by
  obtain ⟨y1, y2, y3, y4, hs, hdig⟩ := yearText_shape s h
  have h1 := isDigit_not_space y1 (hdig y1 (by simp))
  have h2 := isDigit_not_space y4 (hdig y4 (by simp))
  apply String.ext
  simp [TrimSpace, trimChars, hs, List.dropWhile, h1, h2]

/-- The date that `parseMetadataDate` gives for a calendar date is the one that
the layout `2006-01-02` parses. -/
theorem parseMetadataDate_calendarDate {T : Type} (lib : TimeLib T) (hlib : lib.Sound)
    (s : String) (h : isCalendarDate s = true) :
    parseMetadataDate lib s = lib.Parse "2006-01-02" s ∧
    ∃ t, lib.Parse "2006-01-02" s = some t := by
  obtain ⟨t, ht, _⟩ := hlib.date_parses s h
  obtain ⟨r1, r2⟩ := hlib.rfc_rejects s (Or.inl h)
  have hne : s ≠ "" := by
    obtain ⟨y1, y2, y3, y4, m1, m2, d1, d2, hs, _⟩ := calendarDate_shape s h
    intro he
    rw [he] at hs
    exact absurd hs (by simp)
  refine ⟨?_, t, ht⟩
  unfold parseMetadataDate
  simp only [TrimSpace_calendarDate s h, hne, if_false, dateLayouts, parseLayoutsLoop, r1, r2, ht]

/-- The date that `parseMetadataDate` gives for a year alone is the one that the
layout `2006` parses. -/
theorem parseMetadataDate_yearText {T : Type} (lib : TimeLib T) (hlib : lib.Sound)
    (s : String) (h : isYearText s = true) :
    parseMetadataDate lib s = lib.Parse "2006" s ∧ ∃ t, lib.Parse "2006" s = some t := by
  obtain ⟨t, ht, _⟩ := hlib.year_parses s h
  obtain ⟨r1, r2⟩ := hlib.rfc_rejects s (Or.inr h)
  obtain ⟨r3, r4⟩ := hlib.year_rejected s h
  have hne : s ≠ "" := by
    obtain ⟨y1, y2, y3, y4, hs, _⟩ := yearText_shape s h
    intro he
    rw [he] at hs
    exact absurd hs (by simp)
  refine ⟨?_, t, ht⟩
  unfold parseMetadataDate
  simp only [TrimSpace_yearText s h, hne, if_false, dateLayouts, parseLayoutsLoop, r1, r2, r3,
    r4, ht]

theorem convertStrftime_directives :
    convertStrftimeToGoLayout "%Y" = "2006" ∧ convertStrftimeToGoLayout "%m" = "01" ∧
    convertStrftimeToGoLayout "%d" = "02" ∧
    convertStrftimeToGoLayout "%Y-%m-%d" = "2006-01-02" := by
  refine ⟨by decide, by decide, by decide, by decide⟩

/-- The four patterns of C26 on a calendar date. -/
theorem formatDateWithPattern_calendarDate {T : Type} (lib : TimeLib T) (hlib : lib.Sound)
    (s : String) (h : isCalendarDate s = true) :
    formatDateWithPattern lib s "%Y" = String.mk (s.data.take 4) ∧
    formatDateWithPattern lib s "%m" = String.mk ((s.data.drop 5).take 2) ∧
    formatDateWithPattern lib s "%d" = String.mk (s.data.drop 8) ∧
    formatDateWithPattern lib s "%Y-%m-%d" = s := by
  obtain ⟨t, ht, f1, f2, f3, f4⟩ := hlib.date_parses s h
  have hp := (parseMetadataDate_calendarDate lib hlib s h).1
  rw [ht] at hp
  have hne : s ≠ "" := by
    obtain ⟨y1, y2, y3, y4, m1, m2, d1, d2, hs, _⟩ := calendarDate_shape s h
    intro he
    rw [he] at hs
    exact absurd hs (by simp)
  obtain ⟨c1, c2, c3, c4⟩ := convertStrftime_directives
  have hcond : ∀ p : String, p ≠ "" → ¬ (s = "" ∨ p = "") := fun p hp h =>
    h.elim hne hp
  refine ⟨?_, ?_, ?_, ?_⟩
  · unfold formatDateWithPattern
    rw [if_neg (hcond _ (by decide))]
    simp only [hp, c1]
    rw [if_neg (by decide), f1]
  · unfold formatDateWithPattern
    rw [if_neg (hcond _ (by decide))]
    simp only [hp, c2]
    rw [if_neg (by decide), f2]
  · unfold formatDateWithPattern
    rw [if_neg (hcond _ (by decide))]
    simp only [hp, c3]
    rw [if_neg (by decide), f3]
  · unfold formatDateWithPattern
    rw [if_neg (hcond _ (by decide))]
    simp only [hp, c4]
    rw [if_neg (by decide), f4]

/-- The three directives of C26 on a year alone. -/
theorem formatDateWithPattern_yearText {T : Type} (lib : TimeLib T) (hlib : lib.Sound)
    (s : String) (h : isYearText s = true) :
    formatDateWithPattern lib s "%Y" = s ∧ formatDateWithPattern lib s "%m" = "01" ∧
    formatDateWithPattern lib s "%d" = "01" := by
  obtain ⟨t, ht, f1, f2, f3⟩ := hlib.year_parses s h
  have hp := (parseMetadataDate_yearText lib hlib s h).1
  rw [ht] at hp
  have hne : s ≠ "" := by
    obtain ⟨y1, y2, y3, y4, hs, _⟩ := yearText_shape s h
    intro he
    rw [he] at hs
    exact absurd hs (by simp)
  obtain ⟨c1, c2, c3, _⟩ := convertStrftime_directives
  have hcond : ∀ p : String, p ≠ "" → ¬ (s = "" ∨ p = "") := fun p hp h =>
    h.elim hne hp
  refine ⟨?_, ?_, ?_⟩
  · unfold formatDateWithPattern
    rw [if_neg (hcond _ (by decide))]
    simp only [hp, c1]
    rw [if_neg (by decide), f1]
  · unfold formatDateWithPattern
    rw [if_neg (hcond _ (by decide))]
    simp only [hp, c2]
    rw [if_neg (by decide), f2]
  · unfold formatDateWithPattern
    rw [if_neg (hcond _ (by decide))]
    simp only [hp, c3]
    rw [if_neg (by decide), f3]


theorem yearText_not_date (s : String) (h : isYearText s = true) :
    isCalendarDate s = false ∧ isYearMonth s = false := by
  obtain ⟨y1, y2, y3, y4, hs, _⟩ := yearText_shape s h
  constructor
  · simp [isCalendarDate, hs]
  · simp [isYearMonth, hs]

theorem calendarDate_not_year (s : String) (h : isCalendarDate s = true) :
    isYearText s = false := by
  obtain ⟨y1, y2, y3, y4, m1, m2, d1, d2, hs, _⟩ := calendarDate_shape s h
  simp [isYearText, hs]

/-- The library restricted to dates has the properties that the theorems use. -/
theorem dateOnlyTime_sound : dateOnlyTime.Sound where
  rfc_rejects := by
    intro s _
    exact ⟨by simp [dateOnlyTime], by simp [dateOnlyTime]⟩
  date_parses := by
    intro s h
    obtain ⟨y1, y2, y3, y4, m1, m2, d1, d2, hs, _⟩ := calendarDate_shape s h
    refine ⟨s, by simp [dateOnlyTime, h], ?_, ?_, ?_, ?_⟩
    · apply String.ext
      simp [dateOnlyTime, replaceMatches, List.isPrefixOf, hs]
    · apply String.ext
      simp [dateOnlyTime, replaceMatches, List.isPrefixOf, hs]
    · apply String.ext
      simp [dateOnlyTime, replaceMatches, List.isPrefixOf, hs]
    · apply String.ext
      simp [dateOnlyTime, replaceMatches, List.isPrefixOf, hs]
  year_rejected := by
    intro s h
    obtain ⟨h1, h2⟩ := yearText_not_date s h
    exact ⟨by simp [dateOnlyTime, h1], by simp [dateOnlyTime, h2]⟩
  year_parses := by
    intro s h
    obtain ⟨y1, y2, y3, y4, hs, _⟩ := yearText_shape s h
    refine ⟨s ++ "-01-01", by simp [dateOnlyTime, h], ?_, ?_, ?_⟩
    · apply String.ext
      simp [dateOnlyTime, replaceMatches, List.isPrefixOf, hs]
    · apply String.ext
      simp [dateOnlyTime, replaceMatches, List.isPrefixOf, hs]
    · apply String.ext
      simp [dateOnlyTime, replaceMatches, List.isPrefixOf, hs]

theorem calendarDate_braceFree (s : String) (h : isCalendarDate s = true) :
    braceFree s.data = true := by
  obtain ⟨y1, y2, y3, y4, m1, m2, d1, d2, hs, hdig⟩ := calendarDate_shape s h
  rw [hs, braceFree_iff]
  intro c hc
  simp only [List.mem_cons, List.mem_singleton, List.not_mem_nil, or_false] at hc
  have hdash : '-' ≠ lbrace ∧ '-' ≠ rbrace := by decide
  rcases hc with hc | hc | hc | hc | hc | hc | hc | hc | hc | hc
  all_goals first
    | (rw [hc]; exact hdash)
    | (exact isDigit_not_brace c (hdig c (by simp [hc])))

theorem braceFree_sublist (a b : List Char) (hab : a.Sublist b) (hb : braceFree b = true) :
    braceFree a = true :=
  (braceFree_iff a).mpr (fun c hc => (braceFree_iff b).mp hb c (hab.subset hc))

/-- What `buildFilenameFromTemplate` writes for the tags of C26 when the date
value is a calendar date. -/
theorem renderTag_calendarDate {T : Type} (lib : TimeLib T) (hlib : lib.Sound)
    (order : List String) (metadata : MetadataMap) (hperm : order.Perm placeholderKeys)
    (hdate : isCalendarDate (getDateValue metadata) = true)
    (body : List Char) (hbody : body ∈ dateBodies)
    (hyear : body = "year".data → getString metadata "year" = "") :
    renderTag lib order metadata body = calendarDateText (getDateValue metadata) body := by
  obtain ⟨f1, f2, f3, f4⟩ := formatDateWithPattern_calendarDate lib hlib _ hdate
  simp only [dateBodies, List.mem_cons, List.mem_singleton, List.not_mem_nil,
    or_false] at hbody
  rcases hbody with hb | hb | hb | hb | hb
  · subst hb
    have h1 : numberRewrite metadata "date:%Y".data = none := rfl
    have h2 : dateRewrite lib metadata "date:%Y".data
        = some (formatDateWithPattern lib (getDateValue metadata) "%Y").data := rfl
    simp only [renderTag, firstOf, h1, h2, f1]
    rfl
  · subst hb
    have h1 : numberRewrite metadata "date:%m".data = none := rfl
    have h2 : dateRewrite lib metadata "date:%m".data
        = some (formatDateWithPattern lib (getDateValue metadata) "%m").data := rfl
    simp only [renderTag, firstOf, h1, h2, f2]
    rfl
  · subst hb
    have h1 : numberRewrite metadata "date:%d".data = none := rfl
    have h2 : dateRewrite lib metadata "date:%d".data
        = some (formatDateWithPattern lib (getDateValue metadata) "%d").data := rfl
    simp only [renderTag, firstOf, h1, h2, f3]
    rfl
  · subst hb
    have h1 : numberRewrite metadata "date:%Y-%m-%d".data = none := rfl
    have h2 : dateRewrite lib metadata "date:%Y-%m-%d".data
        = some (formatDateWithPattern lib (getDateValue metadata) "%Y-%m-%d").data := rfl
    simp only [renderTag, firstOf, h1, h2, f4]
    rfl
  · subst hb
    have hy := hyear rfl
    have h1 : numberRewrite metadata "year".data = none := rfl
    have h2 : dateRewrite lib metadata "year".data = none := rfl
    have hlen : (getDateValue metadata).length ≥ 4 := by
      obtain ⟨y1, y2, y3, y4, m1, m2, d1, d2, hs, _⟩ := calendarDate_shape _ hdate
      show (getDateValue metadata).data.length ≥ 4
      rw [hs]
      simp
    have hval : (placeholderTable metadata).lookup "\x7byear\x7d"
        = some (String.mk ((getDateValue metadata).data.take 4)) := by
      have : (placeholderTable metadata).lookup "\x7byear\x7d"
          = some (if getString metadata "year" = "" then extractYear (getDateValue metadata)
              else getString metadata "year") := rfl
      rw [this, if_pos hy, extractYear, if_pos hlen]
    have h3 := orderRewrite_of_mem (placeholderTable metadata) order "\x7byear\x7d" _
      "year".data (hperm.symm.subset (by decide)) hval rfl
    simp only [renderTag, firstOf, h1, h2, h3]
    rfl

/-- What `buildFilenameFromTemplate` writes for the three directives when the
date value is a year alone. -/
theorem renderTag_yearText {T : Type} (lib : TimeLib T) (hlib : lib.Sound)
    (order : List String) (metadata : MetadataMap)
    (hdate : isYearText (getDateValue metadata) = true)
    (body : List Char) (hbody : body ∈ directiveBodies) :
    renderTag lib order metadata body = yearOnlyText (getDateValue metadata) body := by
  obtain ⟨f1, f2, f3⟩ := formatDateWithPattern_yearText lib hlib _ hdate
  simp only [directiveBodies, List.mem_cons, List.mem_singleton, List.not_mem_nil,
    or_false] at hbody
  rcases hbody with hb | hb | hb
  · subst hb
    have h1 : numberRewrite metadata "date:%Y".data = none := rfl
    have h2 : dateRewrite lib metadata "date:%Y".data
        = some (formatDateWithPattern lib (getDateValue metadata) "%Y").data := rfl
    simp only [renderTag, firstOf, h1, h2, f1]
    rfl
  · subst hb
    have h1 : numberRewrite metadata "date:%m".data = none := rfl
    have h2 : dateRewrite lib metadata "date:%m".data
        = some (formatDateWithPattern lib (getDateValue metadata) "%m").data := rfl
    simp only [renderTag, firstOf, h1, h2, f2]
    rfl
  · subst hb
    have h1 : numberRewrite metadata "date:%d".data = none := rfl
    have h2 : dateRewrite lib metadata "date:%d".data
        = some (formatDateWithPattern lib (getDateValue metadata) "%d").data := rfl
    simp only [renderTag, firstOf, h1, h2, f3]
    rfl

theorem calendarDateText_braceFree (s : String) (h : isCalendarDate s = true)
    (body r : List Char) (hr : calendarDateText s body = some r) : braceFree r = true := by
  have hs := calendarDate_braceFree s h
  unfold calendarDateText at hr
  split at hr
  · simp only [Option.some.injEq] at hr
    rw [← hr]
    exact braceFree_sublist _ _ (List.take_sublist _ _) hs
  · split at hr
    · simp only [Option.some.injEq] at hr
      rw [← hr]
      exact braceFree_sublist _ _ ((List.take_sublist _ _).trans (List.drop_sublist _ _)) hs
    · split at hr
      · simp only [Option.some.injEq] at hr
        rw [← hr]
        exact braceFree_sublist _ _ (List.drop_sublist _ _) hs
      · split at hr
        · simp only [Option.some.injEq] at hr
          rw [← hr]
          exact hs
        · exact absurd hr (by simp)

theorem yearOnlyText_braceFree (s : String) (h : isYearText s = true)
    (body r : List Char) (hr : yearOnlyText s body = some r) : braceFree r = true := by
  obtain ⟨y1, y2, y3, y4, hs, hdig⟩ := yearText_shape s h
  unfold yearOnlyText at hr
  split at hr
  · simp only [Option.some.injEq] at hr
    rw [← hr, hs]
    exact braceFree_of_digits _ hdig
  · split at hr
    · simp only [Option.some.injEq] at hr
      rw [← hr]
      rfl
    · exact absurd hr (by simp)


/-! ### Claim on the date placeholders -/

/-- C26: for a library `time` with the properties of `TimeLib.Sound`, every
metadata map and every order of the loop over the placeholder table: when the
date value (key `date`, else `release_date`, else `year`) is a calendar date
written `YYYY-MM-DD`, in a template made of texts without braces and of the
tags `{date:%Y}`, `{date:%m}`, `{date:%d}`, `{date:%Y-%m-%d}` and `{year}`
(the last one when no year is given), `buildFilenameFromTemplate` writes the
four characters of the year, the two of the month, the two of the day, the date
itself, and its first four characters; when the date value is only a year
`YYYY`, `{date:%Y}` is written as that year and `{date:%m}` and `{date:%d}` as
`01`. -/
theorem date_placeholders {T : Type} (lib : TimeLib T) (hlib : lib.Sound)
    (order : List String) (metadata : MetadataMap) (tiles : List Tile)
    (hperm : order.Perm placeholderKeys) (hwf : ∀ t ∈ tiles, t.wellFormed = true)
    (hne : tilesText tiles ≠ []) :
    (isCalendarDate (getDateValue metadata) = true →
      (∀ t ∈ tiles, t.tagSatisfies (fun body => dateBodies.contains body) = true) →
      (Tile.tag "year".data ∈ tiles → getString metadata "year" = "") →
      buildFilenameFromTemplate lib order (String.mk (tilesText tiles)) metadata
        = String.mk (tilesText (tiles.map
            (Tile.rewrite (calendarDateText (getDateValue metadata)))))) ∧
    (isYearText (getDateValue metadata) = true →
      (∀ t ∈ tiles, t.tagSatisfies (fun body => directiveBodies.contains body) = true) →
      buildFilenameFromTemplate lib order (String.mk (tilesText tiles)) metadata
        = String.mk (tilesText (tiles.map
            (Tile.rewrite (yearOnlyText (getDateValue metadata)))))) := by
  constructor
  · intro hdate htags hyear
    have hrender : ∀ body, Tile.tag body ∈ tiles → renderTag lib order metadata body
        = calendarDateText (getDateValue metadata) body :=
      fun body hb => renderTag_calendarDate lib hlib order metadata hperm hdate body
        (by simpa [Tile.tagSatisfies] using htags _ hb) (fun hy => hyear (hy ▸ hb))
    rw [buildFilenameFromTemplate_tiles lib order metadata tiles hwf hne
      (fun body hb r hr => calendarDateText_braceFree _ hdate body r ((hrender body hb) ▸ hr)),
      map_rewrite_congr _ _ tiles hrender]
  · intro hdate htags
    have hrender : ∀ body, Tile.tag body ∈ tiles → renderTag lib order metadata body
        = yearOnlyText (getDateValue metadata) body :=
      fun body hb => renderTag_yearText lib hlib order metadata hdate body
        (by simpa [Tile.tagSatisfies] using htags _ hb)
    rw [buildFilenameFromTemplate_tiles lib order metadata tiles hwf hne
      (fun body hb r hr => yearOnlyText_braceFree _ hdate body r ((hrender body hb) ▸ hr)),
      map_rewrite_congr _ _ tiles hrender]

/-- C26 at the release date `2024-03-09` of the fourth test of
`filename_test.go`, with the template `{date:%Y-%m-%d} - {year}`. -/
theorem date_placeholders_witness :
    (dateOnlyTime.Sound ∧ placeholderKeys.reverse.Perm placeholderKeys ∧
      (∀ t ∈ fullDateTiles, t.wellFormed = true) ∧ tilesText fullDateTiles ≠ []) ∧
    ((isCalendarDate (getDateValue releaseDateMetadata) = true →
        (∀ t ∈ fullDateTiles, t.tagSatisfies (fun body => dateBodies.contains body) = true) →
        (Tile.tag "year".data ∈ fullDateTiles → getString releaseDateMetadata "year" = "") →
        buildFilenameFromTemplate dateOnlyTime placeholderKeys.reverse
            (String.mk (tilesText fullDateTiles)) releaseDateMetadata
          = String.mk (tilesText (fullDateTiles.map
              (Tile.rewrite (calendarDateText (getDateValue releaseDateMetadata)))))) ∧
      (isYearText (getDateValue releaseDateMetadata) = true →
        (∀ t ∈ fullDateTiles,
          t.tagSatisfies (fun body => directiveBodies.contains body) = true) →
        buildFilenameFromTemplate dateOnlyTime placeholderKeys.reverse
            (String.mk (tilesText fullDateTiles)) releaseDateMetadata
          = String.mk (tilesText (fullDateTiles.map
              (Tile.rewrite (yearOnlyText (getDateValue releaseDateMetadata))))))) :=
  ⟨⟨dateOnlyTime_sound, by decide, by decide, by decide⟩,
   date_placeholders dateOnlyTime dateOnlyTime_sound placeholderKeys.reverse
     releaseDateMetadata fullDateTiles (by decide) (by decide) (by decide)⟩

/-- The two tests of `filename_test.go` on the date placeholders, and the sample
templates: the release date `2024-03-09` is a calendar date and is written as
`2024-03-09 - 2024`; the date `2019` is a year alone and is written as
`2019-01-01`. -/
theorem date_placeholders_tests :
    buildFilenameFromTemplate dateOnlyTime placeholderKeys
        "\x7bartist\x7d - \x7btrack:02\x7d - \x7btitle\x7d - \x7bdate:%Y-%m-%d\x7d - \x7byear\x7d"
        releaseDateMetadata
      = "Artist Name - 07 - Song Name - 2024-03-09 - 2024" ∧
    buildFilenameFromTemplate dateOnlyTime placeholderKeys
        "\x7bdate:%Y\x7d-\x7bdate:%m\x7d-\x7bdate:%d\x7d" yearOnlyMetadata
      = "2019-01-01" ∧
    isCalendarDate (getDateValue releaseDateMetadata) = true ∧
    getString releaseDateMetadata "year" = "" ∧
    String.mk (tilesText (fullDateTiles.map
        (Tile.rewrite (calendarDateText (getDateValue releaseDateMetadata)))))
      = "2024-03-09 - 2024" ∧
    isYearText (getDateValue yearOnlyMetadata) = true ∧
    buildFilenameFromTemplate dateOnlyTime placeholderKeys
        (String.mk (tilesText directiveTiles)) yearOnlyMetadata
      = String.mk (tilesText (directiveTiles.map
          (Tile.rewrite (yearOnlyText (getDateValue yearOnlyMetadata))))) := by
  refine ⟨by decide, by decide, by decide, by decide, by decide, by decide, by decide⟩

/-! ### Claims on the order of the loop over the placeholder table -/

theorem orderRewrite_none (table : List (String × String)) (order : List String)
    (body : List Char) (h : ∀ key ∈ order, key.data ≠ lbrace :: body ++ [rbrace]) :
    orderRewrite table order body = none := by
  induction order with
  | nil => rfl
  | cons k ks ih =>
    have hk := h k (List.mem_cons_self _ _)
    have hks := ih (fun key hkey => h key (List.mem_cons_of_mem _ hkey))
    cases hl : table.lookup k with
    | none => simp only [orderRewrite, hl, hks]
    | some v =>
      simp only [orderRewrite, hl]
      rw [if_neg hk, hks]

theorem placeholderTable_lookup (metadata : MetadataMap) :
    ∀ key ∈ placeholderKeys, ((placeholderTable metadata).lookup key).isSome = true := by
  intro key hkey
  simp only [placeholderKeys, List.mem_cons, List.mem_singleton, List.not_mem_nil,
    or_false] at hkey
  rcases hkey with h | h | h | h | h | h | h | h | h <;> (subst h; rfl)

/-- What the loop over the table writes for a tag does not depend on the order
in which the nine keys are visited. -/
theorem orderRewrite_perm (metadata : MetadataMap) (order : List String)
    (hperm : order.Perm placeholderKeys) (body : List Char) :
    orderRewrite (placeholderTable metadata) order body
      = orderRewrite (placeholderTable metadata) placeholderKeys body := by
  by_cases hex : ∃ key ∈ placeholderKeys, key.data = lbrace :: body ++ [rbrace]
  · obtain ⟨key, hkey, hdata⟩ := hex
    have hsome := placeholderTable_lookup metadata key hkey
    obtain ⟨value, hvalue⟩ := Option.isSome_iff_exists.mp hsome
    rw [orderRewrite_of_mem _ order key value body (hperm.symm.subset hkey) hvalue hdata,
      orderRewrite_of_mem _ placeholderKeys key value body hkey hvalue hdata]
  · have hnone : ∀ key ∈ placeholderKeys, key.data ≠ lbrace :: body ++ [rbrace] :=
      fun key hkey hdata => hex ⟨key, hkey, hdata⟩
    rw [orderRewrite_none _ order body (fun key hkey => hnone key (hperm.subset hkey)),
      orderRewrite_none _ placeholderKeys body hnone]

/-- On a template made of texts and tags, when what is written for the tags
holds no brace, the result of `buildFilenameFromTemplate` is the same for every
order in which the nine keys are visited. -/
theorem same_result_without_braces {T : Type} (lib : TimeLib T) (order₁ order₂ : List String)
    (metadata : MetadataMap) (tiles : List Tile)
    (hperm₁ : order₁.Perm placeholderKeys) (hperm₂ : order₂.Perm placeholderKeys)
    (hwf : ∀ t ∈ tiles, t.wellFormed = true) (hne : tilesText tiles ≠ [])
    (hfree : ∀ body, Tile.tag body ∈ tiles → ∀ r,
      renderTag lib order₁ metadata body = some r → braceFree r = true) :
    buildFilenameFromTemplate lib order₁ (String.mk (tilesText tiles)) metadata
      = buildFilenameFromTemplate lib order₂ (String.mk (tilesText tiles)) metadata := by
  have hrender : ∀ body, renderTag lib order₁ metadata body
      = renderTag lib order₂ metadata body := by
    intro body
    simp only [renderTag, firstOf, orderRewrite_perm metadata order₁ hperm₁ body,
      orderRewrite_perm metadata order₂ hperm₂ body]
  rw [buildFilenameFromTemplate_tiles lib order₁ metadata tiles hwf hne hfree,
    buildFilenameFromTemplate_tiles lib order₂ metadata tiles hwf hne
      (fun body hb r hr => hfree body hb r (by rw [hrender body]; exact hr))]
  congr 2
  exact map_rewrite_congr _ _ tiles (fun body _ => hrender body)

/-- C30 fails: with the template `{title}`, the title `{artist}` and the artist
`X`, the result is `X` when the loop visits the key `{title}` before the key
`{artist}` and `{artist}` when it visits them the other way round; both orders
are permutations of the nine keys. -/
theorem substitution_order_changes_result :
    placeholderKeys.Perm placeholderKeys ∧ placeholderKeys.reverse.Perm placeholderKeys ∧
    buildFilenameFromTemplate dateOnlyTime placeholderKeys "\x7btitle\x7d" nestedMetadata
      = "X" ∧
    buildFilenameFromTemplate dateOnlyTime placeholderKeys.reverse "\x7btitle\x7d"
        nestedMetadata
      = "\x7bartist\x7d" := by
  refine ⟨by decide, by decide, by decide, by decide⟩

/-! ### Lemmas on the fast Fourier transform -/

theorem fftRecursive_short {K : Type} [Zero K] [Add K] [Sub K] [Mul K]
    (twiddle : Nat → Nat → K) (x : List K) (h : x.length ≤ 1) :
    fftRecursive twiddle x = x := by
  rw [fftRecursive, if_pos h]

theorem fftRecursive_long {K : Type} [Zero K] [Add K] [Sub K] [Mul K]
    (twiddle : Nat → Nat → K) (x : List K) (h : ¬ x.length ≤ 1) :
    fftRecursive twiddle x
      = (List.range (x.length / 2)).map (fun k =>
          (fftRecursive twiddle
            ((List.range (x.length / 2)).map (fun i => x.getD (2 * i) 0))).getD k 0
          + twiddle k x.length *
            (fftRecursive twiddle
              ((List.range (x.length / 2)).map (fun i => x.getD (2 * i + 1) 0))).getD k 0) ++
        (List.range (x.length / 2)).map (fun k =>
          (fftRecursive twiddle
            ((List.range (x.length / 2)).map (fun i => x.getD (2 * i) 0))).getD k 0
          - twiddle k x.length *
            (fftRecursive twiddle
              ((List.range (x.length / 2)).map (fun i => x.getD (2 * i + 1) 0))).getD k 0) ++
        List.replicate (x.length - 2 * (x.length / 2)) 0 := by
  rw [fftRecursive, if_neg h]

/-- The recursion ends for every input, with a result of the length of the
input. -/
theorem fftRecursive_length {K : Type} [Zero K] [Add K] [Sub K] [Mul K]
    (twiddle : Nat → Nat → K) (x : List K) : (fftRecursive twiddle x).length = x.length := by
  by_cases h : x.length ≤ 1
  · rw [fftRecursive_short twiddle x h]
  · rw [fftRecursive_long twiddle x h]
    simp only [List.length_append, List.length_map, List.length_range, List.length_replicate]
    omega


theorem getD_map_range {K : Type} (f : Nat → K) (h k : Nat) (d : K) (hk : k < h) :
    ((List.range h).map f).getD k d = f k := by
  rw [List.getD_eq_getElem?_getD, List.getElem?_map, List.getElem?_range hk]
  rfl

/-- The first half of the result: `result[k] = evenFFT[k] + t`. -/
theorem fftRecursive_getD_low {K : Type} [Zero K] [Add K] [Sub K] [Mul K]
    (twiddle : Nat → Nat → K) (x : List K) (h : ¬ x.length ≤ 1) (k : Nat)
    (hk : k < x.length / 2) :
    (fftRecursive twiddle x).getD k 0
      = (fftRecursive twiddle
          ((List.range (x.length / 2)).map (fun i => x.getD (2 * i) 0))).getD k 0
        + twiddle k x.length *
          (fftRecursive twiddle
            ((List.range (x.length / 2)).map (fun i => x.getD (2 * i + 1) 0))).getD k 0 := by
  rw [fftRecursive_long twiddle x h, List.append_assoc, List.getD_append _ _ _ _
    (by simpa using hk)]
  exact getD_map_range _ _ k 0 hk

/-- The second half of the result: `result[k+n/2] = evenFFT[k] - t`. -/
theorem fftRecursive_getD_high {K : Type} [Zero K] [Add K] [Sub K] [Mul K]
    (twiddle : Nat → Nat → K) (x : List K) (h : ¬ x.length ≤ 1) (k : Nat)
    (hk : k < x.length / 2) :
    (fftRecursive twiddle x).getD (k + x.length / 2) 0
      = (fftRecursive twiddle
          ((List.range (x.length / 2)).map (fun i => x.getD (2 * i) 0))).getD k 0
        - twiddle k x.length *
          (fftRecursive twiddle
            ((List.range (x.length / 2)).map (fun i => x.getD (2 * i + 1) 0))).getD k 0 := by
  rw [fftRecursive_long twiddle x h, List.append_assoc, List.getD_append_right _ _ _ _
    (by simp), List.getD_append _ _ _ _ (by simpa using hk)]
  simp only [List.length_map, List.length_range, Nat.add_sub_cancel]
  exact getD_map_range _ _ k 0 hk

theorem sum_range_even_odd {K : Type} [AddCommMonoid K] (f : Nat → K) (h : Nat) :
    ∑ i in Finset.range (2 * h), f i
      = ∑ j in Finset.range h, f (2 * j) + ∑ j in Finset.range h, f (2 * j + 1) := by
  induction h with
  | zero => simp
  | succ h ih =>
    rw [show 2 * (h + 1) = 2 * h + 1 + 1 by ring, Finset.sum_range_succ, Finset.sum_range_succ,
      ih, Finset.sum_range_succ, Finset.sum_range_succ]
    abel

/-- The discrete Fourier transform of a sequence of even length, at an index of
the first half and at the matching index of the second half, by the transforms
of its entries of even index and of its entries of odd index. -/
theorem dftEntry_split {K : Type} [CommRing K] (w : Nat → Nat → K) (hw : TwiddleLaws w)
    (x : List K) (h : Nat) (hh : 0 < h) (hlen : x.length = 2 * h) (m : Nat) :
    dftEntry w x m
      = dftEntry w ((List.range h).map (fun i => x.getD (2 * i) 0)) m
        + w (2 * h) m * dftEntry w ((List.range h).map (fun i => x.getD (2 * i + 1) 0)) m ∧
    dftEntry w x (m + h)
      = dftEntry w ((List.range h).map (fun i => x.getD (2 * i) 0)) m
        - w (2 * h) m * dftEntry w ((List.range h).map (fun i => x.getD (2 * i + 1) 0)) m := by
  have hsub : ∀ (f : Nat → K) (m' : Nat), dftEntry w ((List.range h).map f) m'
      = ∑ j in Finset.range h, f j * w h (j * m') := by
    intro f m'
    unfold dftEntry
    simp only [List.length_map, List.length_range]
    apply Finset.sum_congr rfl
    intro j hj
    rw [getD_map_range f h j 0 (Finset.mem_range.mp hj)]
  have heven : ∀ j m', w (2 * h) (2 * j * m') = w h (j * m') := by
    intro j m'
    rw [Nat.mul_assoc]
    exact hw.double h (j * m') hh
  have hodd : ∀ j m', w (2 * h) ((2 * j + 1) * m') = w (2 * h) m' * w h (j * m') := by
    intro j m'
    rw [show (2 * j + 1) * m' = m' + 2 * (j * m') by ring, hw.add, hw.double h _ hh]
  have hshift : ∀ j, w h (j * (m + h)) = w h (j * m) := by
    intro j
    rw [show j * (m + h) = j * m + h * j by ring, hw.add, hw.period h j hh, mul_one]
  have hneg : w (2 * h) (m + h) = - w (2 * h) m := by
    rw [hw.add, hw.half h hh]
    ring
  constructor
  · rw [hsub, hsub]
    unfold dftEntry
    rw [hlen, sum_range_even_odd, Finset.mul_sum]
    congr 1
    · apply Finset.sum_congr rfl
      intro j _
      rw [heven]
    · apply Finset.sum_congr rfl
      intro j _
      rw [hodd]
      ring
  · rw [hsub, hsub]
    unfold dftEntry
    rw [hlen, sum_range_even_odd, Finset.mul_sum, sub_eq_add_neg, ← Finset.sum_neg_distrib]
    congr 1
    · apply Finset.sum_congr rfl
      intro j _
      rw [heven, hshift]
    · apply Finset.sum_congr rfl
      intro j _
      rw [hodd, hneg, hshift]
      ring

/-- Over a commutative ring, with the factor `twiddle k n` equal to `w n k` for
numbers `w` that follow the laws of the roots of unity, `fftRecursive` computes
the discrete Fourier transform of every sequence whose length is a power of
two. -/
theorem fftRecursive_dft {K : Type} [CommRing K] (w : Nat → Nat → K) (hw : TwiddleLaws w)
    (hzero : ∀ n, w n 0 = 1) (p : Nat) :
    ∀ x : List K, x.length = 2 ^ p → ∀ m, m < x.length →
      (fftRecursive (fun k n => w n k) x).getD m 0 = dftEntry w x m := by
  induction p with
  | zero =>
    intro x hlen m hm
    have hm0 : m = 0 := by
      rw [hlen] at hm
      simpa using hm
    rw [fftRecursive_short _ x (by rw [hlen]; simp), hm0]
    unfold dftEntry
    rw [hlen]
    simp [hzero]
  | succ p ih =>
    intro x hlen m hm
    have hpos : 0 < 2 ^ p := Nat.pos_pow_of_pos _ (by decide)
    have hlen2 : x.length = 2 * 2 ^ p := by rw [hlen, pow_succ, Nat.mul_comm]
    have hhalf : x.length / 2 = 2 ^ p := by omega
    have hlong : ¬ x.length ≤ 1 := by omega
    have hE : ((List.range (2 ^ p)).map (fun i => x.getD (2 * i) 0)).length = 2 ^ p := by simp
    have hO : ((List.range (2 ^ p)).map (fun i => x.getD (2 * i + 1) 0)).length = 2 ^ p := by
      simp
    obtain ⟨hlow, hhigh⟩ := dftEntry_split w hw x (2 ^ p) hpos hlen2
      (if m < 2 ^ p then m else m - 2 ^ p)
    by_cases hmlow : m < 2 ^ p
    · rw [if_pos hmlow] at hlow
      rw [fftRecursive_getD_low _ x hlong m (by omega), hhalf,
        ih _ hE m (by rw [hE]; exact hmlow), ih _ hO m (by rw [hO]; exact hmlow), hlow, hlen2]
    · have hk : m - 2 ^ p < 2 ^ p := by omega
      rw [if_neg hmlow] at hhigh
      have hm' : m = (m - 2 ^ p) + x.length / 2 := by omega
      rw [show m - 2 ^ p + 2 ^ p = m by omega] at hhigh
      rw [hhigh]
      conv_lhs => rw [hm']
      rw [fftRecursive_getD_high _ x hlong (m - 2 ^ p) (by omega), hhalf,
        ih _ hE (m - 2 ^ p) (by rw [hE]; exact hk), ih _ hO (m - 2 ^ p) (by rw [hO]; exact hk),
        hlen2]


/-- The complex numbers `exp(-2*pi*i*j/n)` follow the laws of the roots of
unity. -/
theorem complex_twiddleLaws :
    TwiddleLaws (fun n j : Nat =>
      Complex.exp (-2 * Real.pi * Complex.I * (j : ℂ) / (n : ℂ))) where
  add := by
    intro n a b
    show Complex.exp _ = Complex.exp _ * Complex.exp _
    rw [← Complex.exp_add]
    congr 1
    push_cast
    ring
  double := by
    intro h a hh
    have hne : (h : ℂ) ≠ 0 := by exact_mod_cast hh.ne'
    show Complex.exp _ = Complex.exp _
    congr 1
    push_cast
    field_simp
    ring
  half := by
    intro h hh
    have hne : (h : ℂ) ≠ 0 := by exact_mod_cast hh.ne'
    show Complex.exp (-2 * (Real.pi : ℂ) * Complex.I * (h : ℂ) / ((2 * h : ℕ) : ℂ)) = -1
    have he : -2 * (Real.pi : ℂ) * Complex.I * (h : ℂ) / ((2 * h : ℕ) : ℂ)
        = -((Real.pi : ℂ) * Complex.I) := by
      push_cast
      field_simp
      ring
    rw [he, Complex.exp_neg, Complex.exp_pi_mul_I]
    norm_num
  period := by
    intro h k hh
    have hne : (h : ℂ) ≠ 0 := by exact_mod_cast hh.ne'
    show Complex.exp (-2 * (Real.pi : ℂ) * Complex.I * ((h * k : ℕ) : ℂ) / (h : ℂ)) = 1
    rw [Complex.exp_eq_one_iff]
    refine ⟨-(k : ℤ), ?_⟩
    push_cast
    field_simp
    ring

/-- The transform over the complex numbers, for a factor given by its values. -/
theorem fftRecursive_complex (twiddle : Nat → Nat → ℂ)
    (htw : ∀ k n, twiddle k n = Complex.exp (-2 * Real.pi * Complex.I * (k : ℂ) / (n : ℂ)))
    (x : List ℂ) (p : Nat) (hlen : x.length = 2 ^ p) (m : Nat) (hm : m < x.length) :
    (fftRecursive twiddle x).getD m 0
      = dftEntry (fun n j : Nat => Complex.exp (-2 * Real.pi * Complex.I * (j : ℂ) / (n : ℂ)))
          x m := by
  have hfun : twiddle = (fun k n : Nat => (fun n j : Nat =>
      Complex.exp (-2 * Real.pi * Complex.I * (j : ℂ) / (n : ℂ))) n k) := by
    funext k n
    exact htw k n
  rw [hfun]
  exact fftRecursive_dft _ complex_twiddleLaws (fun n => by simp) p x hlen m hm

/-! ### Claim on the fast Fourier transform -/

/-- C28: over the complex numbers, with the factor of the source
`exp(i * (-2*pi*k/n))`, the recursion of `fftRecursive` ends for every input
with a result of the length of the input, and for every `x` whose length `n` is
a power of two the entry `m` of `fftRecursive(x)` is the sum over `j < n` of
`x[j] * exp(-2*pi*i*j*m/n)`, for every `m < n`. -/
theorem fft_is_dft (x : List ℂ) (p : Nat) (hlen : x.length = 2 ^ p) :
    (∀ y : List ℂ,
      (fftRecursive (fun k n : Nat =>
        Complex.exp (((-2 * Real.pi * (k : ℝ) / (n : ℝ) : ℝ) : ℂ) * Complex.I)) y).length
        = y.length) ∧
    ∀ m, m < x.length →
      (fftRecursive (fun k n : Nat =>
        Complex.exp (((-2 * Real.pi * (k : ℝ) / (n : ℝ) : ℝ) : ℂ) * Complex.I)) x)[m]?
        = some (∑ j in Finset.range x.length,
            x.getD j 0 *
              Complex.exp (-2 * Real.pi * Complex.I * (j : ℂ) * (m : ℂ) / (x.length : ℂ))) := by
  refine ⟨fun y => fftRecursive_length _ y, ?_⟩
  intro m hm
  have hdft := fftRecursive_complex (fun k n : Nat =>
      Complex.exp (((-2 * Real.pi * (k : ℝ) / (n : ℝ) : ℝ) : ℂ) * Complex.I))
    (fun k n => by
      show Complex.exp _ = Complex.exp _
      congr 1
      push_cast
      ring) x p hlen m hm
  have hsum : dftEntry
      (fun n j : Nat => Complex.exp (-2 * Real.pi * Complex.I * (j : ℂ) / (n : ℂ))) x m
      = ∑ j in Finset.range x.length, x.getD j 0 *
          Complex.exp (-2 * Real.pi * Complex.I * (j : ℂ) * (m : ℂ) / (x.length : ℂ)) := by
    unfold dftEntry
    apply Finset.sum_congr rfl
    intro j _
    show _ * Complex.exp _ = _ * Complex.exp _
    congr 2
    push_cast
    ring
  rw [hsum] at hdft
  rw [← hdft, List.getD_eq_getElem?_getD]
  have hlt : m < (fftRecursive (fun k n : Nat =>
      Complex.exp (((-2 * Real.pi * (k : ℝ) / (n : ℝ) : ℝ) : ℂ) * Complex.I)) x).length := by
    rw [fftRecursive_length]
    exact hm
  rw [List.getElem?_eq_getElem hlt]
  rfl

/-- C28 at a sequence of four entries. -/
theorem fft_is_dft_witness :
    ([1, 2, 3, 4] : List ℂ).length = 2 ^ 2 ∧
    ((∀ y : List ℂ,
        (fftRecursive (fun k n : Nat =>
          Complex.exp (((-2 * Real.pi * (k : ℝ) / (n : ℝ) : ℝ) : ℂ) * Complex.I)) y).length
          = y.length) ∧
      ∀ m, m < ([1, 2, 3, 4] : List ℂ).length →
        (fftRecursive (fun k n : Nat =>
          Complex.exp (((-2 * Real.pi * (k : ℝ) / (n : ℝ) : ℝ) : ℂ) * Complex.I))
            [1, 2, 3, 4])[m]?
          = some (∑ j in Finset.range ([1, 2, 3, 4] : List ℂ).length,
              ([1, 2, 3, 4] : List ℂ).getD j 0 *
                Complex.exp (-2 * Real.pi * Complex.I * (j : ℂ) * (m : ℂ)
                  / (([1, 2, 3, 4] : List ℂ).length : ℂ)))) :=
  ⟨rfl, fft_is_dft [1, 2, 3, 4] 2 rfl⟩

/-- The transform of two rational entries: their sum and their difference, the
factor for `k = 0` being 1. -/
theorem fft_two_entries :
    fftRecursive (fun _ _ => (1 : ℚ)) [3, 5] = [8, -2] ∧
    fft (fun r : ℚ => r) (fun _ _ => (1 : ℚ)) [3, 5] = [8, -2] := by
  have h1 : ∀ a : ℚ, fftRecursive (fun _ _ => (1 : ℚ)) [a] = [a] :=
    fun a => fftRecursive_short _ [a] (by simp)
  have h2 : fftRecursive (fun _ _ => (1 : ℚ)) [3, 5] = [8, -2] := by
    rw [fftRecursive_long _ _ (by simp)]
    simp [List.range_succ, h1]
    norm_num
  exact ⟨h2, h2⟩

end FlacMobile
